import Mathlib

/-!
Shallow embedding of the binary-search-tree core of the repository
(`src/include/binary_tree.h` and `src/include/red_black_tree.h`).

The C++ code stores nodes behind `std::shared_ptr` with `left`, `parent`
and `right` links.  We embed the pointer graph as an arena: every node has
a stable numeric id, a node's links are optional ids, and a tree state is
the root id together with the association list of allocated nodes.
Dereferencing an absent pointer (`->` on a null `shared_ptr`, which is
undefined behaviour in C++) is modelled as the error `Err.nullDeref`.
`std::out_of_range` exceptions are modelled as `Err.oob` carrying one of
the three distinct message strings that appear in the source.  Keys are
`double` in the source; the code uses nothing but ordered comparison on
them, so they are embedded as `Int`.  Every loop takes explicit fuel and
returns `Err.fuel` when it runs out.
-/

/-- View of an `Except` value as a sum, used to decide equality. -/
def exceptToSum {e a : Type} : Except e a → e ⊕ a
  | .error x => Sum.inl x
  | .ok x => Sum.inr x

instance {e a : Type} [DecidableEq e] [DecidableEq a] : DecidableEq (Except e a) := fun x y =>
  decidable_of_iff (exceptToSum x = exceptToSum y) (by cases x <;> cases y <;> simp [exceptToSum])

namespace BT

/-- The three `std::out_of_range` message strings of `binary_tree.h`.
`binaryTreeIsEmpty` is "Binary tree is empty" (thrown by `min`/`max`),
`valueNotFound` is "Value not found" (thrown by `predecessor`/`successor`),
and `valueHasNoSuccessorMax` is "Value has no successor, as it is the
maximum value of the tree." — the source uses this one string for both the
`successor` and the `predecessor` boundary case. -/
inductive OobMsg where
  | binaryTreeIsEmpty
  | valueNotFound
  | valueHasNoSuccessorMax
deriving DecidableEq, Repr

/-- Runtime outcomes other than normal return: dereferencing a null
pointer (undefined behaviour in the C++ source), a thrown
`std::out_of_range`, or exhaustion of the loop fuel of the embedding. -/
inductive Err where
  | nullDeref
  | oob (msg : OobMsg)
  | fuel
deriving DecidableEq, Repr

/-- Embedding of `BinaryTree::detail::Node`: key plus optional ids of the
left child, the parent and the right child. -/
structure Node where
  key : Int
  left : Option Nat := none
  parent : Option Nat := none
  right : Option Nat := none
deriving DecidableEq, Repr

/-- A `BinaryTree::BinaryTree` state: optional root id, the arena of
allocated nodes, and the next fresh id. -/
structure Tree where
  root : Option Nat := none
  nodes : List (Nat × Node) := []
  nextId : Nat := 0
deriving DecidableEq, Repr

/-- Look an id up in an arena. -/
def lookupN : List (Nat × Node) → Nat → Option Node
  | [], _ => none
  | (j, n) :: rest, i => if j = i then some n else lookupN rest i

/-- Replace the node stored at an id (no change when the id is absent). -/
def updateN : List (Nat × Node) → Nat → Node → List (Nat × Node)
  | [], _, _ => []
  | (j, n) :: rest, i, m => if j = i then (j, m) :: rest else (j, n) :: updateN rest i m

/-- The node stored at an id, if any. -/
def getNode (s : Tree) (i : Nat) : Option Node := lookupN s.nodes i

/-- Write the node stored at an id. -/
def setNode (s : Tree) (i : Nat) (n : Node) : Tree :=
  { s with nodes := updateN s.nodes i n }

/-- Dereference an optional pointer (`->` on a possibly-null pointer). -/
def deref : Option Nat → Except Err Nat
  | none => .error .nullDeref
  | some i => .ok i

/-- Dereference a node id: fetch its fields from the arena. -/
def getN (s : Tree) (i : Nat) : Except Err Node :=
  match getNode s i with
  | some n => .ok n
  | none => .error .nullDeref

/-- `BinaryTree::findValue`'s search loop:
`while (current && current->key != value)` descend left when
`value < current->key`, else right; returns the final pointer. -/
def findValueLoop (s : Tree) (value : Int) : Option Nat → Nat → Except Err (Option Nat)
  | _, 0 => .error .fuel
  | none, _ + 1 => .ok none
  | some i, fuel + 1 => do
    let n ← getN s i
    if n.key = value then .ok (some i)
    else if value < n.key then findValueLoop s value n.left fuel
    else findValueLoop s value n.right fuel

/-- `BinaryTree::transplant(old_node, new_node)`: rewrite the root or the
parent's child slot, then update the new node's parent back-reference. -/
def transplant (s : Tree) (oldN : Nat) (newN : Option Nat) : Except Err Tree := do
  let s1 ←
    if s.root = some oldN then
      .ok { s with root := newN }
    else do
      let od ← getN s oldN
      let p ← deref od.parent
      let pn ← getN s p
      if pn.left = some oldN then .ok (setNode s p { pn with left := newN })
      else .ok (setNode s p { pn with right := newN })
  match newN with
  | none => .ok s1
  | some nw => do
    let od1 ← getN s1 oldN
    let nn ← getN s1 nw
    .ok (setNode s1 nw { nn with parent := od1.parent })

/-- `BinaryTree::insert`'s descent: walk to a leaf position tracking the
last non-null node as the prospective parent. -/
def insertLoop (s : Tree) (value : Int) : Option Nat → Option Nat → Nat → Except Err (Option Nat)
  | _, _, 0 => .error .fuel
  | parent, none, _ + 1 => .ok parent
  | _, some i, fuel + 1 => do
    let n ← getN s i
    if value < n.key then insertLoop s value (some i) n.left fuel
    else insertLoop s value (some i) n.right fuel

/-- `BinaryTree::insert(value)`: descend to a leaf position, allocate the
new node with the tracked parent, then attach it as root or as the
parent's left/right child according to `value < parent->key`. -/
def insert (s : Tree) (value : Int) (fuel : Nat) : Except Err Tree := do
  let parent ← insertLoop s value none s.root fuel
  let nid := s.nextId
  let newNode : Node := { key := value, left := none, parent := parent, right := none }
  let s1 : Tree := { s with nodes := s.nodes ++ [(nid, newNode)], nextId := nid + 1 }
  match parent with
  | none => .ok { s1 with root := some nid }
  | some p => do
    let pn ← getN s1 p
    if value < pn.key then .ok (setNode s1 p { pn with left := some nid })
    else .ok (setNode s1 p { pn with right := some nid })

/-- `BinaryTree::max`'s loop: follow right children while they exist. -/
def maxLoop (s : Tree) : Nat → Nat → Except Err Nat
  | _, 0 => .error .fuel
  | i, fuel + 1 => do
    let n ← getN s i
    match n.right with
    | none => .ok i
    | some r => maxLoop s r fuel

/-- `BinaryTree::min`'s loop: follow left children while they exist. -/
def minLoop (s : Tree) : Nat → Nat → Except Err Nat
  | _, 0 => .error .fuel
  | i, fuel + 1 => do
    let n ← getN s i
    match n.left with
    | none => .ok i
    | some l => minLoop s l fuel

/-- `BinaryTree::max()`: throws "Binary tree is empty" on an empty tree,
else returns the key of the all-right walk.  The tree state is returned
alongside the key: the method performs no writes. -/
def maxOp (s : Tree) (fuel : Nat) : Except Err (Int × Tree) := do
  match s.root with
  | none => .error (.oob .binaryTreeIsEmpty)
  | some r => do
    let i ← maxLoop s r fuel
    let n ← getN s i
    .ok (n.key, s)

/-- `BinaryTree::min()`: throws "Binary tree is empty" on an empty tree,
else returns the key of the all-left walk. -/
def minOp (s : Tree) (fuel : Nat) : Except Err (Int × Tree) := do
  match s.root with
  | none => .error (.oob .binaryTreeIsEmpty)
  | some r => do
    let i ← minLoop s r fuel
    let n ← getN s i
    .ok (n.key, s)

/-- `BinaryTree::successor`'s ancestor walk:
`while (parent && target == parent->right)` climb; returns the final
parent pointer. -/
def upRightLoop (s : Tree) : Nat → Option Nat → Nat → Except Err (Option Nat)
  | _, _, 0 => .error .fuel
  | _, none, _ + 1 => .ok none
  | t, some p, fuel + 1 => do
    let pn ← getN s p
    if pn.right = some t then upRightLoop s p pn.parent fuel
    else .ok (some p)

/-- `BinaryTree::predecessor`'s ancestor walk:
`while (parent && target == parent->left)` climb. -/
def upLeftLoop (s : Tree) : Nat → Option Nat → Nat → Except Err (Option Nat)
  | _, _, 0 => .error .fuel
  | _, none, _ + 1 => .ok none
  | t, some p, fuel + 1 => do
    let pn ← getN s p
    if pn.left = some t then upLeftLoop s p pn.parent fuel
    else .ok (some p)

/-- `BinaryTree::successor(value)`: find the value's node (throwing
"Value not found" if absent); if it has a right child return the key of
the minimum of the right subtree, else climb while the current node is a
right child and return the stopping ancestor's key, throwing the
boundary message when the walk runs off the root. -/
def successorOp (s : Tree) (value : Int) (fuel : Nat) : Except Err (Int × Tree) := do
  let tOpt ← findValueLoop s value s.root fuel
  match tOpt with
  | none => .error (.oob .valueNotFound)
  | some t => do
    let tn ← getN s t
    match tn.right with
    | some r => do
      let i ← minLoop s r fuel
      let n ← getN s i
      .ok (n.key, s)
    | none => do
      let pOpt ← upRightLoop s t tn.parent fuel
      match pOpt with
      | none => .error (.oob .valueHasNoSuccessorMax)
      | some p => do
        let pn ← getN s p
        .ok (pn.key, s)

/-- `BinaryTree::predecessor(value)`: mirror image of `successorOp`; the
source throws the same "no successor … maximum" message string in its
boundary case. -/
def predecessorOp (s : Tree) (value : Int) (fuel : Nat) : Except Err (Int × Tree) := do
  let tOpt ← findValueLoop s value s.root fuel
  match tOpt with
  | none => .error (.oob .valueNotFound)
  | some t => do
    let tn ← getN s t
    match tn.left with
    | some l => do
      let i ← maxLoop s l fuel
      let n ← getN s i
      .ok (n.key, s)
    | none => do
      let pOpt ← upLeftLoop s t tn.parent fuel
      match pOpt with
      | none => .error (.oob .valueHasNoSuccessorMax)
      | some p => do
        let pn ← getN s p
        .ok (pn.key, s)

/-- The inner loop of `BinaryTree::getSortedValues`: push the chain of
left children onto the stack until the current pointer is null. -/
def gsvInner (s : Tree) : Option Nat → List Nat → Nat → Except Err (List Nat)
  | _, _, 0 => .error .fuel
  | none, stack, _ + 1 => .ok stack
  | some i, stack, fuel + 1 => do
    let n ← getN s i
    gsvInner s n.left (i :: stack) fuel

/-- The outer loop of `BinaryTree::getSortedValues`:
`while (current || !stack.empty())` push down-left, pop, emit the popped
key, continue from the popped node's right child. -/
def gsvLoop (s : Tree) : Option Nat → List Nat → List Int → Nat → Except Err (List Int)
  | _, _, _, 0 => .error .fuel
  | cur, stack, out, fuel + 1 =>
    match cur, stack with
    | none, [] => .ok out
    | _, _ => do
      let stack1 ← gsvInner s cur stack fuel
      match stack1 with
      | [] => .error .nullDeref
      | top :: rest => do
        let n ← getN s top
        gsvLoop s n.right rest (out ++ [n.key]) fuel

/-- `BinaryTree::getSortedValues()`: the iterative stack-based in-order
traversal.  Performs no writes, so the state is returned unchanged. -/
def getSortedValues (s : Tree) (fuel : Nat) : Except Err (List Int × Tree) := do
  let l ← gsvLoop s s.root [] [] fuel
  .ok (l, s)

/-- `BinaryTree::remove(value)`: return silently when the value is
absent; replace a node having at most one child by that child via
`transplant`; otherwise splice in the node found by re-searching for the
key returned by `successor(target->key)`, exactly as the source does. -/
def remove (s : Tree) (value : Int) (fuel : Nat) : Except Err Tree := do
  let tOpt ← findValueLoop s value s.root fuel
  match tOpt with
  | none => .ok s
  | some t => do
    let tn ← getN s t
    match tn.left with
    | none => transplant s t tn.right
    | some tl =>
      match tn.right with
      | none => transplant s t (some tl)
      | some _ => do
        let pr ← successorOp s tn.key fuel
        let snOpt ← findValueLoop pr.2 pr.1 pr.2.root fuel
        let sn ← deref snOpt
        let snn ← getN pr.2 sn
        let s1 ←
          if snn.parent ≠ some t then do
            let s1 ← transplant pr.2 sn snn.right
            let tn1 ← getN s1 t
            let snn1 ← getN s1 sn
            let s2 := setNode s1 sn { snn1 with right := tn1.right }
            let snn2 ← getN s2 sn
            let r ← deref snn2.right
            let rn ← getN s2 r
            .ok (setNode s2 r { rn with parent := some sn })
          else .ok pr.2
        let s2 ← transplant s1 t (some sn)
        let tn2 ← getN s2 t
        let snn3 ← getN s2 sn
        let s3 := setNode s2 sn { snn3 with left := tn2.left }
        let snn4 ← getN s3 sn
        let l ← deref snn4.left
        let ln ← getN s3 l
        .ok (setNode s3 l { ln with parent := some sn })

/-- Fuel that is one more than the arena size; every loop of the source
visits pairwise distinct nodes of a well-shaped tree, so this suffices. -/
def opFuel (s : Tree) : Nat := s.nodes.length + 1

/-- Fold `insert` over a list of keys starting from the empty tree
(`BinaryTree tree; for (k : ks) tree.insert(k);`). -/
def buildBT (ks : List Int) : Except Err Tree :=
  ks.foldlM (fun s k => insert s k (opFuel s)) {}

end BT

namespace RBT

open BT (Err OobMsg deref)

/-- Embedding of `BinaryTree::detail::Color`. -/
inductive Color where
  | RED
  | BLACK
deriving DecidableEq, Repr

/-- Embedding of `BinaryTree::detail::RedBlackNode`: a node of the
red-black tree, with a color in addition to the three links. -/
structure RBNode where
  key : Int
  left : Option Nat := none
  parent : Option Nat := none
  right : Option Nat := none
  color : Color := Color.RED
deriving DecidableEq, Repr

/-- A `BinaryTree::RedBlackTree` state. -/
structure RBTree where
  root : Option Nat := none
  nodes : List (Nat × RBNode) := []
  nextId : Nat := 0
deriving DecidableEq, Repr

/-- Look an id up in a red-black arena. -/
def lookupR : List (Nat × RBNode) → Nat → Option RBNode
  | [], _ => none
  | (j, n) :: rest, i => if j = i then some n else lookupR rest i

/-- Replace the node stored at an id (no change when the id is absent). -/
def updateR : List (Nat × RBNode) → Nat → RBNode → List (Nat × RBNode)
  | [], _, _ => []
  | (j, n) :: rest, i, m => if j = i then (j, m) :: rest else (j, n) :: updateR rest i m

/-- The node stored at an id, if any. -/
def getNode (s : RBTree) (i : Nat) : Option RBNode := lookupR s.nodes i

/-- Write the node stored at an id. -/
def setNode (s : RBTree) (i : Nat) (n : RBNode) : RBTree :=
  { s with nodes := updateR s.nodes i n }

/-- Dereference a node id: fetch its fields from the arena. -/
def getN (s : RBTree) (i : Nat) : Except Err RBNode :=
  match getNode s i with
  | some n => .ok n
  | none => .error .nullDeref

/-- `x->color = c` for a node already known to exist. -/
def setColor (s : RBTree) (i : Nat) (c : Color) : RBTree :=
  match getNode s i with
  | some n => setNode s i { n with color := c }
  | none => s

/-- `RedBlackTree::leftRotate(node)`.  The source body is only
`auto right = node->right; node->right = right->left;` — it rewrites the
single child pointer and nothing else (no parent updates, no demotion of
`node`, no re-rooting). -/
def leftRotate (s : RBTree) (node : Nat) : Except Err RBTree := do
  let n ← getN s node
  let r ← deref n.right
  let rn ← getN s r
  .ok (setNode s node { n with right := rn.left })

/-- `RedBlackTree::rightRotate(node)`.  The source body is empty. -/
def rightRotate (s : RBTree) (node : Nat) : Except Err RBTree := do
  let _ := node
  .ok s

/-- `root->color = detail::Color::BLACK;` — the unconditional final
statement of `insertFixup`. -/
def fixRootBlack (s : RBTree) : Except Err RBTree := do
  let r ← deref s.root
  let rn ← getN s r
  .ok (setNode s r { rn with color := Color.BLACK })

/-- Lines 124-126 of `red_black_tree.h`.  In the source's left branch
these three statements sit after the red-uncle/black-uncle `if`/`else`
and therefore execute on both paths (unlike the mirrored right branch,
where the corresponding statements are inside the `else` only):
`node->parent->color = BLACK; node->parent->parent->color = RED;
rightRotate(node->parent->parent);`. -/
def fixupLeftTail (s : RBTree) (node : Nat) : Except Err RBTree := do
  let n ← getN s node
  let p ← deref n.parent
  let s1 := setColor s p Color.BLACK
  let n1 ← getN s1 node
  let p1 ← deref n1.parent
  let p1n ← getN s1 p1
  let g1 ← deref p1n.parent
  let s2 := setColor s1 g1 Color.RED
  let n2 ← getN s2 node
  let p2 ← deref n2.parent
  let p2n ← getN s2 p2
  let g2 ← deref p2n.parent
  rightRotate s2 g2

/-- `RedBlackTree::insertFixup`'s loop, transcribed statement by
statement: `while (node->parent && node->parent->color == RED)`, the
left/right branch on which side the parent is relative to the
grandparent, the red-uncle recolor case, the zig-zag rotation case, and
the trailing statements (which in the left branch also run after the
red-uncle case).  Every `->` on a possibly-null pointer is a checked
dereference; in particular `uncle->color` faults when the uncle is
absent. -/
def insertFixupLoop (s : RBTree) (node : Nat) : Nat → Except Err RBTree
  | 0 => .error .fuel
  | fuel + 1 => do
    let n ← getN s node
    match n.parent with
    | none => fixRootBlack s
    | some p => do
      let pn ← getN s p
      if pn.color = Color.RED then do
        let gp ← deref pn.parent
        let gpn ← getN s gp
        if gpn.left = some p then do
          let u ← deref gpn.right
          let un ← getN s u
          if un.color = Color.RED then do
            let s1 := setColor s p Color.BLACK
            let s2 := setColor s1 u Color.BLACK
            let n2 ← getN s2 node
            let p2 ← deref n2.parent
            let p2n ← getN s2 p2
            let g2 ← deref p2n.parent
            let s3 := setColor s2 g2 Color.RED
            let n3 ← getN s3 node
            let p3 ← deref n3.parent
            let p3n ← getN s3 p3
            let g3 ← deref p3n.parent
            let s4 ← fixupLeftTail s3 g3
            insertFixupLoop s4 g3 fuel
          else do
            let pr ←
              if pn.right = some node then do
                let s1 ← leftRotate s p
                .ok (s1, p)
              else .ok (s, node)
            let s2 ← fixupLeftTail pr.1 pr.2
            insertFixupLoop s2 pr.2 fuel
        else do
          let u ← deref gpn.left
          let un ← getN s u
          if un.color = Color.RED then do
            let s1 := setColor s p Color.BLACK
            let s2 := setColor s1 u Color.BLACK
            let n2 ← getN s2 node
            let p2 ← deref n2.parent
            let p2n ← getN s2 p2
            let g2 ← deref p2n.parent
            let s3 := setColor s2 g2 Color.RED
            let n3 ← getN s3 node
            let p3 ← deref n3.parent
            let p3n ← getN s3 p3
            let g3 ← deref p3n.parent
            insertFixupLoop s3 g3 fuel
          else do
            let pr ←
              if pn.left = some node then do
                let s1 ← rightRotate s p
                .ok (s1, p)
              else .ok (s, node)
            let n1 ← getN pr.1 pr.2
            let p1 ← deref n1.parent
            let s2 := setColor pr.1 p1 Color.BLACK
            let n2 ← getN s2 pr.2
            let p2 ← deref n2.parent
            let p2n ← getN s2 p2
            let g2 ← deref p2n.parent
            let s3 := setColor s2 g2 Color.RED
            let n3 ← getN s3 pr.2
            let p3 ← deref n3.parent
            let p3n ← getN s3 p3
            let g3 ← deref p3n.parent
            let s4 ← leftRotate s3 g3
            insertFixupLoop s4 pr.2 fuel
      else fixRootBlack s

/-- `RedBlackTree::insert`'s descent (identical to the plain tree's). -/
def rbInsertLoop (s : RBTree) (value : Int) : Option Nat → Option Nat → Nat → Except Err (Option Nat)
  | _, _, 0 => .error .fuel
  | parent, none, _ + 1 => .ok parent
  | _, some i, fuel + 1 => do
    let n ← getN s i
    if value < n.key then rbInsertLoop s value (some i) n.left fuel
    else rbInsertLoop s value (some i) n.right fuel

/-- `RedBlackTree::insert(value)`: structural insert of a RED node
followed by `insertFixup`. -/
def rbInsert (s : RBTree) (value : Int) (fuel : Nat) : Except Err RBTree := do
  let parent ← rbInsertLoop s value none s.root fuel
  let nid := s.nextId
  let newNode : RBNode :=
    { key := value, left := none, parent := parent, right := none, color := Color.RED }
  let s1 : RBTree := { s with nodes := s.nodes ++ [(nid, newNode)], nextId := nid + 1 }
  let s2 ←
    match parent with
    | none => .ok { s1 with root := some nid }
    | some p => do
      let pn ← getN s1 p
      if value < pn.key then .ok (setNode s1 p { pn with left := some nid })
      else .ok (setNode s1 p { pn with right := some nid })
  insertFixupLoop s2 nid fuel

/-- `RedBlackTree::getSortedValues()`: the source body just returns an
empty vector. -/
def rbGetSortedValues (s : RBTree) : Except Err (List Int × RBTree) :=
  .ok ([], s)

/-- `RedBlackTree::max()`: the source body is `return 0.0;` — it never
inspects the tree and never throws. -/
def rbMax (s : RBTree) : Except Err (Int × RBTree) :=
  .ok (0, s)

/-- `RedBlackTree::min()`: the source body is `return 0.0;`. -/
def rbMin (s : RBTree) : Except Err (Int × RBTree) :=
  .ok (0, s)

/-- `RedBlackTree::predecessor(value)`: the source body is
`return 0.0;`. -/
def rbPredecessor (s : RBTree) (value : Int) : Except Err (Int × RBTree) :=
  .ok (0, s)

/-- `RedBlackTree::successor(value)`: the source body is
`return 0.0;`. -/
def rbSuccessor (s : RBTree) (value : Int) : Except Err (Int × RBTree) :=
  .ok (0, s)

/-- `RedBlackTree::remove(value)`: the source body is empty. -/
def rbRemove (s : RBTree) (value : Int) : Except Err RBTree :=
  .ok s

/-- Fuel that is one more than the arena size. -/
def rbOpFuel (s : RBTree) : Nat := s.nodes.length + 1

/-- Fold `RedBlackTree::insert` over a list of keys starting from the
empty tree. -/
def buildRB (ks : List Int) : Except Err RBTree :=
  ks.foldlM (fun s k => rbInsert s k (rbOpFuel s)) {}

end RBT

namespace BT

/-- In-order depth-first enumeration of the node ids reachable from a
pointer, with fuel; `none` when the fuel does not suffice (in particular
on a cyclic pointer structure) or a link dangles. -/
def inorderIds (s : Tree) : Option Nat → Nat → Option (List Nat)
  | _, 0 => none
  | none, _ + 1 => some []
  | some i, fuel + 1 =>
    match getNode s i with
    | none => none
    | some n =>
      match inorderIds s n.left fuel, inorderIds s n.right fuel with
      | some ll, some lr => some (ll ++ i :: lr)
      | _, _ => none

/-- The in-order list of reachable ids of a state, using arena-size fuel. -/
def reachIds (s : Tree) : Option (List Nat) := inorderIds s s.root (opFuel s)

/-- The key stored at an id (0 for an absent id). -/
def keyOf (s : Tree) (i : Nat) : Int :=
  match getNode s i with
  | some n => n.key
  | none => 0

/-- The keys stored in the tree in in-order, i.e. what
`sortedSequence()` is specified to produce. -/
def reachKeys (s : Tree) : List Int :=
  match reachIds s with
  | some l => l.map (keyOf s)
  | none => []

/-- Both children of a node carry a parent back-reference to it. -/
def childrenLinkedBack (s : Tree) (i : Nat) : Bool :=
  match getNode s i with
  | none => false
  | some n =>
    (match n.left with
     | none => true
     | some j => decide ((getNode s j).map Node.parent = some (some i))) &&
    (match n.right with
     | none => true
     | some j => decide ((getNode s j).map Node.parent = some (some i)))

/-- The parent-link invariant, checked structurally: the root's parent is
absent and every reachable node's children point back to it. -/
def parentChk (s : Tree) : Bool :=
  (match s.root with
   | none => true
   | some r => decide ((getNode s r).map Node.parent = some none)) &&
  (match reachIds s with
   | none => false
   | some l => l.all (childrenLinkedBack s))

/-- The state is shaped like a finite tree: arena ids are unambiguous and
the in-order walk terminates without visiting any node twice. -/
def wfShape (s : Tree) : Bool :=
  decide (s.nodes.map Prod.fst).Nodup &&
  (match reachIds s with
   | none => false
   | some l => decide l.Nodup)

/-- The state produced by inserting 5, 3, 5, 7 into an empty
`BinaryTree` (the key 5 is duplicated; ties go right). -/
def dupS : Tree :=
  { root := some 0,
    nodes := [(0, { key := 5, left := some 1, parent := none, right := some 2 }),
              (1, { key := 3, left := none, parent := some 0, right := none }),
              (2, { key := 5, left := none, parent := some 0, right := some 3 }),
              (3, { key := 7, left := none, parent := some 2, right := none })],
    nextId := 4 }

end BT

namespace RBT

/-- A well-formed two-node red-black state: BLACK root (key 1, id 0)
whose right child is RED (key 2, id 1) — the shape on which a left
rotation of the root must promote the right child into the root
position. -/
def rotS : RBTree :=
  { root := some 0,
    nodes := [(0, { key := 1, right := some 1, color := Color.BLACK }),
              (1, { key := 2, parent := some 0, color := Color.RED })],
    nextId := 2 }

/-- What `leftRotate rotS 0` actually produces: the root keeps its place
and merely loses its right child (node 1 becomes unreachable). -/
def rotSAfter : RBTree :=
  { root := some 0,
    nodes := [(0, { key := 1, right := none, color := Color.BLACK }),
              (1, { key := 2, parent := some 0, color := Color.RED })],
    nextId := 2 }

/-- The mirror state: BLACK root (key 2, id 0) whose left child is RED
(key 1, id 1) — the shape on which a right rotation of the root must
promote the left child. -/
def rotSR : RBTree :=
  { root := some 0,
    nodes := [(0, { key := 2, left := some 1, color := Color.BLACK }),
              (1, { key := 1, parent := some 0, color := Color.RED })],
    nextId := 2 }

end RBT

namespace BT

/-- A direction of descent in the pointer structure. -/
inductive Dir where
  | L
  | R
deriving DecidableEq, Repr

/-- Follow a list of directions from a pointer through the arena. -/
def followFrom (s : Tree) : Option Nat → List Dir → Option Nat
  | cur, [] => cur
  | none, _ :: _ => none
  | some i, d :: ds =>
    match getNode s i with
    | none => none
    | some n =>
      match d with
      | Dir.L => followFrom s n.left ds
      | Dir.R => followFrom s n.right ds

/-- Follow a list of directions from the root. -/
def follow (s : Tree) (ds : List Dir) : Option Nat := followFrom s s.root ds

/-- Drop the leading block of copies of a direction. -/
def stripRev (d : Dir) : List Dir → List Dir
  | [] => []
  | e :: es => if e = d then stripRev d es else e :: es

end BT

namespace BT

/-- The state produced by inserting 2, 1, 3 into an empty `BinaryTree`
(three pairwise distinct keys). -/
def triS : Tree :=
  { root := some 0,
    nodes := [(0, { key := 2, left := some 1, parent := none, right := some 2 }),
              (1, { key := 1, left := none, parent := some 0, right := none }),
              (2, { key := 3, left := none, parent := some 0, right := none })],
    nextId := 3 }

end BT

namespace BT

/-- The child pointers of a node, when allocated.  In-order enumeration
depends only on these. -/
def kidsOf (s : Tree) (i : Nat) : Option (Option Nat × Option Nat) :=
  (getNode s i).map (fun n => (n.left, n.right))

/-- The parent-link invariant of the spec, over all reachable nodes: the
root's parent is absent, and whenever a reachable node's parent is
present, that node is the parent's left child or the parent's right
child. -/
def parentInv (s : Tree) : Prop :=
  (∀ r rn, s.root = some r → getNode s r = some rn → rn.parent = none) ∧
  (∀ ds i n p, follow s ds = some i → getNode s i = some n → n.parent = some p →
    ∃ pn, getNode s p = some pn ∧ (pn.left = some i ∨ pn.right = some i))

/-- Certified in-order key list of a binary-search-ordered subtree: all
left-subtree keys strictly below the node's key, all right-subtree keys
at or above it (ties go right), recursively. -/
def bstKeys (s : Tree) : Option Nat → Nat → Option (List Int)
  | _, 0 => none
  | none, _ + 1 => some []
  | some i, fuel + 1 =>
    match getNode s i with
    | none => none
    | some n =>
      match bstKeys s n.left fuel, bstKeys s n.right fuel with
      | some kl, some kr =>
        if kl.all (fun x => decide (x < n.key)) && kr.all (fun x => decide (n.key ≤ x)) then
          some (kl ++ n.key :: kr)
        else none
      | _, _ => none

/-- All arena ids are below the allocation counter. -/
def freshChk (s : Tree) : Bool :=
  s.nodes.all (fun pr => decide (pr.1 < s.nextId))

end BT

namespace RBT

/-- Follow a list of directions from a pointer through the red-black
arena. -/
def followFromR (s : RBTree) : Option Nat → List BT.Dir → Option Nat
  | cur, [] => cur
  | none, _ :: _ => none
  | some i, d :: ds =>
    match getNode s i with
    | none => none
    | some n =>
      match d with
      | BT.Dir.L => followFromR s n.left ds
      | BT.Dir.R => followFromR s n.right ds

/-- Follow a list of directions from the root. -/
def followR (s : RBTree) (ds : List BT.Dir) : Option Nat := followFromR s s.root ds

/-- In-order depth-first enumeration of reachable red-black node ids. -/
def inorderIdsR (s : RBTree) : Option Nat → Nat → Option (List Nat)
  | _, 0 => none
  | none, _ + 1 => some []
  | some i, fuel + 1 =>
    match getNode s i with
    | none => none
    | some n =>
      match inorderIdsR s n.left fuel, inorderIdsR s n.right fuel with
      | some ll, some lr => some (ll ++ i :: lr)
      | _, _ => none

/-- The child pointers of a red-black node, when allocated. -/
def kidsOfR (s : RBTree) (i : Nat) : Option (Option Nat × Option Nat) :=
  (getNode s i).map (fun n => (n.left, n.right))

/-- Fuel bound for enumerating a red-black arena. -/
def rbFuel (s : RBTree) : Nat := s.nodes.length + 1

/-- The in-order list of reachable red-black ids at that fuel. -/
def reachIdsR (s : RBTree) : Option (List Nat) := inorderIdsR s s.root (rbFuel s)

/-- The parent-link invariant over all reachable red-black nodes. -/
def parentInvR (s : RBTree) : Prop :=
  (∀ r rn, s.root = some r → getNode s r = some rn → rn.parent = none) ∧
  (∀ ds i n p, followR s ds = some i → getNode s i = some n → n.parent = some p →
    ∃ pn, getNode s p = some pn ∧ (pn.left = some i ∨ pn.right = some i))

/-- Pointwise parent-slot consistency over a list of node ids: every
listed node with a present parent sits in that parent's child slot. -/
def consistentOn (s : RBTree) (l : List Nat) : Bool :=
  l.all (fun i =>
    match getNode s i with
    | none => false
    | some n =>
      match n.parent with
      | none => true
      | some q =>
        match getNode s q with
        | none => false
        | some qn => decide (qn.left = some i ∨ qn.right = some i))

/-- Decidable well-formedness of a red-black state: unambiguous arena
ids, fresh allocation counter, terminating duplicate-free in-order walk,
pointwise parent-slot consistency, and a parentless root. -/
def wfR (s : RBTree) : Bool :=
  decide (s.nodes.map Prod.fst).Nodup &&
  s.nodes.all (fun pr => decide (pr.1 < s.nextId)) &&
  (match reachIdsR s with
   | none => false
   | some l => decide l.Nodup && consistentOn s l) &&
  (match s.root with
   | none => true
   | some r => decide ((getNode s r).map RBNode.parent = some none))

end RBT

namespace BT

/-- The arena state after allocating `insert`'s new leaf with the given
parent pointer. -/
def attachState (s : Tree) (v : Int) (par : Option Nat) : Tree :=
  { s with
    nodes := s.nodes ++ [(s.nextId, { key := v, left := none, parent := par, right := none })],
    nextId := s.nextId + 1 }

end BT

/-!
## Claim theorems
-/

/-- C1: the claim states that for the plain `BinaryTree`, after any
sequence of inserts and removes from the empty tree, `getSortedValues()`
returns the ascending sort of the inserted keys minus the removed ones,
duplicates preserved.  The code violates it: inserting 10, 5, 12, 3, 5
and then removing 5 completes without error, but the traversal afterwards
returns [5, 10, 3, 5, 5] instead of the ascending sort [3, 5, 10, 12] of
the multiset {10, 5, 12, 3, 5} minus one 5 — the removal of a duplicated
key corrupts the structure, losing key 12 and triplicating key 5. -/
theorem c1_sorted_sequence_claim_fails :
    (do
      let s ← BT.buildBT [10, 5, 12, 3, 5]
      let s1 ← BT.remove s 5 (BT.opFuel s)
      let pr ← BT.getSortedValues s1 24
      Except.ok pr.1) = Except.ok [5, 10, 3, 5, 5] ∧
    ([5, 10, 3, 5, 5] : List Int) ≠ [3, 5, 10, 12] := by
  decide

/-- C2: the claim states that the red-black invariants hold after every
insert and remove of `RedBlackTree`.  The code violates it: inserting
1, 2, 3 from the empty tree makes the third `insert` dereference a null
uncle pointer inside `insertFixup` (`uncle->color` with
`uncle == nullptr`), so the insertion faults instead of producing a tree
satisfying the invariants. -/
theorem c2_insert_fixup_faults :
    RBT.buildRB [1, 2, 3] = Except.error BT.Err.nullDeref := by
  decide

/-- C3: the claim describes two-children removal in `BinaryTree` as
splicing in the in-order successor found in the target's right subtree.
The code re-finds the successor *by key* from the root
(`findValue(successor(target->key))`), so when the target's key is
duplicated the node found is the target itself, and the removal then
dereferences a null parent pointer inside `transplant`: after inserting
8, 6, 8, 9, removing 8 (whose node has two children) faults instead of
performing the described splice. -/
theorem c3_two_child_removal_faults :
    (do
      let s ← BT.buildBT [8, 6, 8, 9]
      BT.remove s 8 (BT.opFuel s)) = Except.error BT.Err.nullDeref := by
  decide

/-- C4: the claim states that for both trees `min`/`max` fail with the
empty-tree error exactly when the tree has no root.  The code violates
it for `RedBlackTree`: on the empty tree (no root) both `min()` and
`max()` return 0.0 successfully instead of failing. -/
theorem c4_rbt_min_max_do_not_fail_on_empty :
    ({} : RBT.RBTree).root = none ∧
    RBT.rbMin {} = Except.ok (0, {}) ∧
    RBT.rbMax {} = Except.ok (0, {}) := by
  refine ⟨rfl, rfl, rfl⟩

/-- C5: the claim bounds the height of `RedBlackTree` after any insertion
sequence by `2*log2(n+1)`.  The code violates it: inserting 3, 2, 1 makes
the third `insert` dereference a null uncle pointer inside `insertFixup`,
so the insertion sequence faults and yields no tree at all. -/
theorem c5_height_bound_unattainable :
    RBT.buildRB [3, 2, 1] = Except.error BT.Err.nullDeref := by
  decide

/-- C6: the claim states that `leftRotate(x)` promotes `x`'s right child
into `x`'s position (re-rooting when `x` is the root, updating parent
links) and that `rightRotate` is the exact mirror image.  The code
violates it: on a root (id 0) with a right child (id 1), `leftRotate`
leaves the root in place and merely replaces the root's right-child
pointer by the right child's left subtree (here: nothing), so node 1 is
dropped instead of promoted; and `rightRotate` has an empty body, so on
the mirror state it changes nothing at all. -/
theorem c6_rotations_do_not_rotate :
    RBT.leftRotate RBT.rotS 0 = Except.ok RBT.rotSAfter ∧
    RBT.rotSAfter.root = some 0 ∧
    RBT.getNode RBT.rotSAfter 0 =
      some { key := 1, left := none, parent := none, right := none, color := RBT.Color.BLACK } ∧
    RBT.rightRotate RBT.rotSR 0 = Except.ok RBT.rotSR := by
  decide

/-- C8 counterexample: the claim states that for every key `k` present
in the tree and neither minimal nor maximal,
`predecessor(successor(k)) = k`.  In the tree built by inserting
5, 3, 5, 7 the key 5 is present, the minimum is 3 and the maximum is 7,
yet `successor(5) = 5` (the duplicate) and `predecessor(5) = 3`, so
`predecessor(successor(5)) = 3 ≠ 5`. -/
theorem c8_duality_fails_with_duplicates :
    BT.buildBT [5, 3, 5, 7] = Except.ok BT.dupS ∧
    5 ∈ BT.reachKeys BT.dupS ∧
    BT.minOp BT.dupS (BT.opFuel BT.dupS) = Except.ok (3, BT.dupS) ∧
    BT.maxOp BT.dupS (BT.opFuel BT.dupS) = Except.ok (7, BT.dupS) ∧
    BT.successorOp BT.dupS 5 (BT.opFuel BT.dupS) = Except.ok (5, BT.dupS) ∧
    BT.predecessorOp BT.dupS 5 (BT.opFuel BT.dupS) = Except.ok (3, BT.dupS) ∧
    (3 : Int) ≠ 5 := by
  decide

namespace BT

/-- Binding an error propagates the error. -/
theorem errBind {a b : Type} (e : Err) (f : a → Except Err b) :
    (Except.error e >>= f) = Except.error e := rfl

/-- Binding a success applies the continuation. -/
theorem okBind {a b : Type} (x : a) (f : a → Except Err b) :
    (Except.ok x >>= f) = f x := rfl

/-- Every id listed by the in-order walk is allocated in the arena. -/
theorem inorderIds_mem_isSome {s : Tree} :
    ∀ {fuel : Nat} {cur : Option Nat} {l : List Nat},
      inorderIds s cur fuel = some l → ∀ i ∈ l, (getNode s i).isSome := by
  intro fuel
  induction fuel with
  | zero => intro cur l h; simp [inorderIds] at h
  | succ fuel ih =>
    intro cur l h i hi
    match cur with
    | none =>
      simp [inorderIds] at h
      subst h
      simp at hi
    | some j =>
      rw [inorderIds] at h
      cases hg : getNode s j with
      | none => rw [hg] at h; simp at h
      | some n =>
        rw [hg] at h
        simp only [] at h
        cases hl : inorderIds s n.left fuel with
        | none => rw [hl] at h; simp at h
        | some ll =>
          cases hr : inorderIds s n.right fuel with
          | none => rw [hl, hr] at h; simp at h
          | some lr =>
            rw [hl, hr] at h
            simp at h
            subst h
            rcases List.mem_append.mp hi with hmem | hmem
            · exact ih hl i hmem
            · rcases List.mem_cons.mp hmem with rfl | hmem
              · simp [hg]
              · exact ih hr i hmem

/-- If no listed node carries the key, the search loop returns null,
given fuel exceeding the list length. -/
theorem findValueLoop_absent {s : Tree} {k : Int} :
    ∀ {fuel : Nat} {cur : Option Nat} {l : List Nat},
      inorderIds s cur fuel = some l → (∀ i ∈ l, keyOf s i ≠ k) →
      ∀ {g : Nat}, l.length < g → findValueLoop s k cur g = .ok none := by
  intro fuel
  induction fuel with
  | zero => intro cur l h; simp [inorderIds] at h
  | succ fuel ih =>
    intro cur l h hkeys g hg
    match cur with
    | none =>
      match g, hg with
      | g + 1, _ => rw [findValueLoop]
    | some j =>
      rw [inorderIds] at h
      cases hget : getNode s j with
      | none => rw [hget] at h; simp at h
      | some n =>
        rw [hget] at h
        simp only [] at h
        cases hl : inorderIds s n.left fuel with
        | none => rw [hl] at h; simp at h
        | some ll =>
          cases hr : inorderIds s n.right fuel with
          | none => rw [hl, hr] at h; simp at h
          | some lr =>
            rw [hl, hr] at h
            simp at h
            subst h
            match g, hg with
            | g + 1, hg =>
              rw [findValueLoop]
              have hkey : n.key ≠ k := by
                have := hkeys j (by simp)
                simpa [keyOf, hget] using this
              have hlenl : ll.length < g := by
                simp [List.length_append] at hg
                omega
              have hlenr : lr.length < g := by
                simp [List.length_append] at hg
                omega
              have hgetN : getN s j = .ok n := by simp [getN, hget]
              rw [hgetN, okBind]
              simp only [hkey, if_false]
              by_cases hlt : k < n.key
              · simp only [hlt, if_true]
                exact ih hl (fun i hi => hkeys i (by simp [hi])) hlenl
              · simp only [hlt, if_false]
                exact ih hr (fun i hi => hkeys i (by simp [hi])) hlenr

end BT

namespace BT

/-- A successful arena lookup means the id is among the arena's ids. -/
theorem lookupN_isSome_mem :
    ∀ {ns : List (Nat × Node)} {i : Nat}, (lookupN ns i).isSome → i ∈ ns.map Prod.fst := by
  intro ns
  induction ns with
  | nil => intro i h; simp [lookupN] at h
  | cons p rest ih =>
    intro i h
    obtain ⟨j, n⟩ := p
    rw [lookupN] at h
    by_cases hj : j = i
    · simp [hj]
    · simp only [hj, if_false] at h
      simp [ih h]

end BT

/-- C9: the claim states that `remove` on an absent key returns
successfully and leaves the tree exactly unchanged.  Confirmed: on every
well-shaped state, when the key is not among the stored keys the search
loop returns null and `remove` returns the identical state. -/
theorem c9_remove_absent_is_noop (s : BT.Tree) (k : Int)
    (hwf : BT.wfShape s = true) (hk : k ∉ BT.reachKeys s) :
    BT.remove s k (BT.opFuel s) = Except.ok s := by
  unfold BT.wfShape at hwf
  cases hr : BT.reachIds s with
  | none => rw [hr] at hwf; simp at hwf
  | some l =>
    rw [hr] at hwf
    simp only [Bool.and_eq_true, decide_eq_true_eq] at hwf
    obtain ⟨hnodupIds, hnodupl⟩ := hwf
    have hsub : l ⊆ s.nodes.map Prod.fst := fun i hi =>
      BT.lookupN_isSome_mem (BT.inorderIds_mem_isSome hr i hi)
    have hlen : l.length ≤ s.nodes.length := by
      have hsp := List.subperm_of_subset hnodupl hsub
      have := hsp.length_le
      simpa using this
    have hkeys : ∀ i ∈ l, BT.keyOf s i ≠ k := by
      intro i hi hne
      apply hk
      unfold BT.reachKeys
      rw [hr]
      exact List.mem_map.mpr ⟨i, hi, hne⟩
    have hlt : l.length < BT.opFuel s := by
      unfold BT.opFuel
      omega
    have hfind := BT.findValueLoop_absent hr hkeys hlt
    unfold BT.remove
    rw [hfind, BT.okBind]

/-- Witness for C9 at a concrete input: the key 4 is absent from the
four-node duplicate tree and its removal is the identity. -/
theorem c9_remove_absent_is_noop_witness :
    BT.wfShape BT.dupS = true ∧ (4 : Int) ∉ BT.reachKeys BT.dupS ∧
    BT.remove BT.dupS 4 (BT.opFuel BT.dupS) = Except.ok BT.dupS :=
  ⟨by decide, by decide, c9_remove_absent_is_noop BT.dupS 4 (by decide) (by decide)⟩

/-- C10: the query operations `getSortedValues`, `min`, `max`,
`predecessor` and `successor` never modify the tree: whenever one of
them returns, the state it returns is exactly the input state, and
repeating the query on that state returns the identical result. -/
theorem c10_queries_do_not_modify (s : BT.Tree) (fuel : Nat) :
    (∀ l t, BT.getSortedValues s fuel = Except.ok (l, t) →
      t = s ∧ BT.getSortedValues t fuel = Except.ok (l, t)) ∧
    (∀ k t, BT.minOp s fuel = Except.ok (k, t) →
      t = s ∧ BT.minOp t fuel = Except.ok (k, t)) ∧
    (∀ k t, BT.maxOp s fuel = Except.ok (k, t) →
      t = s ∧ BT.maxOp t fuel = Except.ok (k, t)) ∧
    (∀ v k t, BT.predecessorOp s v fuel = Except.ok (k, t) →
      t = s ∧ BT.predecessorOp t v fuel = Except.ok (k, t)) ∧
    (∀ v k t, BT.successorOp s v fuel = Except.ok (k, t) →
      t = s ∧ BT.successorOp t v fuel = Except.ok (k, t)) := by
  refine ⟨?_, ?_, ?_, ?_, ?_⟩
  · intro l t h
    unfold BT.getSortedValues at h ⊢
    cases hg : BT.gsvLoop s s.root [] [] fuel with
    | error e => rw [hg, BT.errBind] at h; exact absurd h (by simp)
    | ok l0 =>
      rw [hg, BT.okBind] at h
      rw [Except.ok.injEq, Prod.mk.injEq] at h
      obtain ⟨rfl, rfl⟩ := h
      exact ⟨rfl, by rw [hg, BT.okBind]⟩
  · intro k t h
    unfold BT.minOp at h ⊢
    cases hroot : s.root with
    | none => rw [hroot] at h; exact absurd h (by simp)
    | some r =>
      rw [hroot] at h
      simp only [] at h
      cases hm : BT.minLoop s r fuel with
      | error e => rw [hm, BT.errBind] at h; exact absurd h (by simp)
      | ok i =>
        rw [hm, BT.okBind] at h
        cases hn : BT.getN s i with
        | error e => rw [hn, BT.errBind] at h; exact absurd h (by simp)
        | ok n =>
          rw [hn, BT.okBind] at h
          rw [Except.ok.injEq, Prod.mk.injEq] at h
          obtain ⟨rfl, rfl⟩ := h
          refine ⟨rfl, ?_⟩
          rw [hroot]
          simp only []
          rw [hm, BT.okBind, hn, BT.okBind]
  · intro k t h
    unfold BT.maxOp at h ⊢
    cases hroot : s.root with
    | none => rw [hroot] at h; exact absurd h (by simp)
    | some r =>
      rw [hroot] at h
      simp only [] at h
      cases hm : BT.maxLoop s r fuel with
      | error e => rw [hm, BT.errBind] at h; exact absurd h (by simp)
      | ok i =>
        rw [hm, BT.okBind] at h
        cases hn : BT.getN s i with
        | error e => rw [hn, BT.errBind] at h; exact absurd h (by simp)
        | ok n =>
          rw [hn, BT.okBind] at h
          rw [Except.ok.injEq, Prod.mk.injEq] at h
          obtain ⟨rfl, rfl⟩ := h
          refine ⟨rfl, ?_⟩
          rw [hroot]
          simp only []
          rw [hm, BT.okBind, hn, BT.okBind]
  · intro v k t h
    unfold BT.predecessorOp at h ⊢
    cases hf : BT.findValueLoop s v s.root fuel with
    | error e => rw [hf, BT.errBind] at h; exact absurd h (by simp)
    | ok tOpt =>
      rw [hf, BT.okBind] at h
      cases tOpt with
      | none => exact absurd h (by simp)
      | some tid =>
        simp only [] at h
        cases hn : BT.getN s tid with
        | error e => rw [hn, BT.errBind] at h; exact absurd h (by simp)
        | ok tn =>
          rw [hn, BT.okBind] at h
          cases htl : tn.left with
          | some lchild =>
            rw [htl] at h
            simp only [] at h
            cases hm : BT.maxLoop s lchild fuel with
            | error e => rw [hm, BT.errBind] at h; exact absurd h (by simp)
            | ok i =>
              rw [hm, BT.okBind] at h
              cases hni : BT.getN s i with
              | error e => rw [hni, BT.errBind] at h; exact absurd h (by simp)
              | ok n =>
                rw [hni, BT.okBind] at h
                rw [Except.ok.injEq, Prod.mk.injEq] at h
                obtain ⟨rfl, rfl⟩ := h
                refine ⟨rfl, ?_⟩
                rw [hf, BT.okBind]
                simp only []
                rw [hn, BT.okBind, htl]
                simp only []
                rw [hm, BT.okBind, hni, BT.okBind]
          | none =>
            rw [htl] at h
            simp only [] at h
            cases hu : BT.upLeftLoop s tid tn.parent fuel with
            | error e => rw [hu, BT.errBind] at h; exact absurd h (by simp)
            | ok pOpt =>
              rw [hu, BT.okBind] at h
              cases pOpt with
              | none => exact absurd h (by simp)
              | some p =>
                simp only [] at h
                cases hnp : BT.getN s p with
                | error e => rw [hnp, BT.errBind] at h; exact absurd h (by simp)
                | ok pn =>
                  rw [hnp, BT.okBind] at h
                  rw [Except.ok.injEq, Prod.mk.injEq] at h
                  obtain ⟨rfl, rfl⟩ := h
                  refine ⟨rfl, ?_⟩
                  rw [hf, BT.okBind]
                  simp only []
                  rw [hn, BT.okBind, htl]
                  simp only []
                  rw [hu, BT.okBind]
                  simp only []
                  rw [hnp, BT.okBind]
  · intro v k t h
    unfold BT.successorOp at h ⊢
    cases hf : BT.findValueLoop s v s.root fuel with
    | error e => rw [hf, BT.errBind] at h; exact absurd h (by simp)
    | ok tOpt =>
      rw [hf, BT.okBind] at h
      cases tOpt with
      | none => exact absurd h (by simp)
      | some tid =>
        simp only [] at h
        cases hn : BT.getN s tid with
        | error e => rw [hn, BT.errBind] at h; exact absurd h (by simp)
        | ok tn =>
          rw [hn, BT.okBind] at h
          cases htr : tn.right with
          | some rchild =>
            rw [htr] at h
            simp only [] at h
            cases hm : BT.minLoop s rchild fuel with
            | error e => rw [hm, BT.errBind] at h; exact absurd h (by simp)
            | ok i =>
              rw [hm, BT.okBind] at h
              cases hni : BT.getN s i with
              | error e => rw [hni, BT.errBind] at h; exact absurd h (by simp)
              | ok n =>
                rw [hni, BT.okBind] at h
                rw [Except.ok.injEq, Prod.mk.injEq] at h
                obtain ⟨rfl, rfl⟩ := h
                refine ⟨rfl, ?_⟩
                rw [hf, BT.okBind]
                simp only []
                rw [hn, BT.okBind, htr]
                simp only []
                rw [hm, BT.okBind, hni, BT.okBind]
          | none =>
            rw [htr] at h
            simp only [] at h
            cases hu : BT.upRightLoop s tid tn.parent fuel with
            | error e => rw [hu, BT.errBind] at h; exact absurd h (by simp)
            | ok pOpt =>
              rw [hu, BT.okBind] at h
              cases pOpt with
              | none => exact absurd h (by simp)
              | some p =>
                simp only [] at h
                cases hnp : BT.getN s p with
                | error e => rw [hnp, BT.errBind] at h; exact absurd h (by simp)
                | ok pn =>
                  rw [hnp, BT.okBind] at h
                  rw [Except.ok.injEq, Prod.mk.injEq] at h
                  obtain ⟨rfl, rfl⟩ := h
                  refine ⟨rfl, ?_⟩
                  rw [hf, BT.okBind]
                  simp only []
                  rw [hn, BT.okBind, htr]
                  simp only []
                  rw [hu, BT.okBind]
                  simp only []
                  rw [hnp, BT.okBind]

/-- Witness for C10 at a concrete input: on the four-node duplicate tree
every query of the claim returns the unchanged state. -/
theorem c10_queries_do_not_modify_witness :
    BT.dupS = BT.dupS ∧
    BT.getSortedValues BT.dupS 24 = Except.ok ([3, 5, 5, 7], BT.dupS) :=
  (c10_queries_do_not_modify BT.dupS 24).1 [3, 5, 5, 7] BT.dupS (by decide)

namespace BT

/-- Unfolding of a successful in-order enumeration at a node. -/
theorem inorderIds_decomp {s : Tree} {i : Nat} {fuel : Nat} {l : List Nat}
    (h : inorderIds s (some i) fuel = some l) :
    ∃ fuel' n ll lr, fuel = fuel' + 1 ∧ getNode s i = some n ∧
      inorderIds s n.left fuel' = some ll ∧ inorderIds s n.right fuel' = some lr ∧
      l = ll ++ i :: lr := by
  match fuel with
  | 0 => simp [inorderIds] at h
  | fuel + 1 =>
    rw [inorderIds] at h
    cases hg : getNode s i with
    | none => rw [hg] at h; simp at h
    | some n =>
      rw [hg] at h
      simp only [] at h
      cases hl : inorderIds s n.left fuel with
      | none => rw [hl] at h; simp at h
      | some ll =>
        cases hr : inorderIds s n.right fuel with
        | none => rw [hl, hr] at h; simp at h
        | some lr =>
          rw [hl, hr] at h
          simp only [Option.some.injEq] at h
          exact ⟨fuel, n, ll, lr, rfl, rfl, hl, hr, h.symm⟩

/-- The in-order list of a present node is nonempty. -/
theorem inorderIds_ne_nil {s : Tree} {i : Nat} {fuel : Nat} {l : List Nat}
    (h : inorderIds s (some i) fuel = some l) : l ≠ [] := by
  obtain ⟨_, _, _, _, _, _, _, _, rfl⟩ := inorderIds_decomp h
  simp

/-- Following directions from a null pointer yields null. -/
theorem followFrom_none {s : Tree} : ∀ ds : List Dir, followFrom s none ds = none
  | [] => rfl
  | _ :: _ => rfl

/-- Following a concatenation is following the parts in order. -/
theorem followFrom_append {s : Tree} :
    ∀ (p q : List Dir) (cur : Option Nat),
      followFrom s cur (p ++ q) = followFrom s (followFrom s cur p) q := by
  intro p
  induction p with
  | nil =>
    intro q cur
    cases cur <;> rfl
  | cons d p ih =>
    intro q cur
    cases cur with
    | none => simp [followFrom_none]
    | some i =>
      cases hg : getNode s i with
      | none =>
        cases d with
        | L => simp [followFrom, hg, followFrom_none]
        | R => simp [followFrom, hg, followFrom_none]
      | some n =>
        cases d with
        | L =>
          rw [List.cons_append, followFrom, hg]
          simp only []
          rw [followFrom, hg]
          simp only []
          exact ih q n.left
        | R =>
          rw [List.cons_append, followFrom, hg]
          simp only []
          rw [followFrom, hg]
          simp only []
          exact ih q n.right

/-- A path into a certified subtree lands on a node whose own subtree
list is an infix of the subtree's list. -/
theorem follow_embed {s : Tree} :
    ∀ {ds : List Dir} {cur : Option Nat} {fuel : Nat} {l : List Nat} {j : Nat},
      inorderIds s cur fuel = some l → followFrom s cur ds = some j →
      ∃ fj lj X Y, inorderIds s (some j) fj = some lj ∧ l = X ++ lj ++ Y := by
  intro ds
  induction ds with
  | nil =>
    intro cur fuel l j hc hf
    rw [followFrom] at hf
    subst hf
    exact ⟨fuel, l, [], [], hc, by simp⟩
  | cons d ds ih =>
    intro cur fuel l j hc hf
    cases cur with
    | none => rw [followFrom_none] at hf; exact absurd hf (by simp)
    | some i =>
      obtain ⟨fuel', n, ll, lr, hfe, hg, hl, hr, rfl⟩ := inorderIds_decomp hc
      rw [followFrom, hg] at hf
      simp only [] at hf
      cases d with
      | L =>
        simp only [] at hf
        obtain ⟨fj, lj, X, Y, hcj, hsplit⟩ := ih hl hf
        refine ⟨fj, lj, X, Y ++ i :: lr, hcj, ?_⟩
        rw [hsplit]
        simp
      | R =>
        simp only [] at hf
        obtain ⟨fj, lj, X, Y, hcj, hsplit⟩ := ih hr hf
        refine ⟨fj, lj, ll ++ i :: X, Y, hcj, ?_⟩
        rw [hsplit]
        simp

/-- A path into a certified subtree lands on a listed node. -/
theorem follow_mem {s : Tree} {ds : List Dir} {cur : Option Nat} {fuel : Nat}
    {l : List Nat} {j : Nat}
    (hc : inorderIds s cur fuel = some l) (hf : followFrom s cur ds = some j) :
    j ∈ l := by
  obtain ⟨fj, lj, X, Y, hcj, rfl⟩ := follow_embed hc hf
  obtain ⟨_, _, _, _, _, _, _, _, rfl⟩ := inorderIds_decomp hcj
  simp

/-- Every listed node is the end of some path of length below the fuel. -/
theorem inorder_mem_follow {s : Tree} :
    ∀ {fuel : Nat} {cur : Option Nat} {l : List Nat},
      inorderIds s cur fuel = some l → ∀ i ∈ l,
        ∃ ds : List Dir, ds.length < fuel ∧ followFrom s cur ds = some i := by
  intro fuel
  induction fuel with
  | zero => intro cur l h; simp [inorderIds] at h
  | succ fuel ih =>
    intro cur l h i hi
    cases cur with
    | none =>
      rw [inorderIds] at h
      simp only [Option.some.injEq] at h
      subst h
      simp at hi
    | some j =>
      obtain ⟨fuel', n, ll, lr, hfe, hg, hl, hr, rfl⟩ := inorderIds_decomp h
      have hfuel : fuel' = fuel := by omega
      subst hfuel
      rcases List.mem_append.mp hi with hmem | hmem
      · obtain ⟨ds, hlen, hf⟩ := ih hl i hmem
        refine ⟨Dir.L :: ds, by simpa using Nat.succ_lt_succ hlen, ?_⟩
        rw [followFrom, hg]
        simp only []
        exact hf
      · rcases List.mem_cons.mp hmem with rfl | hmem
        · exact ⟨[], by simp, rfl⟩
        · obtain ⟨ds, hlen, hf⟩ := ih hr i hmem
          refine ⟨Dir.R :: ds, by simpa using Nat.succ_lt_succ hlen, ?_⟩
          rw [followFrom, hg]
          simp only []
          exact hf

end BT

namespace BT

/-- `parentChk` gives the back-link check for every reachable node. -/
theorem parentChk_back {s : Tree} {l : List Nat} (hpc : parentChk s = true)
    (hr : reachIds s = some l) {a : Nat} (ha : a ∈ l) :
    childrenLinkedBack s a = true := by
  unfold parentChk at hpc
  rw [hr] at hpc
  simp only [] at hpc
  rw [Bool.and_eq_true] at hpc
  exact List.all_eq_true.mp hpc.2 a ha

/-- `parentChk` gives that the root's parent is absent. -/
theorem parentChk_root {s : Tree} {r : Nat} (hpc : parentChk s = true)
    (hroot : s.root = some r) : (getNode s r).map Node.parent = some none := by
  unfold parentChk at hpc
  rw [hroot] at hpc
  simp only [] at hpc
  rw [Bool.and_eq_true] at hpc
  simpa using hpc.1

/-- Unpack the back-link check on the left child. -/
theorem linkedBack_left {s : Tree} {a j : Nat} {an : Node}
    (h : childrenLinkedBack s a = true) (hg : getNode s a = some an)
    (hl : an.left = some j) : (getNode s j).map Node.parent = some (some a) := by
  unfold childrenLinkedBack at h
  rw [hg] at h
  simp only [] at h
  rw [hl] at h
  simp only [] at h
  rw [Bool.and_eq_true] at h
  simpa using h.1

/-- Unpack the back-link check on the right child. -/
theorem linkedBack_right {s : Tree} {a j : Nat} {an : Node}
    (h : childrenLinkedBack s a = true) (hg : getNode s a = some an)
    (hr : an.right = some j) : (getNode s j).map Node.parent = some (some a) := by
  unfold childrenLinkedBack at h
  rw [hg] at h
  simp only [] at h
  rw [hr] at h
  simp only [] at h
  rw [Bool.and_eq_true] at h
  simpa using h.2

/-- The node at the end of a nonempty path has as parent the node one
step up the path, and sits in the child slot named by the last step. -/
theorem parent_of_snoc {s : Tree} {l : List Nat} (hpc : parentChk s = true)
    (hr : reachIds s = some l) {ds : List Dir} {d : Dir} {j : Nat}
    (hf : follow s (ds ++ [d]) = some j) :
    ∃ a an jn, follow s ds = some a ∧ getNode s a = some an ∧ getNode s j = some jn ∧
      jn.parent = some a ∧
      ((d = Dir.L ∧ an.left = some j) ∨ (d = Dir.R ∧ an.right = some j)) := by
  have hr' : inorderIds s s.root (opFuel s) = some l := hr
  unfold follow at hf
  rw [followFrom_append] at hf
  cases hfd : followFrom s s.root ds with
  | none => rw [hfd, followFrom_none] at hf; exact absurd hf (by simp)
  | some a =>
    rw [hfd] at hf
    cases hg : getNode s a with
    | none =>
      rw [followFrom, hg] at hf
      cases d <;> simp at hf
    | some an =>
      rw [followFrom, hg] at hf
      simp only [] at hf
      have hmem : a ∈ l := follow_mem hr' hfd
      have hclb := parentChk_back hpc hr hmem
      cases d with
      | L =>
        simp only [] at hf
        rw [followFrom] at hf
        have hpj := linkedBack_left hclb hg hf
        cases hgj : getNode s j with
        | none => rw [hgj] at hpj; simp at hpj
        | some jn =>
          rw [hgj] at hpj
          simp only [Option.map_some', Option.some.injEq] at hpj
          exact ⟨a, an, jn, hfd, hg, rfl, hpj, Or.inl ⟨rfl, hf⟩⟩
      | R =>
        simp only [] at hf
        rw [followFrom] at hf
        have hpj := linkedBack_right hclb hg hf
        cases hgj : getNode s j with
        | none => rw [hgj] at hpj; simp at hpj
        | some jn =>
          rw [hgj] at hpj
          simp only [Option.map_some', Option.some.injEq] at hpj
          exact ⟨a, an, jn, hfd, hg, rfl, hpj, Or.inr ⟨rfl, hf⟩⟩

/-- Every list is a block of one repeated direction followed by its
stripped remainder. -/
theorem stripRev_decomp (d : Dir) :
    ∀ rev : List Dir, ∃ m, rev = List.replicate m d ++ stripRev d rev := by
  intro rev
  induction rev with
  | nil => exact ⟨0, rfl⟩
  | cons e es ih =>
    by_cases he : e = d
    · subst he
      obtain ⟨m, hm⟩ := ih
      refine ⟨m + 1, ?_⟩
      rw [stripRev, if_pos rfl, List.replicate_succ]
      simpa using hm
    · refine ⟨0, ?_⟩
      rw [stripRev, if_neg he]
      simp

/-- The head surviving a strip differs from the stripped direction. -/
theorem stripRev_head {d : Dir} :
    ∀ {rev : List Dir} {e : Dir} {es : List Dir}, stripRev d rev = e :: es → e ≠ d := by
  intro rev
  induction rev with
  | nil => intro e es h; simp [stripRev] at h
  | cons f fs ih =>
    intro e es h
    rw [stripRev] at h
    by_cases hf : f = d
    · rw [if_pos hf] at h
      exact ih h
    · rw [if_neg hf] at h
      injection h with h1 h2
      subst h1
      exact hf

/-- In a duplicate-free reachable structure, a node's two child slots
never hold the same node. -/
theorem distinct_slots {s : Tree} {l : List Nat} (hr : reachIds s = some l)
    (hnd : l.Nodup) {ds : List Dir} {a : Nat} {an : Node}
    (hf : follow s ds = some a) (hg : getNode s a = some an)
    {j : Nat} (hlj : an.left = some j) : an.right ≠ some j := by
  intro hrj
  have hr' : inorderIds s s.root (opFuel s) = some l := hr
  obtain ⟨fj, lj, X, Y, hcj, hsplit⟩ := follow_embed hr' hf
  obtain ⟨fuel', n, ll, lr, hfe, hgn, hcl, hcr, heq⟩ := inorderIds_decomp hcj
  have hna : n = an := by
    rw [hg] at hgn
    injection hgn with h'
    exact h'.symm
  subst hna
  rw [hlj] at hcl
  rw [hrj] at hcr
  obtain ⟨_, _, A, B, _, _, _, _, rfl⟩ := inorderIds_decomp hcl
  obtain ⟨_, _, C, D, _, _, _, _, rfl⟩ := inorderIds_decomp hcr
  subst heq
  have hsub : ((A ++ j :: B) ++ a :: (C ++ j :: D)).Sublist l := by
    rw [hsplit]
    exact (List.sublist_append_right X _).trans (List.sublist_append_left _ Y)
  have hnd' := hnd.sublist hsub
  rw [List.nodup_append] at hnd'
  have hjl : j ∈ A ++ j :: B := by simp
  have hjr : j ∈ a :: (C ++ j :: D) := by simp
  exact hnd'.2.2 hjl hjr

end BT

namespace BT

/-- `min`'s all-left walk lands on the head of the subtree's in-order
list. -/
theorem minLoop_head {s : Tree} :
    ∀ {fuel : Nat} {r : Nat} {lr : List Nat},
      inorderIds s (some r) fuel = some lr →
      ∀ {g : Nat}, lr.length < g → ∃ j, minLoop s r g = .ok j ∧ lr.head? = some j := by
  intro fuel
  induction fuel with
  | zero => intro r lr h; simp [inorderIds] at h
  | succ fuel ih =>
    intro r lr h g hg
    obtain ⟨fuel', n, ll, lrr, hfe, hgn, hcl, hcr, rfl⟩ := inorderIds_decomp h
    have hfuel : fuel' = fuel := by omega
    subst hfuel
    match g, hg with
    | g + 1, hg =>
      rw [minLoop]
      have hget : getN s r = .ok n := by simp [getN, hgn]
      rw [hget, okBind]
      cases hnl : n.left with
      | none =>
        rw [hnl] at hcl
        have hll : ll = [] := by
          cases fuel' with
          | zero => simp [inorderIds] at hcl
          | succ f2 =>
            rw [inorderIds] at hcl
            simpa using hcl.symm
        subst hll
        exact ⟨r, rfl, by simp⟩
      | some lc =>
        rw [hnl] at hcl
        have hlen : ll.length < g := by
          simp only [List.length_append, List.length_cons] at hg
          omega
        obtain ⟨j, hm, hh⟩ := ih hcl hlen
        refine ⟨j, hm, ?_⟩
        have hne := inorderIds_ne_nil hcl
        rw [List.head?_append_of_ne_nil _ hne]
        exact hh

/-- `max`'s all-right walk lands on the last entry of the subtree's
in-order list. -/
theorem maxLoop_last {s : Tree} :
    ∀ {fuel : Nat} {r : Nat} {lr : List Nat},
      inorderIds s (some r) fuel = some lr →
      ∀ {g : Nat}, lr.length < g → ∃ j, maxLoop s r g = .ok j ∧ lr.getLast? = some j := by
  intro fuel
  induction fuel with
  | zero => intro r lr h; simp [inorderIds] at h
  | succ fuel ih =>
    intro r lr h g hg
    obtain ⟨fuel', n, ll, lrr, hfe, hgn, hcl, hcr, rfl⟩ := inorderIds_decomp h
    have hfuel : fuel' = fuel := by omega
    subst hfuel
    match g, hg with
    | g + 1, hg =>
      rw [maxLoop]
      have hget : getN s r = .ok n := by simp [getN, hgn]
      rw [hget, okBind]
      cases hnr : n.right with
      | none =>
        rw [hnr] at hcr
        have hlr : lrr = [] := by
          cases fuel' with
          | zero => simp [inorderIds] at hcr
          | succ f2 =>
            rw [inorderIds] at hcr
            simpa using hcr.symm
        subst hlr
        refine ⟨r, rfl, ?_⟩
        rw [List.getLast?_append_cons]
        rfl
      | some rc =>
        rw [hnr] at hcr
        have hlen : lrr.length < g := by
          simp only [List.length_append, List.length_cons] at hg
          omega
        obtain ⟨j, hm, hh⟩ := ih hcr hlen
        refine ⟨j, hm, ?_⟩
        have hne := inorderIds_ne_nil hcr
        rw [List.getLast?_append_cons]
        cases lrr with
        | nil => exact absurd rfl hne
        | cons x xs =>
          rw [List.getLast?_cons_cons]
          exact hh

end BT

namespace BT

/-- A node reached by only-right steps that has no right child is the
last entry of the starting subtree's in-order list. -/
theorem last_of_all_right {s : Tree} :
    ∀ {m : Nat} {a : Nat} {fuel : Nat} {la : List Nat} {j : Nat} {jn : Node},
      inorderIds s (some a) fuel = some la →
      followFrom s (some a) (List.replicate m Dir.R) = some j →
      getNode s j = some jn → jn.right = none →
      la.getLast? = some j := by
  intro m
  induction m with
  | zero =>
    intro a fuel la j jn hc hf hgj hnr
    rw [List.replicate, followFrom] at hf
    injection hf with hf
    subst hf
    obtain ⟨fuel', n, ll, lr, hfe, hgn, hcl, hcr, rfl⟩ := inorderIds_decomp hc
    have hna : n = jn := by
      rw [hgj] at hgn
      injection hgn with h'
      exact h'.symm
    subst hna
    rw [hnr] at hcr
    have hlr : lr = [] := by
      cases fuel' with
      | zero => simp [inorderIds] at hcr
      | succ f2 =>
        rw [inorderIds] at hcr
        simpa using hcr.symm
    subst hlr
    rw [List.getLast?_append_cons]
    rfl
  | succ m ih =>
    intro a fuel la j jn hc hf hgj hnr
    rw [List.replicate_succ] at hf
    obtain ⟨fuel', n, ll, lr, hfe, hgn, hcl, hcr, rfl⟩ := inorderIds_decomp hc
    rw [followFrom, hgn] at hf
    simp only [] at hf
    cases hnr2 : n.right with
    | none =>
      rw [hnr2, followFrom_none] at hf
      exact absurd hf (by simp)
    | some a2 =>
      rw [hnr2] at hf hcr
      have hlast := ih hcr hf hgj hnr
      have hne := inorderIds_ne_nil hcr
      rw [List.getLast?_append_cons]
      cases lr with
      | nil => exact absurd rfl hne
      | cons x xs =>
        rw [List.getLast?_cons_cons]
        exact hlast

/-- A node reached by only-left steps that has no left child is the
first entry of the starting subtree's in-order list. -/
theorem head_of_all_left {s : Tree} :
    ∀ {m : Nat} {a : Nat} {fuel : Nat} {la : List Nat} {j : Nat} {jn : Node},
      inorderIds s (some a) fuel = some la →
      followFrom s (some a) (List.replicate m Dir.L) = some j →
      getNode s j = some jn → jn.left = none →
      la.head? = some j := by
  intro m
  induction m with
  | zero =>
    intro a fuel la j jn hc hf hgj hnl
    rw [List.replicate, followFrom] at hf
    injection hf with hf
    subst hf
    obtain ⟨fuel', n, ll, lr, hfe, hgn, hcl, hcr, rfl⟩ := inorderIds_decomp hc
    have hna : n = jn := by
      rw [hgj] at hgn
      injection hgn with h'
      exact h'.symm
    subst hna
    rw [hnl] at hcl
    have hll : ll = [] := by
      cases fuel' with
      | zero => simp [inorderIds] at hcl
      | succ f2 =>
        rw [inorderIds] at hcl
        simpa using hcl.symm
    subst hll
    rfl
  | succ m ih =>
    intro a fuel la j jn hc hf hgj hnl
    rw [List.replicate_succ] at hf
    obtain ⟨fuel', n, ll, lr, hfe, hgn, hcl, hcr, rfl⟩ := inorderIds_decomp hc
    rw [followFrom, hgn] at hf
    simp only [] at hf
    cases hnl2 : n.left with
    | none =>
      rw [hnl2, followFrom_none] at hf
      exact absurd hf (by simp)
    | some a2 =>
      rw [hnl2] at hf hcl
      have hhead := ih hcl hf hgj hnl
      have hne := inorderIds_ne_nil hcl
      rw [List.head?_append_of_ne_nil _ hne]
      exact hhead

end BT

namespace BT

/-- Characterization of `successor`'s ancestor walk: starting from the
node at a path, the walk strips the trailing right-steps; it stops just
above the last left-step, or runs off the root if there is none. -/
theorem upRight_char {s : Tree} {l : List Nat} (hpc : parentChk s = true)
    (hr : reachIds s = some l) (hnd : l.Nodup) :
    ∀ {ds : List Dir} {j : Nat} {jn : Node},
      follow s ds = some j → getNode s j = some jn →
      ∀ {g : Nat}, ds.length < g →
        upRightLoop s j jn.parent g =
          .ok (match stripRev Dir.R ds.reverse with
               | [] => none
               | _ :: es => follow s es.reverse) := by
  intro ds
  induction ds using List.reverseRecOn with
  | nil =>
    intro j jn hf hgj g hg
    have hroot : s.root = some j := by
      rw [follow, followFrom] at hf
      exact hf
    have hp := parentChk_root hpc hroot
    rw [hgj] at hp
    simp only [Option.map_some', Option.some.injEq] at hp
    rw [hp]
    match g, hg with
    | g + 1, _ =>
      rw [upRightLoop]
      rfl
  | append_singleton p d ih =>
    intro j jn hf hgj g hg
    obtain ⟨a, an, jn', hfp, hga, hgj', hpar, hslot⟩ := parent_of_snoc hpc hr hf
    have hj : jn' = jn := by
      rw [hgj] at hgj'
      injection hgj' with h'
      exact h'.symm
    subst hj
    rw [hpar]
    match g, hg with
    | g + 1, hg =>
      rw [upRightLoop]
      have hga' : getN s a = .ok an := by simp [getN, hga]
      rw [hga', okBind]
      rcases hslot with ⟨hd, hsl⟩ | ⟨hd, hsr⟩
      · subst hd
        have hne : an.right ≠ some j := distinct_slots hr hnd hfp hga hsl
        rw [if_neg hne]
        rw [List.reverse_append]
        simp only [List.reverse_singleton, List.singleton_append]
        rw [stripRev]
        rw [if_neg (by simp)]
        simp only [List.reverse_reverse]
        rw [hfp]
      · subst hd
        rw [if_pos hsr]
        have hlen : p.length < g := by
          simp only [List.length_append, List.length_singleton] at hg
          omega
        have := ih hfp hga hlen
        rw [this]
        rw [List.reverse_append]
        simp only [List.reverse_singleton, List.singleton_append]
        rw [stripRev, if_pos rfl]

/-- Characterization of `predecessor`'s ancestor walk, the mirror image
of `upRight_char`. -/
theorem upLeft_char {s : Tree} {l : List Nat} (hpc : parentChk s = true)
    (hr : reachIds s = some l) (hnd : l.Nodup) :
    ∀ {ds : List Dir} {j : Nat} {jn : Node},
      follow s ds = some j → getNode s j = some jn →
      ∀ {g : Nat}, ds.length < g →
        upLeftLoop s j jn.parent g =
          .ok (match stripRev Dir.L ds.reverse with
               | [] => none
               | _ :: es => follow s es.reverse) := by
  intro ds
  induction ds using List.reverseRecOn with
  | nil =>
    intro j jn hf hgj g hg
    have hroot : s.root = some j := by
      rw [follow, followFrom] at hf
      exact hf
    have hp := parentChk_root hpc hroot
    rw [hgj] at hp
    simp only [Option.map_some', Option.some.injEq] at hp
    rw [hp]
    match g, hg with
    | g + 1, _ =>
      rw [upLeftLoop]
      rfl
  | append_singleton p d ih =>
    intro j jn hf hgj g hg
    obtain ⟨a, an, jn', hfp, hga, hgj', hpar, hslot⟩ := parent_of_snoc hpc hr hf
    have hj : jn' = jn := by
      rw [hgj] at hgj'
      injection hgj' with h'
      exact h'.symm
    subst hj
    rw [hpar]
    match g, hg with
    | g + 1, hg =>
      rw [upLeftLoop]
      have hga' : getN s a = .ok an := by simp [getN, hga]
      rw [hga', okBind]
      rcases hslot with ⟨hd, hsl⟩ | ⟨hd, hsr⟩
      · subst hd
        rw [if_pos hsl]
        have hlen : p.length < g := by
          simp only [List.length_append, List.length_singleton] at hg
          omega
        have := ih hfp hga hlen
        rw [this]
        rw [List.reverse_append]
        simp only [List.reverse_singleton, List.singleton_append]
        rw [stripRev, if_pos rfl]
      · subst hd
        have hne : an.left ≠ some j := by
          intro hcontra
          exact distinct_slots hr hnd hfp hga hcontra hsr
        rw [if_neg hne]
        rw [List.reverse_append]
        simp only [List.reverse_singleton, List.singleton_append]
        rw [stripRev]
        rw [if_neg (by simp)]
        simp only [List.reverse_reverse]
        rw [hfp]

end BT

namespace BT

/-- The reachable list is shorter than the arena-size fuel bound. -/
theorem reach_length_lt {s : Tree} {l : List Nat} (hr : reachIds s = some l)
    (hnd : l.Nodup) : l.length < opFuel s := by
  have hr' : inorderIds s s.root (opFuel s) = some l := hr
  have hsub : l ⊆ s.nodes.map Prod.fst := fun i hi =>
    lookupN_isSome_mem (inorderIds_mem_isSome hr' i hi)
  have hsp := List.subperm_of_subset hnd hsub
  have hle := hsp.length_le
  simp only [List.length_map] at hle
  unfold opFuel
  omega

/-- The search loop finds a node holding the key when the subtree's keys
are strictly sorted and contain it. -/
theorem findValueLoop_found {s : Tree} {k : Int} :
    ∀ {fuel : Nat} {cur : Option Nat} {l : List Nat},
      inorderIds s cur fuel = some l →
      List.Pairwise (· < ·) (l.map (keyOf s)) →
      k ∈ l.map (keyOf s) →
      ∀ {g : Nat}, l.length < g →
        ∃ j, findValueLoop s k cur g = .ok (some j) ∧ j ∈ l ∧ keyOf s j = k := by
  intro fuel
  induction fuel with
  | zero => intro cur l h; simp [inorderIds] at h
  | succ fuel ih =>
    intro cur l h hs hk g hg
    cases cur with
    | none =>
      rw [inorderIds] at h
      simp only [Option.some.injEq] at h
      subst h
      simp at hk
    | some i =>
      obtain ⟨fuel', n, ll, lr, hfe, hgn, hcl, hcr, rfl⟩ := inorderIds_decomp h
      have hfuel : fuel' = fuel := by omega
      subst hfuel
      rw [List.map_append, List.map_cons] at hs hk
      rw [List.pairwise_append] at hs
      obtain ⟨hsl, hsr0, hcross⟩ := hs
      rw [List.pairwise_cons] at hsr0
      obtain ⟨hilt, hsr⟩ := hsr0
      have hki : keyOf s i = n.key := by simp [keyOf, hgn]
      match g, hg with
      | g + 1, hg =>
        rw [findValueLoop]
        have hget : getN s i = .ok n := by simp [getN, hgn]
        rw [hget, okBind]
        by_cases hek : n.key = k
        · rw [if_pos hek]
          exact ⟨i, rfl, by simp, by rw [hki]; exact hek⟩
        · rw [if_neg hek]
          by_cases hlt : k < n.key
          · rw [if_pos hlt]
            have hkll : k ∈ ll.map (keyOf s) := by
              rcases List.mem_append.mp hk with hm | hm
              · exact hm
              · exfalso
                rcases List.mem_cons.mp hm with hm | hm
                · exact hek (hm.trans hki).symm
                · have h2 := hilt k hm
                  rw [hki] at h2
                  omega
            have hlen : ll.length < g := by
              simp only [List.length_append, List.length_cons] at hg
              omega
            obtain ⟨j, hfind, hjm, hjk⟩ := ih hcl hsl hkll hlen
            exact ⟨j, hfind, by simp [hjm], hjk⟩
          · rw [if_neg hlt]
            have hkgt : n.key < k := by omega
            have hklr : k ∈ lr.map (keyOf s) := by
              rcases List.mem_append.mp hk with hm | hm
              · exfalso
                have h2 := hcross k hm (keyOf s i) (by simp)
                rw [hki] at h2
                omega
              · rcases List.mem_cons.mp hm with hm | hm
                · exact absurd (hm.trans hki).symm hek
                · exact hm
            have hlen : lr.length < g := by
              simp only [List.length_append, List.length_cons] at hg
              omega
            obtain ⟨j, hfind, hjm, hjk⟩ := ih hcr hsr hklr hlen
            exact ⟨j, hfind, by simp [hjm], hjk⟩

/-- Strictly sorted keys make the key function injective on the list. -/
theorem key_inj {s : Tree} {l : List Nat}
    (hs : List.Pairwise (· < ·) (l.map (keyOf s)))
    {i1 i2 : Nat} (h1 : i1 ∈ l) (h2 : i2 ∈ l) (hk : keyOf s i1 = keyOf s i2) :
    i1 = i2 := by
  have hnd : (l.map (keyOf s)).Nodup := List.Pairwise.imp (fun h => ne_of_lt h) hs
  exact List.inj_on_of_nodup_map hnd h1 h2 hk

/-- Splitting a duplicate-free list at an element is unambiguous. -/
theorem nodup_split_eq {x : Nat} :
    ∀ {A l A' B B' : List Nat}, l.Nodup →
      l = A ++ x :: B → l = A' ++ x :: B' → A = A' ∧ B = B' := by
  intro A
  induction A with
  | nil =>
    intro l A' B B' hnd h1 h2
    subst h1
    cases A' with
    | nil =>
      rw [List.nil_append] at h2
      injection h2 with _ hB
      exact ⟨rfl, hB⟩
    | cons y A2 =>
      rw [List.nil_append, List.cons_append] at h2
      injection h2 with hxy hB
      subst hxy
      rw [List.nil_append, List.nodup_cons] at hnd
      exact absurd (by rw [hB]; simp) hnd.1
  | cons a A2 ih =>
    intro l A' B B' hnd h1 h2
    subst h1
    cases A' with
    | nil =>
      rw [List.nil_append, List.cons_append] at h2
      injection h2 with hax hB
      subst hax
      rw [List.cons_append, List.nodup_cons] at hnd
      exact absurd (by simp) hnd.1
    | cons a2 A2' =>
      rw [List.cons_append, List.cons_append] at h2
      injection h2 with haa htail
      obtain ⟨hA, hB⟩ := ih (by rw [List.cons_append, List.nodup_cons] at hnd; exact hnd.2) rfl htail
      refine ⟨?_, hB⟩
      rw [haa, hA]

/-- Keys of adjacent reachable nodes are strictly increasing. -/
theorem adjacent_lt {s : Tree} {l A B : List Nat} {j j' : Nat}
    (hs : List.Pairwise (· < ·) (l.map (keyOf s))) (hsplit : l = A ++ j :: j' :: B) :
    keyOf s j < keyOf s j' := by
  subst hsplit
  rw [List.map_append, List.pairwise_append] at hs
  have h2 := hs.2.1
  rw [List.map_cons, List.pairwise_cons] at h2
  exact h2.1 (keyOf s j') (by simp)

end BT

namespace BT

/-- On a strictly-sorted well-formed state, `successor` of a present,
non-maximal key returns the key of the next reachable node in order. -/
theorem successor_next {s : Tree} {l : List Nat}
    (hr : reachIds s = some l) (hnd : l.Nodup) (hpc : parentChk s = true)
    (hs : List.Pairwise (· < ·) (l.map (keyOf s)))
    {k : Int} (hk : k ∈ l.map (keyOf s))
    (hnotmax : ∃ b ∈ l.map (keyOf s), k < b) :
    ∃ A j j' B, l = A ++ j :: j' :: B ∧ keyOf s j = k ∧
      successorOp s k (opFuel s) = .ok (keyOf s j', s) := by
  have hr' : inorderIds s s.root (opFuel s) = some l := hr
  have hlen := reach_length_lt hr hnd
  obtain ⟨j, hfind, hjm, hjk⟩ := findValueLoop_found hr' hs hk hlen
  obtain ⟨jn, hgj⟩ := Option.isSome_iff_exists.mp (inorderIds_mem_isSome hr' j hjm)
  have hgetj : getN s j = .ok jn := by simp [getN, hgj]
  obtain ⟨ds, hdslen, hf⟩ := inorder_mem_follow hr' j hjm
  cases hjr : jn.right with
  | some rc =>
    obtain ⟨fj, lj, X, Y, hcj, hsplit⟩ := follow_embed hr' hf
    obtain ⟨fj', n2, ljl, ljr, hfje, hgn2, hcl2, hcr2, hlj⟩ := inorderIds_decomp hcj
    have hn2 : n2 = jn := by
      rw [hgj] at hgn2
      injection hgn2 with h'
      exact h'.symm
    subst hn2
    rw [hjr] at hcr2
    have hsubl : ljr.Sublist l := by
      rw [hsplit, hlj]
      exact ((List.sublist_cons_self j ljr).trans (List.sublist_append_right ljl _)).trans
        ((List.sublist_append_right X _).trans (List.sublist_append_left _ Y))
    have hlrlen : ljr.length < opFuel s := by
      have hle := hsubl.length_le
      omega
    obtain ⟨j', hmin, hhead⟩ := minLoop_head hcr2 hlrlen
    obtain ⟨tl, htl⟩ : ∃ tl, ljr = j' :: tl := by
      cases ljr with
      | nil => simp at hhead
      | cons z zs =>
        simp at hhead
        exact ⟨zs, by rw [hhead]⟩
    have hj'm : j' ∈ l := by
      rw [hsplit, hlj, htl]
      simp
    obtain ⟨j'n, hgj'⟩ := Option.isSome_iff_exists.mp (inorderIds_mem_isSome hr' j' hj'm)
    have hgetj' : getN s j' = .ok j'n := by simp [getN, hgj']
    refine ⟨X ++ ljl, j, j', tl ++ Y, ?_, hjk, ?_⟩
    · rw [hsplit, hlj, htl]
      simp
    · unfold successorOp
      rw [hfind, okBind]
      simp only []
      rw [hgetj, okBind, hjr]
      simp only []
      rw [hmin, okBind, hgetj', okBind]
      have hkj' : j'n.key = keyOf s j' := by simp [keyOf, hgj']
      rw [hkj']
  | none =>
    have hup := upRight_char hpc hr hnd hf hgj hdslen
    cases hstrip : stripRev Dir.R ds.reverse with
    | nil =>
      exfalso
      obtain ⟨m, hm⟩ := stripRev_decomp Dir.R ds.reverse
      rw [hstrip, List.append_nil] at hm
      have hds : ds = List.replicate m Dir.R := by
        have h2 := congrArg List.reverse hm
        rw [List.reverse_reverse, List.reverse_replicate] at h2
        exact h2
      cases hrt : s.root with
      | none =>
        rw [hrt, followFrom_none] at hf
        exact absurd hf (by simp)
      | some r0 =>
        have hcroot : inorderIds s (some r0) (opFuel s) = some l := by
          rw [← hrt]
          exact hr'
        have hfr : followFrom s (some r0) (List.replicate m Dir.R) = some j := by
          rw [← hds, ← hrt]
          exact hf
        have hlast := last_of_all_right hcroot hfr hgj hjr
        obtain ⟨A0, hA0⟩ := List.getLast?_eq_some_iff.mp hlast
        obtain ⟨b, hbm, hkb⟩ := hnotmax
        rw [hA0, List.map_append, List.pairwise_append] at hs
        rw [hA0, List.map_append] at hbm
        rcases List.mem_append.mp hbm with hm2 | hm2
        · have h3 := hs.2.2 b hm2 (keyOf s j) (by simp)
          rw [hjk] at h3
          omega
        · simp only [List.map_cons, List.map_nil, List.mem_cons, List.not_mem_nil, or_false] at hm2
          rw [hm2, hjk] at hkb
          omega
    | cons e es =>
      have hne2 := stripRev_head hstrip
      have heL : e = Dir.L := by
        cases e
        · rfl
        · exact absurd rfl hne2
      subst heL
      obtain ⟨m, hm⟩ := stripRev_decomp Dir.R ds.reverse
      rw [hstrip] at hm
      have hds : ds = (es.reverse ++ [Dir.L]) ++ List.replicate m Dir.R := by
        have h2 := congrArg List.reverse hm
        rw [List.reverse_reverse, List.reverse_append, List.reverse_cons,
          List.reverse_replicate] at h2
        exact h2
      rw [hds] at hf
      rw [followFrom_append] at hf
      cases hfa : followFrom s s.root (es.reverse ++ [Dir.L]) with
      | none =>
        rw [hfa, followFrom_none] at hf
        exact absurd hf (by simp)
      | some a =>
        rw [hfa] at hf
        obtain ⟨b, bn, an, hfb, hgb, hga, hparA, hslot⟩ :=
          parent_of_snoc hpc hr (show follow s (es.reverse ++ [Dir.L]) = some a from hfa)
        rcases hslot with ⟨_, hbl⟩ | ⟨hdd, _⟩
        · obtain ⟨fb, lb, X, Y, hcb, hsplitb⟩ := follow_embed hr' hfb
          obtain ⟨fb', bn2, lbl, lbr, hfbe, hgbn2, hcbl, hcbr, hlb⟩ := inorderIds_decomp hcb
          have hbn2 : bn2 = bn := by
            rw [hgb] at hgbn2
            injection hgbn2 with h'
            exact h'.symm
          subst hbn2
          rw [hbl] at hcbl
          have hlast := last_of_all_right hcbl hf hgj hjr
          obtain ⟨A0, hA0⟩ := List.getLast?_eq_some_iff.mp hlast
          rw [hstrip] at hup
          simp only [] at hup
          rw [hfb] at hup
          have hgetb : getN s b = .ok bn2 := by simp [getN, hgb]
          refine ⟨X ++ A0, j, b, lbr ++ Y, ?_, hjk, ?_⟩
          · rw [hsplitb, hlb, hA0]
            simp
          · unfold successorOp
            rw [hfind, okBind]
            simp only []
            rw [hgetj, okBind, hjr]
            simp only []
            rw [hup, okBind]
            simp only []
            rw [hgetb, okBind]
            have hkb2 : bn2.key = keyOf s b := by simp [keyOf, hgb]
            rw [hkb2]
        · simp at hdd

end BT

namespace BT

/-- On a strictly-sorted well-formed state, `predecessor` of a present,
non-minimal key returns the key of the previous reachable node in
order. -/
theorem predecessor_prev {s : Tree} {l : List Nat}
    (hr : reachIds s = some l) (hnd : l.Nodup) (hpc : parentChk s = true)
    (hs : List.Pairwise (· < ·) (l.map (keyOf s)))
    {v : Int} (hv : v ∈ l.map (keyOf s))
    (hnotmin : ∃ a ∈ l.map (keyOf s), a < v) :
    ∃ A j' j B, l = A ++ j' :: j :: B ∧ keyOf s j = v ∧
      predecessorOp s v (opFuel s) = .ok (keyOf s j', s) := by
  have hr' : inorderIds s s.root (opFuel s) = some l := hr
  have hlen := reach_length_lt hr hnd
  obtain ⟨j, hfind, hjm, hjk⟩ := findValueLoop_found hr' hs hv hlen
  obtain ⟨jn, hgj⟩ := Option.isSome_iff_exists.mp (inorderIds_mem_isSome hr' j hjm)
  have hgetj : getN s j = .ok jn := by simp [getN, hgj]
  obtain ⟨ds, hdslen, hf⟩ := inorder_mem_follow hr' j hjm
  cases hjl : jn.left with
  | some lc =>
    obtain ⟨fj, lj, X, Y, hcj, hsplit⟩ := follow_embed hr' hf
    obtain ⟨fj', n2, ljl, ljr, hfje, hgn2, hcl2, hcr2, hlj⟩ := inorderIds_decomp hcj
    have hn2 : n2 = jn := by
      rw [hgj] at hgn2
      injection hgn2 with h'
      exact h'.symm
    subst hn2
    rw [hjl] at hcl2
    have hsubl : ljl.Sublist l := by
      rw [hsplit, hlj]
      exact (List.sublist_append_left ljl (j :: ljr)).trans
        ((List.sublist_append_right X _).trans (List.sublist_append_left _ Y))
    have hlllen : ljl.length < opFuel s := by
      have hle := hsubl.length_le
      omega
    obtain ⟨j', hmax, hlast2⟩ := maxLoop_last hcl2 hlllen
    obtain ⟨T, hT⟩ := List.getLast?_eq_some_iff.mp hlast2
    have hj'm : j' ∈ l := by
      rw [hsplit, hlj, hT]
      simp
    obtain ⟨j'n, hgj'⟩ := Option.isSome_iff_exists.mp (inorderIds_mem_isSome hr' j' hj'm)
    have hgetj' : getN s j' = .ok j'n := by simp [getN, hgj']
    refine ⟨X ++ T, j', j, ljr ++ Y, ?_, hjk, ?_⟩
    · rw [hsplit, hlj, hT]
      simp
    · unfold predecessorOp
      rw [hfind, okBind]
      simp only []
      rw [hgetj, okBind, hjl]
      simp only []
      rw [hmax, okBind, hgetj', okBind]
      have hkj' : j'n.key = keyOf s j' := by simp [keyOf, hgj']
      rw [hkj']
  | none =>
    have hup := upLeft_char hpc hr hnd hf hgj hdslen
    cases hstrip : stripRev Dir.L ds.reverse with
    | nil =>
      exfalso
      obtain ⟨m, hm⟩ := stripRev_decomp Dir.L ds.reverse
      rw [hstrip, List.append_nil] at hm
      have hds : ds = List.replicate m Dir.L := by
        have h2 := congrArg List.reverse hm
        rw [List.reverse_reverse, List.reverse_replicate] at h2
        exact h2
      cases hrt : s.root with
      | none =>
        rw [hrt, followFrom_none] at hf
        exact absurd hf (by simp)
      | some r0 =>
        have hcroot : inorderIds s (some r0) (opFuel s) = some l := by
          rw [← hrt]
          exact hr'
        have hfr : followFrom s (some r0) (List.replicate m Dir.L) = some j := by
          rw [← hds, ← hrt]
          exact hf
        have hhead := head_of_all_left hcroot hfr hgj hjl
        obtain ⟨t0, ht0⟩ := List.head?_eq_some_iff.mp hhead
        obtain ⟨a, ham, hav⟩ := hnotmin
        rw [ht0, List.map_cons, List.pairwise_cons] at hs
        rw [ht0, List.map_cons] at ham
        rcases List.mem_cons.mp ham with hm2 | hm2
        · rw [hm2, hjk] at hav
          omega
        · have h3 := hs.1 a hm2
          rw [hjk] at h3
          omega
    | cons e es =>
      have hne2 := stripRev_head hstrip
      have heR : e = Dir.R := by
        cases e
        · exact absurd rfl hne2
        · rfl
      subst heR
      obtain ⟨m, hm⟩ := stripRev_decomp Dir.L ds.reverse
      rw [hstrip] at hm
      have hds : ds = (es.reverse ++ [Dir.R]) ++ List.replicate m Dir.L := by
        have h2 := congrArg List.reverse hm
        rw [List.reverse_reverse, List.reverse_append, List.reverse_cons,
          List.reverse_replicate] at h2
        exact h2
      rw [hds] at hf
      rw [followFrom_append] at hf
      cases hfa : followFrom s s.root (es.reverse ++ [Dir.R]) with
      | none =>
        rw [hfa, followFrom_none] at hf
        exact absurd hf (by simp)
      | some a =>
        rw [hfa] at hf
        obtain ⟨b, bn, an, hfb, hgb, hga, hparA, hslot⟩ :=
          parent_of_snoc hpc hr (show follow s (es.reverse ++ [Dir.R]) = some a from hfa)
        rcases hslot with ⟨hdd, _⟩ | ⟨_, hbr⟩
        · simp at hdd
        · obtain ⟨fb, lb, X, Y, hcb, hsplitb⟩ := follow_embed hr' hfb
          obtain ⟨fb', bn2, lbl, lbr, hfbe, hgbn2, hcbl, hcbr, hlb⟩ := inorderIds_decomp hcb
          have hbn2 : bn2 = bn := by
            rw [hgb] at hgbn2
            injection hgbn2 with h'
            exact h'.symm
          subst hbn2
          rw [hbr] at hcbr
          have hhead := head_of_all_left hcbr hf hgj hjl
          obtain ⟨t0, ht0⟩ := List.head?_eq_some_iff.mp hhead
          rw [hstrip] at hup
          simp only [] at hup
          rw [hfb] at hup
          have hgetb : getN s b = .ok bn2 := by simp [getN, hgb]
          refine ⟨X ++ lbl, b, j, t0 ++ Y, ?_, hjk, ?_⟩
          · rw [hsplitb, hlb, ht0]
            simp
          · unfold predecessorOp
            rw [hfind, okBind]
            simp only []
            rw [hgetj, okBind, hjl]
            simp only []
            rw [hup, okBind]
            simp only []
            rw [hgetb, okBind]
            have hkb2 : bn2.key = keyOf s b := by simp [keyOf, hgb]
            rw [hkb2]

end BT

/-- C8 (amended): for every well-shaped, parent-consistent `BinaryTree`
state whose stored keys are pairwise distinct (strictly increasing in
order), and every present key `k` that has both a smaller and a larger
stored key, `successor(k)` returns a key `k'` and `predecessor(k')`
returns `k` — i.e. `predecessor(successor(k)) = k`. -/
theorem c8_duality_amended (s : BT.Tree) (k : Int)
    (hwf : BT.wfShape s = true) (hpc : BT.parentChk s = true)
    (hsort : List.Pairwise (· < ·) (BT.reachKeys s))
    (hk : k ∈ BT.reachKeys s)
    (hmin : ∃ a ∈ BT.reachKeys s, a < k)
    (hmax : ∃ b ∈ BT.reachKeys s, k < b) :
    ∃ k', BT.successorOp s k (BT.opFuel s) = Except.ok (k', s) ∧
      BT.predecessorOp s k' (BT.opFuel s) = Except.ok (k, s) := by
  unfold BT.wfShape at hwf
  cases hr : BT.reachIds s with
  | none => rw [hr] at hwf; simp at hwf
  | some l =>
    rw [hr] at hwf
    simp only [Bool.and_eq_true, decide_eq_true_eq] at hwf
    obtain ⟨hids, hnd⟩ := hwf
    have hkeys : BT.reachKeys s = l.map (BT.keyOf s) := by
      unfold BT.reachKeys
      rw [hr]
    rw [hkeys] at hsort hk hmin hmax
    obtain ⟨A, j, j', B, hsplit, hjk, hsucc⟩ :=
      BT.successor_next hr hnd hpc hsort hk hmax
    have hj'm : j' ∈ l := by
      rw [hsplit]
      simp
    have hjm : j ∈ l := by
      rw [hsplit]
      simp
    have hk'mem : BT.keyOf s j' ∈ l.map (BT.keyOf s) := List.mem_map_of_mem _ hj'm
    have hlt : k < BT.keyOf s j' := by
      have := BT.adjacent_lt hsort hsplit
      rw [hjk] at this
      exact this
    have hnotmin : ∃ a ∈ l.map (BT.keyOf s), a < BT.keyOf s j' :=
      ⟨k, by rw [← hjk]; exact List.mem_map_of_mem _ hjm, hlt⟩
    obtain ⟨A2, j2', j2, B2, hsplit2, hj2k, hpred⟩ :=
      BT.predecessor_prev hr hnd hpc hsort hk'mem hnotmin
    have hj2m : j2 ∈ l := by
      rw [hsplit2]
      simp
    have hj2eq : j2 = j' := BT.key_inj hsort hj2m hj'm hj2k
    subst hj2eq
    have hsplitA : l = (A ++ [j]) ++ j2 :: B := by
      rw [hsplit]
      simp
    have hsplitA2 : l = (A2 ++ [j2']) ++ j2 :: B2 := by
      rw [hsplit2]
      simp
    obtain ⟨hAeq, hBeq⟩ := BT.nodup_split_eq hnd hsplitA hsplitA2
    have hjj : j = j2' := by
      have h1 : (A ++ [j]).getLast? = some j := by simp
      have h2 : (A2 ++ [j2']).getLast? = some j2' := by simp
      rw [hAeq, h2] at h1
      injection h1 with h1
      exact h1.symm
    refine ⟨BT.keyOf s j2, hsucc, ?_⟩
    rw [hpred, ← hjj, hjk]

/-- Witness for the amended C8 at a concrete input: in the three-node
tree with keys 1, 2, 3, `predecessor(successor(2)) = 2`. -/
theorem c8_duality_amended_witness :
    ∃ k', BT.successorOp BT.triS 2 (BT.opFuel BT.triS) = Except.ok (k', BT.triS) ∧
      BT.predecessorOp BT.triS k' (BT.opFuel BT.triS) = Except.ok (2, BT.triS) :=
  c8_duality_amended BT.triS 2 (by decide) (by decide) (by decide) (by decide)
    (by decide) (by decide)

namespace BT

/-- More fuel never changes a successful in-order enumeration. -/
theorem inorderIds_mono {s : Tree} :
    ∀ {fuel fuel' : Nat} {cur : Option Nat} {l : List Nat},
      inorderIds s cur fuel = some l → fuel ≤ fuel' → inorderIds s cur fuel' = some l := by
  intro fuel
  induction fuel with
  | zero => intro fuel' cur l h; simp [inorderIds] at h
  | succ fuel ih =>
    intro fuel' cur l h hle
    match fuel', hle with
    | fuel2 + 1, hle =>
      cases cur with
      | none =>
        rw [inorderIds] at h ⊢
        exact h
      | some i =>
        obtain ⟨f0, n, ll, lr, hfe, hgn, hcl, hcr, rfl⟩ := inorderIds_decomp h
        have hf0 : f0 = fuel := by omega
        subst hf0
        rw [inorderIds, hgn]
        simp only []
        rw [ih hcl (by omega), ih hcr (by omega)]

/-- In-order enumeration depends only on the listed nodes' child
pointers. -/
theorem inorderIds_congr {s s' : Tree} :
    ∀ {fuel : Nat} {cur : Option Nat} {l : List Nat},
      inorderIds s cur fuel = some l →
      (∀ i ∈ l, kidsOf s' i = kidsOf s i) →
      inorderIds s' cur fuel = some l := by
  intro fuel
  induction fuel with
  | zero => intro cur l h; simp [inorderIds] at h
  | succ fuel ih =>
    intro cur l h hagree
    cases cur with
    | none =>
      rw [inorderIds] at h ⊢
      exact h
    | some i =>
      obtain ⟨f0, n, ll, lr, hfe, hgn, hcl, hcr, rfl⟩ := inorderIds_decomp h
      have hf0 : f0 = fuel := by omega
      subst hf0
      have hki : kidsOf s' i = kidsOf s i := hagree i (by simp)
      rw [kidsOf, kidsOf, hgn] at hki
      cases hgn' : getNode s' i with
      | none => rw [hgn'] at hki; simp at hki
      | some n' =>
        rw [hgn'] at hki
        simp only [Option.map_some', Option.some.injEq] at hki
        have hl' : n'.left = n.left := by
          have h2 := congrArg Prod.fst hki
          simpa using h2
        have hr' : n'.right = n.right := by
          have h2 := congrArg Prod.snd hki
          simpa using h2
        rw [inorderIds, hgn']
        simp only []
        rw [hl', hr']
        rw [ih hcl (fun j hj => hagree j (by simp [hj])),
          ih hcr (fun j hj => hagree j (by simp [hj]))]

/-- A successful checked dereference is a successful lookup. -/
theorem getN_ok {s : Tree} {i : Nat} {n : Node} (h : getN s i = .ok n) :
    getNode s i = some n := by
  unfold getN at h
  cases hg : getNode s i with
  | none => rw [hg] at h; exact absurd h (by simp)
  | some n0 =>
    rw [hg] at h
    simp only [Except.ok.injEq] at h
    rw [h]

/-- A successful search ends at the end of some path. -/
theorem findValueLoop_path {s : Tree} {k : Int} :
    ∀ {g : Nat} {cur : Option Nat} {j : Nat},
      findValueLoop s k cur g = .ok (some j) →
      ∃ ds, followFrom s cur ds = some j := by
  intro g
  induction g with
  | zero => intro cur j h; simp [findValueLoop] at h
  | succ g ih =>
    intro cur j h
    cases cur with
    | none =>
      rw [findValueLoop] at h
      simp at h
    | some i =>
      rw [findValueLoop] at h
      cases hgn : getN s i with
      | error e => rw [hgn, errBind] at h; simp at h
      | ok n =>
        rw [hgn, okBind] at h
        have hgn2 := getN_ok hgn
        by_cases hek : n.key = k
        · rw [if_pos hek] at h
          simp only [Except.ok.injEq, Option.some.injEq] at h
          subst h
          exact ⟨[], rfl⟩
        · rw [if_neg hek] at h
          by_cases hlt : k < n.key
          · rw [if_pos hlt] at h
            obtain ⟨ds, hf⟩ := ih h
            refine ⟨Dir.L :: ds, ?_⟩
            rw [followFrom, hgn2]
            simp only []
            exact hf
          · rw [if_neg hlt] at h
            obtain ⟨ds, hf⟩ := ih h
            refine ⟨Dir.R :: ds, ?_⟩
            rw [followFrom, hgn2]
            simp only []
            exact hf

/-- Under the back-link check, every listed node with a present parent
sits in that parent's child slot. -/
theorem parent_slot_of_mem {s : Tree} {l : List Nat} (hpc : parentChk s = true)
    (hr : reachIds s = some l) {x : Nat} (hx : x ∈ l) {n : Node} {q : Nat}
    (hgx : getNode s x = some n) (hq : n.parent = some q) :
    ∃ qn, getNode s q = some qn ∧ (qn.left = some x ∨ qn.right = some x) := by
  have hr' : inorderIds s s.root (opFuel s) = some l := hr
  obtain ⟨ds, hlen, hf⟩ := inorder_mem_follow hr' x hx
  rcases List.eq_nil_or_concat ds with rfl | ⟨p0, d, rfl⟩
  · rw [followFrom] at hf
    have hp := parentChk_root hpc hf
    rw [hgx] at hp
    simp only [Option.map_some', Option.some.injEq] at hp
    rw [hp] at hq
    exact absurd hq (by simp)
  · rw [List.concat_eq_append] at hf
    obtain ⟨a, an, jn, hfa, hga, hgj, hpar, hslot⟩ := parent_of_snoc hpc hr hf
    have hjn : jn = n := by
      rw [hgx] at hgj
      injection hgj with h'
      exact h'.symm
    subst hjn
    rw [hpar] at hq
    injection hq with hq
    subst hq
    rcases hslot with ⟨_, h⟩ | ⟨_, h⟩
    · exact ⟨an, hga, Or.inl h⟩
    · exact ⟨an, hga, Or.inr h⟩

/-- The parent-link invariant follows from an in-order certificate, a
pointwise parent-slot check on the listed nodes, and a parentless
root. -/
theorem parentInv_of_listed {s : Tree} {F : Nat} {l : List Nat}
    (hc : inorderIds s s.root F = some l)
    (hcons : ∀ x ∈ l, ∀ n q, getNode s x = some n → n.parent = some q →
      ∃ qn, getNode s q = some qn ∧ (qn.left = some x ∨ qn.right = some x))
    (hroot : ∀ r rn, s.root = some r → getNode s r = some rn → rn.parent = none) :
    parentInv s := by
  refine ⟨hroot, ?_⟩
  intro ds i n p hf hgn hp
  exact hcons i (follow_mem hc hf) n p hgn hp

/-- A well-shaped, back-linked state satisfies the parent-link
invariant. -/
theorem parentInv_of_wf {s : Tree} {l : List Nat} (hr : reachIds s = some l)
    (hpc : parentChk s = true) : parentInv s := by
  refine parentInv_of_listed (show inorderIds s s.root (opFuel s) = some l from hr) ?_ ?_
  · intro x hx n q hgx hq
    exact parent_slot_of_mem hpc hr hx hgx hq
  · intro r rn hroot hgr
    have hp := parentChk_root hpc hroot
    rw [hgr] at hp
    simpa using hp

end BT

namespace BT

/-- Unpack a successful child-pointer lookup. -/
theorem kidsOf_some {s : Tree} {i : Nat} {pr : Option Nat × Option Nat}
    (h : kidsOf s i = some pr) :
    ∃ n, getNode s i = some n ∧ n.left = pr.1 ∧ n.right = pr.2 := by
  unfold kidsOf at h
  cases hg : getNode s i with
  | none => rw [hg] at h; simp at h
  | some n =>
    rw [hg] at h
    simp only [Option.map_some', Option.some.injEq] at h
    exact ⟨n, rfl, by rw [← h], by rw [← h]⟩

/-- Rewriting the content of one child slot of a node on a path replaces
exactly that slot's subtree segment in the in-order enumeration, leaving
the rest of the list unchanged. -/
theorem inorderIds_splice {s s' : Tree} {d : Dir} {newC : Option Nat}
    {F2 : Nat} {lc : List Nat} (hnewcert : inorderIds s' newC F2 = some lc) :
    ∀ {dsP : List Dir} {cur : Option Nat} {fuel : Nat} {l : List Nat} {p : Nat},
      inorderIds s cur fuel = some l → l.Nodup →
      followFrom s cur dsP = some p →
      ∀ {pn : Node},
      getNode s p = some pn →
      (∀ x ∈ l, x ≠ p → kidsOf s' x = kidsOf s x) →
      kidsOf s' p = some (match d with
        | Dir.L => (newC, pn.right)
        | Dir.R => (pn.left, newC)) →
      ∃ X Y lpl lpr F3,
        l = X ++ (lpl ++ p :: lpr) ++ Y ∧
        (∃ f1, inorderIds s pn.left f1 = some lpl) ∧
        (∃ f2, inorderIds s pn.right f2 = some lpr) ∧
        inorderIds s' cur F3 = some (X ++ (match d with
          | Dir.L => lc ++ p :: lpr
          | Dir.R => lpl ++ p :: lc) ++ Y) := by
  intro dsP
  induction dsP with
  | nil =>
    intro cur fuel l p hc hnd hf pn hgp hagree hkp
    rw [followFrom] at hf
    subst hf
    obtain ⟨f0, n0, lpl, lpr, hfe, hgn0, hcl, hcr, rfl⟩ := inorderIds_decomp hc
    have hn0 : n0 = pn := by
      rw [hgp] at hgn0
      injection hgn0 with h'
      exact h'.symm
    subst hn0
    obtain ⟨pn', hgp', hl', hr'⟩ := kidsOf_some hkp
    have hndl : lpl.Nodup := by
      refine hnd.sublist ?_
      exact List.sublist_append_left lpl (p :: lpr)
    have hndr : lpr.Nodup := by
      refine hnd.sublist ?_
      exact (List.sublist_cons_self p lpr).trans (List.sublist_append_right lpl _)
    have hpl : p ∉ lpl := by
      intro hmem
      have h2 : ¬ (lpl ++ p :: lpr).Nodup := by
        rw [List.nodup_append]
        intro h3
        exact h3.2.2 hmem (by simp)
      exact h2 (by simpa using hnd)
    have hpr : p ∉ lpr := by
      intro hmem
      have h2 : ¬ (lpl ++ p :: lpr).Nodup := by
        rw [List.nodup_append]
        intro h3
        rw [List.nodup_cons] at h3
        exact h3.2.1.1 hmem
      exact h2 (by simpa using hnd)
    cases d with
    | L =>
      have hcr' : inorderIds s' n0.right f0 = some lpr := by
        refine inorderIds_congr hcr ?_
        intro x hx
        exact hagree x (by simp [hx]) (by rintro rfl; exact hpr hx)
      refine ⟨[], [], lpl, lpr, max F2 f0 + 1, by simp, ⟨f0, hcl⟩, ⟨f0, hcr⟩, ?_⟩
      rw [inorderIds, hgp']
      simp only []
      rw [hl', hr']
      simp only []
      rw [inorderIds_mono hnewcert (Nat.le_max_left _ _),
        inorderIds_mono hcr' (Nat.le_max_right _ _)]
      simp
    | R =>
      have hcl' : inorderIds s' n0.left f0 = some lpl := by
        refine inorderIds_congr hcl ?_
        intro x hx
        exact hagree x (by simp [hx]) (by rintro rfl; exact hpl hx)
      refine ⟨[], [], lpl, lpr, max F2 f0 + 1, by simp, ⟨f0, hcl⟩, ⟨f0, hcr⟩, ?_⟩
      rw [inorderIds, hgp']
      simp only []
      rw [hl', hr']
      simp only []
      rw [inorderIds_mono hcl' (Nat.le_max_right _ _),
        inorderIds_mono hnewcert (Nat.le_max_left _ _)]
      simp
  | cons d0 dsP ih =>
    intro cur fuel l p hc hnd hf pn hgp hagree hkp
    cases cur with
    | none =>
      rw [followFrom_none] at hf
      exact absurd hf (by simp)
    | some i =>
      obtain ⟨f0, n0, ll, lr, hfe, hgn0, hcl, hcr, rfl⟩ := inorderIds_decomp hc
      rw [followFrom, hgn0] at hf
      simp only [] at hf
      have hndl : ll.Nodup := by
        refine hnd.sublist ?_
        exact (List.sublist_append_left ll (i :: lr))
      have hndr : lr.Nodup := by
        refine hnd.sublist ?_
        exact (List.sublist_cons_self i lr).trans (List.sublist_append_right ll _)
      cases d0 with
      | L =>
        simp only [] at hf
        have hpmem : p ∈ ll := follow_mem hcl hf
        have hip : i ≠ p := by
          rintro rfl
          have h2 : ¬ (ll ++ i :: lr).Nodup := by
            rw [List.nodup_append]
            intro h3
            exact h3.2.2 hpmem (by simp)
          exact h2 hnd
        obtain ⟨X, Y, lpl, lpr, F3, hsplit, hf1, hf2, hcert'⟩ :=
          ih hcl hndl hf hgp (fun x hx hxp => hagree x (by simp [hx]) hxp) hkp
        obtain ⟨ni', hgi', hl', hr'⟩ := kidsOf_some
          (show kidsOf s' i = some (n0.left, n0.right) by
            rw [hagree i (by simp) hip, kidsOf, hgn0]
            rfl)
        have hcr' : inorderIds s' n0.right f0 = some lr := by
          refine inorderIds_congr hcr ?_
          intro x hx
          refine hagree x (by simp [hx]) ?_
          rintro rfl
          have h2 : ¬ (ll ++ i :: lr).Nodup := by
            rw [List.nodup_append]
            intro h3
            exact h3.2.2 hpmem (by simp [hx])
          exact h2 hnd
        refine ⟨X, Y ++ i :: lr, lpl, lpr, max F3 f0 + 1, ?_, hf1, hf2, ?_⟩
        · rw [hsplit]
          simp
        · rw [inorderIds, hgi']
          simp only []
          rw [hl', hr']
          rw [inorderIds_mono hcert' (Nat.le_max_left _ _),
            inorderIds_mono hcr' (Nat.le_max_right _ _)]
          simp
      | R =>
        simp only [] at hf
        have hpmem : p ∈ lr := follow_mem hcr hf
        have hip : i ≠ p := by
          rintro rfl
          have h2 : ¬ (ll ++ i :: lr).Nodup := by
            rw [List.nodup_append]
            intro h3
            rw [List.nodup_cons] at h3
            exact h3.2.1.1 hpmem
          exact h2 hnd
        obtain ⟨X, Y, lpl, lpr, F3, hsplit, hf1, hf2, hcert'⟩ :=
          ih hcr hndr hf hgp (fun x hx hxp => hagree x (by simp [hx]) hxp) hkp
        obtain ⟨ni', hgi', hl', hr'⟩ := kidsOf_some
          (show kidsOf s' i = some (n0.left, n0.right) by
            rw [hagree i (by simp) hip, kidsOf, hgn0]
            rfl)
        have hcl' : inorderIds s' n0.left f0 = some ll := by
          refine inorderIds_congr hcl ?_
          intro x hx
          refine hagree x (by simp [hx]) ?_
          rintro rfl
          have h2 : ¬ (ll ++ i :: lr).Nodup := by
            rw [List.nodup_append]
            intro h3
            exact h3.2.2 hx (by simp [hpmem])
          exact h2 hnd
        refine ⟨ll ++ i :: X, Y, lpl, lpr, max F3 f0 + 1, ?_, hf1, hf2, ?_⟩
        · rw [hsplit]
          simp
        · rw [inorderIds, hgi']
          simp only []
          rw [hl', hr']
          rw [inorderIds_mono hcl' (Nat.le_max_right _ _),
            inorderIds_mono hcert' (Nat.le_max_left _ _)]
          simp

end BT

namespace BT

/-- Lookup in an appended arena: the first block wins. -/
theorem lookupN_append {ns ms : List (Nat × Node)} {i : Nat} :
    lookupN (ns ++ ms) i =
      match lookupN ns i with
      | some n => some n
      | none => lookupN ms i := by
  induction ns with
  | nil => simp [lookupN]
  | cons pr rest ih =>
    obtain ⟨j, n⟩ := pr
    rw [List.cons_append, lookupN, lookupN]
    by_cases hj : j = i
    · simp only [if_pos hj]
    · simp only [if_neg hj]
      rw [ih]

/-- An id outside the arena's id list has no node. -/
theorem lookupN_not_mem {ns : List (Nat × Node)} {i : Nat}
    (h : i ∉ ns.map Prod.fst) : lookupN ns i = none := by
  cases hl : lookupN ns i with
  | none => rfl
  | some n =>
    exact absurd (lookupN_isSome_mem (by rw [hl]; rfl)) h

/-- Updating an allocated id stores the new node at it. -/
theorem lookupN_updateN_self {ns : List (Nat × Node)} {i : Nat} {m : Node}
    (h : (lookupN ns i).isSome) : lookupN (updateN ns i m) i = some m := by
  induction ns with
  | nil => simp [lookupN] at h
  | cons pr rest ih =>
    obtain ⟨j, n⟩ := pr
    rw [lookupN] at h
    rw [updateN]
    by_cases hj : j = i
    · rw [if_pos hj, lookupN, if_pos hj]
    · rw [if_neg hj] at h
      rw [if_neg hj, lookupN, if_neg hj]
      exact ih h

/-- Updating one id leaves every other lookup unchanged. -/
theorem lookupN_updateN_other {ns : List (Nat × Node)} {i j : Nat} {m : Node}
    (h : j ≠ i) : lookupN (updateN ns i m) j = lookupN ns j := by
  induction ns with
  | nil => rfl
  | cons pr rest ih =>
    obtain ⟨j0, n⟩ := pr
    rw [updateN]
    by_cases hj : j0 = i
    · rw [if_pos hj, lookupN, lookupN]
      rw [hj]
      rw [if_neg (by omega), if_neg (by omega)]
    · rw [if_neg hj, lookupN, lookupN]
      by_cases hj2 : j0 = j
      · rw [if_pos hj2, if_pos hj2]
      · rw [if_neg hj2, if_neg hj2]
        exact ih

/-- The update does not change the arena's id list. -/
theorem updateN_map_fst {ns : List (Nat × Node)} {i : Nat} {m : Node} :
    (updateN ns i m).map Prod.fst = ns.map Prod.fst := by
  induction ns with
  | nil => rfl
  | cons pr rest ih =>
    obtain ⟨j, n⟩ := pr
    rw [updateN]
    by_cases hj : j = i
    · rw [if_pos hj]
      simp
    · rw [if_neg hj]
      simpa using ih

/-- The certificate of an absent subtree is the empty list. -/
theorem inorderIds_none_nil {s : Tree} {fuel : Nat} {l : List Nat}
    (h : inorderIds s none fuel = some l) : l = [] := by
  cases fuel with
  | zero => simp [inorderIds] at h
  | succ f =>
    rw [inorderIds] at h
    simpa using h.symm

/-- Characterization of `insert`'s descent: it either reports the empty
tree or lands on a reachable node whose slot on the comparison side is
free. -/
theorem insertLoop_char {s : Tree} {v : Int} :
    ∀ {g : Nat} {cur prev : Option Nat} {res : Option Nat},
      insertLoop s v prev cur g = .ok res →
      (cur = none ∧ res = prev) ∨
      (∃ p pn dsP, res = some p ∧ getNode s p = some pn ∧
        followFrom s cur dsP = some p ∧
        ((v < pn.key ∧ pn.left = none) ∨ (¬ v < pn.key ∧ pn.right = none))) := by
  intro g
  induction g with
  | zero => intro cur prev res h; simp [insertLoop] at h
  | succ g ih =>
    intro cur prev res h
    cases cur with
    | none =>
      rw [insertLoop] at h
      simp only [Except.ok.injEq] at h
      exact Or.inl ⟨rfl, h.symm⟩
    | some i =>
      rw [insertLoop] at h
      cases hgn : getN s i with
      | error e => rw [hgn, errBind] at h; simp at h
      | ok n =>
        rw [hgn, okBind] at h
        have hgn2 := getN_ok hgn
        by_cases hlt : v < n.key
        · rw [if_pos hlt] at h
          rcases ih h with ⟨hnone, hres⟩ | ⟨p, pn, dsP, hres, hgp, hf, hcond⟩
          · refine Or.inr ⟨i, n, [], hres, hgn2, ?_, Or.inl ⟨hlt, hnone⟩⟩
            rw [followFrom]
          · refine Or.inr ⟨p, pn, Dir.L :: dsP, hres, hgp, ?_, hcond⟩
            rw [followFrom, hgn2]
            simp only []
            exact hf
        · rw [if_neg hlt] at h
          rcases ih h with ⟨hnone, hres⟩ | ⟨p, pn, dsP, hres, hgp, hf, hcond⟩
          · refine Or.inr ⟨i, n, [], hres, hgn2, ?_, Or.inr ⟨hlt, hnone⟩⟩
            rw [followFrom]
          · refine Or.inr ⟨p, pn, Dir.R :: dsP, hres, hgp, ?_, hcond⟩
            rw [followFrom, hgn2]
            simp only []
            exact hf

end BT


namespace BT

/-- A fresh allocation counter differs from every allocated id. -/
theorem fresh_ne {s : Tree} (hfresh : freshChk s = true) {i : Nat}
    (h : (getNode s i).isSome) : i ≠ s.nextId := by
  have hmem := lookupN_isSome_mem h
  unfold freshChk at hfresh
  have hall := List.all_eq_true.mp hfresh
  obtain ⟨pr, hpr, hpri⟩ := List.mem_map.mp hmem
  have h2 := hall pr hpr
  simp only [decide_eq_true_eq] at h2
  omega

/-- The allocation counter itself is unallocated. -/
theorem fresh_not_alloc {s : Tree} (hfresh : freshChk s = true) :
    getNode s s.nextId = none := by
  cases h : getNode s s.nextId with
  | none => rfl
  | some n =>
    exact absurd rfl (fresh_ne hfresh (by rw [h]; rfl))

/-- Every listed node of the root certificate is allocated. -/
theorem mem_reach_alloc {s : Tree} {l : List Nat} (hr : reachIds s = some l)
    {i : Nat} (hi : i ∈ l) : ∃ n, getNode s i = some n :=
  Option.isSome_iff_exists.mp
    (inorderIds_mem_isSome (show inorderIds s s.root (opFuel s) = some l from hr) i hi)

/-- The root of a certified nonempty tree is listed. -/
theorem root_mem_reach {s : Tree} {l : List Nat} (hr : reachIds s = some l)
    {r : Nat} (hroot : s.root = some r) : r ∈ l := by
  have hr' : inorderIds s s.root (opFuel s) = some l := hr
  rw [hroot] at hr'
  obtain ⟨_, _, _, _, _, _, _, _, rfl⟩ := inorderIds_decomp hr'
  simp

end BT

namespace BT

/-- `insert` rephrased through `attachState`. -/
theorem insert_eq_general (s : Tree) (v : Int) (g : Nat) :
    insert s v g =
      (insertLoop s v none s.root g).bind (fun res =>
        match res with
        | none => .ok { attachState s v none with root := some s.nextId }
        | some p =>
          (getN (attachState s v (some p)) p).bind (fun pn =>
            if v < pn.key then
              .ok (setNode (attachState s v (some p)) p { pn with left := some s.nextId })
            else
              .ok (setNode (attachState s v (some p)) p { pn with right := some s.nextId }))) := by
  unfold insert attachState
  cases insertLoop s v none s.root g with
  | error e => rfl
  | ok res =>
    cases res with
    | none => rfl
    | some p => rfl

end BT

namespace BT

/-- A childless allocated node enumerates as a singleton. -/
theorem inorderIds_leaf {t : Tree} {i : Nat} {n : Node}
    (hg : getNode t i = some n) (hl : n.left = none) (hr : n.right = none) :
    ∀ f, inorderIds t (some i) (f + 2) = some [i] := by
  intro f
  show inorderIds t (some i) (f + 1 + 1) = some [i]
  rw [inorderIds, hg]
  simp only []
  rw [hl, hr]
  have hnone : inorderIds t none (f + 1) = some [] := by rw [inorderIds]
  rw [hnone]
  rfl

/-- After `insert` writes the parent's child slot, reading the parent
back yields the written node. -/
theorem attach_set_self {s : Tree} {p : Nat} {pn : Node}
    (hgp : getNode s p = some pn) (v : Int) (pn' : Node) :
    getNode (setNode (attachState s v (some p)) p pn') p = some pn' := by
  show lookupN (updateN
    (s.nodes ++ [(s.nextId, { key := v, left := none, parent := some p, right := none })])
    p pn') p = some pn'
  refine lookupN_updateN_self ?_
  rw [lookupN_append, show lookupN s.nodes p = some pn from hgp]
  rfl

/-- After `insert` writes the parent's child slot, the fresh leaf is
still stored at the fresh id. -/
theorem attach_set_fresh {s : Tree} (hfresh : freshChk s = true) {p : Nat} {pn : Node}
    (hgp : getNode s p = some pn) (v : Int) (pn' : Node) :
    getNode (setNode (attachState s v (some p)) p pn') s.nextId =
      some { key := v, left := none, parent := some p, right := none } := by
  have hne : p ≠ s.nextId := fresh_ne hfresh (by rw [hgp]; rfl)
  show lookupN (updateN
    (s.nodes ++ [(s.nextId, { key := v, left := none, parent := some p, right := none })])
    p pn') s.nextId = _
  rw [lookupN_updateN_other (Ne.symm hne)]
  rw [lookupN_append, show lookupN s.nodes s.nextId = none from fresh_not_alloc hfresh]
  simp [lookupN]

/-- Every other id reads as before the insertion. -/
theorem attach_set_other {s : Tree} {p : Nat} (v : Int) (pn' : Node) {x : Nat}
    (hxp : x ≠ p) (hxn : x ≠ s.nextId) :
    getNode (setNode (attachState s v (some p)) p pn') x = getNode s x := by
  show lookupN (updateN
    (s.nodes ++ [(s.nextId, { key := v, left := none, parent := some p, right := none })])
    p pn') x = lookupN s.nodes x
  rw [lookupN_updateN_other hxp, lookupN_append]
  cases hlx : lookupN s.nodes x with
  | some n => rfl
  | none =>
    show lookupN [(s.nextId, { key := v, left := none, parent := some p, right := none })] x
      = none
    simp [lookupN, Ne.symm hxn]

/-- Child pointers of the previously listed nodes other than the parent
are untouched by the insertion. -/
theorem attach_set_kids_agree {s : Tree} {l : List Nat} (hr : reachIds s = some l)
    (hfresh : freshChk s = true) {p : Nat} (v : Int) (pn' : Node) :
    ∀ x ∈ l, x ≠ p → kidsOf (setNode (attachState s v (some p)) p pn') x = kidsOf s x := by
  intro x hx hxp
  obtain ⟨nx, hgx⟩ := mem_reach_alloc hr hx
  have hxn : x ≠ s.nextId := fresh_ne hfresh (by rw [hgx]; rfl)
  unfold kidsOf
  rw [attach_set_other v pn' hxp hxn]

/-- The parent-link invariant of the state after `insert` links the
fresh leaf under an existing parent, given an enumeration certificate
drawing only on the fresh id and the previously listed ids. -/
theorem attach_parentInv_general {s : Tree} {l : List Nat} {p : Nat} {pn pn' : Node}
    {v : Int}
    (hr : reachIds s = some l) (hpc : parentChk s = true)
    (hfresh : freshChk s = true)
    (hgp : getNode s p = some pn)
    (hparent : pn'.parent = pn.parent)
    (hnidslot : pn'.left = some s.nextId ∨ pn'.right = some s.nextId)
    (hold : ∀ x, pn.left = some x ∨ pn.right = some x →
      pn'.left = some x ∨ pn'.right = some x)
    (hcert : ∃ F L, inorderIds (setNode (attachState s v (some p)) p pn') s.root F = some L ∧
      ∀ x ∈ L, x = s.nextId ∨ x ∈ l) :
    parentInv (setNode (attachState s v (some p)) p pn') := by
  obtain ⟨F, L, hcert, hsub⟩ := hcert
  have hg2p := attach_set_self hgp v pn'
  have hg2nid := attach_set_fresh hfresh hgp v pn'
  refine parentInv_of_listed
    (show inorderIds (setNode (attachState s v (some p)) p pn')
      (setNode (attachState s v (some p)) p pn').root F = some L from hcert) ?_ ?_
  · intro x hx n q hg2x hq
    rcases hsub x hx with rfl | hxl
    · rw [hg2nid] at hg2x
      injection hg2x with h
      subst h
      have hq' : some p = some q := hq
      injection hq' with h2
      subst h2
      exact ⟨pn', hg2p, hnidslot⟩
    · obtain ⟨nx, hgx⟩ := mem_reach_alloc hr hxl
      have hxn : x ≠ s.nextId := fresh_ne hfresh (by rw [hgx]; rfl)
      by_cases hxp : x = p
      · rw [hxp] at hg2x hxl ⊢
        rw [hg2p] at hg2x
        injection hg2x with h
        subst h
        have hqs : pn.parent = some q := by rw [← hparent]; exact hq
        obtain ⟨qn, hgq, hslot⟩ := parent_slot_of_mem hpc hr hxl hgp hqs
        have hqn2 : q ≠ s.nextId := fresh_ne hfresh (by rw [hgq]; rfl)
        by_cases hqp : q = p
        · rw [hqp] at hgq
          rw [hgp] at hgq
          injection hgq with h2
          subst h2
          rw [hqp]
          exact ⟨pn', hg2p, hold p hslot⟩
        · rw [← attach_set_other v pn' hqp hqn2] at hgq
          exact ⟨qn, hgq, hslot⟩
      · rw [attach_set_other v pn' hxp hxn, hgx] at hg2x
        injection hg2x with h
        subst h
        obtain ⟨qn, hgq, hslot⟩ := parent_slot_of_mem hpc hr hxl hgx hq
        have hqn2 : q ≠ s.nextId := fresh_ne hfresh (by rw [hgq]; rfl)
        by_cases hqp : q = p
        · rw [hqp] at hgq
          rw [hgp] at hgq
          injection hgq with h2
          subst h2
          rw [hqp]
          exact ⟨pn', hg2p, hold x hslot⟩
        · rw [← attach_set_other v pn' hqp hqn2] at hgq
          exact ⟨qn, hgq, hslot⟩
  · intro r rn hrt hgr
    have hrt' : s.root = some r := hrt
    have hrl : r ∈ l := root_mem_reach hr hrt'
    obtain ⟨rn0, hgr0⟩ := mem_reach_alloc hr hrl
    have hrp2 := parentChk_root hpc hrt'
    by_cases hrp : r = p
    · rw [hrp] at hgr hrp2
      rw [hg2p] at hgr
      injection hgr with h
      subst h
      rw [hparent]
      rw [hgp] at hrp2
      simpa using hrp2
    · have hrn : r ≠ s.nextId := fresh_ne hfresh (by rw [hgr0]; rfl)
      rw [attach_set_other v pn' hrp hrn, hgr0] at hgr
      injection hgr with h
      subst h
      rw [hgr0] at hrp2
      simpa using hrp2

/-- Inserting into the empty tree yields a single parentless root, which
satisfies the parent-link invariant. -/
theorem insert_empty_parentInv {s : Tree} (hfresh : freshChk s = true) (v : Int) :
    parentInv { attachState s v none with root := some s.nextId } := by
  have hg : getNode ({ attachState s v none with root := some s.nextId } : Tree) s.nextId =
      some { key := v, left := none, parent := none, right := none } := by
    show lookupN
      (s.nodes ++ [(s.nextId, { key := v, left := none, parent := none, right := none })])
      s.nextId = _
    rw [lookupN_append, show lookupN s.nodes s.nextId = none from fresh_not_alloc hfresh]
    simp [lookupN]
  constructor
  · intro r rn hrt hgr
    have hrt' : some s.nextId = some r := hrt
    injection hrt' with h
    subst h
    rw [hg] at hgr
    injection hgr with h2
    subst h2
    rfl
  · intro ds i n q hf hgn hq
    cases ds with
    | nil =>
      have hf' : some s.nextId = some i := hf
      injection hf' with h
      subst h
      rw [hg] at hgn
      injection hgn with h2
      subst h2
      exact absurd (show (none : Option Nat) = some q from hq) (by simp)
    | cons d ds' =>
      have hf' : followFrom ({ attachState s v none with root := some s.nextId } : Tree)
        (some s.nextId) (d :: ds') = some i := hf
      rw [followFrom, hg] at hf'
      cases d with
      | L =>
        have hf2 : followFrom ({ attachState s v none with root := some s.nextId } : Tree)
          none ds' = some i := hf'
        rw [followFrom_none] at hf2
        exact absurd hf2 (by simp)
      | R =>
        have hf2 : followFrom ({ attachState s v none with root := some s.nextId } : Tree)
          none ds' = some i := hf'
        rw [followFrom_none] at hf2
        exact absurd hf2 (by simp)

/-- `BinaryTree::insert` preserves the parent-link invariant on any
certified state. -/
theorem insert_preserves_parentInv {s : Tree} {l : List Nat} {v : Int} {g : Nat} {s' : Tree}
    (hr : reachIds s = some l) (hnd : l.Nodup)
    (hpc : parentChk s = true) (hfresh : freshChk s = true)
    (hins : insert s v g = .ok s') : parentInv s' := by
  rw [insert_eq_general] at hins
  cases hloop : insertLoop s v none s.root g with
  | error e =>
    rw [hloop] at hins
    exact absurd (show (Except.error e : Except Err Tree) = .ok s' from hins) (by simp)
  | ok res =>
    rw [hloop] at hins
    cases res with
    | none =>
      have h2 : (Except.ok { attachState s v none with root := some s.nextId } :
        Except Err Tree) = Except.ok s' := hins
      injection h2 with h3
      subst h3
      exact insert_empty_parentInv hfresh v
    | some p =>
      rcases insertLoop_char hloop with ⟨_, hres⟩ | ⟨p2, pn, dsP, hres, hgp, hfol, hcond⟩
      · exact absurd hres (by simp)
      · injection hres with hres2
        subst hres2
        have hgA : getN (attachState s v (some p)) p = .ok pn := by
          show (match lookupN
              (s.nodes ++ [(s.nextId, { key := v, left := none, parent := some p, right := none })])
              p with
            | some n => (Except.ok n : Except Err Node)
            | none => Except.error Err.nullDeref) = Except.ok pn
          rw [lookupN_append, show lookupN s.nodes p = some pn from hgp]
        have hins3 : (if v < pn.key then
            Except.ok (setNode (attachState s v (some p)) p { pn with left := some s.nextId })
          else
            Except.ok (setNode (attachState s v (some p)) p { pn with right := some s.nextId }))
            = (Except.ok s' : Except Err Tree) := by
          have h2 : (getN (attachState s v (some p)) p).bind (fun pn =>
              if v < pn.key then
                Except.ok (setNode (attachState s v (some p)) p { pn with left := some s.nextId })
              else
                Except.ok (setNode (attachState s v (some p)) p { pn with right := some s.nextId }))
              = (Except.ok s' : Except Err Tree) := hins
          rw [hgA] at h2
          exact h2
        have hr' : inorderIds s s.root (opFuel s) = some l := hr
        rcases hcond with ⟨hvlt, hfree⟩ | ⟨hnlt, hfree⟩
        · rw [if_pos hvlt] at hins3
          injection hins3 with h4
          subst h4
          have hnewcert := inorderIds_leaf
            (attach_set_fresh hfresh hgp v { pn with left := some s.nextId }) rfl rfl 0
          have hkp : kidsOf (setNode (attachState s v (some p)) p
              { pn with left := some s.nextId }) p = some (some s.nextId, pn.right) := by
            unfold kidsOf
            rw [attach_set_self hgp v { pn with left := some s.nextId }]
            rfl
          obtain ⟨X, Y, lpl, lpr, F3, hdec, hlplE, hlprE, hcert2⟩ :=
            @inorderIds_splice _ _ Dir.L _ _ _ hnewcert _ _ _ _ _ hr' hnd hfol _ hgp
              (attach_set_kids_agree hr hfresh v _) hkp
          have hcert2' : inorderIds
              (setNode (attachState s v (some p)) p { pn with left := some s.nextId })
              s.root F3 = some (X ++ ([s.nextId] ++ p :: lpr) ++ Y) := hcert2
          refine attach_parentInv_general hr hpc hfresh hgp rfl (Or.inl rfl) ?_
            ⟨F3, _, hcert2', ?_⟩
          · intro x hsl
            rcases hsl with hL | hR
            · rw [hfree] at hL
              exact absurd hL (by simp)
            · exact Or.inr hR
          · intro x hx
            rw [hdec]
            simp only [List.mem_append, List.mem_cons, List.mem_singleton,
              List.not_mem_nil, or_false] at hx ⊢
            tauto
        · rw [if_neg hnlt] at hins3
          injection hins3 with h4
          subst h4
          have hnewcert := inorderIds_leaf
            (attach_set_fresh hfresh hgp v { pn with right := some s.nextId }) rfl rfl 0
          have hkp : kidsOf (setNode (attachState s v (some p)) p
              { pn with right := some s.nextId }) p = some (pn.left, some s.nextId) := by
            unfold kidsOf
            rw [attach_set_self hgp v { pn with right := some s.nextId }]
            rfl
          obtain ⟨X, Y, lpl, lpr, F3, hdec, hlplE, hlprE, hcert2⟩ :=
            @inorderIds_splice _ _ Dir.R _ _ _ hnewcert _ _ _ _ _ hr' hnd hfol _ hgp
              (attach_set_kids_agree hr hfresh v _) hkp
          have hcert2' : inorderIds
              (setNode (attachState s v (some p)) p { pn with right := some s.nextId })
              s.root F3 = some (X ++ (lpl ++ p :: [s.nextId]) ++ Y) := hcert2
          refine attach_parentInv_general hr hpc hfresh hgp rfl (Or.inr rfl) ?_
            ⟨F3, _, hcert2', ?_⟩
          · intro x hsl
            rcases hsl with hL | hR
            · exact Or.inl hL
            · rw [hfree] at hR
              exact absurd hR (by simp)
          · intro x hx
            rw [hdec]
            simp only [List.mem_append, List.mem_cons, List.mem_singleton,
              List.not_mem_nil, or_false] at hx ⊢
            tauto

end BT

namespace BT

/-- The parent-link invariant follows from a predicate that holds at the
root, is closed under child pointers, and implies parent-slot
consistency pointwise — no enumeration of the final state is needed. -/
theorem parentInv_of_closedP {s : Tree} {P : Nat → Prop}
    (hroot : ∀ r, s.root = some r → P r)
    (hrootp : ∀ r rn, s.root = some r → getNode s r = some rn → rn.parent = none)
    (hclosed : ∀ x, P x → ∃ n, getNode s x = some n ∧
      (∀ c, n.left = some c → P c) ∧ (∀ c, n.right = some c → P c) ∧
      (∀ q, n.parent = some q → ∃ qn, getNode s q = some qn ∧
        (qn.left = some x ∨ qn.right = some x))) :
    parentInv s := by
  have key : ∀ ds x, P x → ∀ i, followFrom s (some x) ds = some i → P i := by
    intro ds
    induction ds with
    | nil =>
      intro x hx i hf
      rw [followFrom] at hf
      injection hf with h
      subst h
      exact hx
    | cons d ds ih =>
      intro x hx i hf
      obtain ⟨n, hgx, hcl, hcr, _⟩ := hclosed x hx
      rw [followFrom, hgx] at hf
      simp only [] at hf
      cases d with
      | L =>
        simp only [] at hf
        cases hnl : n.left with
        | none => rw [hnl, followFrom_none] at hf; exact absurd hf (by simp)
        | some c =>
          rw [hnl] at hf
          exact ih c (hcl c hnl) i hf
      | R =>
        simp only [] at hf
        cases hnr : n.right with
        | none => rw [hnr, followFrom_none] at hf; exact absurd hf (by simp)
        | some c =>
          rw [hnr] at hf
          exact ih c (hcr c hnr) i hf
  constructor
  · exact hrootp
  · intro ds i n q hf hgn hq
    cases hroot0 : s.root with
    | none =>
      have hf' : followFrom s none ds = some i := by
        rw [← hroot0]
        exact hf
      rw [followFrom_none] at hf'
      exact absurd hf' (by simp)
    | some r =>
      have hf' : followFrom s (some r) ds = some i := by
        rw [← hroot0]
        exact hf
      have hPi := key ds r (hroot r hroot0) i hf'
      obtain ⟨n', hgx, _, _, hcons⟩ := hclosed i hPi
      rw [hgn] at hgx
      injection hgx with h
      subst h
      exact hcons q hq

/-- A rootless state satisfies the parent-link invariant vacuously. -/
theorem parentInv_root_none {s : Tree} (h : s.root = none) : parentInv s := by
  constructor
  · intro r rn hr hgr
    rw [h] at hr
    exact absurd hr (by simp)
  · intro ds i n q hf hgn hq
    have hf' : followFrom s none ds = some i := by
      rw [← h]
      exact hf
    rw [followFrom_none] at hf'
    exact absurd hf' (by simp)

/-- Children of listed nodes are listed. -/
theorem children_mem {s : Tree} {fuel : Nat} {cur : Option Nat} {L : List Nat}
    (hc : inorderIds s cur fuel = some L) {x : Nat} (hx : x ∈ L) {n : Node}
    (hgx : getNode s x = some n) :
    (∀ c, n.left = some c → c ∈ L) ∧ (∀ c, n.right = some c → c ∈ L) := by
  obtain ⟨ds, _, hf⟩ := inorder_mem_follow hc x hx
  constructor
  · intro c hcl
    refine @follow_mem s (ds ++ [Dir.L]) cur fuel L c hc ?_
    rw [followFrom_append, hf, followFrom, hgx]
    simp only []
    rw [hcl, followFrom]
  · intro c hcr
    refine @follow_mem s (ds ++ [Dir.R]) cur fuel L c hc ?_
    rw [followFrom_append, hf, followFrom, hgx]
    simp only []
    rw [hcr, followFrom]

/-- Two successful enumerations of the same pointer agree. -/
theorem cert_unique {s : Tree} {cur : Option Nat} {f1 f2 : Nat} {l1 l2 : List Nat}
    (h1 : inorderIds s cur f1 = some l1) (h2 : inorderIds s cur f2 = some l2) :
    l1 = l2 := by
  have h1' := inorderIds_mono h1 (Nat.le_add_right f1 f2)
  have h2' := inorderIds_mono h2 (by omega : f2 ≤ f1 + f2)
  rw [h1'] at h2'
  injection h2' with h

/-- Every listed node carries a certificate of its own subtree that is a
sublist of the enclosing list. -/
theorem mem_subtree_cert {s : Tree} {fuel : Nat} {cur : Option Nat} {L : List Nat}
    (hc : inorderIds s cur fuel = some L) {y : Nat} (hy : y ∈ L) :
    ∃ fy ly, inorderIds s (some y) fy = some ly ∧ ly.Sublist L := by
  obtain ⟨ds, _, hf⟩ := inorder_mem_follow hc y hy
  obtain ⟨fy, ly, X, Y, hcy, hsplit⟩ := follow_embed hc hf
  refine ⟨fy, ly, hcy, ?_⟩
  rw [hsplit, List.append_assoc]
  exact (List.sublist_append_left ly Y).trans (List.sublist_append_right X (ly ++ Y))

/-- A node never appears in the certified subtree of one of its own
children. -/
theorem subtree_avoid {s : Tree} {x : Nat} {fx : Nat} {lx : List Nat}
    (hc : inorderIds s (some x) fx = some lx) (hnd : lx.Nodup) {n : Node}
    (hgx : getNode s x = some n) :
    (∀ c, n.left = some c → ∀ {fc lc}, inorderIds s (some c) fc = some lc → x ∉ lc) ∧
    (∀ c, n.right = some c → ∀ {fc lc}, inorderIds s (some c) fc = some lc → x ∉ lc) := by
  obtain ⟨f0, n0, ll, lr, hfe, hgn0, hcl, hcr, heq⟩ := inorderIds_decomp hc
  have hn0 : n0 = n := by
    rw [hgx] at hgn0
    injection hgn0 with h
    exact h.symm
  subst hn0
  subst heq
  rw [List.nodup_append] at hnd
  constructor
  · intro c hlc fc lc hcc
    rw [hlc] at hcl
    have hueq := cert_unique hcc hcl
    subst hueq
    intro hxin
    exact hnd.2.2 hxin (by simp)
  · intro c hrc fc lc hcc
    rw [hrc] at hcr
    have hueq := cert_unique hcc hcr
    subst hueq
    intro hxin
    have hx2 : x ∈ x :: lc := by simp
    rw [List.nodup_cons] at hnd
    exact hnd.2.1.1 hxin

end BT

namespace BT

/-- Overwriting an id twice keeps only the second write. -/
theorem updateN_updateN {ns : List (Nat × Node)} {i : Nat} {a b : Node} :
    updateN (updateN ns i a) i b = updateN ns i b := by
  induction ns with
  | nil => rfl
  | cons pr rest ih =>
    obtain ⟨j, n⟩ := pr
    rw [updateN]
    by_cases hj : j = i
    · rw [if_pos hj, updateN, if_pos hj, updateN, if_pos hj]
    · rw [if_neg hj, updateN, if_neg hj, updateN, if_neg hj, ih]

/-- Writing back the stored node changes nothing. -/
theorem updateN_id {ns : List (Nat × Node)} {i : Nat} {m : Node}
    (h : lookupN ns i = some m) : updateN ns i m = ns := by
  induction ns with
  | nil => rfl
  | cons pr rest ih =>
    obtain ⟨j, n⟩ := pr
    rw [lookupN] at h
    rw [updateN]
    by_cases hj : j = i
    · rw [if_pos hj] at h ⊢
      injection h with h2
      rw [h2]
    · rw [if_neg hj] at h ⊢
      rw [ih h]

/-- Double write at one id collapses to the last write. -/
theorem setNode_setNode {s : Tree} {i : Nat} {a b : Node} :
    setNode (setNode s i a) i b = setNode s i b := by
  unfold setNode
  simp only [updateN_updateN]

/-- Writing back a node's stored value is the identity. -/
theorem setNode_id {s : Tree} {i : Nat} {m : Node} (h : getNode s i = some m) :
    setNode s i m = s := by
  unfold setNode
  rw [updateN_id h]

/-- The parent of a listed node is listed. -/
theorem parent_mem_reach {s : Tree} {l : List Nat} (hpc : parentChk s = true)
    (hr : reachIds s = some l) {x : Nat} (hx : x ∈ l) {n : Node} {q : Nat}
    (hgx : getNode s x = some n) (hq : n.parent = some q) : q ∈ l := by
  have hr' : inorderIds s s.root (opFuel s) = some l := hr
  obtain ⟨ds, _, hf⟩ := inorder_mem_follow hr' x hx
  rcases List.eq_nil_or_concat ds with rfl | ⟨p0, d, rfl⟩
  · rw [followFrom] at hf
    have hp := parentChk_root hpc hf
    rw [hgx] at hp
    simp only [Option.map_some', Option.some.injEq] at hp
    rw [hp] at hq
    exact absurd hq (by simp)
  · rw [List.concat_eq_append] at hf
    obtain ⟨a, an, jn, hfa, hga, hgj, hpar, _⟩ := parent_of_snoc hpc hr hf
    have hjn : jn = n := by
      rw [hgx] at hgj
      injection hgj with h
      exact h.symm
    subst hjn
    rw [hpar] at hq
    injection hq with hq2
    subst hq2
    exact follow_mem hr' hfa

end BT

namespace BT

/-- Characterization of `min`'s walk: it ends at a node with no left
child, reached by an all-left path, whose last step (if any) enters a
left slot. -/
theorem minLoop_char {s : Tree} :
    ∀ {g r m : Nat}, minLoop s r g = .ok m →
      ∃ mn, getNode s m = some mn ∧ mn.left = none ∧
        (∃ k, followFrom s (some r) (List.replicate k Dir.L) = some m) ∧
        (m = r ∨ ∃ pm pmn, getNode s pm = some pmn ∧ pmn.left = some m) := by
  intro g
  induction g with
  | zero => intro r m h; simp [minLoop] at h
  | succ g ih =>
    intro r m h
    rw [minLoop] at h
    cases hgn : getN s r with
    | error e => rw [hgn, errBind] at h; simp at h
    | ok n =>
      rw [hgn, okBind] at h
      have hg2 := getN_ok hgn
      cases hnl : n.left with
      | none =>
        rw [hnl] at h
        simp only [Except.ok.injEq] at h
        subst h
        exact ⟨n, hg2, hnl, ⟨0, rfl⟩, Or.inl rfl⟩
      | some lc =>
        rw [hnl] at h
        obtain ⟨mn, hgm, hml, ⟨k, hpath⟩, hlast⟩ := ih h
        refine ⟨mn, hgm, hml, ⟨k + 1, ?_⟩, ?_⟩
        · rw [List.replicate_succ, followFrom, hg2]
          simp only []
          rw [hnl]
          exact hpath
        · rcases hlast with rfl | hrest
          · exact Or.inr ⟨r, n, hg2, hnl⟩
          · exact Or.inr hrest

/-- Unfolding of a successful order certificate at a node. -/
theorem bstKeys_decomp {s : Tree} {i : Nat} {fuel : Nat} {K : List Int}
    (h : bstKeys s (some i) fuel = some K) :
    ∃ fuel' n kl kr, fuel = fuel' + 1 ∧ getNode s i = some n ∧
      bstKeys s n.left fuel' = some kl ∧ bstKeys s n.right fuel' = some kr ∧
      (∀ x ∈ kl, x < n.key) ∧ (∀ x ∈ kr, n.key ≤ x) ∧
      K = kl ++ n.key :: kr := by
  match fuel with
  | 0 => simp [bstKeys] at h
  | fuel + 1 =>
    rw [bstKeys] at h
    cases hg : getNode s i with
    | none => rw [hg] at h; simp at h
    | some n =>
      rw [hg] at h
      simp only [] at h
      cases hkl : bstKeys s n.left fuel with
      | none =>
        cases hkr : bstKeys s n.right fuel with
        | none => rw [hkl, hkr] at h; simp at h
        | some kr => rw [hkl, hkr] at h; simp at h
      | some kl =>
        cases hkr : bstKeys s n.right fuel with
        | none => rw [hkl, hkr] at h; simp at h
        | some kr =>
          rw [hkl, hkr] at h
          simp only [] at h
          by_cases hcond :
            (kl.all (fun x => decide (x < n.key)) && kr.all (fun x => decide (n.key ≤ x))) = true
          · rw [if_pos hcond] at h
            simp only [Option.some.injEq] at h
            rw [Bool.and_eq_true] at hcond
            refine ⟨fuel, n, kl, kr, rfl, rfl, hkl, hkr, ?_, ?_, h.symm⟩
            · intro x hx
              have h3 := List.all_eq_true.mp hcond.1 x hx
              simpa using h3
            · intro x hx
              have h3 := List.all_eq_true.mp hcond.2 x hx
              simpa using h3
          · rw [if_neg hcond] at h
            simp at h

/-- The order certificate lists exactly the keys of the in-order
enumeration. -/
theorem bst_inorder_keys {s : Tree} :
    ∀ {fuel : Nat} {cur : Option Nat} {L : List Nat} {K : List Int},
      inorderIds s cur fuel = some L → bstKeys s cur fuel = some K →
      K = L.map (keyOf s) := by
  intro fuel
  induction fuel with
  | zero => intro cur L K h1 h2; simp [inorderIds] at h1
  | succ fuel ih =>
    intro cur L K h1 h2
    cases cur with
    | none =>
      rw [inorderIds] at h1
      rw [bstKeys] at h2
      injection h1 with h1'
      injection h2 with h2'
      subst h1'
      subst h2'
      rfl
    | some i =>
      obtain ⟨f0, n, ll, lr, hfe, hg, hcl, hcr, rfl⟩ := inorderIds_decomp h1
      obtain ⟨f0', n', kl, kr, hfe', hg', hkl, hkr, _, _, rfl⟩ := bstKeys_decomp h2
      have hf0 : f0' = f0 := by omega
      subst hf0
      have hf1 : f0' = fuel := by omega
      subst hf1
      have hnn : n = n' := by
        rw [hg] at hg'
        injection hg'
      subst hnn
      have hKl := ih hcl hkl
      have hKr := ih hcr hkr
      subst hKl
      subst hKr
      have hki : keyOf s i = n.key := by
        unfold keyOf
        rw [hg]
      rw [List.map_append, List.map_cons, hki]

/-- The order certificate's list is weakly sorted. -/
theorem bst_sorted {s : Tree} :
    ∀ {fuel : Nat} {cur : Option Nat} {K : List Int},
      bstKeys s cur fuel = some K → List.Pairwise (· ≤ ·) K := by
  intro fuel
  induction fuel with
  | zero => intro cur K h; simp [bstKeys] at h
  | succ fuel ih =>
    intro cur K h
    cases cur with
    | none =>
      rw [bstKeys] at h
      injection h with h'
      subst h'
      exact List.Pairwise.nil
    | some i =>
      obtain ⟨f0, n, kl, kr, hfe, hg, hkl, hkr, hbl, hbr, rfl⟩ := bstKeys_decomp h
      have hf0 : f0 = fuel := by omega
      subst hf0
      rw [List.pairwise_append]
      refine ⟨ih hkl, ?_, ?_⟩
      · rw [List.pairwise_cons]
        exact ⟨hbr, ih hkr⟩
      · intro a ha b hb
        rcases List.mem_cons.mp hb with rfl | hb2
        · exact le_of_lt (hbl a ha)
        · exact le_of_lt (lt_of_lt_of_le (hbl a ha) (hbr b hb2))

/-- The search lands on the first in-order occurrence of the key. -/
theorem findv_first {s : Tree} {k : Int} :
    ∀ {g : Nat} {cur : Option Nat} {w : Nat},
      findValueLoop s k cur g = .ok (some w) →
      ∀ {f : Nat} {L : List Nat} {K : List Int},
        inorderIds s cur f = some L → bstKeys s cur f = some K →
        ∃ A B, L = A ++ w :: B ∧ keyOf s w = k ∧ ∀ j ∈ A, keyOf s j ≠ k := by
  intro g
  induction g with
  | zero => intro cur w h; simp [findValueLoop] at h
  | succ g ih =>
    intro cur w h f L K hc hk
    cases cur with
    | none =>
      rw [findValueLoop] at h
      simp at h
    | some i =>
      rw [findValueLoop] at h
      cases hgn : getN s i with
      | error e => rw [hgn, errBind] at h; simp at h
      | ok n =>
        rw [hgn, okBind] at h
        have hg2 := getN_ok hgn
        obtain ⟨f0, n0, ll, lr, hfe, hg0, hcl, hcr, rfl⟩ := inorderIds_decomp hc
        obtain ⟨f0', n0', kl, kr, hfe', hg0', hkl, hkr, hbl, hbr, hKeq⟩ := bstKeys_decomp hk
        have hff : f0' = f0 := by omega
        subst hff
        have hnn : n = n0 := by
          rw [hg2] at hg0
          injection hg0
        subst hnn
        have hnn' : n = n0' := by
          rw [hg2] at hg0'
          injection hg0'
        subst hnn'
        have hkeysl : kl = ll.map (keyOf s) := bst_inorder_keys hcl hkl
        by_cases hek : n.key = k
        · rw [if_pos hek] at h
          simp only [Except.ok.injEq, Option.some.injEq] at h
          subst h
          refine ⟨ll, lr, rfl, ?_, ?_⟩
          · unfold keyOf
            rw [hg2]
            simp only []
            exact hek
          · intro j hj
            have hjk : keyOf s j ∈ kl := by
              rw [hkeysl]
              exact List.mem_map_of_mem _ hj
            have h4 := hbl _ hjk
            rw [hek] at h4
            exact ne_of_lt h4
        · rw [if_neg hek] at h
          by_cases hlt : k < n.key
          · rw [if_pos hlt] at h
            obtain ⟨A, B, hsplit, hkw, hfree⟩ := ih h hcl hkl
            refine ⟨A, B ++ i :: lr, ?_, hkw, hfree⟩
            rw [hsplit]
            simp
          · rw [if_neg hlt] at h
            obtain ⟨A, B, hsplit, hkw, hfree⟩ := ih h hcr hkr
            refine ⟨ll ++ i :: A, B, ?_, hkw, ?_⟩
            · rw [hsplit]
              simp
            · have hnk : n.key < k := lt_of_le_of_ne (not_lt.mp hlt) hek
              intro j hj
              rcases List.mem_append.mp hj with hj2 | hj2
              · have hjk : keyOf s j ∈ kl := by
                  rw [hkeysl]
                  exact List.mem_map_of_mem _ hj2
                have h4 := hbl _ hjk
                exact ne_of_lt (lt_trans h4 hnk)
              · rcases List.mem_cons.mp hj2 with rfl | hj3
                · have hki : keyOf s j = n.key := by
                    unfold keyOf
                    rw [hg2]
                  rw [hki]
                  exact ne_of_lt hnk
                · exact hfree j hj3

/-- Two first-occurrence positions of the same key coincide. -/
theorem first_occ_eq {s : Tree} {k : Int} :
    ∀ {A L A' B B' : List Nat} {w w' : Nat},
      L = A ++ w :: B → L = A' ++ w' :: B' →
      keyOf s w = k → keyOf s w' = k →
      (∀ j ∈ A, keyOf s j ≠ k) → (∀ j ∈ A', keyOf s j ≠ k) → w = w' := by
  intro A
  induction A with
  | nil =>
    intro L A' B B' w w' h1 h2 hkw hkw' hfree hfree'
    subst h1
    cases A' with
    | nil =>
      rw [List.nil_append] at h2
      injection h2
    | cons a A2 =>
      rw [List.nil_append, List.cons_append] at h2
      injection h2 with h3 _
      exact absurd hkw (by rw [h3]; exact hfree' a (by simp))
  | cons a A2 ih =>
    intro L A' B B' w w' h1 h2 hkw hkw' hfree hfree'
    subst h1
    cases A' with
    | nil =>
      rw [List.nil_append] at h2
      rw [List.cons_append] at h2
      injection h2 with h3 _
      exact absurd hkw' (by rw [← h3]; exact hfree a (by simp))
    | cons a2 A2' =>
      rw [List.cons_append, List.cons_append] at h2
      injection h2 with h3 h4
      exact ih rfl h4 hkw hkw' (fun j hj => hfree j (by simp [hj]))
        (fun j hj => hfree' j (by simp [hj]))

end BT

namespace BT

/-- Read back the node just written. -/
theorem getNode_set_self {s : Tree} {i : Nat} {n0 : Node}
    (h : getNode s i = some n0) (m : Node) : getNode (setNode s i m) i = some m := by
  show lookupN (updateN s.nodes i m) i = some m
  refine lookupN_updateN_self ?_
  rw [show lookupN s.nodes i = some n0 from h]
  rfl

/-- Reads at other ids pass through a write. -/
theorem getNode_set_other {s : Tree} {i j : Nat} (h : j ≠ i) (m : Node) :
    getNode (setNode s i m) j = getNode s j := by
  show lookupN (updateN s.nodes i m) j = lookupN s.nodes j
  exact lookupN_updateN_other h

/-- Case analysis of a successful `transplant(old_node, new_node)`: the
root or the parent's matching child slot is rewritten to the new
pointer, and a present new node has its parent back-reference set to the
old node's parent. -/
theorem transplant_cases {s : Tree} {oldN : Nat} {c : Option Nat} {s' : Tree}
    (h : transplant s oldN c = .ok s') :
    ∃ s1,
      ((s.root = some oldN ∧ s1 = { s with root := c }) ∨
       (s.root ≠ some oldN ∧ ∃ od p pn, getNode s oldN = some od ∧ od.parent = some p ∧
         getNode s p = some pn ∧
         ((pn.left = some oldN ∧ s1 = setNode s p { pn with left := c }) ∨
          (pn.left ≠ some oldN ∧ s1 = setNode s p { pn with right := c })))) ∧
      ((c = none ∧ s' = s1) ∨
       (∃ nw od1 nn, c = some nw ∧ getNode s1 oldN = some od1 ∧ getNode s1 nw = some nn ∧
         s' = setNode s1 nw { nn with parent := od1.parent })) := by
  unfold transplant at h
  by_cases hroot : s.root = some oldN
  · rw [if_pos hroot, okBind] at h
    refine ⟨{ s with root := c }, Or.inl ⟨hroot, rfl⟩, ?_⟩
    cases c with
    | none =>
      simp only [] at h
      injection h with h2
      exact Or.inl ⟨rfl, h2.symm⟩
    | some nw =>
      simp only [] at h
      cases hgod : getN ({ s with root := some nw } : Tree) oldN with
      | error e => rw [hgod, errBind] at h; simp at h
      | ok od1 =>
        rw [hgod, okBind] at h
        cases hgnn : getN ({ s with root := some nw } : Tree) nw with
        | error e => rw [hgnn, errBind] at h; simp at h
        | ok nn =>
          rw [hgnn, okBind] at h
          injection h with h2
          exact Or.inr ⟨nw, od1, nn, rfl, getN_ok hgod, getN_ok hgnn, h2.symm⟩
  · rw [if_neg hroot] at h
    cases hgo : getN s oldN with
    | error e => rw [hgo, errBind] at h; simp [errBind] at h
    | ok od =>
      rw [hgo, okBind] at h
      cases hop : od.parent with
      | none =>
        rw [hop] at h
        rw [show deref (none : Option Nat) = Except.error Err.nullDeref from rfl, errBind] at h
        simp [errBind] at h
      | some p =>
        rw [hop] at h
        rw [show deref (some p) = Except.ok p from rfl, okBind] at h
        cases hgp : getN s p with
        | error e => rw [hgp, errBind] at h; simp [errBind] at h
        | ok pn =>
          rw [hgp, okBind] at h
          by_cases hslot : pn.left = some oldN
          · rw [if_pos hslot, okBind] at h
            refine ⟨setNode s p { pn with left := c },
              Or.inr ⟨hroot, od, p, pn, getN_ok hgo, hop, getN_ok hgp, Or.inl ⟨hslot, rfl⟩⟩, ?_⟩
            cases c with
            | none =>
              simp only [] at h
              injection h with h2
              exact Or.inl ⟨rfl, h2.symm⟩
            | some nw =>
              simp only [] at h
              cases hgod : getN (setNode s p { pn with left := some nw }) oldN with
              | error e => rw [hgod, errBind] at h; simp at h
              | ok od1 =>
                rw [hgod, okBind] at h
                cases hgnn : getN (setNode s p { pn with left := some nw }) nw with
                | error e => rw [hgnn, errBind] at h; simp at h
                | ok nn =>
                  rw [hgnn, okBind] at h
                  injection h with h2
                  exact Or.inr ⟨nw, od1, nn, rfl, getN_ok hgod, getN_ok hgnn, h2.symm⟩
          · rw [if_neg hslot, okBind] at h
            refine ⟨setNode s p { pn with right := c },
              Or.inr ⟨hroot, od, p, pn, getN_ok hgo, hop, getN_ok hgp, Or.inr ⟨hslot, rfl⟩⟩, ?_⟩
            cases c with
            | none =>
              simp only [] at h
              injection h with h2
              exact Or.inl ⟨rfl, h2.symm⟩
            | some nw =>
              simp only [] at h
              cases hgod : getN (setNode s p { pn with right := some nw }) oldN with
              | error e => rw [hgod, errBind] at h; simp at h
              | ok od1 =>
                rw [hgod, okBind] at h
                cases hgnn : getN (setNode s p { pn with right := some nw }) nw with
                | error e => rw [hgnn, errBind] at h; simp at h
                | ok nn =>
                  rw [hgnn, okBind] at h
                  injection h with h2
                  exact Or.inr ⟨nw, od1, nn, rfl, getN_ok hgod, getN_ok hgnn, h2.symm⟩

end BT

namespace BT

/-- Inside a certified subtree, every member other than the head sits in
some member's child slot. -/
theorem parent_inside {s : Tree} :
    ∀ {fuel : Nat} {cur : Option Nat} {L : List Nat},
      inorderIds s cur fuel = some L → ∀ c ∈ L,
        cur = some c ∨
        ∃ y ∈ L, ∃ yn, getNode s y = some yn ∧ (yn.left = some c ∨ yn.right = some c) := by
  intro fuel
  induction fuel with
  | zero => intro cur L h; simp [inorderIds] at h
  | succ fuel ih =>
    intro cur L h c hc
    cases cur with
    | none =>
      rw [inorderIds] at h
      injection h with h2
      subst h2
      simp at hc
    | some i =>
      obtain ⟨f0, n, ll, lr, hfe, hg, hcl, hcr, rfl⟩ := inorderIds_decomp h
      have hf0 : f0 = fuel := by omega
      subst hf0
      rcases List.mem_append.mp hc with hml | hmr
      · rcases ih hcl c hml with hcur | ⟨y, hy, yn, hgy, hslot⟩
        · exact Or.inr ⟨i, by simp, n, hg, Or.inl hcur⟩
        · exact Or.inr ⟨y, by simp [hy], yn, hgy, hslot⟩
      · rcases List.mem_cons.mp hmr with rfl | hmr2
        · exact Or.inl rfl
        · rcases ih hcr c hmr2 with hcur | ⟨y, hy, yn, hgy, hslot⟩
          · exact Or.inr ⟨i, by simp, n, hg, Or.inr hcur⟩
          · exact Or.inr ⟨y, by simp [hy], yn, hgy, hslot⟩

/-- Under the back-link check, subtree members other than the head have
their parent inside the subtree. -/
theorem subtree_parent_inside {s : Tree} {l : List Nat} (hpc : parentChk s = true)
    (hr : reachIds s = some l) {fx : Nat} {lx : List Nat} {x : Nat}
    (hcx : inorderIds s (some x) fx = some lx) (hsub : ∀ z ∈ lx, z ∈ l)
    {c : Nat} (hc : c ∈ lx) (hne : c ≠ x) {cn : Node} (hgc : getNode s c = some cn) :
    ∃ y ∈ lx, cn.parent = some y := by
  rcases parent_inside hcx c hc with hcur | ⟨y, hy, yn, hgy, hslot⟩
  · injection hcur with h2
    exact absurd h2.symm hne
  · have hclb := parentChk_back hpc hr (hsub y hy)
    rcases hslot with hL | hR
    · have hp := linkedBack_left hclb hgy hL
      rw [hgc] at hp
      simp only [Option.map_some', Option.some.injEq] at hp
      exact ⟨y, hy, hp⟩
    · have hp := linkedBack_right hclb hgy hR
      rw [hgc] at hp
      simp only [Option.map_some', Option.some.injEq] at hp
      exact ⟨y, hy, hp⟩

/-- No reachable node is its own parent. -/
theorem parent_ne_self {s : Tree} {l : List Nat} (hr : reachIds s = some l)
    (hnd : l.Nodup) (hpc : parentChk s = true) {x : Nat} (hx : x ∈ l) {n : Node}
    (hgx : getNode s x = some n) : n.parent ≠ some x := by
  intro hq
  have hr' : inorderIds s s.root (opFuel s) = some l := hr
  obtain ⟨qn, hgq, hslot⟩ := parent_slot_of_mem hpc hr hx hgx hq
  have hqn : qn = n := by
    rw [hgx] at hgq
    injection hgq with h2
    exact h2.symm
  subst hqn
  obtain ⟨fx, lx, hcx, hsubx⟩ := mem_subtree_cert hr' hx
  have hndx : lx.Nodup := hnd.sublist hsubx
  have hxin : x ∈ lx := by
    obtain ⟨_, _, _, _, _, _, _, _, rfl⟩ := inorderIds_decomp hcx
    simp
  obtain ⟨havL, havR⟩ := subtree_avoid hcx hndx hgx
  rcases hslot with hL | hR
  · exact havL x hL hcx hxin
  · exact havR x hR hcx hxin

end BT

namespace BT

/-- Generic one-write detach/rewire at a reachable parent: replacing the
slot that held a subtree keeps the parent-link invariant, provided the
new slot contents are either the promoted child or survivors. -/
theorem transplant_detach_parentInv {s : Tree} {l : List Nat}
    (hr : reachIds s = some l) (hnd : l.Nodup) (hpc : parentChk s = true)
    {t : Nat} {tn : Node} (ht : t ∈ l) (hgt : getNode s t = some tn)
    {ft : Nat} {lt : List Nat} (hct : inorderIds s (some t) ft = some lt)
    (hsubt : ∀ z ∈ lt, z ∈ l)
    {p : Nat} {pn : Node} (hgp : getNode s p = some pn) (hpnotin : p ∉ lt)
    (htpar : tn.parent = some p) (hrne : s.root ≠ some t)
    {pn' : Node} (hparent : pn'.parent = pn.parent)
    (hold : ∀ y, y ≠ t → (pn.left = some y ∨ pn.right = some y) →
      (pn'.left = some y ∨ pn'.right = some y))
    (hnew : ∀ cx, (pn'.left = some cx ∨ pn'.right = some cx) →
      (pn.left = some cx ∨ pn.right = some cx) ∧ cx ≠ t) :
    parentInv (setNode s p pn') := by
  have hr' : inorderIds s s.root (opFuel s) = some l := hr
  have htinlt : t ∈ lt := by
    obtain ⟨_, _, _, _, _, _, _, _, rfl⟩ := inorderIds_decomp hct
    simp
  -- whose slot holds a given subtree member
  have hholder : ∀ y ∈ l, ∀ yn, getNode s y = some yn →
      ∀ cy, (yn.left = some cy ∨ yn.right = some cy) → cy ∈ lt → y ∈ lt ∨ cy = t := by
    intro y hy yn hgy cy hslot hcy
    by_cases hcyt : cy = t
    · exact Or.inr hcyt
    · obtain ⟨cn, hgcn⟩ := mem_reach_alloc hr (hsubt cy hcy)
      obtain ⟨y', hy', hpar'⟩ := subtree_parent_inside hpc hr hct hsubt hcy hcyt hgcn
      have hclb := parentChk_back hpc hr hy
      have hpar2 : cn.parent = some y := by
        rcases hslot with hL | hR
        · have h2 := linkedBack_left hclb hgy hL
          rw [hgcn] at h2
          simpa using h2
        · have h2 := linkedBack_right hclb hgy hR
          rw [hgcn] at h2
          simpa using h2
      rw [hpar2] at hpar'
      injection hpar' with h3
      subst h3
      exact Or.inl hy'
  refine @parentInv_of_closedP _ (fun y => y ∈ l ∧ y ∉ lt) ?_ ?_ ?_
  · intro r hr0
    have hrl : r ∈ l := root_mem_reach hr hr0
    refine ⟨hrl, ?_⟩
    intro hrin
    obtain ⟨rn, hgrn⟩ := mem_reach_alloc hr hrl
    have hrpar := parentChk_root hpc hr0
    rw [hgrn] at hrpar
    simp only [Option.map_some', Option.some.injEq] at hrpar
    by_cases hrt : r = t
    · exact hrne (by rw [← hrt]; exact hr0)
    · obtain ⟨y, _, hpy⟩ := subtree_parent_inside hpc hr hct hsubt hrin hrt hgrn
      rw [hrpar] at hpy
      exact absurd hpy (by simp)
  · intro r rn hr0 hgrn
    by_cases hrp : r = p
    · rw [hrp] at hr0 hgrn
      rw [getNode_set_self hgp pn'] at hgrn
      injection hgrn with h2
      subst h2
      rw [hparent]
      have hrpar := parentChk_root hpc hr0
      rw [hgp] at hrpar
      simpa using hrpar
    · rw [getNode_set_other hrp pn'] at hgrn
      have hrpar := parentChk_root hpc hr0
      rw [hgrn] at hrpar
      simpa using hrpar
  · rintro x ⟨hxl, hxnt⟩
    by_cases hxp : x = p
    · rw [hxp] at hxl hxnt ⊢
      refine ⟨pn', getNode_set_self hgp pn', ?_, ?_, ?_⟩
      · intro cx hcx
        obtain ⟨hslot2, hcxt⟩ := hnew cx (Or.inl hcx)
        have hcxl : cx ∈ l := by
          rcases hslot2 with hL | hR
          · exact (children_mem hr' hxl hgp).1 cx hL
          · exact (children_mem hr' hxl hgp).2 cx hR
        refine ⟨hcxl, ?_⟩
        intro hcxin
        rcases hholder p hxl pn hgp cx hslot2 hcxin with hin | hteq
        · exact hpnotin hin
        · exact hcxt hteq
      · intro cx hcx
        obtain ⟨hslot2, hcxt⟩ := hnew cx (Or.inr hcx)
        have hcxl : cx ∈ l := by
          rcases hslot2 with hL | hR
          · exact (children_mem hr' hxl hgp).1 cx hL
          · exact (children_mem hr' hxl hgp).2 cx hR
        refine ⟨hcxl, ?_⟩
        intro hcxin
        rcases hholder p hxl pn hgp cx hslot2 hcxin with hin | hteq
        · exact hpnotin hin
        · exact hcxt hteq
      · intro q hq
        rw [hparent] at hq
        obtain ⟨qn, hgq, hslot2⟩ := parent_slot_of_mem hpc hr hxl hgp hq
        by_cases hqp : q = p
        · rw [hqp] at hgq ⊢
          have hqn : qn = pn := by
            rw [hgp] at hgq
            injection hgq with h2
            exact h2.symm
          subst hqn
          exact ⟨pn', getNode_set_self hgp pn', hold p (fun heq => hxnt (by rw [heq]; exact htinlt)) hslot2⟩
        · exact ⟨qn, by rw [getNode_set_other hqp pn']; exact hgq, hslot2⟩
    · obtain ⟨xn, hgxn⟩ := mem_reach_alloc hr hxl
      refine ⟨xn, by rw [getNode_set_other hxp pn']; exact hgxn, ?_, ?_, ?_⟩
      · intro cx hcx
        have hcxl : cx ∈ l := (children_mem hr' hxl hgxn).1 cx hcx
        refine ⟨hcxl, ?_⟩
        intro hcxin
        rcases hholder x hxl xn hgxn cx (Or.inl hcx) hcxin with hin | hteq
        · exact hxnt hin
        · subst hteq
          have hclb := parentChk_back hpc hr hxl
          have h2 := linkedBack_left hclb hgxn hcx
          rw [hgt] at h2
          simp only [Option.map_some', Option.some.injEq] at h2
          rw [htpar] at h2
          injection h2 with h3
          exact hxp h3.symm
      · intro cx hcx
        have hcxl : cx ∈ l := (children_mem hr' hxl hgxn).2 cx hcx
        refine ⟨hcxl, ?_⟩
        intro hcxin
        rcases hholder x hxl xn hgxn cx (Or.inr hcx) hcxin with hin | hteq
        · exact hxnt hin
        · subst hteq
          have hclb := parentChk_back hpc hr hxl
          have h2 := linkedBack_right hclb hgxn hcx
          rw [hgt] at h2
          simp only [Option.map_some', Option.some.injEq] at h2
          rw [htpar] at h2
          injection h2 with h3
          exact hxp h3.symm
      · intro q hq
        obtain ⟨qn, hgq, hslot2⟩ := parent_slot_of_mem hpc hr hxl hgxn hq
        by_cases hqp : q = p
        · rw [hqp] at hgq ⊢
          have hqn : qn = pn := by
            rw [hgp] at hgq
            injection hgq with h2
            exact h2.symm
          subst hqn
          exact ⟨pn', getNode_set_self hgp pn', hold x (fun heq => hxnt (by rw [heq]; exact htinlt)) hslot2⟩
        · exact ⟨qn, by rw [getNode_set_other hqp pn']; exact hgq, hslot2⟩

end BT

namespace BT

/-- Generic transplant of a child subtree into the detached node's slot:
the parent's slot is rewired to the promoted child, whose parent
back-reference is set to the detached node's parent. -/
theorem transplant_promote_parentInv {s : Tree} {l : List Nat}
    (hr : reachIds s = some l) (hnd : l.Nodup) (hpc : parentChk s = true)
    {t : Nat} {tn : Node} (ht : t ∈ l) (hgt : getNode s t = some tn)
    {ft : Nat} {lt : List Nat} (hct : inorderIds s (some t) ft = some lt)
    (hsubt : ∀ z ∈ lt, z ∈ l)
    {p : Nat} {pn : Node} (hgp : getNode s p = some pn) (hpnotin : p ∉ lt)
    (htpar : tn.parent = some p) (hrne : s.root ≠ some t)
    {cw : Nat} {fcw : Nat} {lcw : List Nat}
    (hcnw : inorderIds s (some cw) fcw = some lcw)
    (hsubcw : ∀ z ∈ lcw, z ∈ lt)
    (htnotcw : t ∉ lcw)
    {cn : Node} (hgcn : getNode s cw = some cn)
    {pn' : Node} (hparent : pn'.parent = pn.parent)
    (hcwslot : pn'.left = some cw ∨ pn'.right = some cw)
    (hold : ∀ y, y ≠ t → (pn.left = some y ∨ pn.right = some y) →
      (pn'.left = some y ∨ pn'.right = some y))
    (hnew : ∀ cx, (pn'.left = some cx ∨ pn'.right = some cx) →
      cx = cw ∨ ((pn.left = some cx ∨ pn.right = some cx) ∧ cx ≠ t)) :
    parentInv (setNode (setNode s p pn') cw { cn with parent := some p }) := by
  have hr' : inorderIds s s.root (opFuel s) = some l := hr
  have htinlt : t ∈ lt := by
    obtain ⟨_, _, _, _, _, _, _, _, rfl⟩ := inorderIds_decomp hct
    simp
  have hcwin : cw ∈ lcw := by
    obtain ⟨_, _, _, _, _, _, _, _, rfl⟩ := inorderIds_decomp hcnw
    simp
  have hcwp : cw ≠ p := fun h => hpnotin (by rw [← h]; exact hsubcw cw hcwin)
  have hg1cw : getNode (setNode s p pn') cw = some cn := by
    rw [getNode_set_other hcwp pn']
    exact hgcn
  have hg2cw : getNode (setNode (setNode s p pn') cw { cn with parent := some p }) cw =
      some { cn with parent := some p } := getNode_set_self hg1cw _
  have hg2p : getNode (setNode (setNode s p pn') cw { cn with parent := some p }) p =
      some pn' := by
    rw [getNode_set_other (Ne.symm hcwp) _]
    exact getNode_set_self hgp pn'
  have hg2other : ∀ y, y ≠ p → y ≠ cw →
      getNode (setNode (setNode s p pn') cw { cn with parent := some p }) y = getNode s y := by
    intro y hyp hyc
    rw [getNode_set_other hyc _, getNode_set_other hyp _]
  have hholder : ∀ y ∈ l, ∀ yn, getNode s y = some yn →
      ∀ cy, (yn.left = some cy ∨ yn.right = some cy) → cy ∈ lt → y ∈ lt ∨ cy = t := by
    intro y hy yn hgy cy hslot hcy
    by_cases hcyt : cy = t
    · exact Or.inr hcyt
    · obtain ⟨cn2, hgcn2⟩ := mem_reach_alloc hr (hsubt cy hcy)
      obtain ⟨y', hy', hpar'⟩ := subtree_parent_inside hpc hr hct hsubt hcy hcyt hgcn2
      have hclb := parentChk_back hpc hr hy
      have hpar2 : cn2.parent = some y := by
        rcases hslot with hL | hR
        · have h2 := linkedBack_left hclb hgy hL
          rw [hgcn2] at h2
          simpa using h2
        · have h2 := linkedBack_right hclb hgy hR
          rw [hgcn2] at h2
          simpa using h2
      rw [hpar2] at hpar'
      injection hpar' with h3
      subst h3
      exact Or.inl hy'
  have htrans : ∀ {y : Nat}, y ≠ t → ∀ {q : Nat} {qn : Node}, getNode s q = some qn →
      (qn.left = some y ∨ qn.right = some y) →
      ∃ qn2, getNode (setNode (setNode s p pn') cw { cn with parent := some p }) q = some qn2 ∧
        (qn2.left = some y ∨ qn2.right = some y) := by
    intro y hyt q qn hgq hslot
    by_cases hqp : q = p
    · refine ⟨pn', by rw [hqp]; exact hg2p, ?_⟩
      rw [hqp, hgp] at hgq
      injection hgq with h2
      subst h2
      exact hold y hyt hslot
    · by_cases hqc : q = cw
      · refine ⟨{ cn with parent := some p }, by rw [hqc]; exact hg2cw, ?_⟩
        rw [hqc, hgcn] at hgq
        injection hgq with h2
        subst h2
        exact hslot
      · exact ⟨qn, by rw [hg2other q hqp hqc]; exact hgq, hslot⟩
  have hrootfact : ∀ r, s.root = some r → r ∈ l ∧ r ∉ lt := by
    intro r hr0
    have hrl : r ∈ l := root_mem_reach hr hr0
    refine ⟨hrl, ?_⟩
    intro hrin
    obtain ⟨rn, hgrn⟩ := mem_reach_alloc hr hrl
    have hrpar := parentChk_root hpc hr0
    rw [hgrn] at hrpar
    simp only [Option.map_some', Option.some.injEq] at hrpar
    by_cases hrt : r = t
    · exact hrne (by rw [← hrt]; exact hr0)
    · obtain ⟨y, _, hpy⟩ := subtree_parent_inside hpc hr hct hsubt hrin hrt hgrn
      rw [hrpar] at hpy
      exact absurd hpy (by simp)
  have hchild_ne_t : ∀ x ∈ l, x ∉ lt → x ≠ p → ∀ xn, getNode s x = some xn →
      ∀ cx, (xn.left = some cx ∨ xn.right = some cx) → cx ≠ t := by
    intro x hxl hxnt hxp xn hgxn cx hslot
    intro hteq
    subst hteq
    have hclb := parentChk_back hpc hr hxl
    have h2 : (getNode s cx).map Node.parent = some (some x) := by
      rcases hslot with hL | hR
      · exact linkedBack_left hclb hgxn hL
      · exact linkedBack_right hclb hgxn hR
    rw [hgt] at h2
    simp only [Option.map_some', Option.some.injEq] at h2
    rw [htpar] at h2
    injection h2 with h3
    exact hxp h3.symm
  refine @parentInv_of_closedP _
    (fun y => (y ∈ l ∧ y ∉ lt) ∨ y ∈ lcw) ?_ ?_ ?_
  · intro r hr0
    exact Or.inl (hrootfact r hr0)
  · intro r rn hr0 hgrn
    obtain ⟨hrl, hrnt⟩ := hrootfact r hr0
    have hrc : r ≠ cw := fun h => hrnt (by rw [h]; exact hsubcw cw hcwin)
    have hrpar := parentChk_root hpc hr0
    by_cases hrp : r = p
    · rw [hrp] at hgrn
      rw [hg2p] at hgrn
      injection hgrn with h2
      subst h2
      rw [hparent]
      rw [hrp, hgp] at hrpar
      simpa using hrpar
    · rw [hg2other r hrp hrc] at hgrn
      rw [hgrn] at hrpar
      simpa using hrpar
  · rintro x (⟨hxl, hxnt⟩ | hxw)
    · have hxt : x ≠ t := fun h => hxnt (by rw [h]; exact htinlt)
      have hxcw : x ≠ cw := fun h => hxnt (by rw [h]; exact hsubcw cw hcwin)
      by_cases hxp : x = p
      · rw [hxp] at hxl hxnt ⊢
        refine ⟨pn', hg2p, ?_, ?_, ?_⟩
        · intro cx hcx
          rcases hnew cx (Or.inl hcx) with rfl | ⟨hslot2, hcxt⟩
          · exact Or.inr hcwin
          · have hcxl : cx ∈ l := by
              rcases hslot2 with hL | hR
              · exact (children_mem hr' hxl hgp).1 cx hL
              · exact (children_mem hr' hxl hgp).2 cx hR
            refine Or.inl ⟨hcxl, ?_⟩
            intro hcxin
            rcases hholder p hxl pn hgp cx hslot2 hcxin with hin | hteq
            · exact hpnotin hin
            · exact hcxt hteq
        · intro cx hcx
          rcases hnew cx (Or.inr hcx) with rfl | ⟨hslot2, hcxt⟩
          · exact Or.inr hcwin
          · have hcxl : cx ∈ l := by
              rcases hslot2 with hL | hR
              · exact (children_mem hr' hxl hgp).1 cx hL
              · exact (children_mem hr' hxl hgp).2 cx hR
            refine Or.inl ⟨hcxl, ?_⟩
            intro hcxin
            rcases hholder p hxl pn hgp cx hslot2 hcxin with hin | hteq
            · exact hpnotin hin
            · exact hcxt hteq
        · intro q hq
          rw [hparent] at hq
          obtain ⟨qn, hgq, hslot2⟩ := parent_slot_of_mem hpc hr hxl hgp hq
          exact htrans (fun h => hxnt (by rw [h]; exact htinlt)) hgq hslot2
      · obtain ⟨xn, hgxn⟩ := mem_reach_alloc hr hxl
        refine ⟨xn, by rw [hg2other x hxp hxcw]; exact hgxn, ?_, ?_, ?_⟩
        · intro cx hcx
          have hcxl : cx ∈ l := (children_mem hr' hxl hgxn).1 cx hcx
          refine Or.inl ⟨hcxl, ?_⟩
          intro hcxin
          rcases hholder x hxl xn hgxn cx (Or.inl hcx) hcxin with hin | hteq
          · exact hxnt hin
          · exact hchild_ne_t x hxl hxnt hxp xn hgxn cx (Or.inl hcx) hteq
        · intro cx hcx
          have hcxl : cx ∈ l := (children_mem hr' hxl hgxn).2 cx hcx
          refine Or.inl ⟨hcxl, ?_⟩
          intro hcxin
          rcases hholder x hxl xn hgxn cx (Or.inr hcx) hcxin with hin | hteq
          · exact hxnt hin
          · exact hchild_ne_t x hxl hxnt hxp xn hgxn cx (Or.inr hcx) hteq
        · intro q hq
          obtain ⟨qn, hgq, hslot2⟩ := parent_slot_of_mem hpc hr hxl hgxn hq
          exact htrans hxt hgq hslot2
    · have hxlt : x ∈ lt := hsubcw x hxw
      have hxl : x ∈ l := hsubt x hxlt
      have hxt : x ≠ t := fun h => htnotcw (by rw [← h]; exact hxw)
      have hxp : x ≠ p := fun h => hpnotin (by rw [← h]; exact hxlt)
      by_cases hxc : x = cw
      · rw [hxc] at hxw hxl ⊢
        refine ⟨{ cn with parent := some p }, hg2cw, ?_, ?_, ?_⟩
        · intro cx hcx
          exact Or.inr ((children_mem hcnw hcwin hgcn).1 cx hcx)
        · intro cx hcx
          exact Or.inr ((children_mem hcnw hcwin hgcn).2 cx hcx)
        · intro q hq
          injection hq with h2
          subst h2
          exact ⟨pn', hg2p, hcwslot⟩
      · obtain ⟨xn, hgxn⟩ := mem_reach_alloc hr hxl
        refine ⟨xn, by rw [hg2other x hxp hxc]; exact hgxn, ?_, ?_, ?_⟩
        · intro cx hcx
          exact Or.inr ((children_mem hcnw hxw hgxn).1 cx hcx)
        · intro cx hcx
          exact Or.inr ((children_mem hcnw hxw hgxn).2 cx hcx)
        · intro q hq
          obtain ⟨qn, hgq, hslot2⟩ := parent_slot_of_mem hpc hr hxl hgxn hq
          exact htrans hxt hgq hslot2

end BT

namespace BT

/-- Transplanting a child of the root into the root position keeps the
parent-link invariant. -/
theorem transplant_root_parentInv {s : Tree} {l : List Nat}
    (hr : reachIds s = some l) (hnd : l.Nodup) (hpc : parentChk s = true)
    {t : Nat} (hroot : s.root = some t)
    {cw : Nat} {fcw : Nat} {lcw : List Nat}
    (hcnw : inorderIds s (some cw) fcw = some lcw)
    (hsubw : ∀ z ∈ lcw, z ∈ l)
    {cn : Node} (hgcn : getNode s cw = some cn) :
    parentInv (setNode ({ s with root := some cw } : Tree) cw { cn with parent := none }) := by
  have hr' : inorderIds s s.root (opFuel s) = some l := hr
  have hcwin : cw ∈ lcw := by
    obtain ⟨_, _, _, _, _, _, _, _, rfl⟩ := inorderIds_decomp hcnw
    simp
  have hgbcn : getNode ({ s with root := some cw } : Tree) cw = some cn := hgcn
  have hg2cw : getNode (setNode ({ s with root := some cw } : Tree) cw { cn with parent := none })
      cw = some { cn with parent := none } := getNode_set_self hgbcn _
  have hg2other : ∀ y, y ≠ cw →
      getNode (setNode ({ s with root := some cw } : Tree) cw { cn with parent := none }) y =
      getNode s y := by
    intro y hyc
    rw [getNode_set_other hyc _]
    rfl
  refine @parentInv_of_closedP _ (fun y => y ∈ lcw) ?_ ?_ ?_
  · intro r hr0
    have hr0' : some cw = some r := hr0
    injection hr0' with h2
    subst h2
    exact hcwin
  · intro r rn hr0 hgrn
    have hr0' : some cw = some r := hr0
    injection hr0' with h2
    subst h2
    rw [hg2cw] at hgrn
    injection hgrn with h3
    subst h3
    rfl
  · intro x hxw
    have hxl : x ∈ l := hsubw x hxw
    by_cases hxc : x = cw
    · rw [hxc] at hxw hxl ⊢
      refine ⟨{ cn with parent := none }, hg2cw, ?_, ?_, ?_⟩
      · intro cx hcx
        exact (children_mem hcnw hcwin hgcn).1 cx hcx
      · intro cx hcx
        exact (children_mem hcnw hcwin hgcn).2 cx hcx
      · intro q hq
        exact absurd (show (none : Option Nat) = some q from hq) (by simp)
    · obtain ⟨xn, hgxn⟩ := mem_reach_alloc hr hxl
      refine ⟨xn, by rw [hg2other x hxc]; exact hgxn, ?_, ?_, ?_⟩
      · intro cx hcx
        exact (children_mem hcnw hxw hgxn).1 cx hcx
      · intro cx hcx
        exact (children_mem hcnw hxw hgxn).2 cx hcx
      · intro q hq
        obtain ⟨qn, hgq, hslot2⟩ := parent_slot_of_mem hpc hr hxl hgxn hq
        obtain ⟨y, hy, hpy⟩ := subtree_parent_inside hpc hr hcnw hsubw hxw hxc hgxn
        rw [hq] at hpy
        injection hpy with h2
        subst h2
        by_cases hqc : q = cw
        · refine ⟨{ cn with parent := none }, by rw [hqc]; exact hg2cw, ?_⟩
          rw [hqc, hgcn] at hgq
          injection hgq with h3
          subst h3
          exact hslot2
        · exact ⟨qn, by rw [hg2other q hqc]; exact hgq, hslot2⟩

end BT

namespace BT

/-- `BinaryTree::transplant` under its call contract (the new node is a
child of the old node, or null) preserves the parent-link invariant. -/
theorem transplant_preserves_parentInv {s : Tree} {l : List Nat} (hr : reachIds s = some l)
    (hnd : l.Nodup) (hpc : parentChk s = true) {t : Nat} (ht : t ∈ l) {tn : Node}
    (hgt : getNode s t = some tn) {c : Option Nat}
    (hcc : c = none ∨ c = tn.left ∨ c = tn.right)
    {s' : Tree} (h : transplant s t c = .ok s') : parentInv s' := by
  have hr' : inorderIds s s.root (opFuel s) = some l := hr
  obtain ⟨ft, lt, hct, hsublt⟩ := mem_subtree_cert hr' ht
  have hsubt : ∀ z ∈ lt, z ∈ l := fun z hz => hsublt.subset hz
  have hndt : lt.Nodup := hnd.sublist hsublt
  obtain ⟨f1, tn1, llt, lrt, hfe1, hgt1, hclt, hcrt, hlteq⟩ := inorderIds_decomp hct
  have htn1 : tn = tn1 := by
    rw [hgt] at hgt1
    injection hgt1
  subst htn1
  have htinlt : t ∈ lt := by rw [hlteq]; simp
  have havoid := subtree_avoid hct hndt hgt
  obtain ⟨s1, hs1, htail⟩ := transplant_cases h
  rcases hs1 with ⟨hroot, hs1e⟩ | ⟨hroot, od, p, pn, hgod, hodp, hgp, hslot⟩
  · subst hs1e
    rcases htail with ⟨hcn, hse⟩ | ⟨nw, od1, nn, hcn, hgod1, hgnn, hse⟩
    · subst hcn
      subst hse
      exact parentInv_root_none rfl
    · subst hcn
      subst hse
      have hod1 : tn = od1 := by
        have h2 : getNode s t = some od1 := hgod1
        rw [hgt] at h2
        injection h2
      subst hod1
      have htpar : tn.parent = none := by
        have hp := parentChk_root hpc hroot
        rw [hgt] at hp
        simpa using hp
      have hnn2 : getNode s nw = some nn := hgnn
      rw [htpar]
      rcases hcc with hccn | hccl | hccr
      · exact absurd hccn (by simp)
      · have hnwl : tn.left = some nw := hccl.symm
        have hcnw := hclt
        rw [hnwl] at hcnw
        exact transplant_root_parentInv hr hnd hpc hroot hcnw
          (fun z hz => hsubt z (by rw [hlteq]; simp [hz])) hnn2
      · have hnwr : tn.right = some nw := hccr.symm
        have hcnw := hcrt
        rw [hnwr] at hcnw
        exact transplant_root_parentInv hr hnd hpc hroot hcnw
          (fun z hz => hsubt z (by rw [hlteq]; simp [hz])) hnn2
  · have hod : tn = od := by
      rw [hgt] at hgod
      injection hgod
    subst hod
    have hpl : p ∈ l := parent_mem_reach hpc hr ht hgt hodp
    obtain ⟨fp, lp, hcp, hsubp⟩ := mem_subtree_cert hr' hpl
    have hndp : lp.Nodup := hnd.sublist hsubp
    have hpavoid := subtree_avoid hcp hndp hgp
    obtain ⟨qn0, hgq0, hslot0⟩ := parent_slot_of_mem hpc hr ht hgt hodp
    have hqn0 : pn = qn0 := by
      rw [hgp] at hgq0
      injection hgq0
    subst hqn0
    have hpnotin : p ∉ lt := by
      rcases hslot0 with hL | hR
      · exact hpavoid.1 t hL hct
      · exact hpavoid.2 t hR hct
    have htp : t ≠ p := fun h2 => hpnotin (by rw [← h2]; exact htinlt)
    obtain ⟨dsp, _, hfp⟩ := inorder_mem_follow hr' p hpl
    rcases htail with ⟨hcn, hse⟩ | ⟨nw, od1, nn, hcn, hgod1, hgnn, hse⟩
    · subst hcn
      subst hse
      rcases hslot with ⟨hsl, hs1e⟩ | ⟨hsl, hs1e⟩
      · subst hs1e
        refine transplant_detach_parentInv hr hnd hpc ht hgt hct hsubt hgp hpnotin hodp
          hroot rfl ?_ ?_
        · intro y hyt hslot2
          rcases hslot2 with hL | hR
          · rw [hsl] at hL
            injection hL with h2
            exact absurd h2.symm hyt
          · exact Or.inr hR
        · intro cx hcx
          rcases hcx with hL | hR
          · exact absurd (show (none : Option Nat) = some cx from hL) (by simp)
          · refine ⟨Or.inr hR, ?_⟩
            intro hteq
            subst hteq
            exact distinct_slots hr hnd hfp hgp hsl hR
      · subst hs1e
        have hsr : pn.right = some t := by
          rcases hslot0 with hL | hR
          · exact absurd hL hsl
          · exact hR
        refine transplant_detach_parentInv hr hnd hpc ht hgt hct hsubt hgp hpnotin hodp
          hroot rfl ?_ ?_
        · intro y hyt hslot2
          rcases hslot2 with hL | hR
          · exact Or.inl hL
          · rw [hsr] at hR
            injection hR with h2
            exact absurd h2.symm hyt
        · intro cx hcx
          rcases hcx with hL | hR
          · refine ⟨Or.inl hL, ?_⟩
            intro hteq
            subst hteq
            exact hsl hL
          · exact absurd (show (none : Option Nat) = some cx from hR) (by simp)
    · subst hcn
      rcases hcc with hccn | hccl | hccr
      · exact absurd hccn (by simp)
      · have hnwl : tn.left = some nw := hccl.symm
        have hcnw := hclt
        rw [hnwl] at hcnw
        have hsubcw : ∀ z ∈ llt, z ∈ lt := fun z hz => by rw [hlteq]; simp [hz]
        have htnot : t ∉ llt := havoid.1 nw hnwl hcnw
        have hnwin : nw ∈ llt := by
          obtain ⟨_, _, _, _, _, _, _, _, rfl⟩ := inorderIds_decomp hcnw
          simp
        obtain ⟨cn, hgcn⟩ := mem_reach_alloc hr (hsubt nw (hsubcw nw hnwin))
        have hnwp : nw ≠ p := fun h2 => hpnotin (by rw [← h2]; exact hsubcw nw hnwin)
        rcases hslot with ⟨hsl, hs1e⟩ | ⟨hsl, hs1e⟩
        · subst hs1e
          subst hse
          have hod1b : tn = od1 := by
            have h2 : getNode (setNode s p { pn with left := some nw }) t = some od1 := hgod1
            rw [getNode_set_other htp _, hgt] at h2
            injection h2
          subst hod1b
          have hnnb : cn = nn := by
            have h2 : getNode (setNode s p { pn with left := some nw }) nw = some nn := hgnn
            rw [getNode_set_other hnwp _, hgcn] at h2
            injection h2
          subst hnnb
          rw [hodp]
          refine transplant_promote_parentInv hr hnd hpc ht hgt hct hsubt hgp hpnotin hodp
            hroot hcnw hsubcw htnot hgcn rfl (Or.inl rfl) ?_ ?_
          · intro y hyt hslot2
            rcases hslot2 with hL | hR
            · rw [hsl] at hL
              injection hL with h2
              exact absurd h2.symm hyt
            · exact Or.inr hR
          · intro cx hcx
            rcases hcx with hL | hR
            · have hL' : some nw = some cx := hL
              injection hL' with h2
              exact Or.inl h2.symm
            · refine Or.inr ⟨Or.inr hR, ?_⟩
              intro hteq
              subst hteq
              exact distinct_slots hr hnd hfp hgp hsl hR
        · subst hs1e
          subst hse
          have hsr : pn.right = some t := by
            rcases hslot0 with hL | hR
            · exact absurd hL hsl
            · exact hR
          have hod1b : tn = od1 := by
            have h2 : getNode (setNode s p { pn with right := some nw }) t = some od1 := hgod1
            rw [getNode_set_other htp _, hgt] at h2
            injection h2
          subst hod1b
          have hnnb : cn = nn := by
            have h2 : getNode (setNode s p { pn with right := some nw }) nw = some nn := hgnn
            rw [getNode_set_other hnwp _, hgcn] at h2
            injection h2
          subst hnnb
          rw [hodp]
          refine transplant_promote_parentInv hr hnd hpc ht hgt hct hsubt hgp hpnotin hodp
            hroot hcnw hsubcw htnot hgcn rfl (Or.inr rfl) ?_ ?_
          · intro y hyt hslot2
            rcases hslot2 with hL | hR
            · exact Or.inl hL
            · rw [hsr] at hR
              injection hR with h2
              exact absurd h2.symm hyt
          · intro cx hcx
            rcases hcx with hL | hR
            · refine Or.inr ⟨Or.inl hL, ?_⟩
              intro hteq
              subst hteq
              exact hsl hL
            · have hR' : some nw = some cx := hR
              injection hR' with h2
              exact Or.inl h2.symm
      · have hnwr : tn.right = some nw := hccr.symm
        have hcnw := hcrt
        rw [hnwr] at hcnw
        have hsubcw : ∀ z ∈ lrt, z ∈ lt := fun z hz => by rw [hlteq]; simp [hz]
        have htnot : t ∉ lrt := havoid.2 nw hnwr hcnw
        have hnwin : nw ∈ lrt := by
          obtain ⟨_, _, _, _, _, _, _, _, rfl⟩ := inorderIds_decomp hcnw
          simp
        obtain ⟨cn, hgcn⟩ := mem_reach_alloc hr (hsubt nw (hsubcw nw hnwin))
        have hnwp : nw ≠ p := fun h2 => hpnotin (by rw [← h2]; exact hsubcw nw hnwin)
        rcases hslot with ⟨hsl, hs1e⟩ | ⟨hsl, hs1e⟩
        · subst hs1e
          subst hse
          have hod1b : tn = od1 := by
            have h2 : getNode (setNode s p { pn with left := some nw }) t = some od1 := hgod1
            rw [getNode_set_other htp _, hgt] at h2
            injection h2
          subst hod1b
          have hnnb : cn = nn := by
            have h2 : getNode (setNode s p { pn with left := some nw }) nw = some nn := hgnn
            rw [getNode_set_other hnwp _, hgcn] at h2
            injection h2
          subst hnnb
          rw [hodp]
          refine transplant_promote_parentInv hr hnd hpc ht hgt hct hsubt hgp hpnotin hodp
            hroot hcnw hsubcw htnot hgcn rfl (Or.inl rfl) ?_ ?_
          · intro y hyt hslot2
            rcases hslot2 with hL | hR
            · rw [hsl] at hL
              injection hL with h2
              exact absurd h2.symm hyt
            · exact Or.inr hR
          · intro cx hcx
            rcases hcx with hL | hR
            · have hL' : some nw = some cx := hL
              injection hL' with h2
              exact Or.inl h2.symm
            · refine Or.inr ⟨Or.inr hR, ?_⟩
              intro hteq
              subst hteq
              exact distinct_slots hr hnd hfp hgp hsl hR
        · subst hs1e
          subst hse
          have hsr : pn.right = some t := by
            rcases hslot0 with hL | hR
            · exact absurd hL hsl
            · exact hR
          have hod1b : tn = od1 := by
            have h2 : getNode (setNode s p { pn with right := some nw }) t = some od1 := hgod1
            rw [getNode_set_other htp _, hgt] at h2
            injection h2
          subst hod1b
          have hnnb : cn = nn := by
            have h2 : getNode (setNode s p { pn with right := some nw }) nw = some nn := hgnn
            rw [getNode_set_other hnwp _, hgcn] at h2
            injection h2
          subst hnnb
          rw [hodp]
          refine transplant_promote_parentInv hr hnd hpc ht hgt hct hsubt hgp hpnotin hodp
            hroot hcnw hsubcw htnot hgcn rfl (Or.inr rfl) ?_ ?_
          · intro y hyt hslot2
            rcases hslot2 with hL | hR
            · exact Or.inl hL
            · rw [hsr] at hR
              injection hR with h2
              exact absurd h2.symm hyt
          · intro cx hcx
            rcases hcx with hL | hR
            · refine Or.inr ⟨Or.inl hL, ?_⟩
              intro hteq
              subst hteq
              exact hsl hL
            · have hR' : some nw = some cx := hR
              injection hR' with h2
              exact Or.inl h2.symm

end BT

namespace BT

/-- Final state of `remove` when the re-found "successor" is the target
itself and the target was a left child: the parent keeps both the
target's right subtree (left slot) and the re-attached target (right
slot); its old right subtree is dropped.  The parent-link invariant
survives. -/
theorem remove_dup_left_parentInv {s : Tree} {l : List Nat}
    (hr : reachIds s = some l) (hnd : l.Nodup) (hpc : parentChk s = true)
    {t : Nat} {tn : Node} (ht : t ∈ l) (hgt : getNode s t = some tn)
    {tr : Nat} (htr : tn.right = some tr)
    {q : Nat} {qn : Node} (hq : tn.parent = some q) (hgq : getNode s q = some qn)
    (hqL : qn.left = some t)
    {F : Tree} {qn' : Node} (hFq : getNode F q = some qn')
    (hq'l : qn'.left = some tr) (hq'r : qn'.right = some t) (hq'p : qn'.parent = qn.parent)
    (hFother : ∀ x, x ≠ q → getNode F x = getNode s x)
    (hFroot : F.root = s.root) : parentInv F := by
  have hr' : inorderIds s s.root (opFuel s) = some l := hr
  have hql : q ∈ l := parent_mem_reach hpc hr ht hgt hq
  obtain ⟨fq, lq, hcq, hsubq⟩ := mem_subtree_cert hr' hql
  have hndq : lq.Nodup := hnd.sublist hsubq
  obtain ⟨f2, qn2, lql, lqr, hfe2, hgq2, hcql, hcqr, hlqeq⟩ := inorderIds_decomp hcq
  have hqn2 : qn = qn2 := by
    rw [hgq] at hgq2
    injection hgq2
  subst hqn2
  have hcqt : inorderIds s (some t) f2 = some lql := by
    rw [hqL] at hcql
    exact hcql
  obtain ⟨f3, tn3, llt, lrt, hfe3, hgt3, hclt, hcrt, hlteq⟩ := inorderIds_decomp hcqt
  have htn3 : tn = tn3 := by
    rw [hgt] at hgt3
    injection hgt3
  subst htn3
  have hctr : inorderIds s (some tr) f3 = some lrt := by
    rw [htr] at hcrt
    exact hcrt
  have htrin : tr ∈ lrt := by
    obtain ⟨_, _, _, _, _, _, _, _, rfl⟩ := inorderIds_decomp hctr
    simp
  have htrlql : tr ∈ lql := by rw [hlteq]; simp [htrin]
  have htinlql : t ∈ lql := by rw [hlteq]; simp
  have hdisj : ∀ z, z ∈ lql → z ∉ lqr := by
    intro z hz1 hz2
    rw [hlqeq, List.nodup_append] at hndq
    exact hndq.2.2 hz1 (by simp [hz2])
  have hsubqr : ∀ z ∈ lqr, z ∈ l := fun z hz => hsubq.subset (by rw [hlqeq]; simp [hz])
  have hqrpar : ∀ cx ∈ lqr, ∀ cxn, getNode s cx = some cxn →
      ∃ y', cxn.parent = some y' ∧ (y' = q ∨ y' ∈ lqr) := by
    intro cx hcx cxn hgcx
    rcases parent_inside hcqr cx hcx with hcur | ⟨y', hy', yn', hgy', hslot'⟩
    · have hclb := parentChk_back hpc hr hql
      have h2 := linkedBack_right hclb hgq hcur
      rw [hgcx] at h2
      simp only [Option.map_some', Option.some.injEq] at h2
      exact ⟨q, h2, Or.inl rfl⟩
    · have hclb := parentChk_back hpc hr (hsubqr y' hy')
      have h2 : (getNode s cx).map Node.parent = some (some y') := by
        rcases hslot' with hL | hR
        · exact linkedBack_left hclb hgy' hL
        · exact linkedBack_right hclb hgy' hR
      rw [hgcx] at h2
      simp only [Option.map_some', Option.some.injEq] at h2
      exact ⟨y', h2, Or.inr hy'⟩
  refine @parentInv_of_closedP _ (fun y => y ∈ l ∧ y ∉ lqr) ?_ ?_ ?_
  · intro r hr0
    rw [hFroot] at hr0
    have hrl := root_mem_reach hr hr0
    refine ⟨hrl, ?_⟩
    intro hrin
    obtain ⟨rn, hgrn⟩ := mem_reach_alloc hr hrl
    obtain ⟨y', hpar', _⟩ := hqrpar r hrin rn hgrn
    have hrpar := parentChk_root hpc hr0
    rw [hgrn] at hrpar
    simp only [Option.map_some', Option.some.injEq] at hrpar
    rw [hrpar] at hpar'
    exact absurd hpar' (by simp)
  · intro r rn hr0 hgrn
    rw [hFroot] at hr0
    have hrpar := parentChk_root hpc hr0
    by_cases hrq : r = q
    · rw [hrq, hFq] at hgrn
      injection hgrn with h2
      subst h2
      rw [hq'p]
      rw [hrq, hgq] at hrpar
      simp only [Option.map_some', Option.some.injEq] at hrpar
      exact hrpar
    · rw [hFother r hrq] at hgrn
      rw [hgrn] at hrpar
      simpa using hrpar
  · rintro x ⟨hxl, hxqr⟩
    by_cases hxq : x = q
    · rw [hxq] at hxl hxqr ⊢
      refine ⟨qn', hFq, ?_, ?_, ?_⟩
      · intro cx hcx
        rw [hq'l] at hcx
        injection hcx with h2
        subst h2
        exact ⟨hsubq.subset (by rw [hlqeq]; simp [htrlql]), hdisj tr htrlql⟩
      · intro cx hcx
        rw [hq'r] at hcx
        injection hcx with h2
        subst h2
        exact ⟨ht, hdisj t htinlql⟩
      · intro qq hqq
        rw [hq'p] at hqq
        obtain ⟨pqn, hgpq, hslot⟩ := parent_slot_of_mem hpc hr hql hgq hqq
        have hqqne : qq ≠ q := by
          intro h2
          rw [h2] at hqq
          exact parent_ne_self hr hnd hpc hql hgq hqq
        exact ⟨pqn, by rw [hFother qq hqqne]; exact hgpq, hslot⟩
    · obtain ⟨xn, hgxn⟩ := mem_reach_alloc hr hxl
      have hclb := parentChk_back hpc hr hxl
      refine ⟨xn, by rw [hFother x hxq]; exact hgxn, ?_, ?_, ?_⟩
      · intro cx hcx
        refine ⟨(children_mem hr' hxl hgxn).1 cx hcx, ?_⟩
        intro hcxin
        obtain ⟨cxn, hgcxn⟩ := mem_reach_alloc hr (hsubqr cx hcxin)
        obtain ⟨y', hpar', hy'⟩ := hqrpar cx hcxin cxn hgcxn
        have h2 := linkedBack_left hclb hgxn hcx
        rw [hgcxn] at h2
        simp only [Option.map_some', Option.some.injEq] at h2
        rw [h2] at hpar'
        injection hpar' with h3
        rcases hy' with h4 | h4
        · exact hxq (by rw [h3]; exact h4)
        · exact hxqr (by rw [h3]; exact h4)
      · intro cx hcx
        refine ⟨(children_mem hr' hxl hgxn).2 cx hcx, ?_⟩
        intro hcxin
        obtain ⟨cxn, hgcxn⟩ := mem_reach_alloc hr (hsubqr cx hcxin)
        obtain ⟨y', hpar', hy'⟩ := hqrpar cx hcxin cxn hgcxn
        have h2 := linkedBack_right hclb hgxn hcx
        rw [hgcxn] at h2
        simp only [Option.map_some', Option.some.injEq] at h2
        rw [h2] at hpar'
        injection hpar' with h3
        rcases hy' with h4 | h4
        · exact hxq (by rw [h3]; exact h4)
        · exact hxqr (by rw [h3]; exact h4)
      · intro qq hqq
        obtain ⟨qn2b, hgq2b, hslot⟩ := parent_slot_of_mem hpc hr hxl hgxn hqq
        by_cases hqqq : qq = q
        · rw [hqqq, hgq] at hgq2b
          have heq : qn = qn2b := by injection hgq2b
          subst heq
          rcases hslot with hL | hR
          · rw [hqL] at hL
            injection hL with h3
            subst h3
            exact ⟨qn', by rw [hqqq]; exact hFq, Or.inr hq'r⟩
          · have hxin : x ∈ lqr := by
              have hc2 := hcqr
              rw [hR] at hc2
              obtain ⟨_, _, _, _, _, _, _, _, heq2⟩ := inorderIds_decomp hc2
              rw [heq2]
              simp
            exact absurd hxin hxqr
        · exact ⟨qn2b, by rw [hFother qq hqqq]; exact hgq2b, hslot⟩

end BT


namespace BT

/-- Final state of `remove` when the spliced-in node lies strictly inside
the target's right subtree (not its immediate child) and the target is
not the root: the successor is cut from its parent, receives both of the
target's subtrees, and is linked under the target's parent. -/
theorem remove_splice_deep_parentInv {s : Tree} {l : List Nat}
    (hr : reachIds s = some l) (hnd : l.Nodup) (hpc : parentChk s = true)
    {t tl tr q m pm : Nat} {tn qn mn pmn : Node}
    (ht : t ∈ l) (hgt : getNode s t = some tn)
    (htl : tn.left = some tl) (htr : tn.right = some tr)
    (hq : tn.parent = some q) (hgq : getNode s q = some qn)
    {ft : Nat} {lt : List Nat} (hct : inorderIds s (some t) ft = some lt)
    (hsublt : lt.Sublist l)
    {ftr : Nat} {ltr : List Nat} (hctr : inorderIds s (some tr) ftr = some ltr)
    (hmltr : m ∈ ltr) (hgm : getNode s m = some mn) (hmleft : mn.left = none)
    (hmnetr : m ≠ tr)
    (hpm : pm ∈ l) (hgpm : getNode s pm = some pmn) (hpml : pmn.left = some m)
    (hpmtr : pm ≠ tr)
    {tln trn : Node}
    (hgtl : getNode s tl = some tln) (hgtr : getNode s tr = some trn)
    {F : Tree} {qn' mn' tln' trn' pmn' : Node}
    (hFq : getNode F q = some qn') (hq'p : qn'.parent = qn.parent)
    (hold : ∀ y, y ≠ t → (qn.left = some y ∨ qn.right = some y) →
      (qn'.left = some y ∨ qn'.right = some y))
    (hnewq : ∀ cx, (qn'.left = some cx ∨ qn'.right = some cx) →
      cx = m ∨ ((qn.left = some cx ∨ qn.right = some cx) ∧ cx ≠ t))
    (hsnq : qn'.left = some m ∨ qn'.right = some m)
    (hFm : getNode F m = some mn') (hm'l : mn'.left = some tl)
    (hm'r : mn'.right = some tr) (hm'p : mn'.parent = some q)
    (hFtl : getNode F tl = some tln') (htl'l : tln'.left = tln.left)
    (htl'r : tln'.right = tln.right) (htl'p : tln'.parent = some m)
    (hFtr : getNode F tr = some trn') (htr'l : trn'.left = trn.left)
    (htr'r : trn'.right = trn.right) (htr'p : trn'.parent = some m)
    (hFpm : getNode F pm = some pmn') (hpm'l : pmn'.left = mn.right)
    (hpm'r : pmn'.right = pmn.right) (hpm'p : pmn'.parent = pmn.parent)
    (hmrF : ∀ mr, mn.right = some mr → ∃ mrn mrn', getNode s mr = some mrn ∧
      getNode F mr = some mrn' ∧ mrn'.left = mrn.left ∧ mrn'.right = mrn.right ∧
      mrn'.parent = some pm)
    (hFother : ∀ x, x ≠ q → x ≠ m → x ≠ tl → x ≠ tr → x ≠ pm →
      (∀ mr, mn.right = some mr → x ≠ mr) → getNode F x = getNode s x)
    (hFroot : F.root = s.root) : parentInv F := by
  have hr' : inorderIds s s.root (opFuel s) = some l := hr
  have hsubt : ∀ z ∈ lt, z ∈ l := fun z hz => hsublt.subset hz
  have hndt : lt.Nodup := hnd.sublist hsublt
  obtain ⟨f1, tn1, llt, lrt, hfe1, hgt1, hclt, hcrt, hlteq⟩ := inorderIds_decomp hct
  have htn1 : tn = tn1 := by
    rw [hgt] at hgt1
    injection hgt1
  subst htn1
  have hcltl : inorderIds s (some tl) f1 = some llt := by rw [htl] at hclt; exact hclt
  have hcltr : inorderIds s (some tr) f1 = some lrt := by rw [htr] at hcrt; exact hcrt
  have hltr : ltr = lrt := cert_unique hctr hcltr
  subst hltr
  have htlin : tl ∈ llt := by
    obtain ⟨_, _, _, _, _, _, _, _, rfl⟩ := inorderIds_decomp hcltl
    simp
  have htrin : tr ∈ ltr := by
    obtain ⟨_, _, _, _, _, _, _, _, rfl⟩ := inorderIds_decomp hcltr
    simp
  have hndt2 := hndt
  rw [hlteq, List.nodup_append] at hndt2
  have hdisj : ∀ z, z ∈ llt → z ∉ ltr := fun z hz1 hz2 => hndt2.2.2 hz1 (by simp [hz2])
  have htnotl : t ∉ llt := fun h2 => hndt2.2.2 h2 (by simp)
  have htnotr : t ∉ ltr := by
    have h3 := hndt2.2.1
    rw [List.nodup_cons] at h3
    exact h3.1
  have hsubltrlt : ltr.Sublist lt := by
    rw [hlteq]
    exact (List.sublist_cons_self t ltr).trans (List.sublist_append_right llt _)
  have hndltr : ltr.Nodup := hndt.sublist hsubltrlt
  have hmlt : m ∈ lt := by rw [hlteq]; simp [hmltr]
  have hm2 : m ∈ l := hsubt m hmlt
  have htllt : tl ∈ lt := by rw [hlteq]; simp [htlin]
  have htrlt : tr ∈ lt := by rw [hlteq]; simp [htrin]
  have htl2 : tl ∈ l := hsubt tl htllt
  have htr2 : tr ∈ l := hsubt tr htrlt
  obtain ⟨qn0, hgq0, hslot0⟩ := parent_slot_of_mem hpc hr ht hgt hq
  have hqn0 : qn = qn0 := by
    rw [hgq] at hgq0
    injection hgq0
  subst hqn0
  have hql : q ∈ l := parent_mem_reach hpc hr ht hgt hq
  obtain ⟨fq, lq, hcq, hsubq⟩ := mem_subtree_cert hr' hql
  have hndq : lq.Nodup := hnd.sublist hsubq
  have hqavoid := subtree_avoid hcq hndq hgq
  have hqnotin : q ∉ lt := by
    rcases hslot0 with hL | hR
    · exact hqavoid.1 t hL hct
    · exact hqavoid.2 t hR hct
  have hmt : m ≠ t := fun h2 => htnotr (h2 ▸ hmltr)
  have htlt : tl ≠ t := fun h2 => htnotl (h2 ▸ htlin)
  have htrt : tr ≠ t := fun h2 => htnotr (h2 ▸ htrin)
  have hmtl : m ≠ tl := fun h2 => hdisj tl htlin (by rw [← h2]; exact hmltr)
  have htrtl : tr ≠ tl := fun h2 => hdisj tl htlin (by rw [← h2]; exact htrin)
  have hqt : q ≠ t := fun h2 => hqnotin (by rw [h2, hlteq]; simp)
  have hqm : q ≠ m := fun h2 => hqnotin (by rw [h2]; exact hmlt)
  have hqtl : q ≠ tl := fun h2 => hqnotin (by rw [h2]; exact htllt)
  have hqtr : q ≠ tr := fun h2 => hqnotin (by rw [h2]; exact htrlt)
  have hsubltr : ∀ z ∈ ltr, z ∈ l := fun z hz => hsubt z (by rw [hlteq]; simp [hz])
  obtain ⟨y0, hy0, hpar0⟩ := subtree_parent_inside hpc hr hcltr hsubltr hmltr hmnetr hgm
  have hmpar : mn.parent = some pm := by
    have hclb := parentChk_back hpc hr hpm
    have h2 := linkedBack_left hclb hgpm hpml
    rw [hgm] at h2
    simpa using h2
  have hpmltr : pm ∈ ltr := by
    rw [hmpar] at hpar0
    injection hpar0 with h2
    rw [h2]
    exact hy0
  have hpmlt : pm ∈ lt := by rw [hlteq]; simp [hpmltr]
  have hpmt : pm ≠ t := fun h2 => htnotr (h2 ▸ hpmltr)
  have hpmq : pm ≠ q := fun h2 => hqnotin (by rw [← h2]; exact hpmlt)
  have hpmtl : pm ≠ tl := fun h2 => hdisj tl htlin (by rw [← h2]; exact hpmltr)
  have hmpm : m ≠ pm := by
    intro h2
    have h3 := parent_ne_self hr hnd hpc hm2 hgm
    rw [hmpar] at h3
    exact h3 (by rw [h2])
  -- m's subtree inside ltr avoids tr
  obtain ⟨fm, lm, hcm, hsubm0⟩ := mem_subtree_cert hcltr hmltr
  have hndm : lm.Nodup := hndltr.sublist hsubm0
  have hmin : m ∈ lm := by
    obtain ⟨_, _, _, _, _, _, _, _, rfl⟩ := inorderIds_decomp hcm
    simp
  have htrnotlm : tr ∉ lm := by
    obtain ⟨f4, trn4, ll4, lr4, _, hgtr4, hcll4, hclr4, hltreq⟩ := inorderIds_decomp hcltr
    have hndltr2 := hndltr
    rw [hltreq, List.nodup_append, List.nodup_cons] at hndltr2
    have hmltr2 := hmltr
    rw [hltreq] at hmltr2
    rcases List.mem_append.mp hmltr2 with hm4 | hm4
    · obtain ⟨fm2, lm2, hcm2, hsub2⟩ := mem_subtree_cert hcll4 hm4
      have heq2 : lm2 = lm := cert_unique hcm2 hcm
      subst heq2
      intro htr5
      exact hndltr2.2.2 (hsub2.subset htr5) (by simp)
    · rcases List.mem_cons.mp hm4 with h5 | hm5
      · exact absurd h5 hmnetr
      · obtain ⟨fm2, lm2, hcm2, hsub2⟩ := mem_subtree_cert hclr4 hm5
        have heq2 : lm2 = lm := cert_unique hcm2 hcm
        subst heq2
        intro htr5
        exact hndltr2.2.1.1 (hsub2.subset htr5)
  -- pm avoids m's subtree
  obtain ⟨fpm2, lpm2, hcpm2, hsubpm2⟩ := mem_subtree_cert hr' hpm
  have hpmavoid := subtree_avoid hcpm2 (hnd.sublist hsubpm2) hgpm
  have hpmnotlm : pm ∉ lm := hpmavoid.1 m hpml hcm
  -- mr facts
  have hmrfacts : ∀ mr, mn.right = some mr → mr ∈ lm ∧ mr ∈ l ∧ mr ≠ t ∧ mr ≠ q ∧
      mr ≠ tl ∧ mr ≠ m ∧ mr ≠ tr ∧ mr ≠ pm := by
    intro mr hmr
    have hmrlm : mr ∈ lm := (children_mem hcm hmin hgm).2 mr hmr
    have hmrltr : mr ∈ ltr := hsubm0.subset hmrlm
    have hmrl : mr ∈ l := hsubltr mr hmrltr
    refine ⟨hmrlm, hmrl, fun h2 => htnotr (h2 ▸ hmrltr),
      fun h2 => hqnotin (h2 ▸ (show mr ∈ lt by rw [hlteq]; simp [hmrltr])),
      fun h2 => hdisj tl htlin (h2 ▸ hmrltr), ?_,
      fun h2 => htrnotlm (h2 ▸ hmrlm), fun h2 => hpmnotlm (h2 ▸ hmrlm)⟩
    intro h2
    have hmavoid := subtree_avoid hcm hndm hgm
    obtain ⟨f5, n5, ll5, lr5, _, hgm5, hcl5, hcr5, hlmeq⟩ := inorderIds_decomp hcm
    have hn5 : mn = n5 := by
      rw [hgm] at hgm5
      injection hgm5
    subst hn5
    have hcr5' : inorderIds s (some mr) f5 = some lr5 := by rw [hmr] at hcr5; exact hcr5
    have hmrin5 : mr ∈ lr5 := by
      obtain ⟨_, _, _, _, _, _, _, _, rfl⟩ := inorderIds_decomp hcr5'
      simp
    exact hmavoid.2 mr hmr hcr5' (by rw [← h2]; exact hmrin5)
  -- back-links for tl and tr
  have hclbt := parentChk_back hpc hr ht
  have htlpar : tln.parent = some t := by
    have h2 := linkedBack_left hclbt hgt htl
    rw [hgtl] at h2
    simpa using h2
  have htrpar : trn.parent = some t := by
    have h2 := linkedBack_right hclbt hgt htr
    rw [hgtr] at h2
    simpa using h2
  -- nobody else's slot holds t
  have hslott : ∀ y yn, y ∈ l → getNode s y = some yn →
      (yn.left = some t ∨ yn.right = some t) → y = q := by
    intro y yn hy hgy hslot
    have hclb := parentChk_back hpc hr hy
    have h2 : (getNode s t).map Node.parent = some (some y) := by
      rcases hslot with hL | hR
      · exact linkedBack_left hclb hgy hL
      · exact linkedBack_right hclb hgy hR
    rw [hgt] at h2
    simp only [Option.map_some', Option.some.injEq] at h2
    rw [hq] at h2
    injection h2 with h3
    exact h3.symm
  -- transfer of old parent-slot witnesses
  have htransfer : ∀ y, y ≠ t → y ≠ m → y ≠ tl → y ≠ tr →
      (∀ mr0, mn.right = some mr0 → y ≠ mr0) →
      ∀ qq qn2, getNode s qq = some qn2 → (qn2.left = some y ∨ qn2.right = some y) →
      ∃ qn2', getNode F qq = some qn2' ∧ (qn2'.left = some y ∨ qn2'.right = some y) := by
    intro y hyt hym hytl hytr hymr qq qn2 hgqq hslot
    by_cases h1 : qq = q
    · refine ⟨qn', by rw [h1]; exact hFq, ?_⟩
      rw [h1, hgq] at hgqq
      have heq : qn = qn2 := by injection hgqq
      subst heq
      exact hold y hyt hslot
    · by_cases h2 : qq = m
      · rw [h2, hgm] at hgqq
        have heq : mn = qn2 := by injection hgqq
        subst heq
        rcases hslot with hL | hR
        · rw [hmleft] at hL
          exact absurd hL (by simp)
        · exact absurd rfl (hymr y hR)
      · by_cases h3 : qq = tl
        · rw [h3, hgtl] at hgqq
          have heq : tln = qn2 := by injection hgqq
          subst heq
          refine ⟨tln', by rw [h3]; exact hFtl, ?_⟩
          rw [htl'l, htl'r]
          exact hslot
        · by_cases h4 : qq = tr
          · rw [h4, hgtr] at hgqq
            have heq : trn = qn2 := by injection hgqq
            subst heq
            refine ⟨trn', by rw [h4]; exact hFtr, ?_⟩
            rw [htr'l, htr'r]
            exact hslot
          · by_cases h5 : qq = pm
            · rw [h5, hgpm] at hgqq
              have heq : pmn = qn2 := by injection hgqq
              subst heq
              rcases hslot with hL | hR
              · rw [hpml] at hL
                injection hL with h6
                exact absurd h6.symm hym
              · refine ⟨pmn', by rw [h5]; exact hFpm, Or.inr ?_⟩
                rw [hpm'r]
                exact hR
            · cases hmnr : mn.right with
              | none =>
                refine ⟨qn2, ?_, hslot⟩
                rw [hFother qq h1 h2 h3 h4 h5 (fun mr0 hmr0 => absurd hmr0 (by simp [hmnr]))]
                exact hgqq
              | some mr0 =>
                by_cases h6 : qq = mr0
                · obtain ⟨mrn, mrn', hgmr, hFmr, hmr'l, hmr'r, hmr'p⟩ := hmrF mr0 hmnr
                  rw [h6, hgmr] at hgqq
                  have heq : mrn = qn2 := by injection hgqq
                  subst heq
                  refine ⟨mrn', by rw [h6]; exact hFmr, ?_⟩
                  rw [hmr'l, hmr'r]
                  exact hslot
                · refine ⟨qn2, ?_, hslot⟩
                  rw [hFother qq h1 h2 h3 h4 h5
                    (fun mr1 hmr1 => by
                      rw [hmnr] at hmr1
                      injection hmr1 with h7
                      rw [← h7]
                      exact h6)]
                  exact hgqq
  refine @parentInv_of_closedP _ (fun y => y ∈ l ∧ y ≠ t) ?_ ?_ ?_
  · intro r hr0
    rw [hFroot] at hr0
    have hrl := root_mem_reach hr hr0
    refine ⟨hrl, ?_⟩
    intro hrt
    have hrpar := parentChk_root hpc hr0
    rw [hrt, hgt] at hrpar
    simp only [Option.map_some', Option.some.injEq] at hrpar
    rw [hrpar] at hq
    exact absurd hq (by simp)
  · intro r rn hr0 hgrn
    rw [hFroot] at hr0
    have hrpar := parentChk_root hpc hr0
    have hrl := root_mem_reach hr hr0
    have hrt : r ≠ t := by
      intro h2
      rw [h2, hgt] at hrpar
      simp only [Option.map_some', Option.some.injEq] at hrpar
      rw [hrpar] at hq
      exact absurd hq (by simp)
    have hrm : r ≠ m := by
      intro h2
      rw [h2, hgm] at hrpar
      simp only [Option.map_some', Option.some.injEq] at hrpar
      rw [hrpar] at hmpar
      exact absurd hmpar (by simp)
    have hrtl : r ≠ tl := by
      intro h2
      rw [h2, hgtl] at hrpar
      simp only [Option.map_some', Option.some.injEq] at hrpar
      rw [hrpar] at htlpar
      exact absurd htlpar (by simp)
    have hrtr : r ≠ tr := by
      intro h2
      rw [h2, hgtr] at hrpar
      simp only [Option.map_some', Option.some.injEq] at hrpar
      rw [hrpar] at htrpar
      exact absurd htrpar (by simp)
    by_cases hrq : r = q
    · rw [hrq, hFq] at hgrn
      have heq : qn' = rn := by injection hgrn
      subst heq
      rw [hq'p]
      rw [hrq, hgq] at hrpar
      simpa using hrpar
    · by_cases hrpm : r = pm
      · rw [hrpm, hFpm] at hgrn
        have heq : pmn' = rn := by injection hgrn
        subst heq
        rw [hpm'p]
        rw [hrpm, hgpm] at hrpar
        simpa using hrpar
      · cases hmnr : mn.right with
        | none =>
          rw [hFother r hrq hrm hrtl hrtr hrpm
            (fun mr0 hmr0 => absurd hmr0 (by simp [hmnr]))] at hgrn
          rw [hgrn] at hrpar
          simpa using hrpar
        | some mr0 =>
          have hrmr : r ≠ mr0 := by
            intro h2
            obtain ⟨mrn, mrn', hgmr, _, _, _, _⟩ := hmrF mr0 hmnr
            rw [h2, hgmr] at hrpar
            simp only [Option.map_some', Option.some.injEq] at hrpar
            have hclb := parentChk_back hpc hr hm2
            have h3 := linkedBack_right hclb hgm hmnr
            rw [hgmr] at h3
            simp only [Option.map_some', Option.some.injEq] at h3
            rw [hrpar] at h3
            exact absurd h3.symm (by simp)
          rw [hFother r hrq hrm hrtl hrtr hrpm
            (fun mr1 hmr1 => by
              rw [hmnr] at hmr1
              injection hmr1 with h7
              rw [← h7]
              exact hrmr)] at hgrn
          rw [hgrn] at hrpar
          simpa using hrpar
  · rintro x ⟨hxl, hxt⟩
    by_cases hxq : x = q
    · rw [hxq] at hxl hxt ⊢
      refine ⟨qn', hFq, ?_, ?_, ?_⟩
      · intro cx hcx
        rcases hnewq cx (Or.inl hcx) with rfl | ⟨hslot2, hcxt⟩
        · exact ⟨hm2, hmt⟩
        · rcases hslot2 with hL | hR
          · exact ⟨(children_mem hr' hql hgq).1 cx hL, hcxt⟩
          · exact ⟨(children_mem hr' hql hgq).2 cx hR, hcxt⟩
      · intro cx hcx
        rcases hnewq cx (Or.inr hcx) with rfl | ⟨hslot2, hcxt⟩
        · exact ⟨hm2, hmt⟩
        · rcases hslot2 with hL | hR
          · exact ⟨(children_mem hr' hql hgq).1 cx hL, hcxt⟩
          · exact ⟨(children_mem hr' hql hgq).2 cx hR, hcxt⟩
      · intro q2 hq2
        rw [hq'p] at hq2
        obtain ⟨qn2, hgq2, hslot2⟩ := parent_slot_of_mem hpc hr hql hgq hq2
        refine htransfer q hqt hqm hqtl hqtr ?_ q2 qn2 hgq2 hslot2
        intro mr0 hmr0
        exact ((hmrfacts mr0 hmr0).2.2.2.1).symm
    · by_cases hxm : x = m
      · rw [hxm] at hxl hxt ⊢
        refine ⟨mn', hFm, ?_, ?_, ?_⟩
        · intro cx hcx
          rw [hm'l] at hcx
          injection hcx with h2
          subst h2
          exact ⟨htl2, htlt⟩
        · intro cx hcx
          rw [hm'r] at hcx
          injection hcx with h2
          subst h2
          exact ⟨htr2, htrt⟩
        · intro q2 hq2
          rw [hm'p] at hq2
          injection hq2 with h2
          subst h2
          exact ⟨qn', hFq, hsnq⟩
      · by_cases hxtl : x = tl
        · rw [hxtl] at hxl hxt ⊢
          refine ⟨tln', hFtl, ?_, ?_, ?_⟩
          · intro cx hcx
            rw [htl'l] at hcx
            have hcxl : cx ∈ l := (children_mem hr' htl2 hgtl).1 cx hcx
            refine ⟨hcxl, ?_⟩
            intro h2
            subst h2
            exact hqtl (hslott tl tln htl2 hgtl (Or.inl hcx)).symm
          · intro cx hcx
            rw [htl'r] at hcx
            have hcxl : cx ∈ l := (children_mem hr' htl2 hgtl).2 cx hcx
            refine ⟨hcxl, ?_⟩
            intro h2
            subst h2
            exact hqtl (hslott tl tln htl2 hgtl (Or.inr hcx)).symm
          · intro q2 hq2
            rw [htl'p] at hq2
            injection hq2 with h2
            subst h2
            exact ⟨mn', hFm, Or.inl hm'l⟩
        · by_cases hxtr : x = tr
          · rw [hxtr] at hxl hxt ⊢
            refine ⟨trn', hFtr, ?_, ?_, ?_⟩
            · intro cx hcx
              rw [htr'l] at hcx
              have hcxl : cx ∈ l := (children_mem hr' htr2 hgtr).1 cx hcx
              refine ⟨hcxl, ?_⟩
              intro h2
              subst h2
              exact hqtr (hslott tr trn htr2 hgtr (Or.inl hcx)).symm
            · intro cx hcx
              rw [htr'r] at hcx
              have hcxl : cx ∈ l := (children_mem hr' htr2 hgtr).2 cx hcx
              refine ⟨hcxl, ?_⟩
              intro h2
              subst h2
              exact hqtr (hslott tr trn htr2 hgtr (Or.inr hcx)).symm
            · intro q2 hq2
              rw [htr'p] at hq2
              injection hq2 with h2
              subst h2
              exact ⟨mn', hFm, Or.inr hm'r⟩
          · by_cases hxpm : x = pm
            · rw [hxpm] at hxl hxt ⊢
              refine ⟨pmn', hFpm, ?_, ?_, ?_⟩
              · intro cx hcx
                rw [hpm'l] at hcx
                obtain ⟨hmrlm, hmrl, hmrt, _⟩ := hmrfacts cx hcx
                exact ⟨hmrl, hmrt⟩
              · intro cx hcx
                rw [hpm'r] at hcx
                have hcxl : cx ∈ l := (children_mem hr' hpm hgpm).2 cx hcx
                refine ⟨hcxl, ?_⟩
                intro h2
                subst h2
                exact hpmq (hslott pm pmn hpm hgpm (Or.inr hcx))
              · intro q2 hq2
                rw [hpm'p] at hq2
                obtain ⟨qn2, hgq2, hslot2⟩ := parent_slot_of_mem hpc hr hpm hgpm hq2
                refine htransfer pm hpmt (Ne.symm hmpm) hpmtl hpmtr ?_ q2 qn2 hgq2 hslot2
                intro mr0 hmr0
                exact Ne.symm ((hmrfacts mr0 hmr0).2.2.2.2.2.2.2)
            · cases hmnr : mn.right with
              | none =>
                have hxmr : ∀ mr0, mn.right = some mr0 → x ≠ mr0 :=
                  fun mr0 hmr0 => absurd hmr0 (by simp [hmnr])
                obtain ⟨xn, hgxn⟩ := mem_reach_alloc hr hxl
                refine ⟨xn, by rw [hFother x hxq hxm hxtl hxtr hxpm hxmr]; exact hgxn,
                  ?_, ?_, ?_⟩
                · intro cx hcx
                  refine ⟨(children_mem hr' hxl hgxn).1 cx hcx, ?_⟩
                  intro h2
                  subst h2
                  exact hxq (hslott x xn hxl hgxn (Or.inl hcx))
                · intro cx hcx
                  refine ⟨(children_mem hr' hxl hgxn).2 cx hcx, ?_⟩
                  intro h2
                  subst h2
                  exact hxq (hslott x xn hxl hgxn (Or.inr hcx))
                · intro q2 hq2
                  obtain ⟨qn2, hgq2, hslot2⟩ := parent_slot_of_mem hpc hr hxl hgxn hq2
                  exact htransfer x hxt hxm hxtl hxtr hxmr q2 qn2 hgq2 hslot2
              | some mr0 =>
                obtain ⟨mrn, mrn', hgmr, hFmr, hmr'l, hmr'r, hmr'p⟩ := hmrF mr0 hmnr
                by_cases hxmr0 : x = mr0
                · rw [hxmr0] at hxl hxt ⊢
                  refine ⟨mrn', hFmr, ?_, ?_, ?_⟩
                  · intro cx hcx
                    rw [hmr'l] at hcx
                    have hcxl : cx ∈ l := (children_mem hr' hxl hgmr).1 cx hcx
                    refine ⟨hcxl, ?_⟩
                    intro h2
                    subst h2
                    exact (hmrfacts mr0 hmnr).2.2.2.1 (hslott mr0 mrn hxl hgmr (Or.inl hcx))
                  · intro cx hcx
                    rw [hmr'r] at hcx
                    have hcxl : cx ∈ l := (children_mem hr' hxl hgmr).2 cx hcx
                    refine ⟨hcxl, ?_⟩
                    intro h2
                    subst h2
                    exact (hmrfacts mr0 hmnr).2.2.2.1 (hslott mr0 mrn hxl hgmr (Or.inr hcx))
                  · intro q2 hq2
                    rw [hmr'p] at hq2
                    injection hq2 with h2
                    subst h2
                    refine ⟨pmn', hFpm, Or.inl ?_⟩
                    rw [hpm'l, hmnr]
                · have hxmr : ∀ mr1, mn.right = some mr1 → x ≠ mr1 := by
                    intro mr1 hmr1
                    rw [hmnr] at hmr1
                    injection hmr1 with h7
                    rw [← h7]
                    exact hxmr0
                  obtain ⟨xn, hgxn⟩ := mem_reach_alloc hr hxl
                  refine ⟨xn, by rw [hFother x hxq hxm hxtl hxtr hxpm hxmr]; exact hgxn,
                    ?_, ?_, ?_⟩
                  · intro cx hcx
                    refine ⟨(children_mem hr' hxl hgxn).1 cx hcx, ?_⟩
                    intro h2
                    subst h2
                    exact hxq (hslott x xn hxl hgxn (Or.inl hcx))
                  · intro cx hcx
                    refine ⟨(children_mem hr' hxl hgxn).2 cx hcx, ?_⟩
                    intro h2
                    subst h2
                    exact hxq (hslott x xn hxl hgxn (Or.inr hcx))
                  · intro q2 hq2
                    obtain ⟨qn2, hgq2, hslot2⟩ := parent_slot_of_mem hpc hr hxl hgxn hq2
                    exact htransfer x hxt hxm hxtl hxtr hxmr q2 qn2 hgq2 hslot2

end BT

namespace BT

/-- Final state of `remove` when the spliced-in successor is the target's
immediate right child and the target is not the root: the parent's child slot
that held the target now holds the right child, which takes over the target's
left subtree while keeping its own right subtree. Stated through an abstract
catalogue of the rewritten records so the main theorem can discharge it for
the concrete update chain. -/
theorem remove_splice_child_parentInv {s : Tree} {l : List Nat}
    (hr : reachIds s = some l) (hnd : l.Nodup) (hpc : parentChk s = true)
    {t tl tr q : Nat} {tn qn trn tln : Node}
    (ht : t ∈ l) (hgt : getNode s t = some tn)
    (htl : tn.left = some tl) (htr : tn.right = some tr)
    (hq : tn.parent = some q) (hgq : getNode s q = some qn)
    {ft : Nat} {lt : List Nat} (hct : inorderIds s (some t) ft = some lt)
    (hsublt : lt.Sublist l)
    (hgtr : getNode s tr = some trn) (hgtl : getNode s tl = some tln)
    (htrleft : trn.left = none)
    {F : Tree} {qn' trn' tln' : Node}
    (hFq : getNode F q = some qn') (hq'p : qn'.parent = qn.parent)
    (hold : ∀ y, y ≠ t → (qn.left = some y ∨ qn.right = some y) →
      (qn'.left = some y ∨ qn'.right = some y))
    (hnewq : ∀ cx, (qn'.left = some cx ∨ qn'.right = some cx) →
      cx = tr ∨ ((qn.left = some cx ∨ qn.right = some cx) ∧ cx ≠ t))
    (hsnq : qn'.left = some tr ∨ qn'.right = some tr)
    (hFtr : getNode F tr = some trn') (htr'l : trn'.left = some tl)
    (htr'r : trn'.right = trn.right) (htr'p : trn'.parent = some q)
    (hFtl : getNode F tl = some tln') (htl'l : tln'.left = tln.left)
    (htl'r : tln'.right = tln.right) (htl'p : tln'.parent = some tr)
    (hFother : ∀ x, x ≠ q → x ≠ tr → x ≠ tl → getNode F x = getNode s x)
    (hFroot : F.root = s.root) : parentInv F := by
  have hr' : inorderIds s s.root (opFuel s) = some l := hr
  have hsubt : ∀ z ∈ lt, z ∈ l := fun z hz => hsublt.subset hz
  have hndt : lt.Nodup := hnd.sublist hsublt
  obtain ⟨f1, tn1, llt, lrt, hfe1, hgt1, hclt, hcrt, hlteq⟩ := inorderIds_decomp hct
  have htn1 : tn = tn1 := by
    rw [hgt] at hgt1
    injection hgt1
  subst htn1
  have hcltl : inorderIds s (some tl) f1 = some llt := by rw [htl] at hclt; exact hclt
  have hcltr : inorderIds s (some tr) f1 = some lrt := by rw [htr] at hcrt; exact hcrt
  have htlin : tl ∈ llt := by
    obtain ⟨_, _, _, _, _, _, _, _, rfl⟩ := inorderIds_decomp hcltl
    simp
  have htrin : tr ∈ lrt := by
    obtain ⟨_, _, _, _, _, _, _, _, rfl⟩ := inorderIds_decomp hcltr
    simp
  have hndt2 := hndt
  rw [hlteq, List.nodup_append] at hndt2
  have hdisj : ∀ z, z ∈ llt → z ∉ lrt := fun z hz1 hz2 => hndt2.2.2 hz1 (by simp [hz2])
  have htnotl : t ∉ llt := fun h2 => hndt2.2.2 h2 (by simp)
  have htnotr : t ∉ lrt := by
    have h3 := hndt2.2.1
    rw [List.nodup_cons] at h3
    exact h3.1
  have htllt : tl ∈ lt := by rw [hlteq]; simp [htlin]
  have htrlt : tr ∈ lt := by rw [hlteq]; simp [htrin]
  have htl2 : tl ∈ l := hsubt tl htllt
  have htr2 : tr ∈ l := hsubt tr htrlt
  obtain ⟨qn0, hgq0, hslot0⟩ := parent_slot_of_mem hpc hr ht hgt hq
  have hqn0 : qn = qn0 := by
    rw [hgq] at hgq0
    injection hgq0
  subst hqn0
  have hql : q ∈ l := parent_mem_reach hpc hr ht hgt hq
  obtain ⟨fq, lq, hcq, hsubq⟩ := mem_subtree_cert hr' hql
  have hndq : lq.Nodup := hnd.sublist hsubq
  have hqavoid := subtree_avoid hcq hndq hgq
  have hqnotin : q ∉ lt := by
    rcases hslot0 with hL | hR
    · exact hqavoid.1 t hL hct
    · exact hqavoid.2 t hR hct
  have htlt : tl ≠ t := fun h2 => htnotl (h2 ▸ htlin)
  have htrt : tr ≠ t := fun h2 => htnotr (h2 ▸ htrin)
  have htrtl : tr ≠ tl := fun h2 => hdisj tl htlin (by rw [← h2]; exact htrin)
  have hqt : q ≠ t := fun h2 => hqnotin (by rw [h2, hlteq]; simp)
  have hqtl : q ≠ tl := fun h2 => hqnotin (by rw [h2]; exact htllt)
  have hqtr : q ≠ tr := fun h2 => hqnotin (by rw [h2]; exact htrlt)
  have hclbt := parentChk_back hpc hr ht
  have htlpar : tln.parent = some t := by
    have h2 := linkedBack_left hclbt hgt htl
    rw [hgtl] at h2
    simpa using h2
  have htrpar : trn.parent = some t := by
    have h2 := linkedBack_right hclbt hgt htr
    rw [hgtr] at h2
    simpa using h2
  have hslott : ∀ y yn, y ∈ l → getNode s y = some yn →
      (yn.left = some t ∨ yn.right = some t) → y = q := by
    intro y yn hy hgy hslot
    have hclb := parentChk_back hpc hr hy
    have h2 : (getNode s t).map Node.parent = some (some y) := by
      rcases hslot with hL | hR
      · exact linkedBack_left hclb hgy hL
      · exact linkedBack_right hclb hgy hR
    rw [hgt] at h2
    simp only [Option.map_some', Option.some.injEq] at h2
    rw [hq] at h2
    injection h2 with h3
    exact h3.symm
  have htransfer : ∀ y, y ≠ t → y ≠ tl → y ≠ tr →
      ∀ qq qn2, getNode s qq = some qn2 → (qn2.left = some y ∨ qn2.right = some y) →
      ∃ qn2', getNode F qq = some qn2' ∧ (qn2'.left = some y ∨ qn2'.right = some y) := by
    intro y hyt hytl hytr qq qn2 hgqq hslot
    by_cases h1 : qq = q
    · refine ⟨qn', by rw [h1]; exact hFq, ?_⟩
      rw [h1, hgq] at hgqq
      have heq : qn = qn2 := by injection hgqq
      subst heq
      exact hold y hyt hslot
    · by_cases h2 : qq = tr
      · rw [h2, hgtr] at hgqq
        have heq : trn = qn2 := by injection hgqq
        subst heq
        rcases hslot with hL | hR
        · rw [htrleft] at hL
          exact absurd hL (by simp)
        · refine ⟨trn', by rw [h2]; exact hFtr, Or.inr ?_⟩
          rw [htr'r]
          exact hR
      · by_cases h3 : qq = tl
        · rw [h3, hgtl] at hgqq
          have heq : tln = qn2 := by injection hgqq
          subst heq
          refine ⟨tln', by rw [h3]; exact hFtl, ?_⟩
          rw [htl'l, htl'r]
          exact hslot
        · refine ⟨qn2, ?_, hslot⟩
          rw [hFother qq h1 h2 h3]
          exact hgqq
  refine @parentInv_of_closedP _ (fun y => y ∈ l ∧ y ≠ t) ?_ ?_ ?_
  · intro r hr0
    rw [hFroot] at hr0
    have hrl := root_mem_reach hr hr0
    refine ⟨hrl, ?_⟩
    intro hrt
    have hrpar := parentChk_root hpc hr0
    rw [hrt, hgt] at hrpar
    simp only [Option.map_some', Option.some.injEq] at hrpar
    rw [hrpar] at hq
    exact absurd hq (by simp)
  · intro r rn hr0 hgrn
    rw [hFroot] at hr0
    have hrpar := parentChk_root hpc hr0
    have hrtl : r ≠ tl := by
      intro h2
      rw [h2, hgtl] at hrpar
      simp only [Option.map_some', Option.some.injEq] at hrpar
      rw [hrpar] at htlpar
      exact absurd htlpar (by simp)
    have hrtr : r ≠ tr := by
      intro h2
      rw [h2, hgtr] at hrpar
      simp only [Option.map_some', Option.some.injEq] at hrpar
      rw [hrpar] at htrpar
      exact absurd htrpar (by simp)
    by_cases hrq : r = q
    · rw [hrq, hFq] at hgrn
      have heq : qn' = rn := by injection hgrn
      subst heq
      rw [hq'p]
      rw [hrq, hgq] at hrpar
      simpa using hrpar
    · rw [hFother r hrq hrtr hrtl] at hgrn
      rw [hgrn] at hrpar
      simpa using hrpar
  · rintro x ⟨hxl, hxt⟩
    by_cases hxq : x = q
    · rw [hxq] at hxl hxt ⊢
      refine ⟨qn', hFq, ?_, ?_, ?_⟩
      · intro cx hcx
        rcases hnewq cx (Or.inl hcx) with rfl | ⟨hslot2, hcxt⟩
        · exact ⟨htr2, htrt⟩
        · rcases hslot2 with hL | hR
          · exact ⟨(children_mem hr' hql hgq).1 cx hL, hcxt⟩
          · exact ⟨(children_mem hr' hql hgq).2 cx hR, hcxt⟩
      · intro cx hcx
        rcases hnewq cx (Or.inr hcx) with rfl | ⟨hslot2, hcxt⟩
        · exact ⟨htr2, htrt⟩
        · rcases hslot2 with hL | hR
          · exact ⟨(children_mem hr' hql hgq).1 cx hL, hcxt⟩
          · exact ⟨(children_mem hr' hql hgq).2 cx hR, hcxt⟩
      · intro q2 hq2
        rw [hq'p] at hq2
        obtain ⟨qn2, hgq2, hslot2⟩ := parent_slot_of_mem hpc hr hql hgq hq2
        exact htransfer q hqt hqtl hqtr q2 qn2 hgq2 hslot2
    · by_cases hxtr : x = tr
      · rw [hxtr] at hxl hxt ⊢
        refine ⟨trn', hFtr, ?_, ?_, ?_⟩
        · intro cx hcx
          rw [htr'l] at hcx
          injection hcx with h2
          subst h2
          exact ⟨htl2, htlt⟩
        · intro cx hcx
          rw [htr'r] at hcx
          have hcxl : cx ∈ l := (children_mem hr' htr2 hgtr).2 cx hcx
          refine ⟨hcxl, ?_⟩
          intro h2
          subst h2
          exact hqtr (hslott tr trn htr2 hgtr (Or.inr hcx)).symm
        · intro q2 hq2
          rw [htr'p] at hq2
          injection hq2 with h2
          subst h2
          exact ⟨qn', hFq, hsnq⟩
      · by_cases hxtl : x = tl
        · rw [hxtl] at hxl hxt ⊢
          refine ⟨tln', hFtl, ?_, ?_, ?_⟩
          · intro cx hcx
            rw [htl'l] at hcx
            have hcxl : cx ∈ l := (children_mem hr' htl2 hgtl).1 cx hcx
            refine ⟨hcxl, ?_⟩
            intro h2
            subst h2
            exact hqtl (hslott tl tln htl2 hgtl (Or.inl hcx)).symm
          · intro cx hcx
            rw [htl'r] at hcx
            have hcxl : cx ∈ l := (children_mem hr' htl2 hgtl).2 cx hcx
            refine ⟨hcxl, ?_⟩
            intro h2
            subst h2
            exact hqtl (hslott tl tln htl2 hgtl (Or.inr hcx)).symm
          · intro q2 hq2
            rw [htl'p] at hq2
            injection hq2 with h2
            subst h2
            exact ⟨trn', hFtr, Or.inl htr'l⟩
        · obtain ⟨xn, hgxn⟩ := mem_reach_alloc hr hxl
          refine ⟨xn, by rw [hFother x hxq hxtr hxtl]; exact hgxn, ?_, ?_, ?_⟩
          · intro cx hcx
            refine ⟨(children_mem hr' hxl hgxn).1 cx hcx, ?_⟩
            intro h2
            subst h2
            exact hxq (hslott x xn hxl hgxn (Or.inl hcx))
          · intro cx hcx
            refine ⟨(children_mem hr' hxl hgxn).2 cx hcx, ?_⟩
            intro h2
            subst h2
            exact hxq (hslott x xn hxl hgxn (Or.inr hcx))
          · intro q2 hq2
            obtain ⟨qn2, hgq2, hslot2⟩ := parent_slot_of_mem hpc hr hxl hgxn hq2
            exact htransfer x hxt hxtl hxtr q2 qn2 hgq2 hslot2

end BT

namespace BT

/-- Final state of `remove` when the spliced-in successor is the target's
immediate right child and the target is the root: the right child becomes the
new root with no parent, takes over the target's left subtree, and keeps its
own right subtree. -/
theorem remove_splice_child_root_parentInv {s : Tree} {l : List Nat}
    (hr : reachIds s = some l) (hnd : l.Nodup) (hpc : parentChk s = true)
    {t tl tr : Nat} {tn trn tln : Node}
    (htroot : s.root = some t) (hgt : getNode s t = some tn)
    (htl : tn.left = some tl) (htr : tn.right = some tr)
    {ft : Nat} {lt : List Nat} (hct : inorderIds s (some t) ft = some lt)
    (hsublt : lt.Sublist l)
    (hgtr : getNode s tr = some trn) (hgtl : getNode s tl = some tln)
    (htrleft : trn.left = none)
    {F : Tree} {trn' tln' : Node}
    (hFtr : getNode F tr = some trn') (htr'l : trn'.left = some tl)
    (htr'r : trn'.right = trn.right) (htr'p : trn'.parent = none)
    (hFtl : getNode F tl = some tln') (htl'l : tln'.left = tln.left)
    (htl'r : tln'.right = tln.right) (htl'p : tln'.parent = some tr)
    (hFother : ∀ x, x ≠ tr → x ≠ tl → getNode F x = getNode s x)
    (hFroot : F.root = some tr) : parentInv F := by
  have hr' : inorderIds s s.root (opFuel s) = some l := hr
  have ht : t ∈ l := root_mem_reach hr htroot
  have hsubt : ∀ z ∈ lt, z ∈ l := fun z hz => hsublt.subset hz
  have hndt : lt.Nodup := hnd.sublist hsublt
  obtain ⟨f1, tn1, llt, lrt, hfe1, hgt1, hclt, hcrt, hlteq⟩ := inorderIds_decomp hct
  have htn1 : tn = tn1 := by
    rw [hgt] at hgt1
    injection hgt1
  subst htn1
  have hcltl : inorderIds s (some tl) f1 = some llt := by rw [htl] at hclt; exact hclt
  have hcltr : inorderIds s (some tr) f1 = some lrt := by rw [htr] at hcrt; exact hcrt
  have htlin : tl ∈ llt := by
    obtain ⟨_, _, _, _, _, _, _, _, rfl⟩ := inorderIds_decomp hcltl
    simp
  have htrin : tr ∈ lrt := by
    obtain ⟨_, _, _, _, _, _, _, _, rfl⟩ := inorderIds_decomp hcltr
    simp
  have hndt2 := hndt
  rw [hlteq, List.nodup_append] at hndt2
  have hdisj : ∀ z, z ∈ llt → z ∉ lrt := fun z hz1 hz2 => hndt2.2.2 hz1 (by simp [hz2])
  have htnotl : t ∉ llt := fun h2 => hndt2.2.2 h2 (by simp)
  have htnotr : t ∉ lrt := by
    have h3 := hndt2.2.1
    rw [List.nodup_cons] at h3
    exact h3.1
  have htllt : tl ∈ lt := by rw [hlteq]; simp [htlin]
  have htrlt : tr ∈ lt := by rw [hlteq]; simp [htrin]
  have htl2 : tl ∈ l := hsubt tl htllt
  have htr2 : tr ∈ l := hsubt tr htrlt
  have htlt : tl ≠ t := fun h2 => htnotl (h2 ▸ htlin)
  have htrt : tr ≠ t := fun h2 => htnotr (h2 ▸ htrin)
  have htrtl : tr ≠ tl := fun h2 => hdisj tl htlin (by rw [← h2]; exact htrin)
  have htpar : tn.parent = none := by
    have h2 := parentChk_root hpc htroot
    rw [hgt] at h2
    simpa using h2
  have hslott : ∀ y yn, y ∈ l → getNode s y = some yn →
      (yn.left = some t ∨ yn.right = some t) → False := by
    intro y yn hy hgy hslot
    have hclb := parentChk_back hpc hr hy
    have h2 : (getNode s t).map Node.parent = some (some y) := by
      rcases hslot with hL | hR
      · exact linkedBack_left hclb hgy hL
      · exact linkedBack_right hclb hgy hR
    rw [hgt] at h2
    simp only [Option.map_some', Option.some.injEq] at h2
    rw [htpar] at h2
    exact absurd h2 (by simp)
  have htransfer : ∀ y, y ≠ t → y ≠ tl → y ≠ tr →
      ∀ qq qn2, getNode s qq = some qn2 → (qn2.left = some y ∨ qn2.right = some y) →
      ∃ qn2', getNode F qq = some qn2' ∧ (qn2'.left = some y ∨ qn2'.right = some y) := by
    intro y hyt hytl hytr qq qn2 hgqq hslot
    by_cases h2 : qq = tr
    · rw [h2, hgtr] at hgqq
      have heq : trn = qn2 := by injection hgqq
      subst heq
      rcases hslot with hL | hR
      · rw [htrleft] at hL
        exact absurd hL (by simp)
      · refine ⟨trn', by rw [h2]; exact hFtr, Or.inr ?_⟩
        rw [htr'r]
        exact hR
    · by_cases h3 : qq = tl
      · rw [h3, hgtl] at hgqq
        have heq : tln = qn2 := by injection hgqq
        subst heq
        refine ⟨tln', by rw [h3]; exact hFtl, ?_⟩
        rw [htl'l, htl'r]
        exact hslot
      · refine ⟨qn2, ?_, hslot⟩
        rw [hFother qq h2 h3]
        exact hgqq
  refine @parentInv_of_closedP _ (fun y => y ∈ l ∧ y ≠ t) ?_ ?_ ?_
  · intro r hr0
    rw [hFroot] at hr0
    injection hr0 with h2
    subst h2
    exact ⟨htr2, htrt⟩
  · intro r rn hr0 hgrn
    rw [hFroot] at hr0
    injection hr0 with h2
    subst h2
    rw [hFtr] at hgrn
    have heq : trn' = rn := by injection hgrn
    subst heq
    exact htr'p
  · rintro x ⟨hxl, hxt⟩
    by_cases hxtr : x = tr
    · rw [hxtr] at hxl hxt ⊢
      refine ⟨trn', hFtr, ?_, ?_, ?_⟩
      · intro cx hcx
        rw [htr'l] at hcx
        injection hcx with h2
        subst h2
        exact ⟨htl2, htlt⟩
      · intro cx hcx
        rw [htr'r] at hcx
        have hcxl : cx ∈ l := (children_mem hr' htr2 hgtr).2 cx hcx
        refine ⟨hcxl, ?_⟩
        intro h2
        subst h2
        exact hslott tr trn htr2 hgtr (Or.inr hcx)
      · intro q2 hq2
        rw [htr'p] at hq2
        exact absurd hq2 (by simp)
    · by_cases hxtl : x = tl
      · rw [hxtl] at hxl hxt ⊢
        refine ⟨tln', hFtl, ?_, ?_, ?_⟩
        · intro cx hcx
          rw [htl'l] at hcx
          have hcxl : cx ∈ l := (children_mem hr' htl2 hgtl).1 cx hcx
          refine ⟨hcxl, ?_⟩
          intro h2
          subst h2
          exact hslott tl tln htl2 hgtl (Or.inl hcx)
        · intro cx hcx
          rw [htl'r] at hcx
          have hcxl : cx ∈ l := (children_mem hr' htl2 hgtl).2 cx hcx
          refine ⟨hcxl, ?_⟩
          intro h2
          subst h2
          exact hslott tl tln htl2 hgtl (Or.inr hcx)
        · intro q2 hq2
          rw [htl'p] at hq2
          injection hq2 with h2
          subst h2
          exact ⟨trn', hFtr, Or.inl htr'l⟩
      · obtain ⟨xn, hgxn⟩ := mem_reach_alloc hr hxl
        refine ⟨xn, by rw [hFother x hxtr hxtl]; exact hgxn, ?_, ?_, ?_⟩
        · intro cx hcx
          refine ⟨(children_mem hr' hxl hgxn).1 cx hcx, ?_⟩
          intro h2
          subst h2
          exact absurd (hslott x xn hxl hgxn (Or.inl hcx)) (by simp)
        · intro cx hcx
          refine ⟨(children_mem hr' hxl hgxn).2 cx hcx, ?_⟩
          intro h2
          subst h2
          exact absurd (hslott x xn hxl hgxn (Or.inr hcx)) (by simp)
        · intro q2 hq2
          obtain ⟨qn2, hgq2, hslot2⟩ := parent_slot_of_mem hpc hr hxl hgxn hq2
          exact htransfer x hxt hxtl hxtr q2 qn2 hgq2 hslot2

end BT

namespace BT

/-- Final state of `remove` when the spliced-in successor lies strictly inside
the target's right subtree and its own parent is exactly that right child: the
right child's left slot takes the successor's right subtree, the successor
replaces the target under its former parent and takes over both of the
target's subtrees. -/
theorem remove_splice_deep_tr_parentInv {s : Tree} {l : List Nat}
    (hr : reachIds s = some l) (hnd : l.Nodup) (hpc : parentChk s = true)
    {t tl tr q m : Nat} {tn qn mn : Node}
    (ht : t ∈ l) (hgt : getNode s t = some tn)
    (htl : tn.left = some tl) (htr : tn.right = some tr)
    (hq : tn.parent = some q) (hgq : getNode s q = some qn)
    {ft : Nat} {lt : List Nat} (hct : inorderIds s (some t) ft = some lt)
    (hsublt : lt.Sublist l)
    {ftr : Nat} {ltr : List Nat} (hctr : inorderIds s (some tr) ftr = some ltr)
    (hmltr : m ∈ ltr) (hgm : getNode s m = some mn) (hmleft : mn.left = none)
    (hmnetr : m ≠ tr)
    {tln trn : Node}
    (hgtl : getNode s tl = some tln) (hgtr : getNode s tr = some trn)
    (htrl : trn.left = some m)
    {F : Tree} {qn' mn' tln' trn' : Node}
    (hFq : getNode F q = some qn') (hq'p : qn'.parent = qn.parent)
    (hold : ∀ y, y ≠ t → (qn.left = some y ∨ qn.right = some y) →
      (qn'.left = some y ∨ qn'.right = some y))
    (hnewq : ∀ cx, (qn'.left = some cx ∨ qn'.right = some cx) →
      cx = m ∨ ((qn.left = some cx ∨ qn.right = some cx) ∧ cx ≠ t))
    (hsnq : qn'.left = some m ∨ qn'.right = some m)
    (hFm : getNode F m = some mn') (hm'l : mn'.left = some tl)
    (hm'r : mn'.right = some tr) (hm'p : mn'.parent = some q)
    (hFtl : getNode F tl = some tln') (htl'l : tln'.left = tln.left)
    (htl'r : tln'.right = tln.right) (htl'p : tln'.parent = some m)
    (hFtr : getNode F tr = some trn') (htr'l : trn'.left = mn.right)
    (htr'r : trn'.right = trn.right) (htr'p : trn'.parent = some m)
    (hmrF : ∀ mr, mn.right = some mr → ∃ mrn mrn', getNode s mr = some mrn ∧
      getNode F mr = some mrn' ∧ mrn'.left = mrn.left ∧ mrn'.right = mrn.right ∧
      mrn'.parent = some tr)
    (hFother : ∀ x, x ≠ q → x ≠ m → x ≠ tl → x ≠ tr →
      (∀ mr, mn.right = some mr → x ≠ mr) → getNode F x = getNode s x)
    (hFroot : F.root = s.root) : parentInv F := by
  have hr' : inorderIds s s.root (opFuel s) = some l := hr
  have hsubt : ∀ z ∈ lt, z ∈ l := fun z hz => hsublt.subset hz
  have hndt : lt.Nodup := hnd.sublist hsublt
  obtain ⟨f1, tn1, llt, lrt, hfe1, hgt1, hclt, hcrt, hlteq⟩ := inorderIds_decomp hct
  have htn1 : tn = tn1 := by
    rw [hgt] at hgt1
    injection hgt1
  subst htn1
  have hcltl : inorderIds s (some tl) f1 = some llt := by rw [htl] at hclt; exact hclt
  have hcltr : inorderIds s (some tr) f1 = some lrt := by rw [htr] at hcrt; exact hcrt
  have hltr : ltr = lrt := cert_unique hctr hcltr
  subst hltr
  have htlin : tl ∈ llt := by
    obtain ⟨_, _, _, _, _, _, _, _, rfl⟩ := inorderIds_decomp hcltl
    simp
  have htrin : tr ∈ ltr := by
    obtain ⟨_, _, _, _, _, _, _, _, rfl⟩ := inorderIds_decomp hcltr
    simp
  have hndt2 := hndt
  rw [hlteq, List.nodup_append] at hndt2
  have hdisj : ∀ z, z ∈ llt → z ∉ ltr := fun z hz1 hz2 => hndt2.2.2 hz1 (by simp [hz2])
  have htnotl : t ∉ llt := fun h2 => hndt2.2.2 h2 (by simp)
  have htnotr : t ∉ ltr := by
    have h3 := hndt2.2.1
    rw [List.nodup_cons] at h3
    exact h3.1
  have hsubltrlt : ltr.Sublist lt := by
    rw [hlteq]
    exact (List.sublist_cons_self t ltr).trans (List.sublist_append_right llt _)
  have hndltr : ltr.Nodup := hndt.sublist hsubltrlt
  have hmlt : m ∈ lt := by rw [hlteq]; simp [hmltr]
  have hm2 : m ∈ l := hsubt m hmlt
  have htllt : tl ∈ lt := by rw [hlteq]; simp [htlin]
  have htrlt : tr ∈ lt := by rw [hlteq]; simp [htrin]
  have htl2 : tl ∈ l := hsubt tl htllt
  have htr2 : tr ∈ l := hsubt tr htrlt
  obtain ⟨qn0, hgq0, hslot0⟩ := parent_slot_of_mem hpc hr ht hgt hq
  have hqn0 : qn = qn0 := by
    rw [hgq] at hgq0
    injection hgq0
  subst hqn0
  have hql : q ∈ l := parent_mem_reach hpc hr ht hgt hq
  obtain ⟨fq, lq, hcq, hsubq⟩ := mem_subtree_cert hr' hql
  have hndq : lq.Nodup := hnd.sublist hsubq
  have hqavoid := subtree_avoid hcq hndq hgq
  have hqnotin : q ∉ lt := by
    rcases hslot0 with hL | hR
    · exact hqavoid.1 t hL hct
    · exact hqavoid.2 t hR hct
  have hmt : m ≠ t := fun h2 => htnotr (h2 ▸ hmltr)
  have htlt : tl ≠ t := fun h2 => htnotl (h2 ▸ htlin)
  have htrt : tr ≠ t := fun h2 => htnotr (h2 ▸ htrin)
  have hmtl : m ≠ tl := fun h2 => hdisj tl htlin (by rw [← h2]; exact hmltr)
  have htrtl : tr ≠ tl := fun h2 => hdisj tl htlin (by rw [← h2]; exact htrin)
  have hqt : q ≠ t := fun h2 => hqnotin (by rw [h2, hlteq]; simp)
  have hqm : q ≠ m := fun h2 => hqnotin (by rw [h2]; exact hmlt)
  have hqtl : q ≠ tl := fun h2 => hqnotin (by rw [h2]; exact htllt)
  have hqtr : q ≠ tr := fun h2 => hqnotin (by rw [h2]; exact htrlt)
  have hsubltr : ∀ z ∈ ltr, z ∈ l := fun z hz => hsubt z (by rw [hlteq]; simp [hz])
  have hmpar : mn.parent = some tr := by
    have hclb := parentChk_back hpc hr htr2
    have h2 := linkedBack_left hclb hgtr htrl
    rw [hgm] at h2
    simpa using h2
  -- m's subtree inside ltr avoids tr
  obtain ⟨fm, lm, hcm, hsubm0⟩ := mem_subtree_cert hcltr hmltr
  have hndm : lm.Nodup := hndltr.sublist hsubm0
  have hmin : m ∈ lm := by
    obtain ⟨_, _, _, _, _, _, _, _, rfl⟩ := inorderIds_decomp hcm
    simp
  have htrnotlm : tr ∉ lm := by
    obtain ⟨ftr2, ltr2, hctr2, hsubtr2⟩ := mem_subtree_cert hr' htr2
    have htravoid := subtree_avoid hctr2 (hnd.sublist hsubtr2) hgtr
    exact htravoid.1 m htrl hcm
  -- mr facts
  have hmrfacts : ∀ mr, mn.right = some mr → mr ∈ lm ∧ mr ∈ l ∧ mr ≠ t ∧ mr ≠ q ∧
      mr ≠ tl ∧ mr ≠ m ∧ mr ≠ tr := by
    intro mr hmr
    have hmrlm : mr ∈ lm := (children_mem hcm hmin hgm).2 mr hmr
    have hmrltr : mr ∈ ltr := hsubm0.subset hmrlm
    have hmrl : mr ∈ l := hsubltr mr hmrltr
    refine ⟨hmrlm, hmrl, fun h2 => htnotr (h2 ▸ hmrltr),
      fun h2 => hqnotin (h2 ▸ (show mr ∈ lt by rw [hlteq]; simp [hmrltr])),
      fun h2 => hdisj tl htlin (h2 ▸ hmrltr), ?_,
      fun h2 => htrnotlm (h2 ▸ hmrlm)⟩
    intro h2
    have hmavoid := subtree_avoid hcm hndm hgm
    obtain ⟨f5, n5, ll5, lr5, _, hgm5, hcl5, hcr5, hlmeq⟩ := inorderIds_decomp hcm
    have hn5 : mn = n5 := by
      rw [hgm] at hgm5
      injection hgm5
    subst hn5
    have hcr5' : inorderIds s (some mr) f5 = some lr5 := by rw [hmr] at hcr5; exact hcr5
    have hmrin5 : mr ∈ lr5 := by
      obtain ⟨_, _, _, _, _, _, _, _, rfl⟩ := inorderIds_decomp hcr5'
      simp
    exact hmavoid.2 mr hmr hcr5' (by rw [← h2]; exact hmrin5)
  -- back-links for tl and tr
  have hclbt := parentChk_back hpc hr ht
  have htlpar : tln.parent = some t := by
    have h2 := linkedBack_left hclbt hgt htl
    rw [hgtl] at h2
    simpa using h2
  have htrpar : trn.parent = some t := by
    have h2 := linkedBack_right hclbt hgt htr
    rw [hgtr] at h2
    simpa using h2
  -- nobody else's slot holds t
  have hslott : ∀ y yn, y ∈ l → getNode s y = some yn →
      (yn.left = some t ∨ yn.right = some t) → y = q := by
    intro y yn hy hgy hslot
    have hclb := parentChk_back hpc hr hy
    have h2 : (getNode s t).map Node.parent = some (some y) := by
      rcases hslot with hL | hR
      · exact linkedBack_left hclb hgy hL
      · exact linkedBack_right hclb hgy hR
    rw [hgt] at h2
    simp only [Option.map_some', Option.some.injEq] at h2
    rw [hq] at h2
    injection h2 with h3
    exact h3.symm
  -- transfer of old parent-slot witnesses
  have htransfer : ∀ y, y ≠ t → y ≠ m → y ≠ tl → y ≠ tr →
      (∀ mr0, mn.right = some mr0 → y ≠ mr0) →
      ∀ qq qn2, getNode s qq = some qn2 → (qn2.left = some y ∨ qn2.right = some y) →
      ∃ qn2', getNode F qq = some qn2' ∧ (qn2'.left = some y ∨ qn2'.right = some y) := by
    intro y hyt hym hytl hytr hymr qq qn2 hgqq hslot
    by_cases h1 : qq = q
    · refine ⟨qn', by rw [h1]; exact hFq, ?_⟩
      rw [h1, hgq] at hgqq
      have heq : qn = qn2 := by injection hgqq
      subst heq
      exact hold y hyt hslot
    · by_cases h2 : qq = m
      · rw [h2, hgm] at hgqq
        have heq : mn = qn2 := by injection hgqq
        subst heq
        rcases hslot with hL | hR
        · rw [hmleft] at hL
          exact absurd hL (by simp)
        · exact absurd rfl (hymr y hR)
      · by_cases h3 : qq = tl
        · rw [h3, hgtl] at hgqq
          have heq : tln = qn2 := by injection hgqq
          subst heq
          refine ⟨tln', by rw [h3]; exact hFtl, ?_⟩
          rw [htl'l, htl'r]
          exact hslot
        · by_cases h4 : qq = tr
          · rw [h4, hgtr] at hgqq
            have heq : trn = qn2 := by injection hgqq
            subst heq
            rcases hslot with hL | hR
            · rw [htrl] at hL
              injection hL with h6
              exact absurd h6.symm hym
            · refine ⟨trn', by rw [h4]; exact hFtr, Or.inr ?_⟩
              rw [htr'r]
              exact hR
          · cases hmnr : mn.right with
            | none =>
              refine ⟨qn2, ?_, hslot⟩
              rw [hFother qq h1 h2 h3 h4 (fun mr0 hmr0 => absurd hmr0 (by simp [hmnr]))]
              exact hgqq
            | some mr0 =>
              by_cases h6 : qq = mr0
              · obtain ⟨mrn, mrn', hgmr, hFmr, hmr'l, hmr'r, hmr'p⟩ := hmrF mr0 hmnr
                rw [h6, hgmr] at hgqq
                have heq : mrn = qn2 := by injection hgqq
                subst heq
                refine ⟨mrn', by rw [h6]; exact hFmr, ?_⟩
                rw [hmr'l, hmr'r]
                exact hslot
              · refine ⟨qn2, ?_, hslot⟩
                rw [hFother qq h1 h2 h3 h4
                  (fun mr1 hmr1 => by
                    rw [hmnr] at hmr1
                    injection hmr1 with h7
                    rw [← h7]
                    exact h6)]
                exact hgqq
  refine @parentInv_of_closedP _ (fun y => y ∈ l ∧ y ≠ t) ?_ ?_ ?_
  · intro r hr0
    rw [hFroot] at hr0
    have hrl := root_mem_reach hr hr0
    refine ⟨hrl, ?_⟩
    intro hrt
    have hrpar := parentChk_root hpc hr0
    rw [hrt, hgt] at hrpar
    simp only [Option.map_some', Option.some.injEq] at hrpar
    rw [hrpar] at hq
    exact absurd hq (by simp)
  · intro r rn hr0 hgrn
    rw [hFroot] at hr0
    have hrpar := parentChk_root hpc hr0
    have hrl := root_mem_reach hr hr0
    have hrt : r ≠ t := by
      intro h2
      rw [h2, hgt] at hrpar
      simp only [Option.map_some', Option.some.injEq] at hrpar
      rw [hrpar] at hq
      exact absurd hq (by simp)
    have hrm : r ≠ m := by
      intro h2
      rw [h2, hgm] at hrpar
      simp only [Option.map_some', Option.some.injEq] at hrpar
      rw [hrpar] at hmpar
      exact absurd hmpar (by simp)
    have hrtl : r ≠ tl := by
      intro h2
      rw [h2, hgtl] at hrpar
      simp only [Option.map_some', Option.some.injEq] at hrpar
      rw [hrpar] at htlpar
      exact absurd htlpar (by simp)
    have hrtr : r ≠ tr := by
      intro h2
      rw [h2, hgtr] at hrpar
      simp only [Option.map_some', Option.some.injEq] at hrpar
      rw [hrpar] at htrpar
      exact absurd htrpar (by simp)
    by_cases hrq : r = q
    · rw [hrq, hFq] at hgrn
      have heq : qn' = rn := by injection hgrn
      subst heq
      rw [hq'p]
      rw [hrq, hgq] at hrpar
      simpa using hrpar
    · cases hmnr : mn.right with
      | none =>
        rw [hFother r hrq hrm hrtl hrtr
          (fun mr0 hmr0 => absurd hmr0 (by simp [hmnr]))] at hgrn
        rw [hgrn] at hrpar
        simpa using hrpar
      | some mr0 =>
        have hrmr : r ≠ mr0 := by
          intro h2
          obtain ⟨mrn, mrn', hgmr, _, _, _, _⟩ := hmrF mr0 hmnr
          rw [h2, hgmr] at hrpar
          simp only [Option.map_some', Option.some.injEq] at hrpar
          have hclb := parentChk_back hpc hr hm2
          have h3 := linkedBack_right hclb hgm hmnr
          rw [hgmr] at h3
          simp only [Option.map_some', Option.some.injEq] at h3
          rw [hrpar] at h3
          exact absurd h3.symm (by simp)
        rw [hFother r hrq hrm hrtl hrtr
          (fun mr1 hmr1 => by
            rw [hmnr] at hmr1
            injection hmr1 with h7
            rw [← h7]
            exact hrmr)] at hgrn
        rw [hgrn] at hrpar
        simpa using hrpar
  · rintro x ⟨hxl, hxt⟩
    by_cases hxq : x = q
    · rw [hxq] at hxl hxt ⊢
      refine ⟨qn', hFq, ?_, ?_, ?_⟩
      · intro cx hcx
        rcases hnewq cx (Or.inl hcx) with rfl | ⟨hslot2, hcxt⟩
        · exact ⟨hm2, hmt⟩
        · rcases hslot2 with hL | hR
          · exact ⟨(children_mem hr' hql hgq).1 cx hL, hcxt⟩
          · exact ⟨(children_mem hr' hql hgq).2 cx hR, hcxt⟩
      · intro cx hcx
        rcases hnewq cx (Or.inr hcx) with rfl | ⟨hslot2, hcxt⟩
        · exact ⟨hm2, hmt⟩
        · rcases hslot2 with hL | hR
          · exact ⟨(children_mem hr' hql hgq).1 cx hL, hcxt⟩
          · exact ⟨(children_mem hr' hql hgq).2 cx hR, hcxt⟩
      · intro q2 hq2
        rw [hq'p] at hq2
        obtain ⟨qn2, hgq2, hslot2⟩ := parent_slot_of_mem hpc hr hql hgq hq2
        refine htransfer q hqt hqm hqtl hqtr ?_ q2 qn2 hgq2 hslot2
        intro mr0 hmr0
        exact ((hmrfacts mr0 hmr0).2.2.2.1).symm
    · by_cases hxm : x = m
      · rw [hxm] at hxl hxt ⊢
        refine ⟨mn', hFm, ?_, ?_, ?_⟩
        · intro cx hcx
          rw [hm'l] at hcx
          injection hcx with h2
          subst h2
          exact ⟨htl2, htlt⟩
        · intro cx hcx
          rw [hm'r] at hcx
          injection hcx with h2
          subst h2
          exact ⟨htr2, htrt⟩
        · intro q2 hq2
          rw [hm'p] at hq2
          injection hq2 with h2
          subst h2
          exact ⟨qn', hFq, hsnq⟩
      · by_cases hxtl : x = tl
        · rw [hxtl] at hxl hxt ⊢
          refine ⟨tln', hFtl, ?_, ?_, ?_⟩
          · intro cx hcx
            rw [htl'l] at hcx
            have hcxl : cx ∈ l := (children_mem hr' htl2 hgtl).1 cx hcx
            refine ⟨hcxl, ?_⟩
            intro h2
            subst h2
            exact hqtl (hslott tl tln htl2 hgtl (Or.inl hcx)).symm
          · intro cx hcx
            rw [htl'r] at hcx
            have hcxl : cx ∈ l := (children_mem hr' htl2 hgtl).2 cx hcx
            refine ⟨hcxl, ?_⟩
            intro h2
            subst h2
            exact hqtl (hslott tl tln htl2 hgtl (Or.inr hcx)).symm
          · intro q2 hq2
            rw [htl'p] at hq2
            injection hq2 with h2
            subst h2
            exact ⟨mn', hFm, Or.inl hm'l⟩
        · by_cases hxtr : x = tr
          · rw [hxtr] at hxl hxt ⊢
            refine ⟨trn', hFtr, ?_, ?_, ?_⟩
            · intro cx hcx
              rw [htr'l] at hcx
              obtain ⟨hmrlm, hmrl, hmrt, _⟩ := hmrfacts cx hcx
              exact ⟨hmrl, hmrt⟩
            · intro cx hcx
              rw [htr'r] at hcx
              have hcxl : cx ∈ l := (children_mem hr' htr2 hgtr).2 cx hcx
              refine ⟨hcxl, ?_⟩
              intro h2
              subst h2
              exact hqtr (hslott tr trn htr2 hgtr (Or.inr hcx)).symm
            · intro q2 hq2
              rw [htr'p] at hq2
              injection hq2 with h2
              subst h2
              exact ⟨mn', hFm, Or.inr hm'r⟩
          · cases hmnr : mn.right with
            | none =>
              have hxmr : ∀ mr0, mn.right = some mr0 → x ≠ mr0 :=
                fun mr0 hmr0 => absurd hmr0 (by simp [hmnr])
              obtain ⟨xn, hgxn⟩ := mem_reach_alloc hr hxl
              refine ⟨xn, by rw [hFother x hxq hxm hxtl hxtr hxmr]; exact hgxn,
                ?_, ?_, ?_⟩
              · intro cx hcx
                refine ⟨(children_mem hr' hxl hgxn).1 cx hcx, ?_⟩
                intro h2
                subst h2
                exact hxq (hslott x xn hxl hgxn (Or.inl hcx))
              · intro cx hcx
                refine ⟨(children_mem hr' hxl hgxn).2 cx hcx, ?_⟩
                intro h2
                subst h2
                exact hxq (hslott x xn hxl hgxn (Or.inr hcx))
              · intro q2 hq2
                obtain ⟨qn2, hgq2, hslot2⟩ := parent_slot_of_mem hpc hr hxl hgxn hq2
                exact htransfer x hxt hxm hxtl hxtr hxmr q2 qn2 hgq2 hslot2
            | some mr0 =>
              obtain ⟨mrn, mrn', hgmr, hFmr, hmr'l, hmr'r, hmr'p⟩ := hmrF mr0 hmnr
              by_cases hxmr0 : x = mr0
              · rw [hxmr0] at hxl hxt ⊢
                refine ⟨mrn', hFmr, ?_, ?_, ?_⟩
                · intro cx hcx
                  rw [hmr'l] at hcx
                  have hcxl : cx ∈ l := (children_mem hr' hxl hgmr).1 cx hcx
                  refine ⟨hcxl, ?_⟩
                  intro h2
                  subst h2
                  exact (hmrfacts mr0 hmnr).2.2.2.1 (hslott mr0 mrn hxl hgmr (Or.inl hcx))
                · intro cx hcx
                  rw [hmr'r] at hcx
                  have hcxl : cx ∈ l := (children_mem hr' hxl hgmr).2 cx hcx
                  refine ⟨hcxl, ?_⟩
                  intro h2
                  subst h2
                  exact (hmrfacts mr0 hmnr).2.2.2.1 (hslott mr0 mrn hxl hgmr (Or.inr hcx))
                · intro q2 hq2
                  rw [hmr'p] at hq2
                  injection hq2 with h2
                  subst h2
                  refine ⟨trn', hFtr, Or.inl ?_⟩
                  rw [htr'l, hmnr]
              · have hxmr : ∀ mr1, mn.right = some mr1 → x ≠ mr1 := by
                  intro mr1 hmr1
                  rw [hmnr] at hmr1
                  injection hmr1 with h7
                  rw [← h7]
                  exact hxmr0
                obtain ⟨xn, hgxn⟩ := mem_reach_alloc hr hxl
                refine ⟨xn, by rw [hFother x hxq hxm hxtl hxtr hxmr]; exact hgxn,
                  ?_, ?_, ?_⟩
                · intro cx hcx
                  refine ⟨(children_mem hr' hxl hgxn).1 cx hcx, ?_⟩
                  intro h2
                  subst h2
                  exact hxq (hslott x xn hxl hgxn (Or.inl hcx))
                · intro cx hcx
                  refine ⟨(children_mem hr' hxl hgxn).2 cx hcx, ?_⟩
                  intro h2
                  subst h2
                  exact hxq (hslott x xn hxl hgxn (Or.inr hcx))
                · intro q2 hq2
                  obtain ⟨qn2, hgq2, hslot2⟩ := parent_slot_of_mem hpc hr hxl hgxn hq2
                  exact htransfer x hxt hxm hxtl hxtr hxmr q2 qn2 hgq2 hslot2

end BT

namespace BT

/-- Final state of `remove` when the target is the root and the spliced-in
successor lies strictly inside the right subtree, not as the right child's
immediate left child: the successor becomes the new parentless root and takes
over both subtrees, its former parent's left slot takes its right subtree. -/
theorem remove_splice_deep_root_parentInv {s : Tree} {l : List Nat}
    (hr : reachIds s = some l) (hnd : l.Nodup) (hpc : parentChk s = true)
    {t tl tr m pm : Nat} {tn mn pmn : Node}
    (htroot : s.root = some t) (hgt : getNode s t = some tn)
    (htl : tn.left = some tl) (htr : tn.right = some tr)
    {ft : Nat} {lt : List Nat} (hct : inorderIds s (some t) ft = some lt)
    (hsublt : lt.Sublist l)
    {ftr : Nat} {ltr : List Nat} (hctr : inorderIds s (some tr) ftr = some ltr)
    (hmltr : m ∈ ltr) (hgm : getNode s m = some mn) (hmleft : mn.left = none)
    (hmnetr : m ≠ tr)
    (hpm : pm ∈ l) (hgpm : getNode s pm = some pmn) (hpml : pmn.left = some m)
    (hpmtr : pm ≠ tr)
    {tln trn : Node}
    (hgtl : getNode s tl = some tln) (hgtr : getNode s tr = some trn)
    {F : Tree} {mn' tln' trn' pmn' : Node}
    (hFm : getNode F m = some mn') (hm'l : mn'.left = some tl)
    (hm'r : mn'.right = some tr) (hm'p : mn'.parent = none)
    (hFtl : getNode F tl = some tln') (htl'l : tln'.left = tln.left)
    (htl'r : tln'.right = tln.right) (htl'p : tln'.parent = some m)
    (hFtr : getNode F tr = some trn') (htr'l : trn'.left = trn.left)
    (htr'r : trn'.right = trn.right) (htr'p : trn'.parent = some m)
    (hFpm : getNode F pm = some pmn') (hpm'l : pmn'.left = mn.right)
    (hpm'r : pmn'.right = pmn.right) (hpm'p : pmn'.parent = pmn.parent)
    (hmrF : ∀ mr, mn.right = some mr → ∃ mrn mrn', getNode s mr = some mrn ∧
      getNode F mr = some mrn' ∧ mrn'.left = mrn.left ∧ mrn'.right = mrn.right ∧
      mrn'.parent = some pm)
    (hFother : ∀ x, x ≠ m → x ≠ tl → x ≠ tr → x ≠ pm →
      (∀ mr, mn.right = some mr → x ≠ mr) → getNode F x = getNode s x)
    (hFroot : F.root = some m) : parentInv F := by
  have hr' : inorderIds s s.root (opFuel s) = some l := hr
  have ht : t ∈ l := root_mem_reach hr htroot
  have hsubt : ∀ z ∈ lt, z ∈ l := fun z hz => hsublt.subset hz
  have hndt : lt.Nodup := hnd.sublist hsublt
  obtain ⟨f1, tn1, llt, lrt, hfe1, hgt1, hclt, hcrt, hlteq⟩ := inorderIds_decomp hct
  have htn1 : tn = tn1 := by
    rw [hgt] at hgt1
    injection hgt1
  subst htn1
  have hcltl : inorderIds s (some tl) f1 = some llt := by rw [htl] at hclt; exact hclt
  have hcltr : inorderIds s (some tr) f1 = some lrt := by rw [htr] at hcrt; exact hcrt
  have hltr : ltr = lrt := cert_unique hctr hcltr
  subst hltr
  have htlin : tl ∈ llt := by
    obtain ⟨_, _, _, _, _, _, _, _, rfl⟩ := inorderIds_decomp hcltl
    simp
  have htrin : tr ∈ ltr := by
    obtain ⟨_, _, _, _, _, _, _, _, rfl⟩ := inorderIds_decomp hcltr
    simp
  have hndt2 := hndt
  rw [hlteq, List.nodup_append] at hndt2
  have hdisj : ∀ z, z ∈ llt → z ∉ ltr := fun z hz1 hz2 => hndt2.2.2 hz1 (by simp [hz2])
  have htnotl : t ∉ llt := fun h2 => hndt2.2.2 h2 (by simp)
  have htnotr : t ∉ ltr := by
    have h3 := hndt2.2.1
    rw [List.nodup_cons] at h3
    exact h3.1
  have hsubltrlt : ltr.Sublist lt := by
    rw [hlteq]
    exact (List.sublist_cons_self t ltr).trans (List.sublist_append_right llt _)
  have hndltr : ltr.Nodup := hndt.sublist hsubltrlt
  have hmlt : m ∈ lt := by rw [hlteq]; simp [hmltr]
  have hm2 : m ∈ l := hsubt m hmlt
  have htllt : tl ∈ lt := by rw [hlteq]; simp [htlin]
  have htrlt : tr ∈ lt := by rw [hlteq]; simp [htrin]
  have htl2 : tl ∈ l := hsubt tl htllt
  have htr2 : tr ∈ l := hsubt tr htrlt
  have hmt : m ≠ t := fun h2 => htnotr (h2 ▸ hmltr)
  have htlt : tl ≠ t := fun h2 => htnotl (h2 ▸ htlin)
  have htrt : tr ≠ t := fun h2 => htnotr (h2 ▸ htrin)
  have hmtl : m ≠ tl := fun h2 => hdisj tl htlin (by rw [← h2]; exact hmltr)
  have htrtl : tr ≠ tl := fun h2 => hdisj tl htlin (by rw [← h2]; exact htrin)
  have hsubltr : ∀ z ∈ ltr, z ∈ l := fun z hz => hsubt z (by rw [hlteq]; simp [hz])
  obtain ⟨y0, hy0, hpar0⟩ := subtree_parent_inside hpc hr hcltr hsubltr hmltr hmnetr hgm
  have hmpar : mn.parent = some pm := by
    have hclb := parentChk_back hpc hr hpm
    have h2 := linkedBack_left hclb hgpm hpml
    rw [hgm] at h2
    simpa using h2
  have hpmltr : pm ∈ ltr := by
    rw [hmpar] at hpar0
    injection hpar0 with h2
    rw [h2]
    exact hy0
  have hpmlt : pm ∈ lt := by rw [hlteq]; simp [hpmltr]
  have hpmt : pm ≠ t := fun h2 => htnotr (h2 ▸ hpmltr)
  have hpmtl : pm ≠ tl := fun h2 => hdisj tl htlin (by rw [← h2]; exact hpmltr)
  have hmpm : m ≠ pm := by
    intro h2
    have h3 := parent_ne_self hr hnd hpc hm2 hgm
    rw [hmpar] at h3
    exact h3 (by rw [h2])
  have htpar : tn.parent = none := by
    have h2 := parentChk_root hpc htroot
    rw [hgt] at h2
    simpa using h2
  obtain ⟨fm, lm, hcm, hsubm0⟩ := mem_subtree_cert hcltr hmltr
  have hndm : lm.Nodup := hndltr.sublist hsubm0
  have hmin : m ∈ lm := by
    obtain ⟨_, _, _, _, _, _, _, _, rfl⟩ := inorderIds_decomp hcm
    simp
  have htrnotlm : tr ∉ lm := by
    obtain ⟨f4, trn4, ll4, lr4, _, hgtr4, hcll4, hclr4, hltreq⟩ := inorderIds_decomp hcltr
    have hndltr2 := hndltr
    rw [hltreq, List.nodup_append, List.nodup_cons] at hndltr2
    have hmltr2 := hmltr
    rw [hltreq] at hmltr2
    rcases List.mem_append.mp hmltr2 with hm4 | hm4
    · obtain ⟨fm2, lm2, hcm2, hsub2⟩ := mem_subtree_cert hcll4 hm4
      have heq2 : lm2 = lm := cert_unique hcm2 hcm
      subst heq2
      intro htr5
      exact hndltr2.2.2 (hsub2.subset htr5) (by simp)
    · rcases List.mem_cons.mp hm4 with h5 | hm5
      · exact absurd h5 hmnetr
      · obtain ⟨fm2, lm2, hcm2, hsub2⟩ := mem_subtree_cert hclr4 hm5
        have heq2 : lm2 = lm := cert_unique hcm2 hcm
        subst heq2
        intro htr5
        exact hndltr2.2.1.1 (hsub2.subset htr5)
  obtain ⟨fpm2, lpm2, hcpm2, hsubpm2⟩ := mem_subtree_cert hr' hpm
  have hpmavoid := subtree_avoid hcpm2 (hnd.sublist hsubpm2) hgpm
  have hpmnotlm : pm ∉ lm := hpmavoid.1 m hpml hcm
  have hmrfacts : ∀ mr, mn.right = some mr → mr ∈ lm ∧ mr ∈ l ∧ mr ≠ t ∧
      mr ≠ tl ∧ mr ≠ m ∧ mr ≠ tr ∧ mr ≠ pm := by
    intro mr hmr
    have hmrlm : mr ∈ lm := (children_mem hcm hmin hgm).2 mr hmr
    have hmrltr : mr ∈ ltr := hsubm0.subset hmrlm
    have hmrl : mr ∈ l := hsubltr mr hmrltr
    refine ⟨hmrlm, hmrl, fun h2 => htnotr (h2 ▸ hmrltr),
      fun h2 => hdisj tl htlin (h2 ▸ hmrltr), ?_,
      fun h2 => htrnotlm (h2 ▸ hmrlm), fun h2 => hpmnotlm (h2 ▸ hmrlm)⟩
    intro h2
    have hmavoid := subtree_avoid hcm hndm hgm
    obtain ⟨f5, n5, ll5, lr5, _, hgm5, hcl5, hcr5, hlmeq⟩ := inorderIds_decomp hcm
    have hn5 : mn = n5 := by
      rw [hgm] at hgm5
      injection hgm5
    subst hn5
    have hcr5' : inorderIds s (some mr) f5 = some lr5 := by rw [hmr] at hcr5; exact hcr5
    have hmrin5 : mr ∈ lr5 := by
      obtain ⟨_, _, _, _, _, _, _, _, rfl⟩ := inorderIds_decomp hcr5'
      simp
    exact hmavoid.2 mr hmr hcr5' (by rw [← h2]; exact hmrin5)
  have hclbt := parentChk_back hpc hr ht
  have htlpar : tln.parent = some t := by
    have h2 := linkedBack_left hclbt hgt htl
    rw [hgtl] at h2
    simpa using h2
  have htrpar : trn.parent = some t := by
    have h2 := linkedBack_right hclbt hgt htr
    rw [hgtr] at h2
    simpa using h2
  have hslott : ∀ y yn, y ∈ l → getNode s y = some yn →
      (yn.left = some t ∨ yn.right = some t) → False := by
    intro y yn hy hgy hslot
    have hclb := parentChk_back hpc hr hy
    have h2 : (getNode s t).map Node.parent = some (some y) := by
      rcases hslot with hL | hR
      · exact linkedBack_left hclb hgy hL
      · exact linkedBack_right hclb hgy hR
    rw [hgt] at h2
    simp only [Option.map_some', Option.some.injEq] at h2
    rw [htpar] at h2
    exact absurd h2 (by simp)
  have htransfer : ∀ y, y ≠ t → y ≠ m → y ≠ tl → y ≠ tr →
      (∀ mr0, mn.right = some mr0 → y ≠ mr0) →
      ∀ qq qn2, getNode s qq = some qn2 → (qn2.left = some y ∨ qn2.right = some y) →
      ∃ qn2', getNode F qq = some qn2' ∧ (qn2'.left = some y ∨ qn2'.right = some y) := by
    intro y hyt hym hytl hytr hymr qq qn2 hgqq hslot
    by_cases h2 : qq = m
    · rw [h2, hgm] at hgqq
      have heq : mn = qn2 := by injection hgqq
      subst heq
      rcases hslot with hL | hR
      · rw [hmleft] at hL
        exact absurd hL (by simp)
      · exact absurd rfl (hymr y hR)
    · by_cases h3 : qq = tl
      · rw [h3, hgtl] at hgqq
        have heq : tln = qn2 := by injection hgqq
        subst heq
        refine ⟨tln', by rw [h3]; exact hFtl, ?_⟩
        rw [htl'l, htl'r]
        exact hslot
      · by_cases h4 : qq = tr
        · rw [h4, hgtr] at hgqq
          have heq : trn = qn2 := by injection hgqq
          subst heq
          refine ⟨trn', by rw [h4]; exact hFtr, ?_⟩
          rw [htr'l, htr'r]
          exact hslot
        · by_cases h5 : qq = pm
          · rw [h5, hgpm] at hgqq
            have heq : pmn = qn2 := by injection hgqq
            subst heq
            rcases hslot with hL | hR
            · rw [hpml] at hL
              injection hL with h6
              exact absurd h6.symm hym
            · refine ⟨pmn', by rw [h5]; exact hFpm, Or.inr ?_⟩
              rw [hpm'r]
              exact hR
          · cases hmnr : mn.right with
            | none =>
              refine ⟨qn2, ?_, hslot⟩
              rw [hFother qq h2 h3 h4 h5 (fun mr0 hmr0 => absurd hmr0 (by simp [hmnr]))]
              exact hgqq
            | some mr0 =>
              by_cases h6 : qq = mr0
              · obtain ⟨mrn, mrn', hgmr, hFmr, hmr'l, hmr'r, hmr'p⟩ := hmrF mr0 hmnr
                rw [h6, hgmr] at hgqq
                have heq : mrn = qn2 := by injection hgqq
                subst heq
                refine ⟨mrn', by rw [h6]; exact hFmr, ?_⟩
                rw [hmr'l, hmr'r]
                exact hslot
              · refine ⟨qn2, ?_, hslot⟩
                rw [hFother qq h2 h3 h4 h5
                  (fun mr1 hmr1 => by
                    rw [hmnr] at hmr1
                    injection hmr1 with h7
                    rw [← h7]
                    exact h6)]
                exact hgqq
  refine @parentInv_of_closedP _ (fun y => y ∈ l ∧ y ≠ t) ?_ ?_ ?_
  · intro r hr0
    rw [hFroot] at hr0
    injection hr0 with h2
    subst h2
    exact ⟨hm2, hmt⟩
  · intro r rn hr0 hgrn
    rw [hFroot] at hr0
    injection hr0 with h2
    subst h2
    rw [hFm] at hgrn
    have heq : mn' = rn := by injection hgrn
    subst heq
    exact hm'p
  · rintro x ⟨hxl, hxt⟩
    by_cases hxm : x = m
    · rw [hxm] at hxl hxt ⊢
      refine ⟨mn', hFm, ?_, ?_, ?_⟩
      · intro cx hcx
        rw [hm'l] at hcx
        injection hcx with h2
        subst h2
        exact ⟨htl2, htlt⟩
      · intro cx hcx
        rw [hm'r] at hcx
        injection hcx with h2
        subst h2
        exact ⟨htr2, htrt⟩
      · intro q2 hq2
        rw [hm'p] at hq2
        exact absurd hq2 (by simp)
    · by_cases hxtl : x = tl
      · rw [hxtl] at hxl hxt ⊢
        refine ⟨tln', hFtl, ?_, ?_, ?_⟩
        · intro cx hcx
          rw [htl'l] at hcx
          have hcxl : cx ∈ l := (children_mem hr' htl2 hgtl).1 cx hcx
          refine ⟨hcxl, ?_⟩
          intro h2
          subst h2
          exact hslott tl tln htl2 hgtl (Or.inl hcx)
        · intro cx hcx
          rw [htl'r] at hcx
          have hcxl : cx ∈ l := (children_mem hr' htl2 hgtl).2 cx hcx
          refine ⟨hcxl, ?_⟩
          intro h2
          subst h2
          exact hslott tl tln htl2 hgtl (Or.inr hcx)
        · intro q2 hq2
          rw [htl'p] at hq2
          injection hq2 with h2
          subst h2
          exact ⟨mn', hFm, Or.inl hm'l⟩
      · by_cases hxtr : x = tr
        · rw [hxtr] at hxl hxt ⊢
          refine ⟨trn', hFtr, ?_, ?_, ?_⟩
          · intro cx hcx
            rw [htr'l] at hcx
            have hcxl : cx ∈ l := (children_mem hr' htr2 hgtr).1 cx hcx
            refine ⟨hcxl, ?_⟩
            intro h2
            subst h2
            exact hslott tr trn htr2 hgtr (Or.inl hcx)
          · intro cx hcx
            rw [htr'r] at hcx
            have hcxl : cx ∈ l := (children_mem hr' htr2 hgtr).2 cx hcx
            refine ⟨hcxl, ?_⟩
            intro h2
            subst h2
            exact hslott tr trn htr2 hgtr (Or.inr hcx)
          · intro q2 hq2
            rw [htr'p] at hq2
            injection hq2 with h2
            subst h2
            exact ⟨mn', hFm, Or.inr hm'r⟩
        · by_cases hxpm : x = pm
          · rw [hxpm] at hxl hxt ⊢
            refine ⟨pmn', hFpm, ?_, ?_, ?_⟩
            · intro cx hcx
              rw [hpm'l] at hcx
              obtain ⟨hmrlm, hmrl, hmrt, _⟩ := hmrfacts cx hcx
              exact ⟨hmrl, hmrt⟩
            · intro cx hcx
              rw [hpm'r] at hcx
              have hcxl : cx ∈ l := (children_mem hr' hpm hgpm).2 cx hcx
              refine ⟨hcxl, ?_⟩
              intro h2
              subst h2
              exact hslott pm pmn hpm hgpm (Or.inr hcx)
            · intro q2 hq2
              rw [hpm'p] at hq2
              obtain ⟨qn2, hgq2, hslot2⟩ := parent_slot_of_mem hpc hr hpm hgpm hq2
              refine htransfer pm hpmt (Ne.symm hmpm) hpmtl hpmtr ?_ q2 qn2 hgq2 hslot2
              intro mr0 hmr0
              exact Ne.symm ((hmrfacts mr0 hmr0).2.2.2.2.2.2)
          · cases hmnr : mn.right with
            | none =>
              have hxmr : ∀ mr0, mn.right = some mr0 → x ≠ mr0 :=
                fun mr0 hmr0 => absurd hmr0 (by simp [hmnr])
              obtain ⟨xn, hgxn⟩ := mem_reach_alloc hr hxl
              refine ⟨xn, by rw [hFother x hxm hxtl hxtr hxpm hxmr]; exact hgxn,
                ?_, ?_, ?_⟩
              · intro cx hcx
                refine ⟨(children_mem hr' hxl hgxn).1 cx hcx, ?_⟩
                intro h2
                subst h2
                exact hslott x xn hxl hgxn (Or.inl hcx)
              · intro cx hcx
                refine ⟨(children_mem hr' hxl hgxn).2 cx hcx, ?_⟩
                intro h2
                subst h2
                exact hslott x xn hxl hgxn (Or.inr hcx)
              · intro q2 hq2
                obtain ⟨qn2, hgq2, hslot2⟩ := parent_slot_of_mem hpc hr hxl hgxn hq2
                exact htransfer x hxt hxm hxtl hxtr hxmr q2 qn2 hgq2 hslot2
            | some mr0 =>
              obtain ⟨mrn, mrn', hgmr, hFmr, hmr'l, hmr'r, hmr'p⟩ := hmrF mr0 hmnr
              by_cases hxmr0 : x = mr0
              · rw [hxmr0] at hxl hxt ⊢
                refine ⟨mrn', hFmr, ?_, ?_, ?_⟩
                · intro cx hcx
                  rw [hmr'l] at hcx
                  have hcxl : cx ∈ l := (children_mem hr' hxl hgmr).1 cx hcx
                  refine ⟨hcxl, ?_⟩
                  intro h2
                  subst h2
                  exact hslott mr0 mrn hxl hgmr (Or.inl hcx)
                · intro cx hcx
                  rw [hmr'r] at hcx
                  have hcxl : cx ∈ l := (children_mem hr' hxl hgmr).2 cx hcx
                  refine ⟨hcxl, ?_⟩
                  intro h2
                  subst h2
                  exact hslott mr0 mrn hxl hgmr (Or.inr hcx)
                · intro q2 hq2
                  rw [hmr'p] at hq2
                  injection hq2 with h2
                  subst h2
                  refine ⟨pmn', hFpm, Or.inl ?_⟩
                  rw [hpm'l, hmnr]
              · have hxmr : ∀ mr1, mn.right = some mr1 → x ≠ mr1 := by
                  intro mr1 hmr1
                  rw [hmnr] at hmr1
                  injection hmr1 with h7
                  rw [← h7]
                  exact hxmr0
                obtain ⟨xn, hgxn⟩ := mem_reach_alloc hr hxl
                refine ⟨xn, by rw [hFother x hxm hxtl hxtr hxpm hxmr]; exact hgxn,
                  ?_, ?_, ?_⟩
                · intro cx hcx
                  refine ⟨(children_mem hr' hxl hgxn).1 cx hcx, ?_⟩
                  intro h2
                  subst h2
                  exact hslott x xn hxl hgxn (Or.inl hcx)
                · intro cx hcx
                  refine ⟨(children_mem hr' hxl hgxn).2 cx hcx, ?_⟩
                  intro h2
                  subst h2
                  exact hslott x xn hxl hgxn (Or.inr hcx)
                · intro q2 hq2
                  obtain ⟨qn2, hgq2, hslot2⟩ := parent_slot_of_mem hpc hr hxl hgxn hq2
                  exact htransfer x hxt hxm hxtl hxtr hxmr q2 qn2 hgq2 hslot2

end BT

namespace BT

/-- Final state of `remove` when the target is the root and the spliced-in
successor is the immediate left child of the target's right child: the
successor becomes the new parentless root taking over both subtrees, and the
right child's left slot takes the successor's right subtree. -/
theorem remove_splice_deep_tr_root_parentInv {s : Tree} {l : List Nat}
    (hr : reachIds s = some l) (hnd : l.Nodup) (hpc : parentChk s = true)
    {t tl tr m : Nat} {tn mn : Node}
    (htroot : s.root = some t) (hgt : getNode s t = some tn)
    (htl : tn.left = some tl) (htr : tn.right = some tr)
    {ft : Nat} {lt : List Nat} (hct : inorderIds s (some t) ft = some lt)
    (hsublt : lt.Sublist l)
    {ftr : Nat} {ltr : List Nat} (hctr : inorderIds s (some tr) ftr = some ltr)
    (hmltr : m ∈ ltr) (hgm : getNode s m = some mn) (hmleft : mn.left = none)
    (hmnetr : m ≠ tr)
    {tln trn : Node}
    (hgtl : getNode s tl = some tln) (hgtr : getNode s tr = some trn)
    (htrl : trn.left = some m)
    {F : Tree} {mn' tln' trn' : Node}
    (hFm : getNode F m = some mn') (hm'l : mn'.left = some tl)
    (hm'r : mn'.right = some tr) (hm'p : mn'.parent = none)
    (hFtl : getNode F tl = some tln') (htl'l : tln'.left = tln.left)
    (htl'r : tln'.right = tln.right) (htl'p : tln'.parent = some m)
    (hFtr : getNode F tr = some trn') (htr'l : trn'.left = mn.right)
    (htr'r : trn'.right = trn.right) (htr'p : trn'.parent = some m)
    (hmrF : ∀ mr, mn.right = some mr → ∃ mrn mrn', getNode s mr = some mrn ∧
      getNode F mr = some mrn' ∧ mrn'.left = mrn.left ∧ mrn'.right = mrn.right ∧
      mrn'.parent = some tr)
    (hFother : ∀ x, x ≠ m → x ≠ tl → x ≠ tr →
      (∀ mr, mn.right = some mr → x ≠ mr) → getNode F x = getNode s x)
    (hFroot : F.root = some m) : parentInv F := by
  have hr' : inorderIds s s.root (opFuel s) = some l := hr
  have ht : t ∈ l := root_mem_reach hr htroot
  have hsubt : ∀ z ∈ lt, z ∈ l := fun z hz => hsublt.subset hz
  have hndt : lt.Nodup := hnd.sublist hsublt
  obtain ⟨f1, tn1, llt, lrt, hfe1, hgt1, hclt, hcrt, hlteq⟩ := inorderIds_decomp hct
  have htn1 : tn = tn1 := by
    rw [hgt] at hgt1
    injection hgt1
  subst htn1
  have hcltl : inorderIds s (some tl) f1 = some llt := by rw [htl] at hclt; exact hclt
  have hcltr : inorderIds s (some tr) f1 = some lrt := by rw [htr] at hcrt; exact hcrt
  have hltr : ltr = lrt := cert_unique hctr hcltr
  subst hltr
  have htlin : tl ∈ llt := by
    obtain ⟨_, _, _, _, _, _, _, _, rfl⟩ := inorderIds_decomp hcltl
    simp
  have htrin : tr ∈ ltr := by
    obtain ⟨_, _, _, _, _, _, _, _, rfl⟩ := inorderIds_decomp hcltr
    simp
  have hndt2 := hndt
  rw [hlteq, List.nodup_append] at hndt2
  have hdisj : ∀ z, z ∈ llt → z ∉ ltr := fun z hz1 hz2 => hndt2.2.2 hz1 (by simp [hz2])
  have htnotl : t ∉ llt := fun h2 => hndt2.2.2 h2 (by simp)
  have htnotr : t ∉ ltr := by
    have h3 := hndt2.2.1
    rw [List.nodup_cons] at h3
    exact h3.1
  have hsubltrlt : ltr.Sublist lt := by
    rw [hlteq]
    exact (List.sublist_cons_self t ltr).trans (List.sublist_append_right llt _)
  have hndltr : ltr.Nodup := hndt.sublist hsubltrlt
  have hmlt : m ∈ lt := by rw [hlteq]; simp [hmltr]
  have hm2 : m ∈ l := hsubt m hmlt
  have htllt : tl ∈ lt := by rw [hlteq]; simp [htlin]
  have htrlt : tr ∈ lt := by rw [hlteq]; simp [htrin]
  have htl2 : tl ∈ l := hsubt tl htllt
  have htr2 : tr ∈ l := hsubt tr htrlt
  have hmt : m ≠ t := fun h2 => htnotr (h2 ▸ hmltr)
  have htlt : tl ≠ t := fun h2 => htnotl (h2 ▸ htlin)
  have htrt : tr ≠ t := fun h2 => htnotr (h2 ▸ htrin)
  have hmtl : m ≠ tl := fun h2 => hdisj tl htlin (by rw [← h2]; exact hmltr)
  have htrtl : tr ≠ tl := fun h2 => hdisj tl htlin (by rw [← h2]; exact htrin)
  have hsubltr : ∀ z ∈ ltr, z ∈ l := fun z hz => hsubt z (by rw [hlteq]; simp [hz])
  have hmpar : mn.parent = some tr := by
    have hclb := parentChk_back hpc hr htr2
    have h2 := linkedBack_left hclb hgtr htrl
    rw [hgm] at h2
    simpa using h2
  have htpar : tn.parent = none := by
    have h2 := parentChk_root hpc htroot
    rw [hgt] at h2
    simpa using h2
  obtain ⟨fm, lm, hcm, hsubm0⟩ := mem_subtree_cert hcltr hmltr
  have hndm : lm.Nodup := hndltr.sublist hsubm0
  have hmin : m ∈ lm := by
    obtain ⟨_, _, _, _, _, _, _, _, rfl⟩ := inorderIds_decomp hcm
    simp
  have htrnotlm : tr ∉ lm := by
    obtain ⟨ftr2, ltr2, hctr2, hsubtr2⟩ := mem_subtree_cert hr' htr2
    have htravoid := subtree_avoid hctr2 (hnd.sublist hsubtr2) hgtr
    exact htravoid.1 m htrl hcm
  have hmrfacts : ∀ mr, mn.right = some mr → mr ∈ lm ∧ mr ∈ l ∧ mr ≠ t ∧
      mr ≠ tl ∧ mr ≠ m ∧ mr ≠ tr := by
    intro mr hmr
    have hmrlm : mr ∈ lm := (children_mem hcm hmin hgm).2 mr hmr
    have hmrltr : mr ∈ ltr := hsubm0.subset hmrlm
    have hmrl : mr ∈ l := hsubltr mr hmrltr
    refine ⟨hmrlm, hmrl, fun h2 => htnotr (h2 ▸ hmrltr),
      fun h2 => hdisj tl htlin (h2 ▸ hmrltr), ?_,
      fun h2 => htrnotlm (h2 ▸ hmrlm)⟩
    intro h2
    have hmavoid := subtree_avoid hcm hndm hgm
    obtain ⟨f5, n5, ll5, lr5, _, hgm5, hcl5, hcr5, hlmeq⟩ := inorderIds_decomp hcm
    have hn5 : mn = n5 := by
      rw [hgm] at hgm5
      injection hgm5
    subst hn5
    have hcr5' : inorderIds s (some mr) f5 = some lr5 := by rw [hmr] at hcr5; exact hcr5
    have hmrin5 : mr ∈ lr5 := by
      obtain ⟨_, _, _, _, _, _, _, _, rfl⟩ := inorderIds_decomp hcr5'
      simp
    exact hmavoid.2 mr hmr hcr5' (by rw [← h2]; exact hmrin5)
  have hclbt := parentChk_back hpc hr ht
  have htlpar : tln.parent = some t := by
    have h2 := linkedBack_left hclbt hgt htl
    rw [hgtl] at h2
    simpa using h2
  have htrpar : trn.parent = some t := by
    have h2 := linkedBack_right hclbt hgt htr
    rw [hgtr] at h2
    simpa using h2
  have hslott : ∀ y yn, y ∈ l → getNode s y = some yn →
      (yn.left = some t ∨ yn.right = some t) → False := by
    intro y yn hy hgy hslot
    have hclb := parentChk_back hpc hr hy
    have h2 : (getNode s t).map Node.parent = some (some y) := by
      rcases hslot with hL | hR
      · exact linkedBack_left hclb hgy hL
      · exact linkedBack_right hclb hgy hR
    rw [hgt] at h2
    simp only [Option.map_some', Option.some.injEq] at h2
    rw [htpar] at h2
    exact absurd h2 (by simp)
  have htransfer : ∀ y, y ≠ t → y ≠ m → y ≠ tl → y ≠ tr →
      (∀ mr0, mn.right = some mr0 → y ≠ mr0) →
      ∀ qq qn2, getNode s qq = some qn2 → (qn2.left = some y ∨ qn2.right = some y) →
      ∃ qn2', getNode F qq = some qn2' ∧ (qn2'.left = some y ∨ qn2'.right = some y) := by
    intro y hyt hym hytl hytr hymr qq qn2 hgqq hslot
    by_cases h2 : qq = m
    · rw [h2, hgm] at hgqq
      have heq : mn = qn2 := by injection hgqq
      subst heq
      rcases hslot with hL | hR
      · rw [hmleft] at hL
        exact absurd hL (by simp)
      · exact absurd rfl (hymr y hR)
    · by_cases h3 : qq = tl
      · rw [h3, hgtl] at hgqq
        have heq : tln = qn2 := by injection hgqq
        subst heq
        refine ⟨tln', by rw [h3]; exact hFtl, ?_⟩
        rw [htl'l, htl'r]
        exact hslot
      · by_cases h4 : qq = tr
        · rw [h4, hgtr] at hgqq
          have heq : trn = qn2 := by injection hgqq
          subst heq
          rcases hslot with hL | hR
          · rw [htrl] at hL
            injection hL with h6
            exact absurd h6.symm hym
          · refine ⟨trn', by rw [h4]; exact hFtr, Or.inr ?_⟩
            rw [htr'r]
            exact hR
        · cases hmnr : mn.right with
          | none =>
            refine ⟨qn2, ?_, hslot⟩
            rw [hFother qq h2 h3 h4 (fun mr0 hmr0 => absurd hmr0 (by simp [hmnr]))]
            exact hgqq
          | some mr0 =>
            by_cases h6 : qq = mr0
            · obtain ⟨mrn, mrn', hgmr, hFmr, hmr'l, hmr'r, hmr'p⟩ := hmrF mr0 hmnr
              rw [h6, hgmr] at hgqq
              have heq : mrn = qn2 := by injection hgqq
              subst heq
              refine ⟨mrn', by rw [h6]; exact hFmr, ?_⟩
              rw [hmr'l, hmr'r]
              exact hslot
            · refine ⟨qn2, ?_, hslot⟩
              rw [hFother qq h2 h3 h4
                (fun mr1 hmr1 => by
                  rw [hmnr] at hmr1
                  injection hmr1 with h7
                  rw [← h7]
                  exact h6)]
              exact hgqq
  refine @parentInv_of_closedP _ (fun y => y ∈ l ∧ y ≠ t) ?_ ?_ ?_
  · intro r hr0
    rw [hFroot] at hr0
    injection hr0 with h2
    subst h2
    exact ⟨hm2, hmt⟩
  · intro r rn hr0 hgrn
    rw [hFroot] at hr0
    injection hr0 with h2
    subst h2
    rw [hFm] at hgrn
    have heq : mn' = rn := by injection hgrn
    subst heq
    exact hm'p
  · rintro x ⟨hxl, hxt⟩
    by_cases hxm : x = m
    · rw [hxm] at hxl hxt ⊢
      refine ⟨mn', hFm, ?_, ?_, ?_⟩
      · intro cx hcx
        rw [hm'l] at hcx
        injection hcx with h2
        subst h2
        exact ⟨htl2, htlt⟩
      · intro cx hcx
        rw [hm'r] at hcx
        injection hcx with h2
        subst h2
        exact ⟨htr2, htrt⟩
      · intro q2 hq2
        rw [hm'p] at hq2
        exact absurd hq2 (by simp)
    · by_cases hxtl : x = tl
      · rw [hxtl] at hxl hxt ⊢
        refine ⟨tln', hFtl, ?_, ?_, ?_⟩
        · intro cx hcx
          rw [htl'l] at hcx
          have hcxl : cx ∈ l := (children_mem hr' htl2 hgtl).1 cx hcx
          refine ⟨hcxl, ?_⟩
          intro h2
          subst h2
          exact hslott tl tln htl2 hgtl (Or.inl hcx)
        · intro cx hcx
          rw [htl'r] at hcx
          have hcxl : cx ∈ l := (children_mem hr' htl2 hgtl).2 cx hcx
          refine ⟨hcxl, ?_⟩
          intro h2
          subst h2
          exact hslott tl tln htl2 hgtl (Or.inr hcx)
        · intro q2 hq2
          rw [htl'p] at hq2
          injection hq2 with h2
          subst h2
          exact ⟨mn', hFm, Or.inl hm'l⟩
      · by_cases hxtr : x = tr
        · rw [hxtr] at hxl hxt ⊢
          refine ⟨trn', hFtr, ?_, ?_, ?_⟩
          · intro cx hcx
            rw [htr'l] at hcx
            obtain ⟨hmrlm, hmrl, hmrt, _⟩ := hmrfacts cx hcx
            exact ⟨hmrl, hmrt⟩
          · intro cx hcx
            rw [htr'r] at hcx
            have hcxl : cx ∈ l := (children_mem hr' htr2 hgtr).2 cx hcx
            refine ⟨hcxl, ?_⟩
            intro h2
            subst h2
            exact hslott tr trn htr2 hgtr (Or.inr hcx)
          · intro q2 hq2
            rw [htr'p] at hq2
            injection hq2 with h2
            subst h2
            exact ⟨mn', hFm, Or.inr hm'r⟩
        · cases hmnr : mn.right with
          | none =>
            have hxmr : ∀ mr0, mn.right = some mr0 → x ≠ mr0 :=
              fun mr0 hmr0 => absurd hmr0 (by simp [hmnr])
            obtain ⟨xn, hgxn⟩ := mem_reach_alloc hr hxl
            refine ⟨xn, by rw [hFother x hxm hxtl hxtr hxmr]; exact hgxn,
              ?_, ?_, ?_⟩
            · intro cx hcx
              refine ⟨(children_mem hr' hxl hgxn).1 cx hcx, ?_⟩
              intro h2
              subst h2
              exact hslott x xn hxl hgxn (Or.inl hcx)
            · intro cx hcx
              refine ⟨(children_mem hr' hxl hgxn).2 cx hcx, ?_⟩
              intro h2
              subst h2
              exact hslott x xn hxl hgxn (Or.inr hcx)
            · intro q2 hq2
              obtain ⟨qn2, hgq2, hslot2⟩ := parent_slot_of_mem hpc hr hxl hgxn hq2
              exact htransfer x hxt hxm hxtl hxtr hxmr q2 qn2 hgq2 hslot2
          | some mr0 =>
            obtain ⟨mrn, mrn', hgmr, hFmr, hmr'l, hmr'r, hmr'p⟩ := hmrF mr0 hmnr
            by_cases hxmr0 : x = mr0
            · rw [hxmr0] at hxl hxt ⊢
              refine ⟨mrn', hFmr, ?_, ?_, ?_⟩
              · intro cx hcx
                rw [hmr'l] at hcx
                have hcxl : cx ∈ l := (children_mem hr' hxl hgmr).1 cx hcx
                refine ⟨hcxl, ?_⟩
                intro h2
                subst h2
                exact hslott mr0 mrn hxl hgmr (Or.inl hcx)
              · intro cx hcx
                rw [hmr'r] at hcx
                have hcxl : cx ∈ l := (children_mem hr' hxl hgmr).2 cx hcx
                refine ⟨hcxl, ?_⟩
                intro h2
                subst h2
                exact hslott mr0 mrn hxl hgmr (Or.inr hcx)
              · intro q2 hq2
                rw [hmr'p] at hq2
                injection hq2 with h2
                subst h2
                refine ⟨trn', hFtr, Or.inl ?_⟩
                rw [htr'l, hmnr]
            · have hxmr : ∀ mr1, mn.right = some mr1 → x ≠ mr1 := by
                intro mr1 hmr1
                rw [hmnr] at hmr1
                injection hmr1 with h7
                rw [← h7]
                exact hxmr0
              obtain ⟨xn, hgxn⟩ := mem_reach_alloc hr hxl
              refine ⟨xn, by rw [hFother x hxm hxtl hxtr hxmr]; exact hgxn,
                ?_, ?_, ?_⟩
              · intro cx hcx
                refine ⟨(children_mem hr' hxl hgxn).1 cx hcx, ?_⟩
                intro h2
                subst h2
                exact hslott x xn hxl hgxn (Or.inl hcx)
              · intro cx hcx
                refine ⟨(children_mem hr' hxl hgxn).2 cx hcx, ?_⟩
                intro h2
                subst h2
                exact hslott x xn hxl hgxn (Or.inr hcx)
              · intro q2 hq2
                obtain ⟨qn2, hgq2, hslot2⟩ := parent_slot_of_mem hpc hr hxl hgxn hq2
                exact htransfer x hxt hxm hxtl hxtr hxmr q2 qn2 hgq2 hslot2

end BT

namespace BT

/-- A successful search walks a root-to-node path of left/right steps. -/
theorem findv_path {s : Tree} {k : Int} :
    ∀ {g : Nat} {cur : Option Nat} {w : Nat},
      findValueLoop s k cur g = .ok (some w) →
      ∃ ds, followFrom s cur ds = some w := by
  intro g
  induction g with
  | zero => intro cur w h; simp [findValueLoop] at h
  | succ g ih =>
    intro cur w h
    cases cur with
    | none =>
      rw [findValueLoop] at h
      simp at h
    | some i =>
      rw [findValueLoop] at h
      cases hgn : getN s i with
      | error e => rw [hgn, errBind] at h; simp at h
      | ok n =>
        rw [hgn, okBind] at h
        have hg2 := getN_ok hgn
        by_cases hkey : n.key = k
        · rw [if_pos hkey] at h
          injection h with h2
          injection h2 with h3
          subst h3
          exact ⟨[], rfl⟩
        · rw [if_neg hkey] at h
          by_cases hlt : k < n.key
          · rw [if_pos hlt] at h
            obtain ⟨ds, hds⟩ := ih h
            refine ⟨Dir.L :: ds, ?_⟩
            rw [followFrom, hg2]
            exact hds
          · rw [if_neg hlt] at h
            obtain ⟨ds, hds⟩ := ih h
            refine ⟨Dir.R :: ds, ?_⟩
            rw [followFrom, hg2]
            exact hds

end BT

namespace BT

set_option maxHeartbeats 1000000

/-- Wrap an arena lookup into the `Except`-valued dereference. -/
theorem getN_of {s : Tree} {i : Nat} {n : Node} (h : getNode s i = some n) :
    getN s i = .ok n := by
  unfold getN
  rw [h]

/-- Rewriting the root pointer leaves every arena record unchanged. -/
theorem getNode_rootset {s : Tree} {r : Option Nat} {x : Nat} :
    getNode ({ s with root := r } : Tree) x = getNode s x := rfl

/-- `remove` preserves the parent-link invariant on every well-shaped,
back-linked, search-ordered state, whatever the outcome of the search:
the absent-key no-op, the at-most-one-child transplants, both duplicate-key
corrupted splices, and every two-children successor splice. -/
theorem remove_preserves_parentInv {s : Tree} {l : List Nat} {K : List Int}
    (hr : reachIds s = some l) (hnd : l.Nodup) (hpc : parentChk s = true)
    (hbst : bstKeys s s.root (opFuel s) = some K)
    {v : Int} {fuel : Nat} {s' : Tree}
    (hrem : remove s v fuel = .ok s') : parentInv s' := by
  have hr' : inorderIds s s.root (opFuel s) = some l := hr
  unfold remove at hrem
  cases hfv : findValueLoop s v s.root fuel with
  | error e => rw [hfv, errBind] at hrem; exact absurd hrem (by simp)
  | ok tOpt =>
    rw [hfv, okBind] at hrem
    cases tOpt with
    | none =>
      simp only [] at hrem
      injection hrem with h2
      subst h2
      exact parentInv_of_wf hr hpc
    | some t =>
      simp only [] at hrem
      cases hgt0 : getN s t with
      | error e => rw [hgt0, errBind] at hrem; exact absurd hrem (by simp)
      | ok tn =>
        rw [hgt0, okBind] at hrem
        have hgt := getN_ok hgt0
        obtain ⟨dst, hdst⟩ := findv_path hfv
        have ht : t ∈ l := follow_mem hr' hdst
        obtain ⟨A, B, hABdec, hktv, hAfree⟩ := findv_first hfv hr' hbst
        have htnk : tn.key = v := by
          unfold keyOf at hktv
          rw [hgt] at hktv
          exact hktv
        cases htnl : tn.left with
        | none =>
          rw [htnl] at hrem
          simp only [] at hrem
          exact transplant_preserves_parentInv hr hnd hpc ht hgt (Or.inr (Or.inr rfl)) hrem
        | some tl =>
          rw [htnl] at hrem
          simp only [] at hrem
          cases htnr : tn.right with
          | none =>
            rw [htnr] at hrem
            simp only [] at hrem
            exact transplant_preserves_parentInv hr hnd hpc ht hgt
              (Or.inr (Or.inl (by rw [htnl]))) hrem
          | some tr =>
            rw [htnr] at hrem
            simp only [] at hrem
            -- evaluate successorOp
            cases hso : successorOp s tn.key fuel with
            | error e => rw [hso, errBind] at hrem; exact absurd hrem (by simp)
            | ok pr =>
              rw [hso, okBind] at hrem
              rw [htnk] at hso
              unfold successorOp at hso
              rw [hfv, okBind] at hso
              simp only [] at hso
              rw [hgt0, okBind] at hso
              rw [htnr] at hso
              simp only [] at hso
              cases hml : minLoop s tr fuel with
              | error e => rw [hml, errBind] at hso; exact absurd hso (by simp)
              | ok m =>
                rw [hml, okBind] at hso
                cases hgm0 : getN s m with
                | error e => rw [hgm0, errBind] at hso; exact absurd hso (by simp)
                | ok mn =>
                  rw [hgm0, okBind] at hso
                  have hgm := getN_ok hgm0
                  have hpr : pr = (mn.key, s) := by
                    injection hso with h2
                    exact h2.symm
                  subst hpr
                  simp only [] at hrem
                  cases hfv2 : findValueLoop s mn.key s.root fuel with
                  | error e => rw [hfv2, errBind] at hrem; exact absurd hrem (by simp)
                  | ok snOpt =>
                    rw [hfv2, okBind] at hrem
                    cases snOpt with
                    | none =>
                      simp only [deref, errBind] at hrem
                      exact absurd hrem (by simp)
                    | some sn =>
                      simp only [deref, okBind] at hrem
                      cases hgsn0 : getN s sn with
                      | error e => rw [hgsn0, errBind] at hrem; exact absurd hrem (by simp)
                      | ok snn =>
                        rw [hgsn0, okBind] at hrem
                        have hgsn := getN_ok hgsn0
                        obtain ⟨A2, B2, hABdec2, hksn, hA2free⟩ :=
                          findv_first hfv2 hr' hbst
                        -- subtree structure at t
                        obtain ⟨ftc, ltc, hct, hsubltc⟩ := mem_subtree_cert hr' ht
                        obtain ⟨f1, tn1, llt, ltr, hfe1, hgt1x, hclt, hcrt, hltceq⟩ :=
                          inorderIds_decomp hct
                        have htn1 : tn = tn1 := by
                          rw [hgt] at hgt1x
                          injection hgt1x
                        subst htn1
                        have hcltl : inorderIds s (some tl) f1 = some llt := by
                          rw [htnl] at hclt; exact hclt
                        have hcltr : inorderIds s (some tr) f1 = some ltr := by
                          rw [htnr] at hcrt; exact hcrt
                        have hndt : ltc.Nodup := hnd.sublist hsubltc
                        have htlin : tl ∈ llt := by
                          obtain ⟨_, _, _, _, _, _, _, _, rfl⟩ := inorderIds_decomp hcltl
                          simp
                        have htrin : tr ∈ ltr := by
                          obtain ⟨_, _, _, _, _, _, _, _, rfl⟩ := inorderIds_decomp hcltr
                          simp
                        have hndt2 := hndt
                        rw [hltceq, List.nodup_append] at hndt2
                        have hdisj : ∀ z, z ∈ llt → z ∉ ltr :=
                          fun z hz1 hz2 => hndt2.2.2 hz1 (by simp [hz2])
                        have htnotl : t ∉ llt := fun h2 => hndt2.2.2 h2 (by simp)
                        have htnotr : t ∉ ltr := by
                          have h3 := hndt2.2.1
                          rw [List.nodup_cons] at h3
                          exact h3.1
                        have htllt : tl ∈ ltc := by rw [hltceq]; simp [htlin]
                        have htrlt : tr ∈ ltc := by rw [hltceq]; simp [htrin]
                        have htl2 : tl ∈ l := hsubltc.subset htllt
                        have htr2 : tr ∈ l := hsubltc.subset htrlt
                        have htlt : tl ≠ t := fun h2 => htnotl (h2 ▸ htlin)
                        have htrt : tr ≠ t := fun h2 => htnotr (h2 ▸ htrin)
                        have htrtl : tr ≠ tl := fun h2 =>
                          hdisj tl htlin (by rw [← h2]; exact htrin)
                        obtain ⟨tln, hgtl⟩ := mem_reach_alloc hr htl2
                        obtain ⟨trn, hgtr⟩ := mem_reach_alloc hr htr2
                        have hclbt := parentChk_back hpc hr ht
                        have htlpar : tln.parent = some t := by
                          have h2 := linkedBack_left hclbt hgt htnl
                          rw [hgtl] at h2
                          simpa using h2
                        have htrpar : trn.parent = some t := by
                          have h2 := linkedBack_right hclbt hgt htnr
                          rw [hgtr] at h2
                          simpa using h2
                        by_cases hkv : mn.key = v
                        · have hsnt : t = sn := by
                            refine first_occ_eq hABdec hABdec2 hktv ?_ hAfree ?_
                            · rw [hksn, hkv]
                            · intro j hj
                              have h3 := hA2free j hj
                              rw [hkv] at h3
                              exact h3
                          subst hsnt
                          have hsnn : tn = snn := by
                            rw [hgt] at hgsn
                            injection hgsn with h2
                          subst hsnn
                          cases htnp : tn.parent with
                          | none =>
                            have hroot : s.root = some t := by
                              rcases parent_inside hr' t ht with h2 | ⟨y, hy, yn, hgy, hslot⟩
                              · exact h2
                              · exfalso
                                have hclb := parentChk_back hpc hr hy
                                have h3 : (getNode s t).map Node.parent = some (some y) := by
                                  rcases hslot with hL | hR
                                  · exact linkedBack_left hclb hgy hL
                                  · exact linkedBack_right hclb hgy hR
                                rw [hgt] at h3
                                simp only [Option.map_some', Option.some.injEq] at h3
                                rw [htnp] at h3
                                exact absurd h3 (by simp)
                            rw [htnp] at hrem
                            rw [if_pos (show (none : Option Nat) ≠ some t by simp)] at hrem
                            rw [htnr] at hrem
                            have hgt1a : getN ({ s with root := some tr } : Tree) t = .ok tn := hgt0
                            have hgtr1a : getN ({ s with root := some tr } : Tree) tr = .ok trn :=
                              getN_of hgtr
                            have htp1 : transplant s t (some tr) =
                                .ok (setNode ({ s with root := some tr } : Tree) tr
                                  { trn with parent := none }) := by
                              unfold transplant
                              rw [if_pos hroot, okBind]
                              simp only []
                              rw [hgt1a, okBind, hgtr1a, okBind, htnp]
                            rw [htp1, okBind] at hrem
                            have hGf_t : getNode (setNode ({ s with root := some tr } : Tree) tr
                                { trn with parent := none }) t = some tn := by
                              rw [getNode_set_other (Ne.symm htrt)]
                              exact hgt
                            have hGf_tr : getNode (setNode ({ s with root := some tr } : Tree) tr
                                { trn with parent := none }) tr = some { trn with parent := none } :=
                              getNode_set_self hgtr _
                            have htp2 : transplant (setNode ({ s with root := some tr } : Tree) tr
                                { trn with parent := none }) t (some t) = .error .nullDeref := by
                              unfold transplant
                              rw [if_neg ?hne1]
                              case hne1 =>
                                intro h2
                                have h4 : (setNode ({ s with root := some tr } : Tree) tr
                                    { trn with parent := none }).root = some tr := rfl
                                rw [h4] at h2
                                injection h2 with h5
                                exact htrt h5
                              rw [getN_of hGf_t, okBind, htnp]
                              simp only [deref, errBind]
                            rw [getN_of hGf_t, okBind] at hrem
                            simp only [okBind] at hrem
                            rw [setNode_id hGf_t] at hrem
                            rw [getN_of hGf_t] at hrem
                            simp only [okBind] at hrem
                            rw [htnr] at hrem
                            simp only [okBind] at hrem
                            rw [getN_of hGf_tr] at hrem
                            simp only [okBind] at hrem
                            have hGc_t : getNode (setNode (setNode
                                ({ s with root := some tr } : Tree) tr { trn with parent := none })
                                tr { trn with parent := some t }) t = some tn := by
                              rw [getNode_set_other (Ne.symm htrt), getNode_set_other (Ne.symm htrt)]
                              exact hgt
                            have htp2 : transplant (setNode (setNode
                                ({ s with root := some tr } : Tree) tr { trn with parent := none })
                                tr { trn with parent := some t }) t (some t) =
                                .error .nullDeref := by
                              unfold transplant
                              rw [if_neg ?hne2]
                              case hne2 =>
                                intro h2
                                have h4 : (setNode (setNode
                                    ({ s with root := some tr } : Tree) tr
                                    { trn with parent := none })
                                    tr { trn with parent := some t }).root = some tr := rfl
                                rw [h4] at h2
                                injection h2 with h5
                                exact htrt h5
                              rw [getN_of hGc_t, okBind, htnp]
                              simp only [deref, errBind]
                            rw [htp2, errBind] at hrem
                            exact absurd hrem (by simp)
                          | some q =>
                            obtain ⟨qn, hgq, hslot0⟩ := parent_slot_of_mem hpc hr ht hgt htnp
                            have hqt : q ≠ t := by
                              intro h2
                              exact parent_ne_self hr hnd hpc ht hgt (by rw [htnp, h2])
                            have hrootne : s.root ≠ some t := by
                              intro h2
                              have h3 := parentChk_root hpc h2
                              rw [hgt] at h3
                              simp only [Option.map_some', Option.some.injEq] at h3
                              rw [htnp] at h3
                              exact absurd h3 (by simp)
                            have hql := parent_mem_reach hpc hr ht hgt htnp
                            obtain ⟨fq, lq, hcq, hsubq⟩ := mem_subtree_cert hr' hql
                            have hqavoid := subtree_avoid hcq (hnd.sublist hsubq) hgq
                            have hqnotin : q ∉ ltc := by
                              rcases hslot0 with hL | hR
                              · exact hqavoid.1 t hL hct
                              · exact hqavoid.2 t hR hct
                            have hqtl : q ≠ tl := fun h2 => hqnotin (by rw [h2]; exact htllt)
                            have hqtr : q ≠ tr := fun h2 => hqnotin (by rw [h2]; exact htrlt)
                            rw [htnp] at hrem
                            rw [if_pos (show (some q : Option Nat) ≠ some t from
                              by simp [hqt])] at hrem
                            rw [htnr] at hrem
                            by_cases hqL : qn.left = some t
                            · have hgX0t : getNode (setNode s q { qn with left := some tr }) t =
                                  some tn := by
                                rw [getNode_set_other (Ne.symm hqt)]
                                exact hgt
                              have hgX0tr : getNode (setNode s q { qn with left := some tr }) tr =
                                  some trn := by
                                rw [getNode_set_other (Ne.symm hqtr)]
                                exact hgtr
                              have hgX0q : getNode (setNode s q { qn with left := some tr }) q =
                                  some { qn with left := some tr } := getNode_set_self hgq _
                              have htp1 : transplant s t (some tr) = .ok (setNode (setNode s q
                                  { qn with left := some tr }) tr { trn with parent := some q }) := by
                                unfold transplant
                                rw [if_neg hrootne, hgt0, okBind, htnp]
                                simp only [deref, okBind]
                                rw [getN_of hgq, okBind, if_pos hqL]
                                rw [getN_of hgX0t, okBind, getN_of hgX0tr, okBind, htnp]
                              rw [htp1, okBind] at hrem
                              have hgX1t : getNode (setNode (setNode s q { qn with left := some tr })
                                  tr { trn with parent := some q }) t = some tn := by
                                rw [getNode_set_other (Ne.symm htrt)]
                                exact hgX0t
                              have hgX1tr : getNode (setNode (setNode s q
                                  { qn with left := some tr }) tr { trn with parent := some q }) tr =
                                  some { trn with parent := some q } := getNode_set_self hgX0tr _
                              rw [getN_of hgX1t, okBind] at hrem
                              simp only [okBind] at hrem
                              rw [setNode_id hgX1t] at hrem
                              rw [getN_of hgX1t] at hrem
                              simp only [okBind] at hrem
                              rw [htnr] at hrem
                              simp only [okBind] at hrem
                              rw [getN_of hgX1tr] at hrem
                              simp only [okBind] at hrem
                              have hgX2t : getNode (setNode (setNode (setNode s q
                                  { qn with left := some tr }) tr { trn with parent := some q })
                                  tr { trn with parent := some t }) t = some tn := by
                                rw [getNode_set_other (Ne.symm htrt)]
                                exact hgX1t
                              have hgX2q : getNode (setNode (setNode (setNode s q
                                  { qn with left := some tr }) tr { trn with parent := some q })
                                  tr { trn with parent := some t }) q =
                                  some { qn with left := some tr } := by
                                rw [getNode_set_other hqtr, getNode_set_other hqtr]
                                exact getNode_set_self hgq _
                              have hgX3t : getNode (setNode (setNode (setNode (setNode s q
                                  { qn with left := some tr }) tr { trn with parent := some q })
                                  tr { trn with parent := some t }) q
                                  { { qn with left := some tr } with right := some t }) t =
                                  some tn := by
                                rw [getNode_set_other (Ne.symm hqt)]
                                exact hgX2t
                              have htp2 : transplant (setNode (setNode (setNode s q
                                  { qn with left := some tr }) tr { trn with parent := some q })
                                  tr { trn with parent := some t }) t (some t) =
                                  .ok (setNode (setNode (setNode (setNode s q
                                  { qn with left := some tr }) tr { trn with parent := some q })
                                  tr { trn with parent := some t }) q
                                  { { qn with left := some tr } with right := some t }) := by
                                unfold transplant
                                rw [if_neg (show ¬ ((setNode (setNode (setNode s q
                                  { qn with left := some tr }) tr { trn with parent := some q })
                                  tr { trn with parent := some t }).root = some t) from hrootne)]
                                rw [getN_of hgX2t, okBind, htnp]
                                simp only [deref, okBind]
                                rw [getN_of hgX2q, okBind]
                                rw [if_neg (show ¬ ((({ qn with left := some tr } : Node)).left =
                                  some t) from fun h2 => htrt (Option.some.inj h2))]
                                rw [getN_of hgX3t]
                                simp only [okBind]
                                rw [setNode_id hgX3t]
                              rw [htp2, okBind] at hrem
                              rw [getN_of hgX3t] at hrem
                              simp only [okBind] at hrem
                              rw [setNode_id hgX3t] at hrem
                              rw [getN_of hgX3t] at hrem
                              simp only [okBind] at hrem
                              rw [htnl] at hrem
                              simp only [okBind] at hrem
                              have hgX3tl : getNode (setNode (setNode (setNode (setNode s q
                                  { qn with left := some tr }) tr { trn with parent := some q })
                                  tr { trn with parent := some t }) q
                                  { { qn with left := some tr } with right := some t }) tl =
                                  some tln := by
                                rw [getNode_set_other (Ne.symm hqtl), getNode_set_other (Ne.symm htrtl),
                                  getNode_set_other (Ne.symm htrtl), getNode_set_other (Ne.symm hqtl)]
                                exact hgtl
                              rw [getN_of hgX3tl] at hrem
                              simp only [okBind] at hrem
                              have hfin : setNode (setNode (setNode (setNode (setNode s q
                                  { qn with left := some tr }) tr { trn with parent := some q })
                                  tr { trn with parent := some t }) q
                                  { { qn with left := some tr } with right := some t }) tl
                                  ({ tln with parent := some t } : Node) =
                                  setNode (setNode (setNode (setNode s q
                                  { qn with left := some tr }) tr { trn with parent := some q })
                                  tr { trn with parent := some t }) q
                                  { { qn with left := some tr } with right := some t } := by
                                rw [show ({ tln with parent := some t } : Node) = tln from
                                  by rw [← htlpar]]
                                exact setNode_id hgX3tl
                              rw [hfin] at hrem
                              injection hrem with hfs
                              subst hfs
                              refine remove_dup_left_parentInv hr hnd hpc ht hgt htnr htnp hgq hqL
                                (getNode_set_self hgX2q _) rfl rfl rfl ?_ rfl
                              intro x hx
                              rw [getNode_set_other hx]
                              by_cases hxtr : x = tr
                              · subst hxtr
                                rw [getNode_set_self hgX1tr, hgtr]
                                rw [show ({ trn with parent := some t } : Node) = trn from
                                  by rw [← htrpar]]
                              · rw [getNode_set_other hxtr, getNode_set_other hxtr,
                                  getNode_set_other hx]
                            · have hqR : qn.right = some t := by
                                rcases hslot0 with hL | hR
                                · exact absurd hL hqL
                                · exact hR
                              have hgX0t : getNode (setNode s q { qn with right := some tr }) t =
                                  some tn := by
                                rw [getNode_set_other (Ne.symm hqt)]
                                exact hgt
                              have hgX0tr : getNode (setNode s q { qn with right := some tr }) tr =
                                  some trn := by
                                rw [getNode_set_other (Ne.symm hqtr)]
                                exact hgtr
                              have htp1 : transplant s t (some tr) = .ok (setNode (setNode s q
                                  { qn with right := some tr }) tr { trn with parent := some q }) := by
                                unfold transplant
                                rw [if_neg hrootne, hgt0, okBind, htnp]
                                simp only [deref, okBind]
                                rw [getN_of hgq, okBind, if_neg hqL]
                                rw [getN_of hgX0t, okBind, getN_of hgX0tr, okBind, htnp]
                              rw [htp1, okBind] at hrem
                              have hgX1t : getNode (setNode (setNode s q { qn with right := some tr })
                                  tr { trn with parent := some q }) t = some tn := by
                                rw [getNode_set_other (Ne.symm htrt)]
                                exact hgX0t
                              have hgX1tr : getNode (setNode (setNode s q
                                  { qn with right := some tr }) tr { trn with parent := some q }) tr =
                                  some { trn with parent := some q } := getNode_set_self hgX0tr _
                              rw [getN_of hgX1t, okBind] at hrem
                              simp only [okBind] at hrem
                              rw [setNode_id hgX1t] at hrem
                              rw [getN_of hgX1t] at hrem
                              simp only [okBind] at hrem
                              rw [htnr] at hrem
                              simp only [okBind] at hrem
                              rw [getN_of hgX1tr] at hrem
                              simp only [okBind] at hrem
                              have hgX2t : getNode (setNode (setNode (setNode s q
                                  { qn with right := some tr }) tr { trn with parent := some q })
                                  tr { trn with parent := some t }) t = some tn := by
                                rw [getNode_set_other (Ne.symm htrt)]
                                exact hgX1t
                              have hgX2q : getNode (setNode (setNode (setNode s q
                                  { qn with right := some tr }) tr { trn with parent := some q })
                                  tr { trn with parent := some t }) q =
                                  some { qn with right := some tr } := by
                                rw [getNode_set_other hqtr, getNode_set_other hqtr]
                                exact getNode_set_self hgq _
                              have hgX3t : getNode (setNode (setNode (setNode (setNode s q
                                  { qn with right := some tr }) tr { trn with parent := some q })
                                  tr { trn with parent := some t }) q
                                  { { qn with right := some tr } with right := some t }) t =
                                  some tn := by
                                rw [getNode_set_other (Ne.symm hqt)]
                                exact hgX2t
                              have htp2 : transplant (setNode (setNode (setNode s q
                                  { qn with right := some tr }) tr { trn with parent := some q })
                                  tr { trn with parent := some t }) t (some t) =
                                  .ok (setNode (setNode (setNode (setNode s q
                                  { qn with right := some tr }) tr { trn with parent := some q })
                                  tr { trn with parent := some t }) q
                                  { { qn with right := some tr } with right := some t }) := by
                                unfold transplant
                                rw [if_neg (show ¬ ((setNode (setNode (setNode s q
                                  { qn with right := some tr }) tr { trn with parent := some q })
                                  tr { trn with parent := some t }).root = some t) from hrootne)]
                                rw [getN_of hgX2t, okBind, htnp]
                                simp only [deref, okBind]
                                rw [getN_of hgX2q, okBind]
                                rw [if_neg (show ¬ ((({ qn with right := some tr } : Node)).left =
                                  some t) from hqL)]
                                rw [getN_of hgX3t]
                                simp only [okBind]
                                rw [setNode_id hgX3t]
                              rw [htp2, okBind] at hrem
                              rw [getN_of hgX3t] at hrem
                              simp only [okBind] at hrem
                              rw [setNode_id hgX3t] at hrem
                              rw [getN_of hgX3t] at hrem
                              simp only [okBind] at hrem
                              rw [htnl] at hrem
                              simp only [okBind] at hrem
                              have hgX3tl : getNode (setNode (setNode (setNode (setNode s q
                                  { qn with right := some tr }) tr { trn with parent := some q })
                                  tr { trn with parent := some t }) q
                                  { { qn with right := some tr } with right := some t }) tl =
                                  some tln := by
                                rw [getNode_set_other (Ne.symm hqtl), getNode_set_other (Ne.symm htrtl),
                                  getNode_set_other (Ne.symm htrtl), getNode_set_other (Ne.symm hqtl)]
                                exact hgtl
                              rw [getN_of hgX3tl] at hrem
                              simp only [okBind] at hrem
                              have hfin : setNode (setNode (setNode (setNode (setNode s q
                                  { qn with right := some tr }) tr { trn with parent := some q })
                                  tr { trn with parent := some t }) q
                                  { { qn with right := some tr } with right := some t }) tl
                                  ({ tln with parent := some t } : Node) =
                                  setNode (setNode (setNode (setNode s q
                                  { qn with right := some tr }) tr { trn with parent := some q })
                                  tr { trn with parent := some t }) q
                                  { { qn with right := some tr } with right := some t } := by
                                rw [show ({ tln with parent := some t } : Node) = tln from
                                  by rw [← htlpar]]
                                exact setNode_id hgX3tl
                              rw [hfin] at hrem
                              injection hrem with hfs
                              have hX3s : setNode (setNode (setNode (setNode s q
                                  { qn with right := some tr }) tr { trn with parent := some q })
                                  tr { trn with parent := some t }) q
                                  { { qn with right := some tr } with right := some t } = s := by
                                rw [setNode_setNode]
                                rw [show ({ trn with parent := some t } : Node) = trn from
                                  by rw [← htrpar]]
                                rw [setNode_id hgX0tr]
                                rw [setNode_setNode]
                                rw [← hqR]
                                exact setNode_id hgq
                              rw [hX3s] at hfs
                              subst hfs
                              exact parentInv_of_wf hr hpc
                        · -- the re-found node is the in-order successor m
                          obtain ⟨ftE, ltE, XE, YE, hctE, hsplitE⟩ := follow_embed hr' hdst
                          have hltE : ltc = ltE := cert_unique hct hctE
                          subst hltE
                          obtain ⟨mnX, hgmX, hmleft, ⟨kk, hpath⟩, hlastL⟩ := minLoop_char hml
                          have hmnX : mn = mnX := by
                            rw [hgm] at hgmX
                            injection hgmX
                          subst hmnX
                          have hheadtr : ltr.head? = some m :=
                            head_of_all_left hcltr hpath hgm hmleft
                          obtain ⟨ltr2, hltr2⟩ : ∃ ltr2, ltr = m :: ltr2 := by
                            cases ltr with
                            | nil => simp at hheadtr
                            | cons a rest =>
                              rw [List.head?_cons] at hheadtr
                              injection hheadtr with h2
                              exact ⟨rest, by rw [h2]⟩
                          have hmltr : m ∈ ltr := by rw [hltr2]; simp
                          have hmlt : m ∈ ltc := by rw [hltceq]; simp [hmltr]
                          have hm2 : m ∈ l := hsubltc.subset hmlt
                          have hmt : m ≠ t := fun h2 => htnotr (h2 ▸ hmltr)
                          have hmtl : m ≠ tl := fun h2 =>
                            hdisj tl htlin (by rw [← h2]; exact hmltr)
                          have hksnm : keyOf s m = mn.key := by
                            unfold keyOf
                            rw [hgm]
                          have hdec3 : l = (XE ++ llt ++ [t]) ++ m :: (ltr2 ++ YE) := by
                            rw [hsplitE, hltceq, hltr2]
                            simp
                          have hKmap : K = l.map (keyOf s) := bst_inorder_keys hr' hbst
                          have hsorted : List.Pairwise (· ≤ ·) (l.map (keyOf s)) := by
                            rw [← hKmap]
                            exact bst_sorted hbst
                          have hvle : v ≤ mn.key := by
                            have h2 := hsorted
                            rw [hdec3, List.map_append, List.pairwise_append] at h2
                            have h3 := h2.2.2 (keyOf s t) (by simp) (keyOf s m) (by simp)
                            rw [hktv, hksnm] at h3
                            exact h3
                          have hvlt : v < mn.key := lt_of_le_of_ne hvle (fun h2 => hkv h2.symm)
                          have hAfree3 : ∀ j ∈ XE ++ llt ++ [t], keyOf s j ≠ mn.key := by
                            intro j hj
                            rcases List.mem_append.mp hj with hj1 | hj2
                            · have h2 := hsorted
                              have hdec4 : l = (XE ++ llt) ++ (t :: m :: (ltr2 ++ YE)) := by
                                rw [hdec3]
                                simp
                              rw [hdec4, List.map_append, List.pairwise_append] at h2
                              have h3 : keyOf s j ≤ keyOf s t := by
                                have h4 := h2.2.2 (keyOf s j)
                                  (List.mem_map_of_mem (keyOf s) hj1) (keyOf s t) (by simp)
                                exact h4
                              rw [hktv] at h3
                              exact ne_of_lt (lt_of_le_of_lt h3 hvlt)
                            · rcases List.mem_singleton.mp hj2 with rfl
                              rw [hktv]
                              exact fun h2 => hkv h2.symm
                          have hsnm : m = sn :=
                            first_occ_eq hdec3 hABdec2 hksnm hksn hAfree3 hA2free
                          subst hsnm
                          have hsnn : mn = snn := by
                            rw [hgm] at hgsn
                            injection hgsn
                          subst hsnn
                          by_cases hmtr : m = tr
                          · subst hmtr
                            have htrn : mn = trn := by
                              rw [hgm] at hgtr
                              injection hgtr
                            subst htrn
                            rw [htrpar] at hrem
                            rw [if_neg (show ¬ ((some t : Option Nat) ≠ some t) from
                              by simp)] at hrem
                            cases htnp : tn.parent with
                            | none =>
                              have hroot : s.root = some t := by
                                rcases parent_inside hr' t ht with h2 | ⟨y, hy, yn, hgy, hslot⟩
                                · exact h2
                                · exfalso
                                  have hclb := parentChk_back hpc hr hy
                                  have h3 : (getNode s t).map Node.parent = some (some y) := by
                                    rcases hslot with hL | hR
                                    · exact linkedBack_left hclb hgy hL
                                    · exact linkedBack_right hclb hgy hR
                                  rw [hgt] at h3
                                  simp only [Option.map_some', Option.some.injEq] at h3
                                  rw [htnp] at h3
                                  exact absurd h3 (by simp)
                              have hgt1a : getN ({ s with root := some m } : Tree) t = .ok tn := hgt0
                              have hgm1a : getN ({ s with root := some m } : Tree) m = .ok mn :=
                                getN_of hgm
                              have htp1 : transplant s t (some m) = .ok (setNode
                                  ({ s with root := some m } : Tree) m
                                  { mn with parent := none }) := by
                                unfold transplant
                                rw [if_pos hroot, okBind]
                                simp only []
                                rw [hgt1a, okBind, hgm1a, okBind, htnp]
                              rw [htp1, okBind] at hrem
                              have hgXt : getNode (setNode ({ s with root := some m } : Tree) m
                                  { mn with parent := none }) t = some tn := by
                                rw [getNode_set_other (Ne.symm hmt)]
                                exact hgt
                              have hgXm : getNode (setNode ({ s with root := some m } : Tree) m
                                  { mn with parent := none }) m =
                                  some { mn with parent := none } := getNode_set_self hgm _
                              rw [getN_of hgXt, okBind] at hrem
                              rw [getN_of hgXm] at hrem
                              simp only [okBind] at hrem
                              rw [htnl] at hrem
                              have hgX2m : getNode (setNode (setNode
                                  ({ s with root := some m } : Tree) m { mn with parent := none })
                                  m { mn with left := some tl, parent := none }) m =
                                  some { mn with left := some tl, parent := none } :=
                                getNode_set_self hgXm _
                              rw [getN_of hgX2m] at hrem
                              simp only [okBind] at hrem
                              have hgX2tl : getNode (setNode (setNode
                                  ({ s with root := some m } : Tree) m { mn with parent := none })
                                  m { mn with left := some tl, parent := none }) tl =
                                  some tln := by
                                rw [getNode_set_other (Ne.symm hmtl), getNode_set_other (Ne.symm hmtl)]
                                exact hgtl
                              rw [getN_of hgX2tl] at hrem
                              simp only [okBind] at hrem
                              injection hrem with hfs
                              subst hfs
                              have hFtrX : getNode (setNode (setNode (setNode
                                  ({ s with root := some m } : Tree) m { mn with parent := none })
                                  m { mn with left := some tl, parent := none }) tl
                                  { tln with parent := some m }) m =
                                  some { mn with left := some tl, parent := none } := by
                                rw [getNode_set_other hmtl]
                                exact hgX2m
                              have hFtlX : getNode (setNode (setNode (setNode
                                  ({ s with root := some m } : Tree) m { mn with parent := none })
                                  m { mn with left := some tl, parent := none }) tl
                                  { tln with parent := some m }) tl =
                                  some { tln with parent := some m } :=
                                getNode_set_self hgX2tl _
                              refine remove_splice_child_root_parentInv hr hnd hpc hroot hgt htnl
                                htnr hct hsubltc hgm hgtl hmleft hFtrX rfl rfl rfl hFtlX rfl rfl rfl
                                ?_ rfl
                              intro x hxm hxtl
                              rw [getNode_set_other hxtl, getNode_set_other hxm,
                                getNode_set_other hxm]
                              rfl
                            | some q =>
                              obtain ⟨qn, hgq, hslot0⟩ := parent_slot_of_mem hpc hr ht hgt htnp
                              have hqt : q ≠ t := by
                                intro h2
                                exact parent_ne_self hr hnd hpc ht hgt (by rw [htnp, h2])
                              have hrootne : s.root ≠ some t := by
                                intro h2
                                have h3 := parentChk_root hpc h2
                                rw [hgt] at h3
                                simp only [Option.map_some', Option.some.injEq] at h3
                                rw [htnp] at h3
                                exact absurd h3 (by simp)
                              have hql := parent_mem_reach hpc hr ht hgt htnp
                              obtain ⟨fq, lq, hcq, hsubq⟩ := mem_subtree_cert hr' hql
                              have hqavoid := subtree_avoid hcq (hnd.sublist hsubq) hgq
                              have hqnotin : q ∉ ltc := by
                                rcases hslot0 with hL | hR
                                · exact hqavoid.1 t hL hct
                                · exact hqavoid.2 t hR hct
                              have hqtl : q ≠ tl := fun h2 => hqnotin (by rw [h2]; exact htllt)
                              have hqm : q ≠ m := fun h2 => hqnotin (by rw [h2]; exact hmlt)
                              obtain ⟨dsq, hdsqlen, hfq⟩ := inorder_mem_follow hr' q hql
                              by_cases hqL : qn.left = some t
                              · have hqRne : qn.right ≠ some t := distinct_slots hr hnd hfq hgq hqL
                                have hgY0t : getNode (setNode s q { qn with left := some m }) t =
                                    some tn := by
                                  rw [getNode_set_other (Ne.symm hqt)]
                                  exact hgt
                                have hgY0m : getNode (setNode s q { qn with left := some m }) m =
                                    some mn := by
                                  rw [getNode_set_other (Ne.symm hqm)]
                                  exact hgm
                                have htp1 : transplant s t (some m) = .ok (setNode (setNode s q
                                    { qn with left := some m }) m
                                    { mn with parent := some q }) := by
                                  unfold transplant
                                  rw [if_neg hrootne, hgt0, okBind, htnp]
                                  simp only [deref, okBind]
                                  rw [getN_of hgq, okBind, if_pos hqL]
                                  rw [getN_of hgY0t, okBind, getN_of hgY0m, okBind, htnp]
                                rw [htp1, okBind] at hrem
                                have hgY1t : getNode (setNode (setNode s q
                                    { qn with left := some m }) m { mn with parent := some q }) t =
                                    some tn := by
                                  rw [getNode_set_other (Ne.symm hmt)]
                                  exact hgY0t
                                have hgY1m : getNode (setNode (setNode s q
                                    { qn with left := some m }) m { mn with parent := some q }) m =
                                    some { mn with parent := some q } := getNode_set_self hgY0m _
                                rw [getN_of hgY1t, okBind] at hrem
                                rw [getN_of hgY1m] at hrem
                                simp only [okBind] at hrem
                                rw [htnl] at hrem
                                have hgY2m : getNode (setNode (setNode (setNode s q
                                    { qn with left := some m }) m { mn with parent := some q }) m
                                    { mn with left := some tl, parent := some q }) m =
                                    some { mn with left := some tl, parent := some q } :=
                                  getNode_set_self hgY1m _
                                rw [getN_of hgY2m] at hrem
                                simp only [okBind] at hrem
                                have hgY2tl : getNode (setNode (setNode (setNode s q
                                    { qn with left := some m }) m { mn with parent := some q }) m
                                    { mn with left := some tl, parent := some q }) tl =
                                    some tln := by
                                  rw [getNode_set_other (Ne.symm hmtl),
                                    getNode_set_other (Ne.symm hmtl),
                                    getNode_set_other (Ne.symm hqtl)]
                                  exact hgtl
                                rw [getN_of hgY2tl] at hrem
                                simp only [okBind] at hrem
                                injection hrem with hfs
                                subst hfs
                                have hFqX : getNode (setNode (setNode (setNode (setNode s q
                                    { qn with left := some m }) m { mn with parent := some q }) m
                                    { mn with left := some tl, parent := some q }) tl
                                    { tln with parent := some m }) q =
                                    some { qn with left := some m } := by
                                  rw [getNode_set_other hqtl, getNode_set_other hqm,
                                    getNode_set_other hqm]
                                  exact getNode_set_self hgq _
                                have hFtrX : getNode (setNode (setNode (setNode (setNode s q
                                    { qn with left := some m }) m { mn with parent := some q }) m
                                    { mn with left := some tl, parent := some q }) tl
                                    { tln with parent := some m }) m =
                                    some { mn with left := some tl, parent := some q } := by
                                  rw [getNode_set_other hmtl]
                                  exact hgY2m
                                have hFtlX : getNode (setNode (setNode (setNode (setNode s q
                                    { qn with left := some m }) m { mn with parent := some q }) m
                                    { mn with left := some tl, parent := some q }) tl
                                    { tln with parent := some m }) tl =
                                    some { tln with parent := some m } :=
                                  getNode_set_self hgY2tl _
                                refine remove_splice_child_parentInv hr hnd hpc ht hgt htnl htnr
                                  htnp hgq hct hsubltc hgm hgtl hmleft hFqX rfl ?_ ?_ ?_
                                  hFtrX rfl rfl rfl hFtlX rfl rfl rfl ?_ rfl
                                · intro y hyt hslot
                                  rcases hslot with hL | hR
                                  · rw [hqL] at hL
                                    injection hL with h2
                                    exact absurd h2.symm hyt
                                  · exact Or.inr hR
                                · intro cx hcx
                                  rcases hcx with hL | hR
                                  · injection hL with h2
                                    exact Or.inl h2.symm
                                  · refine Or.inr ⟨Or.inr hR, ?_⟩
                                    intro h2
                                    rw [h2] at hR
                                    exact hqRne hR
                                · exact Or.inl rfl
                                · intro x hxq hxm hxtl
                                  rw [getNode_set_other hxtl, getNode_set_other hxm,
                                    getNode_set_other hxm, getNode_set_other hxq]
                              · have hqR : qn.right = some t := by
                                  rcases hslot0 with hL | hR
                                  · exact absurd hL hqL
                                  · exact hR
                                have hgY0t : getNode (setNode s q { qn with right := some m }) t =
                                    some tn := by
                                  rw [getNode_set_other (Ne.symm hqt)]
                                  exact hgt
                                have hgY0m : getNode (setNode s q { qn with right := some m }) m =
                                    some mn := by
                                  rw [getNode_set_other (Ne.symm hqm)]
                                  exact hgm
                                have htp1 : transplant s t (some m) = .ok (setNode (setNode s q
                                    { qn with right := some m }) m
                                    { mn with parent := some q }) := by
                                  unfold transplant
                                  rw [if_neg hrootne, hgt0, okBind, htnp]
                                  simp only [deref, okBind]
                                  rw [getN_of hgq, okBind, if_neg hqL]
                                  rw [getN_of hgY0t, okBind, getN_of hgY0m, okBind, htnp]
                                rw [htp1, okBind] at hrem
                                have hgY1t : getNode (setNode (setNode s q
                                    { qn with right := some m }) m { mn with parent := some q }) t =
                                    some tn := by
                                  rw [getNode_set_other (Ne.symm hmt)]
                                  exact hgY0t
                                have hgY1m : getNode (setNode (setNode s q
                                    { qn with right := some m }) m { mn with parent := some q }) m =
                                    some { mn with parent := some q } := getNode_set_self hgY0m _
                                rw [getN_of hgY1t, okBind] at hrem
                                rw [getN_of hgY1m] at hrem
                                simp only [okBind] at hrem
                                rw [htnl] at hrem
                                have hgY2m : getNode (setNode (setNode (setNode s q
                                    { qn with right := some m }) m { mn with parent := some q }) m
                                    { mn with left := some tl, parent := some q }) m =
                                    some { mn with left := some tl, parent := some q } :=
                                  getNode_set_self hgY1m _
                                rw [getN_of hgY2m] at hrem
                                simp only [okBind] at hrem
                                have hgY2tl : getNode (setNode (setNode (setNode s q
                                    { qn with right := some m }) m { mn with parent := some q }) m
                                    { mn with left := some tl, parent := some q }) tl =
                                    some tln := by
                                  rw [getNode_set_other (Ne.symm hmtl),
                                    getNode_set_other (Ne.symm hmtl),
                                    getNode_set_other (Ne.symm hqtl)]
                                  exact hgtl
                                rw [getN_of hgY2tl] at hrem
                                simp only [okBind] at hrem
                                injection hrem with hfs
                                subst hfs
                                have hFqX : getNode (setNode (setNode (setNode (setNode s q
                                    { qn with right := some m }) m { mn with parent := some q }) m
                                    { mn with left := some tl, parent := some q }) tl
                                    { tln with parent := some m }) q =
                                    some { qn with right := some m } := by
                                  rw [getNode_set_other hqtl, getNode_set_other hqm,
                                    getNode_set_other hqm]
                                  exact getNode_set_self hgq _
                                have hFtrX : getNode (setNode (setNode (setNode (setNode s q
                                    { qn with right := some m }) m { mn with parent := some q }) m
                                    { mn with left := some tl, parent := some q }) tl
                                    { tln with parent := some m }) m =
                                    some { mn with left := some tl, parent := some q } := by
                                  rw [getNode_set_other hmtl]
                                  exact hgY2m
                                have hFtlX : getNode (setNode (setNode (setNode (setNode s q
                                    { qn with right := some m }) m { mn with parent := some q }) m
                                    { mn with left := some tl, parent := some q }) tl
                                    { tln with parent := some m }) tl =
                                    some { tln with parent := some m } :=
                                  getNode_set_self hgY2tl _
                                refine remove_splice_child_parentInv hr hnd hpc ht hgt htnl htnr
                                  htnp hgq hct hsubltc hgm hgtl hmleft hFqX rfl ?_ ?_ ?_
                                  hFtrX rfl rfl rfl hFtlX rfl rfl rfl ?_ rfl
                                · intro y hyt hslot
                                  rcases hslot with hL | hR
                                  · exact Or.inl hL
                                  · rw [hqR] at hR
                                    injection hR with h2
                                    exact absurd h2.symm hyt
                                · intro cx hcx
                                  rcases hcx with hL | hR
                                  · refine Or.inr ⟨Or.inl hL, ?_⟩
                                    intro h2
                                    rw [h2] at hL
                                    exact hqL hL
                                  · injection hR with h2
                                    exact Or.inl h2.symm
                                · exact Or.inr rfl
                                · intro x hxq hxm hxtl
                                  rw [getNode_set_other hxtl, getNode_set_other hxm,
                                    getNode_set_other hxm, getNode_set_other hxq]
                          · -- deep splice: the successor is strictly inside the right subtree
                            rcases kk with _ | kk2
                            · rw [List.replicate, followFrom] at hpath
                              injection hpath with h2
                              exact absurd h2.symm hmtr
                            rw [List.replicate_succ', followFrom_append] at hpath
                            cases hz : followFrom s (some tr) (List.replicate kk2 Dir.L) with
                            | none =>
                              rw [hz, followFrom_none] at hpath
                              exact absurd hpath (by simp)
                            | some pm =>
                              rw [hz] at hpath
                              have hfullpath : followFrom s s.root
                                  (dst ++ (Dir.R :: List.replicate kk2 Dir.L)) = some pm := by
                                rw [followFrom_append, hdst, followFrom, hgt]
                                simp only []
                                rw [htnr]
                                exact hz
                              have hpm2 : pm ∈ l := follow_mem hr' hfullpath
                              obtain ⟨pmn, hgpm⟩ := mem_reach_alloc hr hpm2
                              have hpml : pmn.left = some m := by
                                rw [followFrom, hgpm] at hpath
                                simp only [] at hpath
                                cases hpl : pmn.left with
                                | none => rw [hpl, followFrom_none] at hpath; simp at hpath
                                | some c =>
                                  rw [hpl, followFrom] at hpath
                                  injection hpath with h2
                                  rw [h2]
                              have hmpar : mn.parent = some pm := by
                                have hclb := parentChk_back hpc hr hpm2
                                have h2 := linkedBack_left hclb hgpm hpml
                                rw [hgm] at h2
                                simpa using h2
                              have hsubltr : ∀ z ∈ ltr, z ∈ l := fun z hz2 =>
                                hsubltc.subset (by rw [hltceq]; simp [hz2])
                              obtain ⟨y0, hy0, hpar0⟩ :=
                                subtree_parent_inside hpc hr hcltr hsubltr hmltr hmtr hgm
                              have hy0pm : y0 = pm := by
                                rw [hmpar] at hpar0
                                injection hpar0 with h2
                                exact h2.symm
                              have hpmltr : pm ∈ ltr := hy0pm ▸ hy0
                              have hpmlt : pm ∈ ltc := by rw [hltceq]; simp [hpmltr]
                              have hpmt : pm ≠ t := fun h2 => htnotr (h2 ▸ hpmltr)
                              have hpmtl : pm ≠ tl := fun h2 =>
                                hdisj tl htlin (by rw [← h2]; exact hpmltr)
                              have hmpm : m ≠ pm := by
                                intro h2
                                have h3 := parent_ne_self hr hnd hpc hm2 hgm
                                rw [hmpar] at h3
                                exact h3 (by rw [h2])
                              obtain ⟨fm, lm, hcm, hsubm0⟩ := mem_subtree_cert hcltr hmltr
                              have hndltr : ltr.Nodup := by
                                refine (hnd.sublist hsubltc).sublist ?_
                                rw [hltceq]
                                exact (List.sublist_cons_self t ltr).trans
                                  (List.sublist_append_right llt _)
                              have hndm : lm.Nodup := hndltr.sublist hsubm0
                              have hmin : m ∈ lm := by
                                obtain ⟨_, _, _, _, _, _, _, _, rfl⟩ := inorderIds_decomp hcm
                                simp
                              have htrnotlm : tr ∉ lm := by
                                obtain ⟨f4, trn4, ll4, lr4, _, hgtr4, hcll4, hclr4, hltreq⟩ :=
                                  inorderIds_decomp hcltr
                                have hndltr2 := hndltr
                                rw [hltreq, List.nodup_append, List.nodup_cons] at hndltr2
                                have hmltr2 := hmltr
                                rw [hltreq] at hmltr2
                                rcases List.mem_append.mp hmltr2 with hm4 | hm4
                                · obtain ⟨fm2, lm2, hcm2, hsub2⟩ := mem_subtree_cert hcll4 hm4
                                  have heq2 : lm2 = lm := cert_unique hcm2 hcm
                                  subst heq2
                                  intro htr5
                                  exact hndltr2.2.2 (hsub2.subset htr5) (by simp)
                                · rcases List.mem_cons.mp hm4 with h5 | hm5
                                  · exact absurd h5 hmtr
                                  · obtain ⟨fm2, lm2, hcm2, hsub2⟩ := mem_subtree_cert hclr4 hm5
                                    have heq2 : lm2 = lm := cert_unique hcm2 hcm
                                    subst heq2
                                    intro htr5
                                    exact hndltr2.2.1.1 (hsub2.subset htr5)
                              obtain ⟨fpm2, lpm2, hcpm2, hsubpm2⟩ := mem_subtree_cert hr' hpm2
                              have hpmavoid := subtree_avoid hcpm2 (hnd.sublist hsubpm2) hgpm
                              have hpmnotlm : pm ∉ lm := hpmavoid.1 m hpml hcm
                              have hmrfacts : ∀ mr, mn.right = some mr → mr ∈ lm ∧ mr ∈ ltc ∧
                                  mr ∈ l ∧ mr ≠ t ∧ mr ≠ tl ∧ mr ≠ m ∧ mr ≠ tr ∧ mr ≠ pm := by
                                intro mr hmr
                                have hmrlm : mr ∈ lm := (children_mem hcm hmin hgm).2 mr hmr
                                have hmrltr : mr ∈ ltr := hsubm0.subset hmrlm
                                have hmrlt : mr ∈ ltc := by rw [hltceq]; simp [hmrltr]
                                have hmrl : mr ∈ l := hsubltc.subset hmrlt
                                refine ⟨hmrlm, hmrlt, hmrl, fun h2 => htnotr (h2 ▸ hmrltr),
                                  fun h2 => hdisj tl htlin (h2 ▸ hmrltr), ?_,
                                  fun h2 => htrnotlm (h2 ▸ hmrlm),
                                  fun h2 => hpmnotlm (h2 ▸ hmrlm)⟩
                                intro h2
                                have hmavoid := subtree_avoid hcm hndm hgm
                                obtain ⟨f5, n5, ll5, lr5, _, hgm5, hcl5, hcr5, hlmeq⟩ :=
                                  inorderIds_decomp hcm
                                have hn5 : mn = n5 := by
                                  rw [hgm] at hgm5
                                  injection hgm5
                                subst hn5
                                have hcr5a : inorderIds s (some mr) f5 = some lr5 := by
                                  rw [hmr] at hcr5
                                  exact hcr5
                                have hmrin5 : mr ∈ lr5 := by
                                  obtain ⟨_, _, _, _, _, _, _, _, rfl⟩ := inorderIds_decomp hcr5a
                                  simp
                                exact hmavoid.2 mr hmr hcr5a (by rw [← h2]; exact hmrin5)
                              have hrootm : s.root ≠ some m := by
                                intro h2
                                have h3 := parentChk_root hpc h2
                                rw [hgm] at h3
                                simp only [Option.map_some', Option.some.injEq] at h3
                                rw [h3] at hmpar
                                exact absurd hmpar (by simp)
                              rw [hmpar] at hrem
                              rw [if_pos (show (some pm : Option Nat) ≠ some t from
                                by simp [hpmt])] at hrem
                              have hα : ∃ s1, transplant s m mn.right = .ok s1 ∧
                                  s1.root = s.root ∧
                                  (∃ pmn1, getNode s1 pm = some pmn1 ∧ pmn1.left = mn.right ∧
                                    pmn1.right = pmn.right ∧ pmn1.parent = pmn.parent) ∧
                                  (∀ mr, mn.right = some mr → ∃ mrn mrn1,
                                    getNode s mr = some mrn ∧ getNode s1 mr = some mrn1 ∧
                                    mrn1.left = mrn.left ∧ mrn1.right = mrn.right ∧
                                    mrn1.parent = some pm) ∧
                                  (∀ x, x ≠ pm → (∀ mr, mn.right = some mr → x ≠ mr) →
                                    getNode s1 x = getNode s x) := by
                                cases hmnr : mn.right with
                                | none =>
                                  refine ⟨setNode s pm { pmn with left := none }, ?_, rfl,
                                    ⟨{ pmn with left := none }, getNode_set_self hgpm _,
                                      rfl, rfl, rfl⟩,
                                    fun mr hmr => absurd hmr (by simp), ?_⟩
                                  · unfold transplant
                                    rw [if_neg hrootm, hgm0, okBind, hmpar]
                                    simp only [deref, okBind]
                                    rw [getN_of hgpm, okBind, if_pos hpml]
                                  · intro x hxpm hxmr
                                    rw [getNode_set_other hxpm]
                                | some mr =>
                                  obtain ⟨hmrlm, hmrlt, hmrl, hmrt, hmrtl, hmrm, hmrtr, hmrpm⟩ :=
                                    hmrfacts mr hmnr
                                  obtain ⟨mrn, hgmr⟩ := mem_reach_alloc hr hmrl
                                  have hgsAm : getNode (setNode s pm
                                      { pmn with left := some mr }) m = some mn := by
                                    rw [getNode_set_other hmpm]
                                    exact hgm
                                  have hgsAmr : getNode (setNode s pm
                                      { pmn with left := some mr }) mr = some mrn := by
                                    rw [getNode_set_other hmrpm]
                                    exact hgmr
                                  refine ⟨setNode (setNode s pm { pmn with left := some mr }) mr
                                    { mrn with parent := some pm }, ?_, rfl,
                                    ⟨{ pmn with left := some mr }, ?_, rfl, rfl, rfl⟩,
                                    ?_, ?_⟩
                                  · unfold transplant
                                    rw [if_neg hrootm, hgm0, okBind, hmpar]
                                    simp only [deref, okBind]
                                    rw [getN_of hgpm, okBind, if_pos hpml]
                                    rw [getN_of hgsAm, okBind, getN_of hgsAmr, okBind, hmpar]
                                  · rw [getNode_set_other (Ne.symm hmrpm)]
                                    exact getNode_set_self hgpm _
                                  · intro mr0 hmr0
                                    injection hmr0 with h2
                                    subst h2
                                    exact ⟨mrn, { mrn with parent := some pm }, hgmr,
                                      getNode_set_self hgsAmr _, rfl, rfl, rfl⟩
                                  · intro x hxpm hxmr
                                    rw [getNode_set_other (hxmr mr rfl),
                                      getNode_set_other hxpm]
                              obtain ⟨s1, htp1, hs1root, ⟨pmn1, hg1pm, hpm1l, hpm1r, hpm1p⟩,
                                hmr1, h1other⟩ := hα
                              have hxmrfacts : ∀ mr, mn.right = some mr →
                                  t ≠ mr ∧ m ≠ mr ∧ tl ≠ mr ∧ tr ≠ mr := fun mr hmr =>
                                ⟨Ne.symm (hmrfacts mr hmr).2.2.2.1,
                                 Ne.symm (hmrfacts mr hmr).2.2.2.2.2.1,
                                 Ne.symm (hmrfacts mr hmr).2.2.2.2.1,
                                 Ne.symm (hmrfacts mr hmr).2.2.2.2.2.2.1⟩
                              have hg1t : getNode s1 t = some tn := by
                                rw [h1other t (Ne.symm hpmt) (fun mr hmr => (hxmrfacts mr hmr).1)]
                                exact hgt
                              have hg1m : getNode s1 m = some mn := by
                                rw [h1other m hmpm (fun mr hmr => (hxmrfacts mr hmr).2.1)]
                                exact hgm
                              have hg1tl : getNode s1 tl = some tln := by
                                rw [h1other tl (Ne.symm hpmtl)
                                  (fun mr hmr => (hxmrfacts mr hmr).2.2.1)]
                                exact hgtl
                              rw [htp1, okBind] at hrem
                              rw [getN_of hg1t, okBind] at hrem
                              rw [getN_of hg1m] at hrem
                              simp only [okBind] at hrem
                              rw [htnr] at hrem
                              have hg2m : getNode (setNode s1 m { mn with right := some tr }) m =
                                  some { mn with right := some tr } := getNode_set_self hg1m _
                              rw [getN_of hg2m] at hrem
                              simp only [okBind] at hrem
                              by_cases hpmtr : pm = tr
                              · subst hpmtr
                                have htrn : pmn = trn := by
                                  rw [hgpm] at hgtr
                                  injection hgtr
                                subst htrn
                                have hg2pm : getNode (setNode s1 m
                                    { mn with right := some pm }) pm = some pmn1 := by
                                  rw [getNode_set_other (Ne.symm hmpm)]
                                  exact hg1pm
                                rw [getN_of hg2pm] at hrem
                                simp only [okBind] at hrem
                                have hg_sCt : getNode (setNode (setNode s1 m
                                    { mn with right := some pm }) pm
                                    { pmn1 with parent := some m }) t = some tn := by
                                  rw [getNode_set_other (Ne.symm hpmt),
                                    getNode_set_other (Ne.symm hmt)]
                                  exact hg1t
                                have hg_sCm : getNode (setNode (setNode s1 m
                                    { mn with right := some pm }) pm
                                    { pmn1 with parent := some m }) m =
                                    some { mn with right := some pm } := by
                                  rw [getNode_set_other hmpm]
                                  exact hg2m
                                have hg_sCtl : getNode (setNode (setNode s1 m
                                    { mn with right := some pm }) pm
                                    { pmn1 with parent := some m }) tl = some tln := by
                                  rw [getNode_set_other (Ne.symm hpmtl),
                                    getNode_set_other (Ne.symm hmtl)]
                                  exact hg1tl
                                have hg_sCpm : getNode (setNode (setNode s1 m
                                    { mn with right := some pm }) pm
                                    { pmn1 with parent := some m }) pm =
                                    some { pmn1 with parent := some m } :=
                                  getNode_set_self hg2pm _
                                cases htnp : tn.parent with
                                | none =>
                                  have hroot : s.root = some t := by
                                    rcases parent_inside hr' t ht with h2 | ⟨y, hy, yn, hgy, hslot⟩
                                    · exact h2
                                    · exfalso
                                      have hclb := parentChk_back hpc hr hy
                                      have h3 : (getNode s t).map Node.parent = some (some y) := by
                                        rcases hslot with hL | hR
                                        · exact linkedBack_left hclb hgy hL
                                        · exact linkedBack_right hclb hgy hR
                                      rw [hgt] at h3
                                      simp only [Option.map_some', Option.some.injEq] at h3
                                      rw [htnp] at h3
                                      exact absurd h3 (by simp)
                                  have hg_rct : getN ({ setNode (setNode s1 m
                                      { mn with right := some pm }) pm
                                      { pmn1 with parent := some m } with
                                      root := some m } : Tree) t = .ok tn := getN_of hg_sCt
                                  have hg_rcm : getN ({ setNode (setNode s1 m
                                      { mn with right := some pm }) pm
                                      { pmn1 with parent := some m } with
                                      root := some m } : Tree) m =
                                      .ok { mn with right := some pm } := getN_of hg_sCm
                                  have hτ : transplant (setNode (setNode s1 m
                                      { mn with right := some pm }) pm
                                      { pmn1 with parent := some m }) t (some m) =
                                      .ok (setNode ({ setNode (setNode s1 m
                                        { mn with right := some pm }) pm
                                        { pmn1 with parent := some m } with
                                        root := some m } : Tree) m
                                        { mn with parent := none, right := some pm }) := by
                                    unfold transplant
                                    rw [if_pos (show (setNode (setNode s1 m
                                      { mn with right := some pm }) pm
                                      { pmn1 with parent := some m }).root = some t from
                                      hs1root.trans hroot)]
                                    rw [okBind]
                                    simp only []
                                    rw [hg_rct, okBind, hg_rcm, okBind, htnp]
                                  rw [hτ, okBind] at hrem
                                  have hg_sEt : getNode (setNode ({ setNode (setNode s1 m
                                      { mn with right := some pm }) pm
                                      { pmn1 with parent := some m } with
                                      root := some m } : Tree) m
                                      { mn with parent := none, right := some pm }) t =
                                      some tn := by
                                    rw [getNode_set_other (Ne.symm hmt), getNode_rootset]
                                    exact hg_sCt
                                  have hg_sEm : getNode (setNode ({ setNode (setNode s1 m
                                      { mn with right := some pm }) pm
                                      { pmn1 with parent := some m } with
                                      root := some m } : Tree) m
                                      { mn with parent := none, right := some pm }) m =
                                      some { mn with parent := none, right := some pm } :=
                                    getNode_set_self (getN_ok hg_rcm) _
                                  rw [getN_of hg_sEt, okBind] at hrem
                                  rw [getN_of hg_sEm] at hrem
                                  simp only [okBind] at hrem
                                  rw [htnl] at hrem
                                  have hg_s3m : getNode (setNode (setNode ({ setNode (setNode s1 m
                                      { mn with right := some pm }) pm
                                      { pmn1 with parent := some m } with
                                      root := some m } : Tree) m
                                      { mn with parent := none, right := some pm }) m
                                      { mn with left := some tl, parent := none, right := some pm }) m =
                                      some { mn with left := some tl, parent := none, right := some pm } :=
                                    getNode_set_self hg_sEm _
                                  rw [getN_of hg_s3m] at hrem
                                  simp only [okBind] at hrem
                                  have hg_s3tl : getNode (setNode (setNode ({ setNode (setNode s1 m
                                      { mn with right := some pm }) pm
                                      { pmn1 with parent := some m } with
                                      root := some m } : Tree) m
                                      { mn with parent := none, right := some pm }) m
                                      { mn with left := some tl, parent := none, right := some pm }) tl =
                                      some tln := by
                                    rw [getNode_set_other (Ne.symm hmtl),
                                      getNode_set_other (Ne.symm hmtl), getNode_rootset]
                                    exact hg_sCtl
                                  rw [getN_of hg_s3tl] at hrem
                                  simp only [okBind] at hrem
                                  injection hrem with hfs
                                  subst hfs
                                  refine @remove_splice_deep_tr_root_parentInv s l hr hnd hpc t tl
                                    pm m tn mn hroot hgt htnl htnr ftc ltc hct hsubltc f1 ltr
                                    hcltr hmltr hgm hmleft hmtr tln pmn hgtl hgtr hpml _
                                    { mn with left := some tl, parent := none, right := some pm }
                                    { tln with parent := some m } { pmn1 with parent := some m }
                                    ?_ rfl rfl rfl ?_ rfl rfl rfl ?_ hpm1l hpm1r rfl ?_ ?_ rfl
                                  · rw [getNode_set_other hmtl]
                                    exact hg_s3m
                                  · exact getNode_set_self hg_s3tl _
                                  · rw [getNode_set_other hpmtl,
                                      getNode_set_other (Ne.symm hmpm),
                                      getNode_set_other (Ne.symm hmpm), getNode_rootset]
                                    exact hg_sCpm
                                  · intro mr0 hmr0
                                    obtain ⟨mrn, mrn1, hgmr0, hg1mr0, e1, e2, e3⟩ :=
                                      hmr1 mr0 hmr0
                                    obtain ⟨hf1, hf2, hf3, hf4⟩ := hxmrfacts mr0 hmr0
                                    refine ⟨mrn, mrn1, hgmr0, ?_, e1, e2, e3⟩
                                    rw [getNode_set_other (Ne.symm hf3),
                                      getNode_set_other (Ne.symm hf2),
                                      getNode_set_other (Ne.symm hf2), getNode_rootset,
                                      getNode_set_other (Ne.symm hf4),
                                      getNode_set_other (Ne.symm hf2)]
                                    exact hg1mr0
                                  · intro x hxm hxtl hxtr hxmr
                                    rw [getNode_set_other hxtl, getNode_set_other hxm,
                                      getNode_set_other hxm, getNode_rootset,
                                      getNode_set_other hxtr, getNode_set_other hxm]
                                    exact h1other x hxtr hxmr
                                | some q =>
                                  obtain ⟨qn, hgq, hslot0⟩ :=
                                    parent_slot_of_mem hpc hr ht hgt htnp
                                  have hqt : q ≠ t := by
                                    intro h2
                                    exact parent_ne_self hr hnd hpc ht hgt (by rw [htnp, h2])
                                  have hrootne : s.root ≠ some t := by
                                    intro h2
                                    have h3 := parentChk_root hpc h2
                                    rw [hgt] at h3
                                    simp only [Option.map_some', Option.some.injEq] at h3
                                    rw [htnp] at h3
                                    exact absurd h3 (by simp)
                                  have hql := parent_mem_reach hpc hr ht hgt htnp
                                  obtain ⟨fq, lq, hcq, hsubq⟩ := mem_subtree_cert hr' hql
                                  have hqavoid := subtree_avoid hcq (hnd.sublist hsubq) hgq
                                  have hqnotin : q ∉ ltc := by
                                    rcases hslot0 with hL | hR
                                    · exact hqavoid.1 t hL hct
                                    · exact hqavoid.2 t hR hct
                                  have hqtl : q ≠ tl := fun h2 => hqnotin (by rw [h2]; exact htllt)
                                  have hqm : q ≠ m := fun h2 => hqnotin (by rw [h2]; exact hmlt)
                                  have hqpm : q ≠ pm := fun h2 => hqnotin (by rw [h2]; exact hpmlt)
                                  have hqmr : ∀ mr, mn.right = some mr → q ≠ mr :=
                                    fun mr hmr h2 => hqnotin (h2 ▸ (hmrfacts mr hmr).2.1)
                                  obtain ⟨dsq, hdsqlen, hfq⟩ := inorder_mem_follow hr' q hql
                                  have hg_sCq : getNode (setNode (setNode s1 m
                                      { mn with right := some pm }) pm
                                      { pmn1 with parent := some m }) q = some qn := by
                                    rw [getNode_set_other hqpm, getNode_set_other hqm]
                                    rw [h1other q hqpm hqmr]
                                    exact hgq
                                  have hσ : ∃ Rq, transplant (setNode (setNode s1 m
                                      { mn with right := some pm }) pm
                                      { pmn1 with parent := some m }) t (some m) =
                                      .ok (setNode (setNode (setNode (setNode s1 m
                                        { mn with right := some pm }) pm
                                        { pmn1 with parent := some m }) q Rq) m
                                        { mn with parent := some q, right := some pm }) ∧
                                      Rq.parent = qn.parent ∧
                                      (∀ y, y ≠ t → (qn.left = some y ∨ qn.right = some y) →
                                        (Rq.left = some y ∨ Rq.right = some y)) ∧
                                      (∀ cx, (Rq.left = some cx ∨ Rq.right = some cx) →
                                        cx = m ∨ ((qn.left = some cx ∨ qn.right = some cx) ∧
                                          cx ≠ t)) ∧
                                      (Rq.left = some m ∨ Rq.right = some m) := by
                                    by_cases hqL : qn.left = some t
                                    · have hqRne := distinct_slots hr hnd hfq hgq hqL
                                      have hgDt : getNode (setNode (setNode (setNode s1 m
                                          { mn with right := some pm }) pm
                                          { pmn1 with parent := some m }) q
                                          { qn with left := some m }) t = some tn := by
                                        rw [getNode_set_other (Ne.symm hqt)]
                                        exact hg_sCt
                                      have hgDm : getNode (setNode (setNode (setNode s1 m
                                          { mn with right := some pm }) pm
                                          { pmn1 with parent := some m }) q
                                          { qn with left := some m }) m =
                                          some { mn with right := some pm } := by
                                        rw [getNode_set_other (Ne.symm hqm)]
                                        exact hg_sCm
                                      refine ⟨{ qn with left := some m }, ?_, rfl, ?_, ?_,
                                        Or.inl rfl⟩
                                      · unfold transplant
                                        rw [if_neg (show ¬ ((setNode (setNode s1 m
                                            { mn with right := some pm }) pm
                                            { pmn1 with parent := some m }).root = some t) from
                                          fun h2 => hrootne (hs1root ▸
                                            (show s1.root = some t from h2)))]
                                        rw [getN_of hg_sCt, okBind, htnp]
                                        simp only [deref, okBind]
                                        rw [getN_of hg_sCq, okBind, if_pos hqL]
                                        rw [getN_of hgDt, okBind, getN_of hgDm, okBind, htnp]
                                      · intro y hyt hslot
                                        rcases hslot with hL | hR
                                        · rw [hqL] at hL
                                          injection hL with h2
                                          exact absurd h2.symm hyt
                                        · exact Or.inr hR
                                      · intro cx hcx
                                        rcases hcx with hL | hR
                                        · injection hL with h2
                                          exact Or.inl h2.symm
                                        · refine Or.inr ⟨Or.inr hR, ?_⟩
                                          intro h2
                                          rw [h2] at hR
                                          exact hqRne hR
                                    · have hqR : qn.right = some t := by
                                        rcases hslot0 with hL | hR
                                        · exact absurd hL hqL
                                        · exact hR
                                      have hgDt : getNode (setNode (setNode (setNode s1 m
                                          { mn with right := some pm }) pm
                                          { pmn1 with parent := some m }) q
                                          { qn with right := some m }) t = some tn := by
                                        rw [getNode_set_other (Ne.symm hqt)]
                                        exact hg_sCt
                                      have hgDm : getNode (setNode (setNode (setNode s1 m
                                          { mn with right := some pm }) pm
                                          { pmn1 with parent := some m }) q
                                          { qn with right := some m }) m =
                                          some { mn with right := some pm } := by
                                        rw [getNode_set_other (Ne.symm hqm)]
                                        exact hg_sCm
                                      refine ⟨{ qn with right := some m }, ?_, rfl, ?_, ?_,
                                        Or.inr rfl⟩
                                      · unfold transplant
                                        rw [if_neg (show ¬ ((setNode (setNode s1 m
                                            { mn with right := some pm }) pm
                                            { pmn1 with parent := some m }).root = some t) from
                                          fun h2 => hrootne (hs1root ▸
                                            (show s1.root = some t from h2)))]
                                        rw [getN_of hg_sCt, okBind, htnp]
                                        simp only [deref, okBind]
                                        rw [getN_of hg_sCq, okBind, if_neg hqL]
                                        rw [getN_of hgDt, okBind, getN_of hgDm, okBind, htnp]
                                      · intro y hyt hslot
                                        rcases hslot with hL | hR
                                        · exact Or.inl hL
                                        · rw [hqR] at hR
                                          injection hR with h2
                                          exact absurd h2.symm hyt
                                      · intro cx hcx
                                        rcases hcx with hL | hR
                                        · refine Or.inr ⟨Or.inl hL, ?_⟩
                                          intro h2
                                          rw [h2] at hL
                                          exact hqL hL
                                        · injection hR with h2
                                          exact Or.inl h2.symm
                                  obtain ⟨Rq, htp2, hRqp, hold2, hnewq2, hsnq2⟩ := hσ
                                  rw [htp2, okBind] at hrem
                                  have hg_sDt : getNode (setNode (setNode (setNode s1 m
                                      { mn with right := some pm }) pm
                                      { pmn1 with parent := some m }) q Rq) t = some tn := by
                                    rw [getNode_set_other (Ne.symm hqt)]
                                    exact hg_sCt
                                  have hg_sDm : getNode (setNode (setNode (setNode s1 m
                                      { mn with right := some pm }) pm
                                      { pmn1 with parent := some m }) q Rq) m =
                                      some { mn with right := some pm } := by
                                    rw [getNode_set_other (Ne.symm hqm)]
                                    exact hg_sCm
                                  have hg_sEt : getNode (setNode (setNode (setNode (setNode s1 m
                                      { mn with right := some pm }) pm
                                      { pmn1 with parent := some m }) q Rq) m
                                      { mn with parent := some q, right := some pm }) t =
                                      some tn := by
                                    rw [getNode_set_other (Ne.symm hmt)]
                                    exact hg_sDt
                                  have hg_sEm : getNode (setNode (setNode (setNode (setNode s1 m
                                      { mn with right := some pm }) pm
                                      { pmn1 with parent := some m }) q Rq) m
                                      { mn with parent := some q, right := some pm }) m =
                                      some { mn with parent := some q, right := some pm } :=
                                    getNode_set_self hg_sDm _
                                  rw [getN_of hg_sEt, okBind] at hrem
                                  rw [getN_of hg_sEm] at hrem
                                  simp only [okBind] at hrem
                                  rw [htnl] at hrem
                                  have hg_s3m : getNode (setNode (setNode (setNode (setNode
                                      (setNode s1 m { mn with right := some pm }) pm
                                      { pmn1 with parent := some m }) q Rq) m
                                      { mn with parent := some q, right := some pm }) m
                                      { mn with left := some tl, parent := some q, right := some pm }) m =
                                      some { mn with left := some tl, parent := some q, right := some pm } :=
                                    getNode_set_self hg_sEm _
                                  rw [getN_of hg_s3m] at hrem
                                  simp only [okBind] at hrem
                                  have hg_s3tl : getNode (setNode (setNode (setNode (setNode
                                      (setNode s1 m { mn with right := some pm }) pm
                                      { pmn1 with parent := some m }) q Rq) m
                                      { mn with parent := some q, right := some pm }) m
                                      { mn with left := some tl, parent := some q, right := some pm }) tl =
                                      some tln := by
                                    rw [getNode_set_other (Ne.symm hmtl),
                                      getNode_set_other (Ne.symm hmtl),
                                      getNode_set_other (Ne.symm hqtl)]
                                    exact hg_sCtl
                                  rw [getN_of hg_s3tl] at hrem
                                  simp only [okBind] at hrem
                                  injection hrem with hfs
                                  subst hfs
                                  refine @remove_splice_deep_tr_parentInv s l hr hnd hpc t tl pm
                                    q m tn qn mn ht hgt htnl htnr htnp hgq ftc ltc hct hsubltc
                                    f1 ltr hcltr hmltr hgm hmleft hmtr tln pmn hgtl hgtr hpml _
                                    Rq
                                    { mn with left := some tl, parent := some q, right := some pm }
                                    { tln with parent := some m } { pmn1 with parent := some m }
                                    ?_ hRqp hold2 hnewq2 hsnq2 ?_ rfl rfl rfl ?_ rfl rfl rfl
                                    ?_ hpm1l hpm1r rfl ?_ ?_ hs1root
                                  · rw [getNode_set_other hqtl, getNode_set_other hqm,
                                      getNode_set_other hqm]
                                    exact getNode_set_self hg_sCq _
                                  · rw [getNode_set_other hmtl]
                                    exact hg_s3m
                                  · exact getNode_set_self hg_s3tl _
                                  · rw [getNode_set_other hpmtl,
                                      getNode_set_other (Ne.symm hmpm),
                                      getNode_set_other (Ne.symm hmpm),
                                      getNode_set_other (Ne.symm hqpm)]
                                    exact hg_sCpm
                                  · intro mr0 hmr0
                                    obtain ⟨mrn, mrn1, hgmr0, hg1mr0, e1, e2, e3⟩ :=
                                      hmr1 mr0 hmr0
                                    obtain ⟨hf1, hf2, hf3, hf4⟩ := hxmrfacts mr0 hmr0
                                    refine ⟨mrn, mrn1, hgmr0, ?_, e1, e2, e3⟩
                                    rw [getNode_set_other (Ne.symm hf3),
                                      getNode_set_other (Ne.symm hf2),
                                      getNode_set_other (Ne.symm hf2),
                                      getNode_set_other (Ne.symm (hqmr mr0 hmr0)),
                                      getNode_set_other (Ne.symm hf4),
                                      getNode_set_other (Ne.symm hf2)]
                                    exact hg1mr0
                                  · intro x hxq hxm hxtl hxtr hxmr
                                    rw [getNode_set_other hxtl, getNode_set_other hxm,
                                      getNode_set_other hxm, getNode_set_other hxq,
                                      getNode_set_other hxtr, getNode_set_other hxm]
                                    exact h1other x hxtr hxmr
                              · have hmtr' : tr ≠ m := fun h2 => hmtr h2.symm
                                have hpmtr' : tr ≠ pm := fun h2 => hpmtr h2.symm
                                have hg1tr : getNode s1 tr = some trn := by
                                  rw [h1other tr hpmtr'
                                    (fun mr hmr => (hxmrfacts mr hmr).2.2.2)]
                                  exact hgtr
                                have hg2tr : getNode (setNode s1 m
                                    { mn with right := some tr }) tr = some trn := by
                                  rw [getNode_set_other hmtr']
                                  exact hg1tr
                                rw [getN_of hg2tr] at hrem
                                simp only [okBind] at hrem
                                have hg_sCt : getNode (setNode (setNode s1 m
                                    { mn with right := some tr }) tr
                                    { trn with parent := some m }) t = some tn := by
                                  rw [getNode_set_other (Ne.symm htrt),
                                    getNode_set_other (Ne.symm hmt)]
                                  exact hg1t
                                have hg_sCm : getNode (setNode (setNode s1 m
                                    { mn with right := some tr }) tr
                                    { trn with parent := some m }) m =
                                    some { mn with right := some tr } := by
                                  rw [getNode_set_other hmtr]
                                  exact hg2m
                                have hg_sCtl : getNode (setNode (setNode s1 m
                                    { mn with right := some tr }) tr
                                    { trn with parent := some m }) tl = some tln := by
                                  rw [getNode_set_other (Ne.symm htrtl),
                                    getNode_set_other (Ne.symm hmtl)]
                                  exact hg1tl
                                have hg_sCtr : getNode (setNode (setNode s1 m
                                    { mn with right := some tr }) tr
                                    { trn with parent := some m }) tr =
                                    some { trn with parent := some m } :=
                                  getNode_set_self hg2tr _
                                have hg_sCpm : getNode (setNode (setNode s1 m
                                    { mn with right := some tr }) tr
                                    { trn with parent := some m }) pm = some pmn1 := by
                                  rw [getNode_set_other hpmtr,
                                    getNode_set_other (Ne.symm hmpm)]
                                  exact hg1pm
                                cases htnp : tn.parent with
                                | none =>
                                  have hroot : s.root = some t := by
                                    rcases parent_inside hr' t ht with h2 | ⟨y, hy, yn, hgy, hslot⟩
                                    · exact h2
                                    · exfalso
                                      have hclb := parentChk_back hpc hr hy
                                      have h3 : (getNode s t).map Node.parent = some (some y) := by
                                        rcases hslot with hL | hR
                                        · exact linkedBack_left hclb hgy hL
                                        · exact linkedBack_right hclb hgy hR
                                      rw [hgt] at h3
                                      simp only [Option.map_some', Option.some.injEq] at h3
                                      rw [htnp] at h3
                                      exact absurd h3 (by simp)
                                  have hg_rct : getN ({ setNode (setNode s1 m
                                      { mn with right := some tr }) tr
                                      { trn with parent := some m } with
                                      root := some m } : Tree) t = .ok tn := getN_of hg_sCt
                                  have hg_rcm : getN ({ setNode (setNode s1 m
                                      { mn with right := some tr }) tr
                                      { trn with parent := some m } with
                                      root := some m } : Tree) m =
                                      .ok { mn with right := some tr } := getN_of hg_sCm
                                  have hτ : transplant (setNode (setNode s1 m
                                      { mn with right := some tr }) tr
                                      { trn with parent := some m }) t (some m) =
                                      .ok (setNode ({ setNode (setNode s1 m
                                        { mn with right := some tr }) tr
                                        { trn with parent := some m } with
                                        root := some m } : Tree) m
                                        { mn with parent := none, right := some tr }) := by
                                    unfold transplant
                                    rw [if_pos (show (setNode (setNode s1 m
                                      { mn with right := some tr }) tr
                                      { trn with parent := some m }).root = some t from
                                      hs1root.trans hroot)]
                                    rw [okBind]
                                    simp only []
                                    rw [hg_rct, okBind, hg_rcm, okBind, htnp]
                                  rw [hτ, okBind] at hrem
                                  have hg_sEt : getNode (setNode ({ setNode (setNode s1 m
                                      { mn with right := some tr }) tr
                                      { trn with parent := some m } with
                                      root := some m } : Tree) m
                                      { mn with parent := none, right := some tr }) t =
                                      some tn := by
                                    rw [getNode_set_other (Ne.symm hmt), getNode_rootset]
                                    exact hg_sCt
                                  have hg_sEm : getNode (setNode ({ setNode (setNode s1 m
                                      { mn with right := some tr }) tr
                                      { trn with parent := some m } with
                                      root := some m } : Tree) m
                                      { mn with parent := none, right := some tr }) m =
                                      some { mn with parent := none, right := some tr } :=
                                    getNode_set_self (getN_ok hg_rcm) _
                                  rw [getN_of hg_sEt, okBind] at hrem
                                  rw [getN_of hg_sEm] at hrem
                                  simp only [okBind] at hrem
                                  rw [htnl] at hrem
                                  have hg_s3m : getNode (setNode (setNode ({ setNode (setNode s1 m
                                      { mn with right := some tr }) tr
                                      { trn with parent := some m } with
                                      root := some m } : Tree) m
                                      { mn with parent := none, right := some tr }) m
                                      { mn with left := some tl, parent := none, right := some tr }) m =
                                      some { mn with left := some tl, parent := none, right := some tr } :=
                                    getNode_set_self hg_sEm _
                                  rw [getN_of hg_s3m] at hrem
                                  simp only [okBind] at hrem
                                  have hg_s3tl : getNode (setNode (setNode ({ setNode (setNode s1 m
                                      { mn with right := some tr }) tr
                                      { trn with parent := some m } with
                                      root := some m } : Tree) m
                                      { mn with parent := none, right := some tr }) m
                                      { mn with left := some tl, parent := none, right := some tr }) tl =
                                      some tln := by
                                    rw [getNode_set_other (Ne.symm hmtl),
                                      getNode_set_other (Ne.symm hmtl), getNode_rootset]
                                    exact hg_sCtl
                                  rw [getN_of hg_s3tl] at hrem
                                  simp only [okBind] at hrem
                                  injection hrem with hfs
                                  subst hfs
                                  refine @remove_splice_deep_root_parentInv s l hr hnd hpc t tl tr
                                    m pm tn mn pmn hroot hgt htnl htnr ftc ltc hct hsubltc f1 ltr
                                    hcltr hmltr hgm hmleft hmtr hpm2 hgpm hpml hpmtr tln trn hgtl
                                    hgtr _
                                    { mn with left := some tl, parent := none, right := some tr }
                                    { tln with parent := some m } { trn with parent := some m }
                                    pmn1 ?_ rfl rfl rfl ?_ rfl rfl rfl ?_ rfl rfl rfl
                                    ?_ hpm1l hpm1r hpm1p ?_ ?_ rfl
                                  · rw [getNode_set_other hmtl]
                                    exact hg_s3m
                                  · exact getNode_set_self hg_s3tl _
                                  · rw [getNode_set_other htrtl,
                                      getNode_set_other hmtr',
                                      getNode_set_other hmtr', getNode_rootset]
                                    exact hg_sCtr
                                  · rw [getNode_set_other hpmtl,
                                      getNode_set_other (Ne.symm hmpm),
                                      getNode_set_other (Ne.symm hmpm), getNode_rootset]
                                    exact hg_sCpm
                                  · intro mr0 hmr0
                                    obtain ⟨mrn, mrn1, hgmr0, hg1mr0, e1, e2, e3⟩ :=
                                      hmr1 mr0 hmr0
                                    obtain ⟨hf1, hf2, hf3, hf4⟩ := hxmrfacts mr0 hmr0
                                    refine ⟨mrn, mrn1, hgmr0, ?_, e1, e2, e3⟩
                                    rw [getNode_set_other (Ne.symm hf3),
                                      getNode_set_other (Ne.symm hf2),
                                      getNode_set_other (Ne.symm hf2), getNode_rootset,
                                      getNode_set_other (Ne.symm hf4),
                                      getNode_set_other (Ne.symm hf2)]
                                    exact hg1mr0
                                  · intro x hxm hxtl hxtr hxpm hxmr
                                    rw [getNode_set_other hxtl, getNode_set_other hxm,
                                      getNode_set_other hxm, getNode_rootset,
                                      getNode_set_other hxtr, getNode_set_other hxm]
                                    exact h1other x hxpm hxmr
                                | some q =>
                                  obtain ⟨qn, hgq, hslot0⟩ :=
                                    parent_slot_of_mem hpc hr ht hgt htnp
                                  have hqt : q ≠ t := by
                                    intro h2
                                    exact parent_ne_self hr hnd hpc ht hgt (by rw [htnp, h2])
                                  have hrootne : s.root ≠ some t := by
                                    intro h2
                                    have h3 := parentChk_root hpc h2
                                    rw [hgt] at h3
                                    simp only [Option.map_some', Option.some.injEq] at h3
                                    rw [htnp] at h3
                                    exact absurd h3 (by simp)
                                  have hql := parent_mem_reach hpc hr ht hgt htnp
                                  obtain ⟨fq, lq, hcq, hsubq⟩ := mem_subtree_cert hr' hql
                                  have hqavoid := subtree_avoid hcq (hnd.sublist hsubq) hgq
                                  have hqnotin : q ∉ ltc := by
                                    rcases hslot0 with hL | hR
                                    · exact hqavoid.1 t hL hct
                                    · exact hqavoid.2 t hR hct
                                  have hqtl : q ≠ tl := fun h2 => hqnotin (by rw [h2]; exact htllt)
                                  have hqtr : q ≠ tr := fun h2 => hqnotin (by rw [h2]; exact htrlt)
                                  have hqm : q ≠ m := fun h2 => hqnotin (by rw [h2]; exact hmlt)
                                  have hqpm : q ≠ pm := fun h2 => hqnotin (by rw [h2]; exact hpmlt)
                                  have hqmr : ∀ mr, mn.right = some mr → q ≠ mr :=
                                    fun mr hmr h2 => hqnotin (h2 ▸ (hmrfacts mr hmr).2.1)
                                  obtain ⟨dsq, hdsqlen, hfq⟩ := inorder_mem_follow hr' q hql
                                  have hg_sCq : getNode (setNode (setNode s1 m
                                      { mn with right := some tr }) tr
                                      { trn with parent := some m }) q = some qn := by
                                    rw [getNode_set_other hqtr, getNode_set_other hqm]
                                    rw [h1other q hqpm hqmr]
                                    exact hgq
                                  have hσ : ∃ Rq, transplant (setNode (setNode s1 m
                                      { mn with right := some tr }) tr
                                      { trn with parent := some m }) t (some m) =
                                      .ok (setNode (setNode (setNode (setNode s1 m
                                        { mn with right := some tr }) tr
                                        { trn with parent := some m }) q Rq) m
                                        { mn with parent := some q, right := some tr }) ∧
                                      Rq.parent = qn.parent ∧
                                      (∀ y, y ≠ t → (qn.left = some y ∨ qn.right = some y) →
                                        (Rq.left = some y ∨ Rq.right = some y)) ∧
                                      (∀ cx, (Rq.left = some cx ∨ Rq.right = some cx) →
                                        cx = m ∨ ((qn.left = some cx ∨ qn.right = some cx) ∧
                                          cx ≠ t)) ∧
                                      (Rq.left = some m ∨ Rq.right = some m) := by
                                    by_cases hqL : qn.left = some t
                                    · have hqRne := distinct_slots hr hnd hfq hgq hqL
                                      have hgDt : getNode (setNode (setNode (setNode s1 m
                                          { mn with right := some tr }) tr
                                          { trn with parent := some m }) q
                                          { qn with left := some m }) t = some tn := by
                                        rw [getNode_set_other (Ne.symm hqt)]
                                        exact hg_sCt
                                      have hgDm : getNode (setNode (setNode (setNode s1 m
                                          { mn with right := some tr }) tr
                                          { trn with parent := some m }) q
                                          { qn with left := some m }) m =
                                          some { mn with right := some tr } := by
                                        rw [getNode_set_other (Ne.symm hqm)]
                                        exact hg_sCm
                                      refine ⟨{ qn with left := some m }, ?_, rfl, ?_, ?_,
                                        Or.inl rfl⟩
                                      · unfold transplant
                                        rw [if_neg (show ¬ ((setNode (setNode s1 m
                                            { mn with right := some tr }) tr
                                            { trn with parent := some m }).root = some t) from
                                          fun h2 => hrootne (hs1root ▸
                                            (show s1.root = some t from h2)))]
                                        rw [getN_of hg_sCt, okBind, htnp]
                                        simp only [deref, okBind]
                                        rw [getN_of hg_sCq, okBind, if_pos hqL]
                                        rw [getN_of hgDt, okBind, getN_of hgDm, okBind, htnp]
                                      · intro y hyt hslot
                                        rcases hslot with hL | hR
                                        · rw [hqL] at hL
                                          injection hL with h2
                                          exact absurd h2.symm hyt
                                        · exact Or.inr hR
                                      · intro cx hcx
                                        rcases hcx with hL | hR
                                        · injection hL with h2
                                          exact Or.inl h2.symm
                                        · refine Or.inr ⟨Or.inr hR, ?_⟩
                                          intro h2
                                          rw [h2] at hR
                                          exact hqRne hR
                                    · have hqR : qn.right = some t := by
                                        rcases hslot0 with hL | hR
                                        · exact absurd hL hqL
                                        · exact hR
                                      have hgDt : getNode (setNode (setNode (setNode s1 m
                                          { mn with right := some tr }) tr
                                          { trn with parent := some m }) q
                                          { qn with right := some m }) t = some tn := by
                                        rw [getNode_set_other (Ne.symm hqt)]
                                        exact hg_sCt
                                      have hgDm : getNode (setNode (setNode (setNode s1 m
                                          { mn with right := some tr }) tr
                                          { trn with parent := some m }) q
                                          { qn with right := some m }) m =
                                          some { mn with right := some tr } := by
                                        rw [getNode_set_other (Ne.symm hqm)]
                                        exact hg_sCm
                                      refine ⟨{ qn with right := some m }, ?_, rfl, ?_, ?_,
                                        Or.inr rfl⟩
                                      · unfold transplant
                                        rw [if_neg (show ¬ ((setNode (setNode s1 m
                                            { mn with right := some tr }) tr
                                            { trn with parent := some m }).root = some t) from
                                          fun h2 => hrootne (hs1root ▸
                                            (show s1.root = some t from h2)))]
                                        rw [getN_of hg_sCt, okBind, htnp]
                                        simp only [deref, okBind]
                                        rw [getN_of hg_sCq, okBind, if_neg hqL]
                                        rw [getN_of hgDt, okBind, getN_of hgDm, okBind, htnp]
                                      · intro y hyt hslot
                                        rcases hslot with hL | hR
                                        · exact Or.inl hL
                                        · rw [hqR] at hR
                                          injection hR with h2
                                          exact absurd h2.symm hyt
                                      · intro cx hcx
                                        rcases hcx with hL | hR
                                        · refine Or.inr ⟨Or.inl hL, ?_⟩
                                          intro h2
                                          rw [h2] at hL
                                          exact hqL hL
                                        · injection hR with h2
                                          exact Or.inl h2.symm
                                  obtain ⟨Rq, htp2, hRqp, hold2, hnewq2, hsnq2⟩ := hσ
                                  rw [htp2, okBind] at hrem
                                  have hg_sDt : getNode (setNode (setNode (setNode s1 m
                                      { mn with right := some tr }) tr
                                      { trn with parent := some m }) q Rq) t = some tn := by
                                    rw [getNode_set_other (Ne.symm hqt)]
                                    exact hg_sCt
                                  have hg_sDm : getNode (setNode (setNode (setNode s1 m
                                      { mn with right := some tr }) tr
                                      { trn with parent := some m }) q Rq) m =
                                      some { mn with right := some tr } := by
                                    rw [getNode_set_other (Ne.symm hqm)]
                                    exact hg_sCm
                                  have hg_sEt : getNode (setNode (setNode (setNode (setNode s1 m
                                      { mn with right := some tr }) tr
                                      { trn with parent := some m }) q Rq) m
                                      { mn with parent := some q, right := some tr }) t =
                                      some tn := by
                                    rw [getNode_set_other (Ne.symm hmt)]
                                    exact hg_sDt
                                  have hg_sEm : getNode (setNode (setNode (setNode (setNode s1 m
                                      { mn with right := some tr }) tr
                                      { trn with parent := some m }) q Rq) m
                                      { mn with parent := some q, right := some tr }) m =
                                      some { mn with parent := some q, right := some tr } :=
                                    getNode_set_self hg_sDm _
                                  rw [getN_of hg_sEt, okBind] at hrem
                                  rw [getN_of hg_sEm] at hrem
                                  simp only [okBind] at hrem
                                  rw [htnl] at hrem
                                  have hg_s3m : getNode (setNode (setNode (setNode (setNode
                                      (setNode s1 m { mn with right := some tr }) tr
                                      { trn with parent := some m }) q Rq) m
                                      { mn with parent := some q, right := some tr }) m
                                      { mn with left := some tl, parent := some q, right := some tr }) m =
                                      some { mn with left := some tl, parent := some q, right := some tr } :=
                                    getNode_set_self hg_sEm _
                                  rw [getN_of hg_s3m] at hrem
                                  simp only [okBind] at hrem
                                  have hg_s3tl : getNode (setNode (setNode (setNode (setNode
                                      (setNode s1 m { mn with right := some tr }) tr
                                      { trn with parent := some m }) q Rq) m
                                      { mn with parent := some q, right := some tr }) m
                                      { mn with left := some tl, parent := some q, right := some tr }) tl = some tln := by
                                    rw [getNode_set_other (Ne.symm hmtl),
                                      getNode_set_other (Ne.symm hmtl),
                                      getNode_set_other (Ne.symm hqtl)]
                                    exact hg_sCtl
                                  rw [getN_of hg_s3tl] at hrem
                                  simp only [okBind] at hrem
                                  injection hrem with hfs
                                  subst hfs
                                  refine @remove_splice_deep_parentInv s l hr hnd hpc t tl tr
                                    q m pm tn qn mn pmn ht hgt htnl htnr htnp hgq ftc ltc hct
                                    hsubltc f1 ltr hcltr hmltr hgm hmleft hmtr hpm2 hgpm hpml
                                    hpmtr tln trn hgtl hgtr _ Rq
                                    { mn with left := some tl, parent := some q, right := some tr }
                                    { tln with parent := some m } { trn with parent := some m }
                                    pmn1 ?_ hRqp hold2 hnewq2 hsnq2 ?_ rfl rfl rfl ?_ rfl rfl rfl
                                    ?_ rfl rfl rfl ?_ hpm1l hpm1r hpm1p ?_ ?_ hs1root
                                  · rw [getNode_set_other hqtl, getNode_set_other hqm,
                                      getNode_set_other hqm]
                                    exact getNode_set_self hg_sCq _
                                  · rw [getNode_set_other hmtl]
                                    exact hg_s3m
                                  · exact getNode_set_self hg_s3tl _
                                  · rw [getNode_set_other htrtl,
                                      getNode_set_other hmtr',
                                      getNode_set_other hmtr',
                                      getNode_set_other (Ne.symm hqtr)]
                                    exact hg_sCtr
                                  · rw [getNode_set_other hpmtl,
                                      getNode_set_other (Ne.symm hmpm),
                                      getNode_set_other (Ne.symm hmpm),
                                      getNode_set_other (Ne.symm hqpm)]
                                    exact hg_sCpm
                                  · intro mr0 hmr0
                                    obtain ⟨mrn, mrn1, hgmr0, hg1mr0, e1, e2, e3⟩ :=
                                      hmr1 mr0 hmr0
                                    obtain ⟨hf1, hf2, hf3, hf4⟩ := hxmrfacts mr0 hmr0
                                    refine ⟨mrn, mrn1, hgmr0, ?_, e1, e2, e3⟩
                                    rw [getNode_set_other (Ne.symm hf3),
                                      getNode_set_other (Ne.symm hf2),
                                      getNode_set_other (Ne.symm hf2),
                                      getNode_set_other (Ne.symm (hqmr mr0 hmr0)),
                                      getNode_set_other (Ne.symm hf4),
                                      getNode_set_other (Ne.symm hf2)]
                                    exact hg1mr0
                                  · intro x hxq hxm hxtl hxtr hxpm hxmr
                                    rw [getNode_set_other hxtl, getNode_set_other hxm,
                                      getNode_set_other hxm, getNode_set_other hxq,
                                      getNode_set_other hxtr, getNode_set_other hxm]
                                    exact h1other x hxpm hxmr

end BT
namespace RBT

def stripN (n : RBNode) : BT.Node :=
  { key := n.key, left := n.left, parent := n.parent, right := n.right }

def rbToBt (s : RBTree) : BT.Tree :=
  { root := s.root, nodes := s.nodes.map (fun pr => (pr.1, stripN pr.2)),
    nextId := s.nextId }

theorem lookup_toBt (ns : List (Nat × RBNode)) (i : Nat) :
    BT.lookupN (ns.map (fun pr => (pr.1, stripN pr.2))) i =
      (lookupR ns i).map stripN := by
  induction ns with
  | nil => rfl
  | cons hd rest ih =>
    rw [List.map_cons]
    unfold BT.lookupN lookupR
    by_cases h2 : hd.1 = i
    · rw [if_pos h2, if_pos h2]
      rfl
    · rw [if_neg h2, if_neg h2]
      exact ih

theorem getNode_toBt (s : RBTree) (i : Nat) :
    BT.getNode (rbToBt s) i = (getNode s i).map stripN :=
  lookup_toBt s.nodes i

theorem followFrom_toBt (s : RBTree) :
    ∀ (ds : List BT.Dir) (cur : Option Nat),
      BT.followFrom (rbToBt s) cur ds = followFromR s cur ds := by
  intro ds
  induction ds with
  | nil => intro cur; cases cur <;> rfl
  | cons d rest ih =>
    intro cur
    cases cur with
    | none => rfl
    | some i =>
      rw [BT.followFrom, followFromR, getNode_toBt]
      cases hg : getNode s i with
      | none => rfl
      | some n =>
        simp only [Option.map_some']
        cases d with
        | L => exact ih n.left
        | R => exact ih n.right

theorem parentInvR_iff (s : RBTree) : parentInvR s ↔ BT.parentInv (rbToBt s) := by
  constructor
  · rintro ⟨h1, h2⟩
    constructor
    · intro r rn hr0 hg
      rw [getNode_toBt] at hg
      cases hg2 : getNode s r with
      | none => rw [hg2] at hg; exact absurd hg (by simp)
      | some rn0 =>
        rw [hg2] at hg
        simp only [Option.map_some'] at hg
        injection hg with hg3
        have h4 := h1 r rn0 hr0 hg2
        rw [← hg3]
        exact h4
    · intro ds i n p hf hg hp
      rw [BT.follow, followFrom_toBt] at hf
      rw [getNode_toBt] at hg
      cases hg2 : getNode s i with
      | none => rw [hg2] at hg; exact absurd hg (by simp)
      | some n0 =>
        rw [hg2] at hg
        simp only [Option.map_some'] at hg
        injection hg with hg3
        have hp0 : n0.parent = some p := by
          rw [← hg3] at hp
          exact hp
        obtain ⟨pn, hgp, hslot⟩ := h2 ds i n0 p hf hg2 hp0
        refine ⟨stripN pn, ?_, hslot⟩
        rw [getNode_toBt, hgp]
        rfl
  · rintro ⟨h1, h2⟩
    constructor
    · intro r rn hr0 hg
      have h4 := h1 r (stripN rn) hr0 (by rw [getNode_toBt, hg]; rfl)
      exact h4
    · intro ds i n p hf hg hp
      have hf2 : BT.follow (rbToBt s) ds = some i := by
        rw [BT.follow, followFrom_toBt]
        exact hf
      obtain ⟨pn, hgp, hslot⟩ := h2 ds i (stripN n) p hf2
        (by rw [getNode_toBt, hg]; rfl) hp
      rw [getNode_toBt] at hgp
      cases hg2 : getNode s p with
      | none => rw [hg2] at hgp; exact absurd hgp (by simp)
      | some pn0 =>
        rw [hg2] at hgp
        simp only [Option.map_some'] at hgp
        injection hgp with hg3
        refine ⟨pn0, rfl, ?_⟩
        rw [← hg3] at hslot
        exact hslot

theorem update_toBt (ns : List (Nat × RBNode)) (i : Nat) (n : RBNode) :
    (updateR ns i n).map (fun pr => (pr.1, stripN pr.2)) =
      BT.updateN (ns.map (fun pr => (pr.1, stripN pr.2))) i (stripN n) := by
  induction ns with
  | nil => rfl
  | cons hd rest ih =>
    unfold updateR
    rw [List.map_cons]
    unfold BT.updateN
    by_cases h2 : hd.1 = i
    · rw [if_pos h2, if_pos h2, List.map_cons]
    · rw [if_neg h2, if_neg h2, List.map_cons, ih]

theorem setNode_toBt (s : RBTree) (i : Nat) (n : RBNode) :
    rbToBt (setNode s i n) = BT.setNode (rbToBt s) i (stripN n) := by
  unfold rbToBt setNode BT.setNode
  simp only []
  rw [update_toBt]

theorem setColor_toBt (s : RBTree) (i : Nat) (c : Color) :
    rbToBt (setColor s i c) = rbToBt s := by
  unfold setColor
  cases hg : getNode s i with
  | none => rfl
  | some n =>
    rw [setNode_toBt]
    have h2 : BT.getNode (rbToBt s) i = some (stripN n) := by
      rw [getNode_toBt, hg]
      rfl
    have h3 : stripN { n with color := c } = stripN n := rfl
    rw [h3]
    exact BT.setNode_id h2

end RBT

namespace RBT

theorem lookupR_updateR_self {ns : List (Nat × RBNode)} {i : Nat} {m : RBNode}
    (h : (lookupR ns i).isSome) : lookupR (updateR ns i m) i = some m := by
  induction ns with
  | nil => simp [lookupR] at h
  | cons pr rest ih =>
    obtain ⟨j, n⟩ := pr
    rw [lookupR] at h
    rw [updateR]
    by_cases hj : j = i
    · rw [if_pos hj, lookupR, if_pos hj]
    · rw [if_neg hj] at h
      rw [if_neg hj, lookupR, if_neg hj]
      exact ih h

theorem lookupR_updateR_other {ns : List (Nat × RBNode)} {i j : Nat} {m : RBNode}
    (h : j ≠ i) : lookupR (updateR ns i m) j = lookupR ns j := by
  induction ns with
  | nil => rfl
  | cons pr rest ih =>
    obtain ⟨j0, n⟩ := pr
    rw [updateR]
    by_cases hj : j0 = i
    · rw [if_pos hj, lookupR, lookupR]
      rw [hj]
      rw [if_neg (by omega), if_neg (by omega)]
    · rw [if_neg hj, lookupR, lookupR]
      by_cases hj2 : j0 = j
      · rw [if_pos hj2, if_pos hj2]
      · rw [if_neg hj2, if_neg hj2]
        exact ih

theorem getNodeR_set_self {s : RBTree} {i : Nat} {n0 : RBNode}
    (h : getNode s i = some n0) (m : RBNode) : getNode (setNode s i m) i = some m := by
  show lookupR (updateR s.nodes i m) i = some m
  refine lookupR_updateR_self ?_
  rw [show lookupR s.nodes i = some n0 from h]
  rfl

theorem getNodeR_set_other {s : RBTree} {i j : Nat} (h : j ≠ i) (m : RBNode) :
    getNode (setNode s i m) j = getNode s j := by
  show lookupR (updateR s.nodes i m) j = lookupR s.nodes j
  exact lookupR_updateR_other h

theorem getNode_setColor_self {s : RBTree} {i : Nat} {n : RBNode}
    (h : getNode s i = some n) (c : Color) :
    getNode (setColor s i c) i = some { n with color := c } := by
  unfold setColor
  rw [h]
  exact getNodeR_set_self h _

theorem getNode_setColor_other {s : RBTree} {i j : Nat} (h : j ≠ i) (c : Color) :
    getNode (setColor s i c) j = getNode s j := by
  unfold setColor
  cases hg : getNode s i with
  | none => rfl
  | some n => exact getNodeR_set_other h _

theorem rightRotate_eq {s : RBTree} {x : Nat} {s' : RBTree}
    (h : rightRotate s x = .ok s') : s' = s := by
  unfold rightRotate at h
  injection h with h2
  exact h2.symm

theorem leftRotate_char {s : RBTree} {x : Nat} {s' : RBTree}
    (h : leftRotate s x = .ok s') :
    ∃ n r rn, getNode s x = some n ∧ n.right = some r ∧ getNode s r = some rn ∧
      s' = setNode s x { n with right := rn.left } := by
  unfold leftRotate at h
  cases hg : getN s x with
  | error e => rw [hg, BT.errBind] at h; exact absurd h (by simp)
  | ok n =>
    rw [hg, BT.okBind] at h
    cases hnr : n.right with
    | none =>
      rw [hnr] at h
      simp only [BT.deref, BT.errBind] at h
      exact absurd h (by simp)
    | some r =>
      rw [hnr] at h
      simp only [BT.deref, BT.okBind] at h
      cases hgr : getN s r with
      | error e => rw [hgr, BT.errBind] at h; exact absurd h (by simp)
      | ok rn =>
        rw [hgr, BT.okBind] at h
        injection h with h2
        refine ⟨n, r, rn, ?_, hnr, ?_, h2.symm⟩
        · have := hg
          unfold getN at this
          cases hg2 : getNode s x with
          | none => rw [hg2] at this; exact absurd this (by simp)
          | some n2 =>
            rw [hg2] at this
            injection this with h3
            rw [h3]
        · have := hgr
          unfold getN at this
          cases hg2 : getNode s r with
          | none => rw [hg2] at this; exact absurd this (by simp)
          | some n2 =>
            rw [hg2] at this
            injection this with h3
            rw [h3]

theorem fixRootBlack_shadow {s : RBTree} {s' : RBTree}
    (h : fixRootBlack s = .ok s') : rbToBt s' = rbToBt s := by
  unfold fixRootBlack at h
  cases hr0 : s.root with
  | none =>
    rw [hr0] at h
    simp only [BT.deref, BT.errBind] at h
    exact absurd h (by simp)
  | some r =>
    rw [hr0] at h
    simp only [BT.deref, BT.okBind] at h
    cases hg : getN s r with
    | error e => rw [hg, BT.errBind] at h; exact absurd h (by simp)
    | ok rn =>
      rw [hg, BT.okBind] at h
      injection h with h2
      rw [← h2, setNode_toBt]
      have hg2 : getNode s r = some rn := by
        unfold getN at hg
        cases hg3 : getNode s r with
        | none => rw [hg3] at hg; exact absurd hg (by simp)
        | some n2 =>
          rw [hg3] at hg
          injection hg with h4
          rw [h4]
      refine BT.setNode_id ?_
      rw [getNode_toBt, hg2]
      rfl

theorem getNR_of {s : RBTree} {i : Nat} {n : RBNode} (h : getNode s i = some n) :
    getN s i = .ok n := by
  unfold getN
  rw [h]

theorem getNR_ok {s : RBTree} {i : Nat} {n : RBNode} (h : getN s i = .ok n) :
    getNode s i = some n := by
  unfold getN at h
  cases hg : getNode s i with
  | none => rw [hg] at h; exact absurd h (by simp)
  | some n2 =>
    rw [hg] at h
    injection h with h2
    rw [h2]

end RBT

namespace RBT

theorem parent_setColor (s : RBTree) (i : Nat) (c : Color) (j : Nat) :
    (getNode (setColor s i c) j).map RBNode.parent =
      (getNode s j).map RBNode.parent := by
  by_cases h2 : j = i
  · subst h2
    cases hg : getNode s j with
    | none =>
      have h3 : setColor s j c = s := by
        unfold setColor
        rw [hg]
      rw [h3, hg]
    | some n =>
      have h4 := getNode_setColor_self hg c
      rw [h4]
      rfl
  · rw [getNode_setColor_other h2]

theorem fixupLeftTail_char {s : RBTree} {node : Nat} {s' : RBTree}
    (h : fixupLeftTail s node = .ok s') :
    ∃ n p pn g, getNode s node = some n ∧ n.parent = some p ∧
      getNode s p = some pn ∧ pn.parent = some g ∧
      s' = setColor (setColor s p Color.BLACK) g Color.RED := by
  unfold fixupLeftTail at h
  cases hg : getN s node with
  | error e => rw [hg, BT.errBind] at h; exact absurd h (by simp)
  | ok n =>
    rw [hg, BT.okBind] at h
    have hg2 := getNR_ok hg
    cases hnp : n.parent with
    | none =>
      rw [hnp] at h
      simp only [BT.deref, BT.errBind] at h
      exact absurd h (by simp)
    | some p =>
      rw [hnp] at h
      simp only [BT.deref, BT.okBind] at h
      cases hg1 : getN (setColor s p Color.BLACK) node with
      | error e => rw [hg1, BT.errBind] at h; exact absurd h (by simp)
      | ok n1 =>
        rw [hg1, BT.okBind] at h
        have hg1b := getNR_ok hg1
        have hn1p : n1.parent = some p := by
          have h2 := parent_setColor s p Color.BLACK node
          rw [hg1b, hg2] at h2
          simp only [Option.map_some'] at h2
          injection h2 with h3
          rw [h3, hnp]
        rw [hn1p] at h
        simp only [BT.deref, BT.okBind] at h
        cases hgp1 : getN (setColor s p Color.BLACK) p with
        | error e => rw [hgp1, BT.errBind] at h; exact absurd h (by simp)
        | ok p1n =>
          rw [hgp1, BT.okBind] at h
          have hgp1b := getNR_ok hgp1
          -- p is allocated in s
          have hpalloc : ∃ pn, getNode s p = some pn := by
            have h2 := parent_setColor s p Color.BLACK p
            rw [hgp1b] at h2
            cases hg3 : getNode s p with
            | none => rw [hg3] at h2; exact absurd h2 (by simp)
            | some pn => exact ⟨pn, rfl⟩
          obtain ⟨pn, hgpn⟩ := hpalloc
          have hp1par : p1n.parent = pn.parent := by
            have h2 := parent_setColor s p Color.BLACK p
            rw [hgp1b, hgpn] at h2
            simp only [Option.map_some'] at h2
            injection h2
          cases hpnp : pn.parent with
          | none =>
            rw [hp1par, hpnp] at h
            simp only [BT.deref, BT.errBind] at h
            exact absurd h (by simp)
          | some g =>
            rw [hp1par, hpnp] at h
            simp only [BT.deref, BT.okBind] at h
            cases hg2c : getN (setColor (setColor s p Color.BLACK) g Color.RED) node with
            | error e => rw [hg2c, BT.errBind] at h; exact absurd h (by simp)
            | ok n2 =>
              rw [hg2c, BT.okBind] at h
              have hg2cb := getNR_ok hg2c
              have hn2p : n2.parent = some p := by
                have h2 := parent_setColor (setColor s p Color.BLACK) g Color.RED node
                rw [hg2cb, hg1b] at h2
                simp only [Option.map_some'] at h2
                injection h2 with h3
                rw [h3, hn1p]
              rw [hn2p] at h
              simp only [BT.deref, BT.okBind] at h
              cases hgp2 : getN (setColor (setColor s p Color.BLACK) g Color.RED) p with
              | error e => rw [hgp2, BT.errBind] at h; exact absurd h (by simp)
              | ok p2n =>
                rw [hgp2, BT.okBind] at h
                have hgp2b := getNR_ok hgp2
                have hp2par : p2n.parent = some g := by
                  have h2 := parent_setColor (setColor s p Color.BLACK) g Color.RED p
                  rw [hgp2b, hgp1b] at h2
                  simp only [Option.map_some'] at h2
                  injection h2 with h3
                  rw [h3, hp1par, hpnp]
                rw [hp2par] at h
                simp only [BT.deref, BT.okBind] at h
                have h4 := rightRotate_eq h
                exact ⟨n, p, pn, g, hg2, hnp, hgpn, hpnp, h4⟩

end RBT

namespace BT

theorem rotate_stub_parentInv {s : Tree} {l : List Nat}
    (hr : reachIds s = some l) (hnd : l.Nodup) (hpc : parentChk s = true)
    {x y : Nat} {xn yn : Node}
    (hx : x ∈ l) (hgx : getNode s x = some xn)
    (hxr : xn.right = some y) (hgy : getNode s y = some yn) :
    parentInv (setNode s x { xn with right := yn.left }) := by
  have hr' : inorderIds s s.root (opFuel s) = some l := hr
  have hy2 : y ∈ l := (children_mem hr' hx hgx).2 y hxr
  have hypar : yn.parent = some x := by
    have h2 := linkedBack_right (parentChk_back hpc hr hx) hgx hxr
    rw [hgy] at h2
    simpa using h2
  have hyx : y ≠ x := by
    intro h2
    have h3 := parent_ne_self hr hnd hpc hy2 hgy
    rw [hypar] at h3
    exact h3 (by rw [h2])
  obtain ⟨dsx, hdsxlen, hfx⟩ := inorder_mem_follow hr' x hx
  have hxlny : xn.left ≠ some y := by
    intro h2
    exact distinct_slots hr hnd hfx hgx h2 hxr
  have hslot_y : ∀ z zn, z ∈ l → getNode s z = some zn →
      (zn.left = some y ∨ zn.right = some y) → z = x := by
    intro z zn hz hgz hslot
    have hclb := parentChk_back hpc hr hz
    have h2 : (getNode s y).map Node.parent = some (some z) := by
      rcases hslot with hL | hR
      · exact linkedBack_left hclb hgz hL
      · exact linkedBack_right hclb hgz hR
    rw [hgy] at h2
    simp only [Option.map_some', Option.some.injEq] at h2
    rw [hypar] at h2
    injection h2 with h3
    exact h3.symm
  have hwfacts : ∀ w, yn.left = some w → w ∈ l ∧ w ≠ y := by
    intro w hw
    refine ⟨(children_mem hr' hy2 hgy).1 w hw, ?_⟩
    intro h2
    subst h2
    obtain ⟨fy, ly, hcy, hsuby⟩ := mem_subtree_cert hr' hy2
    have hndy : ly.Nodup := hnd.sublist hsuby
    have hyin : w ∈ ly := by
      obtain ⟨_, _, _, _, _, _, _, _, rfl⟩ := inorderIds_decomp hcy
      simp
    exact (subtree_avoid hcy hndy hgy).1 w hw hcy hyin
  have hxself : xn.parent ≠ some x := parent_ne_self hr hnd hpc hx hgx
  refine @parentInv_of_closedP _ (fun z => z ∈ l ∧ z ≠ y) ?_ ?_ ?_
  · intro r hr0
    have hr1 : s.root = some r := hr0
    refine ⟨root_mem_reach hr hr1, ?_⟩
    intro h2
    have h3 := parentChk_root hpc hr1
    rw [h2, hgy] at h3
    simp only [Option.map_some', Option.some.injEq] at h3
    rw [h3] at hypar
    exact absurd hypar (by simp)
  · intro r rn hr0 hgrn
    have hr1 : s.root = some r := hr0
    have h3 := parentChk_root hpc hr1
    by_cases hrx : r = x
    · subst hrx
      rw [getNode_set_self hgx] at hgrn
      injection hgrn with h4
      rw [← h4]
      rw [hgx] at h3
      simpa using h3
    · rw [getNode_set_other hrx] at hgrn
      rw [hgrn] at h3
      simpa using h3
  · rintro z ⟨hz, hzy⟩
    by_cases hzx : z = x
    · subst hzx
      refine ⟨{ xn with right := yn.left }, getNode_set_self hgx _, ?_, ?_, ?_⟩
      · intro cx hcx
        refine ⟨(children_mem hr' hz hgx).1 cx hcx, ?_⟩
        intro h2
        subst h2
        exact hxlny hcx
      · intro cx hcx
        exact hwfacts cx hcx
      · intro q hq
        have hqx : q ≠ z := by
          intro h2
          rw [h2] at hq
          exact hxself hq
        obtain ⟨qn, hgq, hslot⟩ := parent_slot_of_mem hpc hr hz hgx hq
        refine ⟨qn, ?_, hslot⟩
        rw [getNode_set_other hqx]
        exact hgq
    · obtain ⟨zn, hgz⟩ := mem_reach_alloc hr hz
      refine ⟨zn, by rw [getNode_set_other hzx]; exact hgz, ?_, ?_, ?_⟩
      · intro cx hcx
        refine ⟨(children_mem hr' hz hgz).1 cx hcx, ?_⟩
        intro h2
        subst h2
        exact hzx (hslot_y z zn hz hgz (Or.inl hcx))
      · intro cx hcx
        refine ⟨(children_mem hr' hz hgz).2 cx hcx, ?_⟩
        intro h2
        subst h2
        exact hzx (hslot_y z zn hz hgz (Or.inr hcx))
      · intro q hq
        obtain ⟨qn, hgq, hslot⟩ := parent_slot_of_mem hpc hr hz hgz hq
        by_cases hqx : q = x
        · subst hqx
          refine ⟨{ xn with right := yn.left }, getNode_set_self hgx _, ?_⟩
          have hqn : qn = xn := by
            rw [hgx] at hgq
            injection hgq with h5
            exact h5.symm
          subst hqn
          rcases hslot with hL | hR
          · exact Or.inl hL
          · rw [hxr] at hR
            injection hR with h2
            exact absurd h2.symm hzy
        · refine ⟨qn, ?_, hslot⟩
          rw [getNode_set_other hqx]
          exact hgq

end BT

namespace BT

/-- A successful enumeration also succeeds, unchanged, at any fuel
exceeding the list length. -/
theorem inorderIds_compress {s : Tree} :
    ∀ {fuel : Nat} {cur : Option Nat} {l : List Nat},
      inorderIds s cur fuel = some l → ∀ {g : Nat}, l.length < g →
      inorderIds s cur g = some l := by
  intro fuel
  induction fuel with
  | zero => intro cur l h; simp [inorderIds] at h
  | succ fuel ih =>
    intro cur l h g hg
    cases cur with
    | none =>
      rw [inorderIds] at h
      injection h with h2
      subst h2
      cases g with
      | zero => simp at hg
      | succ g => rw [inorderIds]
    | some i =>
      obtain ⟨f0, n, ll, lr, hfe, hgn, hcl, hcr, rfl⟩ := inorderIds_decomp h
      have hf0 : f0 = fuel := by omega
      subst hf0
      cases g with
      | zero => simp at hg
      | succ g =>
        have hgl : ll.length < g := by
          simp only [List.length_append, List.length_cons] at hg
          omega
        have hgr : lr.length < g := by
          simp only [List.length_append, List.length_cons] at hg
          omega
        have hll : inorderIds s n.left g = some ll := ih hcl hgl
        have hlr : inorderIds s n.right g = some lr := ih hcr hgr
        rw [inorderIds, hgn]
        simp only [hll, hlr]

/-- A duplicate-free enumeration certificate from the root, at any fuel,
yields the canonical reachable-id list. -/
theorem reach_of_cert {s : Tree} {F : Nat} {l : List Nat}
    (h : inorderIds s s.root F = some l) (hnd : l.Nodup) :
    reachIds s = some l := by
  have hsub : l ⊆ s.nodes.map Prod.fst := fun i hi =>
    lookupN_isSome_mem (inorderIds_mem_isSome h i hi)
  have hsp := List.subperm_of_subset hnd hsub
  have hle := hsp.length_le
  simp only [List.length_map] at hle
  have h2 : inorderIds s s.root (l.length + 1) = some l :=
    inorderIds_compress h (Nat.lt_succ_self _)
  exact inorderIds_mono h2 (by unfold opFuel; omega)

/-- No two reachable nodes of a certified state are each other's
parent. -/
theorem parent_no_cycle2 {s : Tree} {l : List Nat} (hr : reachIds s = some l)
    (hnd : l.Nodup) (hpc : parentChk s = true) {x : Nat} {n : Node} {q : Nat} {qn : Node}
    (hx : x ∈ l) (hgx : getNode s x = some n) (hq : n.parent = some q)
    (hgq : getNode s q = some qn) (hqp : qn.parent = some x) : False := by
  have hr' : inorderIds s s.root (opFuel s) = some l := hr
  have hql : q ∈ l := parent_mem_reach hpc hr hx hgx hq
  obtain ⟨xn', hgx', hslotx⟩ := parent_slot_of_mem hpc hr hql hgq hqp
  have hxn : xn' = n := by
    rw [hgx] at hgx'
    injection hgx' with h2
    exact h2.symm
  subst hxn
  obtain ⟨fx, lx, hcx, hsubx⟩ := mem_subtree_cert hr' hx
  have hndx : lx.Nodup := hnd.sublist hsubx
  have hav := subtree_avoid hcx hndx hgx
  obtain ⟨fq, lq, hcq, hsubq⟩ := mem_subtree_cert hr' hql
  obtain ⟨f0, n0, llq, lrq, hfe, hgn0, hclq, hcrq, heq⟩ := inorderIds_decomp hcq
  have hn0 : qn = n0 := by
    rw [hgq] at hgn0
    exact Option.some.inj hgn0
  subst hn0
  obtain ⟨qn2, hgq2, hslotq⟩ := parent_slot_of_mem hpc hr hx hgx hq
  have hqn2 : qn2 = qn := by
    rw [hgq] at hgq2
    injection hgq2 with h2
    exact h2.symm
  subst hqn2
  have hxlq : x ∈ lq := by
    subst heq
    rcases hslotq with hL | hR
    · rw [hL] at hclq
      obtain ⟨_, _, _, _, _, _, _, _, rfl⟩ := inorderIds_decomp hclq
      simp
    · rw [hR] at hcrq
      obtain ⟨_, _, _, _, _, _, _, _, rfl⟩ := inorderIds_decomp hcrq
      simp
  rcases hslotx with hL | hR
  · exact hav.1 q hL hcq hxlq
  · exact hav.2 q hR hcq hxlq

end BT

namespace BT

/-- Back-link checking transfers to a state that preserves a node's child
slots and every allocated node's parent field. -/
theorem childrenLinkedBack_transfer {s s2 : Tree} {x : Nat}
    (hold : childrenLinkedBack s x = true)
    {xn xn2 : Node} (hgx : getNode s x = some xn) (hgx2 : getNode s2 x = some xn2)
    (hkl : xn2.left = xn.left) (hkr : xn2.right = xn.right)
    (hpar : ∀ j, (getNode s j).isSome →
      (getNode s2 j).map Node.parent = (getNode s j).map Node.parent) :
    childrenLinkedBack s2 x = true := by
  have hside : ∀ (o : Option Nat),
      (match o with
        | none => true
        | some j => decide ((getNode s j).map Node.parent = some (some x))) = true →
      (match o with
        | none => true
        | some j => decide ((getNode s2 j).map Node.parent = some (some x))) = true := by
    intro o ho
    cases o with
    | none => rfl
    | some j =>
      simp only [decide_eq_true_eq] at ho ⊢
      have hj : (getNode s j).isSome := by
        cases hgj : getNode s j with
        | none => rw [hgj] at ho; exact absurd ho (by simp)
        | some jn => simp
      rw [hpar j hj]
      exact ho
  unfold childrenLinkedBack at hold ⊢
  rw [hgx] at hold
  rw [hgx2]
  simp only [] at hold ⊢
  rw [hkl, hkr]
  rw [Bool.and_eq_true] at hold
  rw [Bool.and_eq_true]
  exact ⟨hside _ hold.1, hside _ hold.2⟩

/-- The attach-and-link state of a successful nonempty-tree `insert`
passes the structural parent-link check. -/
theorem attach_parentChk {s : Tree} {l : List Nat} {p : Nat} {pn pn' : Node} {v : Int}
    (hr : reachIds s = some l) (hpc : parentChk s = true)
    (hfresh : freshChk s = true)
    (hgp : getNode s p = some pn) (hp : p ∈ l)
    (hparent : pn'.parent = pn.parent)
    (hnew : (pn'.left = some s.nextId ∧ pn'.right = pn.right) ∨
            (pn'.right = some s.nextId ∧ pn'.left = pn.left))
    {l2 : List Nat}
    (hreach2 : reachIds (setNode (attachState s v (some p)) p pn') = some l2)
    (hsub2 : ∀ x ∈ l2, x = s.nextId ∨ x ∈ l) :
    parentChk (setNode (attachState s v (some p)) p pn') = true := by
  have hg2p := attach_set_self hgp v pn'
  have hg2nid := attach_set_fresh hfresh hgp v pn'
  have hpar_pres : ∀ j, (getNode s j).isSome →
      (getNode (setNode (attachState s v (some p)) p pn') j).map Node.parent =
        (getNode s j).map Node.parent := by
    intro j hj
    by_cases hjp : j = p
    · subst hjp
      rw [hg2p, hgp]
      simp only [Option.map_some']
      rw [hparent]
    · have hjn : j ≠ s.nextId := fresh_ne hfresh hj
      rw [attach_set_other v pn' hjp hjn]
  cases hroot : s.root with
  | none =>
    have hl : l = [] := by
      have hr2 : inorderIds s s.root (opFuel s) = some l := hr
      rw [hroot] at hr2
      exact inorderIds_none_nil hr2
    rw [hl] at hp
    exact absurd hp (by simp)
  | some r =>
    have hrl : r ∈ l := root_mem_reach hr hroot
    obtain ⟨rn, hgr⟩ := mem_reach_alloc hr hrl
    have hrootpar := parentChk_root hpc hroot
    have hroots2 : (setNode (attachState s v (some p)) p pn').root = some r := hroot
    unfold parentChk
    rw [hroots2, hreach2, Bool.and_eq_true]
    constructor
    · simp only []
      rw [hpar_pres r (by rw [hgr]; simp), hrootpar]
      simp
    · rw [List.all_eq_true]
      intro x hx
      rcases hsub2 x hx with rfl | hxl
      · unfold childrenLinkedBack
        rw [hg2nid]
        simp
      · by_cases hxp : x = p
        · rw [hxp]
          have holdp := parentChk_back hpc hr hp
          unfold childrenLinkedBack
          rw [hg2p]
          simp only []
          rw [Bool.and_eq_true]
          have hnidlink : (getNode (setNode (attachState s v (some p)) p pn')
              s.nextId).map Node.parent = some (some p) := by
            rw [hg2nid]
            rfl
          rcases hnew with ⟨hL, hR⟩ | ⟨hR, hL⟩
          · constructor
            · rw [hL]
              simp only [decide_eq_true_eq]
              exact hnidlink
            · rw [hR]
              cases hpr : pn.right with
              | none => rfl
              | some j =>
                simp only [decide_eq_true_eq]
                have hold2 := linkedBack_right holdp hgp hpr
                have hj : (getNode s j).isSome := by
                  cases hgj : getNode s j with
                  | none => rw [hgj] at hold2; exact absurd hold2 (by simp)
                  | some jn => simp
                rw [hpar_pres j hj]
                exact hold2
          · constructor
            · rw [hL]
              cases hpl : pn.left with
              | none => rfl
              | some j =>
                simp only [decide_eq_true_eq]
                have hold2 := linkedBack_left holdp hgp hpl
                have hj : (getNode s j).isSome := by
                  cases hgj : getNode s j with
                  | none => rw [hgj] at hold2; exact absurd hold2 (by simp)
                  | some jn => simp
                rw [hpar_pres j hj]
                exact hold2
            · rw [hR]
              simp only [decide_eq_true_eq]
              exact hnidlink
        · obtain ⟨xn, hgx⟩ := mem_reach_alloc hr hxl
          have hxnid : x ≠ s.nextId := fresh_ne hfresh (by rw [hgx]; simp)
          have hg2x : getNode (setNode (attachState s v (some p)) p pn') x = some xn := by
            rw [attach_set_other v pn' hxp hxnid]
            exact hgx
          exact childrenLinkedBack_transfer (parentChk_back hpc hr hxl) hgx hg2x rfl rfl
            hpar_pres

end BT

namespace BT

/-- The attach-and-link state of a nonempty-tree `insert` is certified:
enumerable without duplicates, back-linked, and lists the fresh node. -/
theorem attach_result {s : Tree} {l : List Nat} {p : Nat} {pn : Node} {v : Int}
    (hr : reachIds s = some l) (hnd : l.Nodup) (hpc : parentChk s = true)
    (hfresh : freshChk s = true)
    (hgp : getNode s p = some pn) {dsP : List Dir}
    (hfol : followFrom s s.root dsP = some p)
    {pn' : Node} (hparent : pn'.parent = pn.parent)
    (hcase : (pn.left = none ∧ pn'.left = some s.nextId ∧ pn'.right = pn.right) ∨
             (pn.right = none ∧ pn'.right = some s.nextId ∧ pn'.left = pn.left)) :
    ∃ l', reachIds (setNode (attachState s v (some p)) p pn') = some l' ∧
      l'.Nodup ∧ parentChk (setNode (attachState s v (some p)) p pn') = true ∧
      s.nextId ∈ l' := by
  have hrc : inorderIds s s.root (opFuel s) = some l := hr
  have hp : p ∈ l := follow_mem hrc hfol
  have hg2nid := attach_set_fresh hfresh hgp v pn'
  have hnidl : s.nextId ∉ l := by
    intro h2
    obtain ⟨xn, hgx⟩ := mem_reach_alloc hr h2
    exact fresh_ne hfresh (by rw [hgx]; simp) rfl
  have hleaf : inorderIds (setNode (attachState s v (some p)) p pn')
      (some s.nextId) 2 = some [s.nextId] := inorderIds_leaf hg2nid rfl rfl 0
  rcases hcase with ⟨hslot, hL, hR⟩ | ⟨hslot, hR, hL⟩
  · have hkidp : kidsOf (setNode (attachState s v (some p)) p pn') p =
        some (some s.nextId, pn.right) := by
      unfold kidsOf
      rw [attach_set_self hgp v pn']
      simp only [Option.map_some']
      rw [hL, hR]
    obtain ⟨X, Y, lpl, lpr, F3, hldec, hlplE, hlprE, hcert2⟩ :=
      @inorderIds_splice s (setNode (attachState s v (some p)) p pn') Dir.L
        (some s.nextId) 2 [s.nextId] hleaf dsP s.root (opFuel s) l p hrc hnd hfol pn hgp
        (@attach_set_kids_agree s l hr hfresh p v pn') hkidp
    obtain ⟨f1, hlpl⟩ := hlplE
    have hlplnil : lpl = [] := by
      rw [hslot] at hlpl
      exact inorderIds_none_nil hlpl
    subst hlplnil
    have hcert2' : inorderIds (setNode (attachState s v (some p)) p pn')
        (setNode (attachState s v (some p)) p pn').root F3 =
        some (X ++ ([s.nextId] ++ p :: lpr) ++ Y) := hcert2
    have hndl' : (X ++ s.nextId :: ((p :: lpr) ++ Y)).Nodup := by
      rw [List.nodup_middle, List.nodup_cons]
      constructor
      · intro h2
        apply hnidl
        rw [hldec]
        simpa using h2
      · have h5 := hnd
        rw [hldec] at h5
        simpa using h5
    have hnd2 : (X ++ ([s.nextId] ++ p :: lpr) ++ Y).Nodup := by
      have heq2 : X ++ ([s.nextId] ++ p :: lpr) ++ Y =
          X ++ s.nextId :: ((p :: lpr) ++ Y) := by simp
      rw [heq2]
      exact hndl'
    have hreach2 : reachIds (setNode (attachState s v (some p)) p pn') =
        some (X ++ ([s.nextId] ++ p :: lpr) ++ Y) := reach_of_cert hcert2' hnd2
    have hsub2 : ∀ x ∈ X ++ ([s.nextId] ++ p :: lpr) ++ Y, x = s.nextId ∨ x ∈ l := by
      intro x hx
      rw [hldec]
      simp only [List.mem_append, List.mem_cons, List.mem_singleton,
        List.not_mem_nil] at hx ⊢
      tauto
    have hpchk := attach_parentChk hr hpc hfresh hgp hp hparent (Or.inl ⟨hL, hR⟩)
      hreach2 hsub2
    exact ⟨_, hreach2, hnd2, hpchk, by simp⟩
  · have hkidp : kidsOf (setNode (attachState s v (some p)) p pn') p =
        some (pn.left, some s.nextId) := by
      unfold kidsOf
      rw [attach_set_self hgp v pn']
      simp only [Option.map_some']
      rw [hL, hR]
    obtain ⟨X, Y, lpl, lpr, F3, hldec, hlplE, hlprE, hcert2⟩ :=
      @inorderIds_splice s (setNode (attachState s v (some p)) p pn') Dir.R
        (some s.nextId) 2 [s.nextId] hleaf dsP s.root (opFuel s) l p hrc hnd hfol pn hgp
        (@attach_set_kids_agree s l hr hfresh p v pn') hkidp
    obtain ⟨f2, hlpr⟩ := hlprE
    have hlprnil : lpr = [] := by
      rw [hslot] at hlpr
      exact inorderIds_none_nil hlpr
    subst hlprnil
    have hcert2' : inorderIds (setNode (attachState s v (some p)) p pn')
        (setNode (attachState s v (some p)) p pn').root F3 =
        some (X ++ (lpl ++ p :: [s.nextId]) ++ Y) := hcert2
    have hndl' : ((X ++ lpl ++ [p]) ++ s.nextId :: Y).Nodup := by
      rw [List.nodup_middle, List.nodup_cons]
      constructor
      · intro h2
        apply hnidl
        rw [hldec]
        simpa using h2
      · have h5 := hnd
        rw [hldec] at h5
        simpa using h5
    have hnd2 : (X ++ (lpl ++ p :: [s.nextId]) ++ Y).Nodup := by
      have heq2 : X ++ (lpl ++ p :: [s.nextId]) ++ Y =
          (X ++ lpl ++ [p]) ++ s.nextId :: Y := by simp
      rw [heq2]
      exact hndl'
    have hreach2 : reachIds (setNode (attachState s v (some p)) p pn') =
        some (X ++ (lpl ++ p :: [s.nextId]) ++ Y) := reach_of_cert hcert2' hnd2
    have hsub2 : ∀ x ∈ X ++ (lpl ++ p :: [s.nextId]) ++ Y, x = s.nextId ∨ x ∈ l := by
      intro x hx
      rw [hldec]
      simp only [List.mem_append, List.mem_cons, List.mem_singleton,
        List.not_mem_nil] at hx ⊢
      tauto
    have hpchk := attach_parentChk hr hpc hfresh hgp hp hparent (Or.inr ⟨hR, hL⟩)
      hreach2 hsub2
    exact ⟨_, hreach2, hnd2, hpchk, by simp⟩

/-- A successful `insert` on a certified state yields a certified state
listing the fresh node. -/
theorem insert_certified {s : Tree} {l : List Nat} {v : Int} {g : Nat} {s' : Tree}
    (hr : reachIds s = some l) (hnd : l.Nodup)
    (hpc : parentChk s = true) (hfresh : freshChk s = true)
    (hins : insert s v g = .ok s') :
    ∃ l', reachIds s' = some l' ∧ l'.Nodup ∧ parentChk s' = true ∧ s.nextId ∈ l' := by
  rw [insert_eq_general] at hins
  cases hloop : insertLoop s v none s.root g with
  | error e =>
    rw [hloop] at hins
    exact absurd (show (Except.error e : Except Err Tree) = .ok s' from hins) (by simp)
  | ok res =>
    rw [hloop] at hins
    cases res with
    | none =>
      have h2 : (Except.ok { attachState s v none with root := some s.nextId } :
        Except Err Tree) = Except.ok s' := hins
      injection h2 with h3
      subst h3
      have hgnid : getNode { attachState s v none with root := some s.nextId }
          s.nextId = some { key := v, left := none, parent := none, right := none } := by
        show lookupN (s.nodes ++ [(s.nextId,
          { key := v, left := none, parent := none, right := none })]) s.nextId = _
        rw [lookupN_append]
        rw [show lookupN s.nodes s.nextId = none from fresh_not_alloc hfresh]
        simp only []
        unfold lookupN
        rw [if_pos rfl]
      have hfuel : opFuel ({ attachState s v none with root := some s.nextId } : Tree) =
          s.nodes.length + 2 := by
        unfold opFuel attachState
        simp
      have hreach' : reachIds { attachState s v none with root := some s.nextId } =
          some [s.nextId] := by
        show inorderIds { attachState s v none with root := some s.nextId }
          (some s.nextId) (opFuel { attachState s v none with root := some s.nextId }) =
          some [s.nextId]
        rw [hfuel]
        exact inorderIds_leaf hgnid rfl rfl s.nodes.length
      refine ⟨[s.nextId], hreach', by simp, ?_, by simp⟩
      unfold parentChk
      rw [hreach']
      simp [childrenLinkedBack, hgnid]
    | some p =>
      rcases insertLoop_char hloop with ⟨_, hres⟩ | ⟨p2, pn, dsP, hres, hgp, hfol, hcond⟩
      · exact absurd hres (by simp)
      · injection hres with h2
        subst h2
        have hgatt : getNode (attachState s v (some p)) p = some pn := by
          show lookupN (s.nodes ++ [(s.nextId,
            { key := v, left := none, parent := some p, right := none })]) p = some pn
          rw [lookupN_append]
          rw [show lookupN s.nodes p = some pn from hgp]
        have hins2 : (getN (attachState s v (some p)) p).bind (fun pn =>
            if v < pn.key then
              Except.ok (setNode (attachState s v (some p)) p { pn with left := some s.nextId })
            else
              Except.ok (setNode (attachState s v (some p)) p { pn with right := some s.nextId }))
            = (Except.ok s' : Except Err Tree) := hins
        rw [getN_of hgatt] at hins2
        have hins : (if v < pn.key then
            Except.ok (setNode (attachState s v (some p)) p { pn with left := some s.nextId })
          else
            Except.ok (setNode (attachState s v (some p)) p { pn with right := some s.nextId }))
            = (Except.ok s' : Except Err Tree) := hins2
        by_cases hv : v < pn.key
        · rw [if_pos hv] at hins
          have h2 : (Except.ok (setNode (attachState s v (some p)) p
              { pn with left := some s.nextId }) : Except Err Tree) = Except.ok s' := hins
          injection h2 with h3
          subst h3
          have hlnone : pn.left = none := by
            rcases hcond with ⟨_, h4⟩ | ⟨hnv, _⟩
            · exact h4
            · exact absurd hv hnv
          exact attach_result hr hnd hpc hfresh hgp hfol rfl
            (Or.inl ⟨hlnone, rfl, rfl⟩)
        · rw [if_neg hv] at hins
          have h2 : (Except.ok (setNode (attachState s v (some p)) p
              { pn with right := some s.nextId }) : Except Err Tree) = Except.ok s' := hins
          injection h2 with h3
          subst h3
          have hrnone : pn.right = none := by
            rcases hcond with ⟨hv2, _⟩ | ⟨_, h4⟩
            · exact absurd hv2 hv
            · exact h4
          exact attach_result hr hnd hpc hfresh hgp hfol rfl
            (Or.inr ⟨hrnone, rfl, rfl⟩)

end BT

namespace RBT

/-- Appending a fresh slot commutes with the color-erasing projection. -/
theorem attach_toBt (s : RBTree) (i m : Nat) (n : RBNode) :
    rbToBt { s with nodes := s.nodes ++ [(i, n)], nextId := m } =
      { rbToBt s with nodes := (rbToBt s).nodes ++ [(i, stripN n)], nextId := m } := by
  unfold rbToBt
  simp

/-- The red-black insert descent coincides with the plain tree's descent
on the color-erased state. -/
theorem rbInsertLoop_eq (s : RBTree) (v : Int) :
    ∀ (fuel : Nat) (prev cur : Option Nat),
      rbInsertLoop s v prev cur fuel = BT.insertLoop (rbToBt s) v prev cur fuel := by
  intro fuel
  induction fuel with
  | zero => intro prev cur; cases cur <;> rfl
  | succ fuel ih =>
    intro prev cur
    cases cur with
    | none => rfl
    | some i =>
      rw [rbInsertLoop, BT.insertLoop]
      cases hg : getNode s i with
      | none =>
        have hgB : BT.getNode (rbToBt s) i = none := by
          rw [getNode_toBt, hg]
          rfl
        rw [show getN s i = .error BT.Err.nullDeref from by unfold getN; rw [hg],
          show BT.getN (rbToBt s) i = .error BT.Err.nullDeref from by
            unfold BT.getN; rw [hgB],
          BT.errBind, BT.errBind]
      | some n =>
        have hgB : BT.getNode (rbToBt s) i = some (stripN n) := by
          rw [getNode_toBt, hg]
          rfl
        rw [getNR_of hg, BT.okBind]
        rw [BT.getN_of hgB, BT.okBind]
        by_cases hv : v < n.key
        · rw [if_pos hv, if_pos (show v < (stripN n).key from hv)]
          exact ih (some i) n.left
        · rw [if_neg hv, if_neg (show ¬ v < (stripN n).key from hv)]
          exact ih (some i) n.right

/-- `RedBlackTree::insert` splits into the plain structural insert on the
color-erased state followed by `insertFixup` from the fresh node. -/
theorem rbInsert_split {s : RBTree} {v : Int} {fuel : Nat} {s' : RBTree}
    (h : rbInsert s v fuel = .ok s') :
    ∃ s2 : RBTree, BT.insert (rbToBt s) v fuel = .ok (rbToBt s2) ∧
      insertFixupLoop s2 s.nextId fuel = .ok s' := by
  unfold rbInsert at h
  cases hloop : rbInsertLoop s v none s.root fuel with
  | error e =>
    rw [hloop, BT.errBind] at h
    exact absurd h (by simp)
  | ok parent =>
    rw [hloop, BT.okBind] at h
    have hloopB : BT.insertLoop (rbToBt s) v none (rbToBt s).root fuel = .ok parent := by
      rw [show (rbToBt s).root = s.root from rfl, ← rbInsertLoop_eq]
      exact hloop
    cases parent with
    | none =>
      simp only [] at h
      rw [BT.okBind] at h
      refine ⟨_, ?_, h⟩
      unfold BT.insert
      rw [hloopB, BT.okBind]
      simp only []
      congr 1
      simp [rbToBt, stripN]
    | some p =>
      simp only [] at h
      cases hgp : getNode { s with nodes := s.nodes ++ [(s.nextId, { key := v, left := none, parent := some p, right := none, color := Color.RED })], nextId := s.nextId + 1 } p with
      | none =>
        rw [show getN { s with nodes := s.nodes ++ [(s.nextId, { key := v, left := none, parent := some p, right := none, color := Color.RED })], nextId := s.nextId + 1 } p = .error BT.Err.nullDeref from by unfold getN; rw [hgp]] at h
        exact absurd (show (Except.error BT.Err.nullDeref : Except BT.Err RBTree) =
          Except.ok s' from h) (by simp)
      | some pn =>
        rw [getNR_of hgp, BT.okBind] at h
        have hs1 : rbToBt { s with nodes := s.nodes ++ [(s.nextId, { key := v, left := none, parent := some p, right := none, color := Color.RED })], nextId := s.nextId + 1 } = { rbToBt s with nodes := (rbToBt s).nodes ++ [((rbToBt s).nextId, { key := v, left := none, parent := some p, right := none })], nextId := (rbToBt s).nextId + 1 } := attach_toBt s s.nextId (s.nextId + 1) _
        have hgpB : BT.getNode { rbToBt s with nodes := (rbToBt s).nodes ++ [((rbToBt s).nextId, { key := v, left := none, parent := some p, right := none })], nextId := (rbToBt s).nextId + 1 } p = some (stripN pn) := by
          rw [← hs1, getNode_toBt, hgp]
          rfl
        by_cases hv : v < pn.key
        · rw [if_pos hv, BT.okBind] at h
          refine ⟨_, ?_, h⟩
          unfold BT.insert
          rw [hloopB, BT.okBind]
          simp only []
          rw [BT.getN_of hgpB, BT.okBind]
          rw [if_pos (show v < (stripN pn).key from hv)]
          rw [setNode_toBt, hs1]
          rfl
        · rw [if_neg hv, BT.okBind] at h
          refine ⟨_, ?_, h⟩
          unfold BT.insert
          rw [hloopB, BT.okBind]
          simp only []
          rw [BT.getN_of hgpB, BT.okBind]
          rw [if_neg (show ¬ v < (stripN pn).key from hv)]
          rw [setNode_toBt, hs1]
          rfl

end RBT

namespace RBT

/-- The trailing recolor statements do not change the color-erased
state. -/
theorem fixupLeftTail_shadow {s : RBTree} {node : Nat} {s' : RBTree}
    (h : fixupLeftTail s node = .ok s') : rbToBt s' = rbToBt s := by
  obtain ⟨n, p, pn, g, _, _, _, _, rfl⟩ := fixupLeftTail_char h
  rw [setColor_toBt, setColor_toBt]

/-- Unpack a parent-projection fact into a node record. -/
theorem getNode_of_parent_map {s : RBTree} {j : Nat} {o : Option Nat}
    (h : (getNode s j).map RBNode.parent = some o) :
    ∃ m, getNode s j = some m ∧ m.parent = o := by
  cases hg : getNode s j with
  | none => rw [hg] at h; exact absurd h (by simp)
  | some m =>
    rw [hg] at h
    exact ⟨m, rfl, by simpa using h⟩

/-- When the fixup loop starts at a node whose parent is absent or not
red, it stops after the final root recolor, leaving the color-erased
state unchanged. -/
theorem fixup_exit {s : RBTree} {node : Nat} {n : RBNode} {fuel : Nat} {s' : RBTree}
    (hg : getNode s node = some n)
    (hnored : ∀ p pn, n.parent = some p → getNode s p = some pn → pn.color ≠ Color.RED)
    (h : insertFixupLoop s node fuel = .ok s') :
    rbToBt s' = rbToBt s := by
  cases fuel with
  | zero => exact absurd h (by simp [insertFixupLoop])
  | succ fuel =>
    rw [insertFixupLoop] at h
    rw [getNR_of hg, BT.okBind] at h
    cases hnp : n.parent with
    | none =>
      rw [hnp] at h
      simp only [] at h
      exact fixRootBlack_shadow h
    | some p =>
      rw [hnp] at h
      simp only [] at h
      cases hgp : getNode s p with
      | none =>
        rw [show getN s p = .error BT.Err.nullDeref from by unfold getN; rw [hgp]] at h
        exact absurd (show (Except.error BT.Err.nullDeref : Except BT.Err RBTree) =
          Except.ok s' from h) (by simp)
      | some pn =>
        rw [getNR_of hgp, BT.okBind] at h
        rw [if_neg (hnored p pn hnp hgp)] at h
        exact fixRootBlack_shadow h

/-- A node is allocated whenever the color-erased state lists it. -/
theorem alloc_of_shadow {s : RBTree} {l : List Nat}
    (hr : BT.reachIds (rbToBt s) = some l) {x : Nat} (hx : x ∈ l) :
    ∃ n, getNode s x = some n := by
  obtain ⟨bn, hbn⟩ := BT.mem_reach_alloc hr hx
  rw [getNode_toBt] at hbn
  cases hg : getNode s x with
  | none => rw [hg] at hbn; exact absurd hbn (by simp)
  | some n => exact ⟨n, rfl⟩

end RBT

namespace RBT

set_option maxHeartbeats 1000000

theorem insertFixupLoop_parentInv :
    ∀ {fuel : Nat} {s : RBTree} {l : List Nat} {node : Nat} {s' : RBTree},
      BT.reachIds (rbToBt s) = some l → l.Nodup → BT.parentChk (rbToBt s) = true →
      node ∈ l →
      insertFixupLoop s node fuel = .ok s' →
      BT.parentInv (rbToBt s') := by
  intro fuel
  induction fuel with
  | zero =>
    intro s l node s' _ _ _ _ h
    exact absurd h (by simp [insertFixupLoop])
  | succ fuel ih =>
    intro s l node s' hr hnd hpc hnode h
    obtain ⟨n, hg⟩ := alloc_of_shadow hr hnode
    have hgB : BT.getNode (rbToBt s) node = some (stripN n) := by
      rw [getNode_toBt, hg]
      rfl
    rw [insertFixupLoop] at h
    rw [getNR_of hg, BT.okBind] at h
    cases hnp : n.parent with
    | none =>
      rw [hnp] at h
      simp only [] at h
      rw [fixRootBlack_shadow h]
      exact BT.parentInv_of_wf hr hpc
    | some p =>
      rw [hnp] at h
      simp only [] at h
      cases hgp : getNode s p with
      | none =>
        rw [show getN s p = .error BT.Err.nullDeref from by unfold getN; rw [hgp]] at h
        exact absurd (show (Except.error BT.Err.nullDeref : Except BT.Err RBTree) =
          Except.ok s' from h) (by simp)
      | some pn =>
        rw [getNR_of hgp, BT.okBind] at h
        have hgpB : BT.getNode (rbToBt s) p = some (stripN pn) := by
          rw [getNode_toBt, hgp]
          rfl
        have hnpB : (stripN n).parent = some p := hnp
        have hpl : p ∈ l := BT.parent_mem_reach hpc hr hnode hgB hnpB
        by_cases hcol : pn.color = Color.RED
        · rw [if_pos hcol] at h
          cases hpp : pn.parent with
          | none =>
            rw [hpp] at h
            simp only [BT.deref, BT.errBind] at h
            exact absurd h (by simp)
          | some gp =>
            rw [hpp] at h
            simp only [BT.deref, BT.okBind] at h
            cases hggp : getNode s gp with
            | none =>
              have hgge : getN s gp = .error BT.Err.nullDeref := by
                unfold getN
                rw [hggp]
              rw [hgge] at h
              exact absurd (show (Except.error BT.Err.nullDeref : Except BT.Err RBTree) =
                Except.ok s' from h) (by simp)
            | some gpn =>
              rw [getNR_of hggp, BT.okBind] at h
              have hggpB : BT.getNode (rbToBt s) gp = some (stripN gpn) := by
                rw [getNode_toBt, hggp]
                rfl
              have hppB : (stripN pn).parent = some gp := hpp
              have hgpl : gp ∈ l := BT.parent_mem_reach hpc hr hpl hgpB hppB
              have hpgp : p ≠ gp := by
                intro h2
                exact BT.parent_ne_self hr hnd hpc hpl hgpB (by rw [hppB, h2])
              by_cases hside : gpn.left = some p
              · rw [if_pos hside] at h
                cases hgr : gpn.right with
                | none =>
                  rw [hgr] at h
                  simp only [] at h
                  exact absurd (show (Except.error BT.Err.nullDeref :
                    Except BT.Err RBTree) = Except.ok s' from h) (by simp)
                | some u =>
                  rw [hgr] at h
                  simp only [BT.okBind] at h
                  cases hgu : getNode s u with
                  | none =>
                    have hgue : getN s u = .error BT.Err.nullDeref := by
                      unfold getN
                      rw [hgu]
                    rw [hgue] at h
                    exact absurd (show (Except.error BT.Err.nullDeref :
                      Except BT.Err RBTree) = Except.ok s' from h) (by simp)
                  | some un =>
                    rw [getNR_of hgu, BT.okBind] at h
                    by_cases hucol : un.color = Color.RED
                    · rw [if_pos hucol] at h
                      have hmap2 : forall j, (getNode (setColor (setColor s p Color.BLACK) u
                          Color.BLACK) j).map RBNode.parent =
                          (getNode s j).map RBNode.parent := by
                        intro j
                        rw [parent_setColor, parent_setColor]
                      obtain ⟨n2, hgn2, hn2p⟩ := getNode_of_parent_map
                        (show (getNode (setColor (setColor s p Color.BLACK) u Color.BLACK)
                          node).map RBNode.parent = some (some p) from by
                            rw [hmap2 node, hg, Option.map_some', hnp])
                      simp only [getNR_of hgn2, BT.okBind, hn2p] at h
                      obtain ⟨p2n, hgp2, hp2p⟩ := getNode_of_parent_map
                        (show (getNode (setColor (setColor s p Color.BLACK) u Color.BLACK)
                          p).map RBNode.parent = some (some gp) from by
                            rw [hmap2 p, hgp, Option.map_some', hpp])
                      simp only [getNR_of hgp2, BT.okBind, hp2p] at h
                      have hmap3 : forall j, (getNode (setColor (setColor (setColor s p
                          Color.BLACK) u Color.BLACK) gp Color.RED) j).map RBNode.parent =
                          (getNode s j).map RBNode.parent := by
                        intro j
                        rw [parent_setColor, hmap2]
                      obtain ⟨n3, hgn3, hn3p⟩ := getNode_of_parent_map
                        (show (getNode (setColor (setColor (setColor s p Color.BLACK) u
                          Color.BLACK) gp Color.RED) node).map RBNode.parent =
                          some (some p) from by rw [hmap3 node, hg, Option.map_some', hnp])
                      simp only [getNR_of hgn3, BT.okBind, hn3p] at h
                      obtain ⟨p3n, hgp3, hp3p⟩ := getNode_of_parent_map
                        (show (getNode (setColor (setColor (setColor s p Color.BLACK) u
                          Color.BLACK) gp Color.RED) p).map RBNode.parent =
                          some (some gp) from by rw [hmap3 p, hgp, Option.map_some', hpp])
                      simp only [getNR_of hgp3, BT.okBind, hp3p] at h
                      cases hft : fixupLeftTail (setColor (setColor (setColor s p
                          Color.BLACK) u Color.BLACK) gp Color.RED) gp with
                      | error e =>
                        rw [hft, BT.errBind] at h
                        exact absurd h (by simp)
                      | ok s4 =>
                        rw [hft, BT.okBind] at h
                        have hsh4 : rbToBt s4 = rbToBt s := by
                          rw [fixupLeftTail_shadow hft, setColor_toBt, setColor_toBt,
                            setColor_toBt]
                        exact ih (by rw [hsh4]; exact hr) hnd (by rw [hsh4]; exact hpc)
                          hgpl h
                    · rw [if_neg hucol] at h
                      by_cases hzig : pn.right = some node
                      · rw [if_pos hzig] at h
                        cases hlr : leftRotate s p with
                        | error e =>
                          rw [hlr, BT.errBind] at h
                          exact absurd h (by simp)
                        | ok s1 =>
                          rw [hlr, BT.okBind] at h
                          obtain ⟨np, r0, rn0, hgnp, hnpr, hgr0, hs1eq⟩ :=
                            leftRotate_char hlr
                          have hnppn : pn = np := by
                            rw [hgp] at hgnp
                            exact Option.some.inj hgnp
                          subst hnppn
                          have hr0node : node = r0 := by
                            rw [hzig] at hnpr
                            exact Option.some.inj hnpr
                          subst hr0node
                          have hrn0n : n = rn0 := by
                            rw [hg] at hgr0
                            exact Option.some.inj hgr0
                          subst hrn0n
                          cases hft : fixupLeftTail s1 p with
                          | error e =>
                            rw [hft, BT.errBind] at h
                            exact absurd h (by simp)
                          | ok s2f =>
                            rw [hft, BT.okBind] at h
                            obtain ⟨m, P, Pn, G, hgm, hmp, hgP, hPG, hs2feq⟩ :=
                              fixupLeftTail_char hft
                            have hgs1p : getNode s1 p = some { pn with right := n.left } := by
                              rw [hs1eq]
                              exact getNodeR_set_self hgp _
                            have hm : m = { pn with right := n.left } := by
                              rw [hgs1p] at hgm
                              exact (Option.some.inj hgm).symm
                            subst hm
                            have hmp2 : pn.parent = some P := hmp
                            have hP : gp = P := by
                              rw [hpp] at hmp2
                              exact Option.some.inj hmp2
                            subst hP
                            have hgs1gp : getNode s1 gp = some gpn := by
                              rw [hs1eq, getNodeR_set_other (Ne.symm hpgp)]
                              exact hggp
                            have hPn : gpn = Pn := by
                              rw [hgs1gp] at hgP
                              exact Option.some.inj hgP
                            subst hPn
                            have hGgp : G ≠ gp := by
                              intro h2
                              apply BT.parent_ne_self hr hnd hpc hgpl hggpB
                              show (stripN gpn).parent = some gp
                              rw [show (stripN gpn).parent = gpn.parent from rfl, hPG, h2]
                            have hmapf : forall j, (getNode s2f j).map RBNode.parent =
                                (getNode s1 j).map RBNode.parent := by
                              intro j
                              rw [hs2feq, parent_setColor, parent_setColor]
                            obtain ⟨recp, hgrecp, hrecpp⟩ := getNode_of_parent_map
                              (show (getNode s2f p).map RBNode.parent = some (some gp) from by
                                rw [hmapf p, hgs1p, Option.map_some']
                                simp only []
                                rw [hpp])
                            have hgfgp : getNode s2f gp =
                                some { gpn with color := Color.BLACK } := by
                              rw [hs2feq, getNode_setColor_other (Ne.symm hGgp)]
                              exact getNode_setColor_self hgs1gp Color.BLACK
                            have hnored : ∀ q qn, recp.parent = some q →
                                getNode s2f q = some qn → qn.color ≠ Color.RED := by
                              intro q qn hq hgq
                              rw [hrecpp] at hq
                              have hqgp : gp = q := Option.some.inj hq
                              subst hqgp
                              rw [hgfgp] at hgq
                              have hqn : qn = { gpn with color := Color.BLACK } :=
                                (Option.some.inj hgq).symm
                              rw [hqn]
                              simp
                            have hexit := fixup_exit hgrecp hnored h
                            rw [hexit]
                            have hshf : rbToBt s2f = rbToBt s1 := by
                              rw [hs2feq, setColor_toBt, setColor_toBt]
                            rw [hshf, hs1eq, setNode_toBt]
                            exact BT.rotate_stub_parentInv hr hnd hpc hpl hgpB
                              (show (stripN pn).right = some node from hzig) hgB
                      · rw [if_neg hzig] at h
                        cases hft : fixupLeftTail s node with
                        | error e =>
                          rw [hft, BT.errBind] at h
                          exact absurd h (by simp)
                        | ok s2f =>
                          rw [hft, BT.okBind] at h
                          have hsh := fixupLeftTail_shadow hft
                          exact ih (by rw [hsh]; exact hr) hnd (by rw [hsh]; exact hpc)
                            hnode h
              · rw [if_neg hside] at h
                cases hgl : gpn.left with
                | none =>
                  rw [hgl] at h
                  simp only [] at h
                  exact absurd (show (Except.error BT.Err.nullDeref :
                    Except BT.Err RBTree) = Except.ok s' from h) (by simp)
                | some u =>
                  rw [hgl] at h
                  simp only [BT.okBind] at h
                  cases hgu : getNode s u with
                  | none =>
                    have hgue : getN s u = .error BT.Err.nullDeref := by
                      unfold getN
                      rw [hgu]
                    rw [hgue] at h
                    exact absurd (show (Except.error BT.Err.nullDeref :
                      Except BT.Err RBTree) = Except.ok s' from h) (by simp)
                  | some un =>
                    rw [getNR_of hgu, BT.okBind] at h
                    by_cases hucol : un.color = Color.RED
                    · rw [if_pos hucol] at h
                      have hmap2 : forall j, (getNode (setColor (setColor s p Color.BLACK) u
                          Color.BLACK) j).map RBNode.parent =
                          (getNode s j).map RBNode.parent := by
                        intro j
                        rw [parent_setColor, parent_setColor]
                      obtain ⟨n2, hgn2, hn2p⟩ := getNode_of_parent_map
                        (show (getNode (setColor (setColor s p Color.BLACK) u Color.BLACK)
                          node).map RBNode.parent = some (some p) from by
                            rw [hmap2 node, hg, Option.map_some', hnp])
                      simp only [getNR_of hgn2, BT.okBind, hn2p] at h
                      obtain ⟨p2n, hgp2, hp2p⟩ := getNode_of_parent_map
                        (show (getNode (setColor (setColor s p Color.BLACK) u Color.BLACK)
                          p).map RBNode.parent = some (some gp) from by
                            rw [hmap2 p, hgp, Option.map_some', hpp])
                      simp only [getNR_of hgp2, BT.okBind, hp2p] at h
                      have hmap3 : forall j, (getNode (setColor (setColor (setColor s p
                          Color.BLACK) u Color.BLACK) gp Color.RED) j).map RBNode.parent =
                          (getNode s j).map RBNode.parent := by
                        intro j
                        rw [parent_setColor, hmap2]
                      obtain ⟨n3, hgn3, hn3p⟩ := getNode_of_parent_map
                        (show (getNode (setColor (setColor (setColor s p Color.BLACK) u
                          Color.BLACK) gp Color.RED) node).map RBNode.parent =
                          some (some p) from by rw [hmap3 node, hg, Option.map_some', hnp])
                      simp only [getNR_of hgn3, BT.okBind, hn3p] at h
                      obtain ⟨p3n, hgp3, hp3p⟩ := getNode_of_parent_map
                        (show (getNode (setColor (setColor (setColor s p Color.BLACK) u
                          Color.BLACK) gp Color.RED) p).map RBNode.parent =
                          some (some gp) from by rw [hmap3 p, hgp, Option.map_some', hpp])
                      simp only [getNR_of hgp3, BT.okBind, hp3p] at h
                      have hsh3 : rbToBt (setColor (setColor (setColor s p Color.BLACK) u
                          Color.BLACK) gp Color.RED) = rbToBt s := by
                        rw [setColor_toBt, setColor_toBt, setColor_toBt]
                      exact ih (by rw [hsh3]; exact hr) hnd (by rw [hsh3]; exact hpc)
                        hgpl h
                    · rw [if_neg hucol] at h
                      by_cases hzag : pn.left = some node
                      · rw [if_pos hzag] at h
                        rw [show rightRotate s p = Except.ok s from rfl, BT.okBind] at h
                        rw [getNR_of hgp, BT.okBind] at h
                        rw [hpp] at h
                        simp only [BT.okBind] at h
                        have hmS2 : forall j, (getNode (setColor s gp Color.BLACK) j).map
                            RBNode.parent = (getNode s j).map RBNode.parent := by
                          intro j
                          rw [parent_setColor]
                        obtain ⟨n2, hgn2, hn2p⟩ := getNode_of_parent_map
                          (show (getNode (setColor s gp Color.BLACK) p).map RBNode.parent =
                            some (some gp) from by rw [hmS2 p, hgp, Option.map_some', hpp])
                        simp only [getNR_of hgn2, BT.okBind, hn2p] at h
                        have hgS2gp : getNode (setColor s gp Color.BLACK) gp =
                            some { gpn with color := Color.BLACK } :=
                          getNode_setColor_self hggp Color.BLACK
                        simp only [getNR_of hgS2gp, BT.okBind] at h
                        cases hgg : gpn.parent with
                        | none =>
                          rw [hgg] at h
                          simp only [] at h
                          exact absurd (show (Except.error BT.Err.nullDeref :
                            Except BT.Err RBTree) = Except.ok s' from h) (by simp)
                        | some gg =>
                          rw [hgg] at h
                          simp only [BT.okBind] at h
                          have hmS3 : forall j, (getNode (setColor (setColor s gp
                              Color.BLACK) gg Color.RED) j).map RBNode.parent =
                              (getNode s j).map RBNode.parent := by
                            intro j
                            rw [parent_setColor, hmS2]
                          obtain ⟨n3, hgn3, hn3p⟩ := getNode_of_parent_map
                            (show (getNode (setColor (setColor s gp Color.BLACK) gg
                              Color.RED) p).map RBNode.parent = some (some gp) from by
                                rw [hmS3 p, hgp, Option.map_some', hpp])
                          simp only [getNR_of hgn3, BT.okBind, hn3p] at h
                          have hggne : gg ≠ gp := by
                            intro h2
                            apply BT.parent_ne_self hr hnd hpc hgpl hggpB
                            show (stripN gpn).parent = some gp
                            rw [show (stripN gpn).parent = gpn.parent from rfl, hgg, h2]
                          have hgS3gp : getNode (setColor (setColor s gp Color.BLACK) gg
                              Color.RED) gp = some { gpn with color := Color.BLACK } := by
                            rw [getNode_setColor_other (Ne.symm hggne)]
                            exact hgS2gp
                          simp only [getNR_of hgS3gp, BT.okBind] at h
                          rw [hgg] at h
                          simp only [BT.okBind] at h
                          cases hlr : leftRotate (setColor (setColor s gp Color.BLACK) gg
                              Color.RED) gg with
                          | error e =>
                            rw [hlr, BT.errBind] at h
                            exact absurd h (by simp)
                          | ok s4 =>
                            rw [hlr, BT.okBind] at h
                            obtain ⟨X, w, wn, hgX, hXr, hgw, hs4⟩ := leftRotate_char hlr
                            have hggl : gg ∈ l := BT.parent_mem_reach hpc hr hgpl hggpB
                              (show (stripN gpn).parent = some gg from hgg)
                            obtain ⟨ggn, hgggn⟩ := alloc_of_shadow hr hggl
                            have hgS3gg : getNode (setColor (setColor s gp Color.BLACK) gg
                                Color.RED) gg = some { ggn with color := Color.RED } := by
                              have h2 : getNode (setColor s gp Color.BLACK) gg =
                                  some ggn := by
                                rw [getNode_setColor_other hggne]
                                exact hgggn
                              exact getNode_setColor_self h2 Color.RED
                            have hX : { ggn with color := Color.RED } = X := by
                              rw [hgS3gg] at hgX
                              exact Option.some.inj hgX
                            have hggnr : ggn.right = some w := by
                              rw [← hX] at hXr
                              exact hXr
                            have hggB2 : BT.getNode (rbToBt s) gg = some (stripN ggn) := by
                              rw [getNode_toBt, hgggn]
                              rfl
                            have hshS3 : rbToBt (setColor (setColor s gp Color.BLACK) gg
                                Color.RED) = rbToBt s := by
                              rw [setColor_toBt, setColor_toBt]
                            have hgwB : BT.getNode (rbToBt s) w = some (stripN wn) := by
                              rw [← hshS3, getNode_toBt, hgw]
                              rfl
                            have hpgg : p ≠ gg := by
                              intro h2
                              exact BT.parent_no_cycle2 hr hnd hpc hpl hgpB
                                (show (stripN pn).parent = some gp from hpp) hggpB
                                (show (stripN gpn).parent = some p from by
                                  rw [show (stripN gpn).parent = gpn.parent from rfl,
                                    hgg, h2])
                            have hgs4p : getNode s4 p = some pn := by
                              rw [hs4, getNodeR_set_other hpgg,
                                getNode_setColor_other hpgg, getNode_setColor_other hpgp]
                              exact hgp
                            have hnored : ∀ q qn, pn.parent = some q →
                                getNode s4 q = some qn → qn.color ≠ Color.RED := by
                              intro q qn hq hgq
                              rw [hpp] at hq
                              have h2 : gp = q := Option.some.inj hq
                              subst h2
                              rw [hs4, getNodeR_set_other (Ne.symm hggne)] at hgq
                              rw [hgS3gp] at hgq
                              have hqn : qn = { gpn with color := Color.BLACK } :=
                                (Option.some.inj hgq).symm
                              rw [hqn]
                              simp
                            have hexit := fixup_exit hgs4p hnored h
                            rw [hexit, hs4, setNode_toBt, hshS3]
                            rw [← hX]
                            exact BT.rotate_stub_parentInv hr hnd hpc hggl hggB2
                              (show (stripN ggn).right = some w from hggnr) hgwB
                      · rw [if_neg hzag] at h
                        rw [getNR_of hg, BT.okBind] at h
                        rw [hnp] at h
                        simp only [BT.okBind] at h
                        have hmS2 : forall j, (getNode (setColor s p Color.BLACK) j).map
                            RBNode.parent = (getNode s j).map RBNode.parent := by
                          intro j
                          rw [parent_setColor]
                        obtain ⟨n2, hgn2, hn2p⟩ := getNode_of_parent_map
                          (show (getNode (setColor s p Color.BLACK) node).map
                            RBNode.parent = some (some p) from by
                              rw [hmS2 node, hg, Option.map_some', hnp])
                        simp only [getNR_of hgn2, BT.okBind, hn2p] at h
                        have hgS2p : getNode (setColor s p Color.BLACK) p =
                            some { pn with color := Color.BLACK } :=
                          getNode_setColor_self hgp Color.BLACK
                        simp only [getNR_of hgS2p, BT.okBind] at h
                        rw [hpp] at h
                        simp only [BT.okBind] at h
                        have hmS3 : forall j, (getNode (setColor (setColor s p Color.BLACK)
                            gp Color.RED) j).map RBNode.parent =
                            (getNode s j).map RBNode.parent := by
                          intro j
                          rw [parent_setColor, hmS2]
                        obtain ⟨n3, hgn3, hn3p⟩ := getNode_of_parent_map
                          (show (getNode (setColor (setColor s p Color.BLACK) gp
                            Color.RED) node).map RBNode.parent = some (some p) from by
                              rw [hmS3 node, hg, Option.map_some', hnp])
                        simp only [getNR_of hgn3, BT.okBind, hn3p] at h
                        have hgS3p : getNode (setColor (setColor s p Color.BLACK) gp
                            Color.RED) p = some { pn with color := Color.BLACK } := by
                          rw [getNode_setColor_other hpgp]
                          exact hgS2p
                        simp only [getNR_of hgS3p, BT.okBind] at h
                        rw [hpp] at h
                        simp only [BT.okBind] at h
                        cases hlr : leftRotate (setColor (setColor s p Color.BLACK) gp
                            Color.RED) gp with
                        | error e =>
                          rw [hlr, BT.errBind] at h
                          exact absurd h (by simp)
                        | ok s4 =>
                          rw [hlr, BT.okBind] at h
                          obtain ⟨X, w, wn, hgX, hXr, hgw, hs4⟩ := leftRotate_char hlr
                          have hgS3gp : getNode (setColor (setColor s p Color.BLACK) gp
                              Color.RED) gp = some { gpn with color := Color.RED } := by
                            have h2 : getNode (setColor s p Color.BLACK) gp =
                                some gpn := by
                              rw [getNode_setColor_other (Ne.symm hpgp)]
                              exact hggp
                            exact getNode_setColor_self h2 Color.RED
                          have hX : { gpn with color := Color.RED } = X := by
                            rw [hgS3gp] at hgX
                            exact Option.some.inj hgX
                          have hgpnr : gpn.right = some w := by
                            rw [← hX] at hXr
                            exact hXr
                          have hshS3 : rbToBt (setColor (setColor s p Color.BLACK) gp
                              Color.RED) = rbToBt s := by
                            rw [setColor_toBt, setColor_toBt]
                          have hgwB : BT.getNode (rbToBt s) w = some (stripN wn) := by
                            rw [← hshS3, getNode_toBt, hgw]
                            rfl
                          have hnodegp : node ≠ gp := by
                            intro h2
                            exact BT.parent_no_cycle2 hr hnd hpc hnode hgB
                              (show (stripN n).parent = some p from hnp) hgpB
                              (show (stripN pn).parent = some node from by
                                rw [show (stripN pn).parent = pn.parent from rfl,
                                  hpp, h2])
                          have hnodep : node ≠ p := by
                            intro h2
                            apply BT.parent_ne_self hr hnd hpc hnode hgB
                            show (stripN n).parent = some node
                            rw [show (stripN n).parent = n.parent from rfl, hnp, h2]
                          have hgs4node : getNode s4 node = some n := by
                            rw [hs4, getNodeR_set_other hnodegp,
                              getNode_setColor_other hnodegp,
                              getNode_setColor_other hnodep]
                            exact hg
                          have hnored : ∀ q qn, n.parent = some q →
                              getNode s4 q = some qn → qn.color ≠ Color.RED := by
                            intro q qn hq hgq
                            rw [hnp] at hq
                            have h2 : p = q := Option.some.inj hq
                            subst h2
                            rw [hs4, getNodeR_set_other hpgp] at hgq
                            rw [hgS3p] at hgq
                            have hqn : qn = { pn with color := Color.BLACK } :=
                              (Option.some.inj hgq).symm
                            rw [hqn]
                            simp
                          have hexit := fixup_exit hgs4node hnored h
                          rw [hexit, hs4, setNode_toBt, hshS3]
                          rw [← hX]
                          exact BT.rotate_stub_parentInv hr hnd hpc hgpl hggpB
                            (show (stripN gpn).right = some w from hgpnr) hgwB
        · rw [if_neg hcol] at h
          rw [fixRootBlack_shadow h]
          exact BT.parentInv_of_wf hr hpc

end RBT

namespace RBT

/-- `RedBlackTree::insert` preserves the parent-link invariant from any
state whose color-erased projection is certified. -/
theorem rbInsert_parentInv {s : RBTree} {l : List Nat} {v : Int} {fuel : Nat}
    {s' : RBTree}
    (hr : BT.reachIds (rbToBt s) = some l) (hnd : l.Nodup)
    (hpc : BT.parentChk (rbToBt s) = true) (hfresh : BT.freshChk (rbToBt s) = true)
    (h : rbInsert s v fuel = .ok s') : parentInvR s' := by
  obtain ⟨s2, hins, hfix⟩ := rbInsert_split h
  obtain ⟨l2, hr2, hnd2, hpc2, hnid⟩ := BT.insert_certified hr hnd hpc hfresh hins
  rw [parentInvR_iff]
  exact insertFixupLoop_parentInv hr2 hnd2 hpc2 (show s.nextId ∈ l2 from hnid) hfix

/-- `RedBlackTree::leftRotate` preserves the parent-link invariant on a
reachable pivot of a certified state. -/
theorem leftRotate_parentInv {s : RBTree} {l : List Nat} {x : Nat} {s' : RBTree}
    (hr : BT.reachIds (rbToBt s) = some l) (hnd : l.Nodup)
    (hpc : BT.parentChk (rbToBt s) = true) (hx : x ∈ l)
    (h : leftRotate s x = .ok s') : parentInvR s' := by
  obtain ⟨n, r, rn, hgn, hnr, hgr, rfl⟩ := leftRotate_char h
  rw [parentInvR_iff, setNode_toBt]
  exact BT.rotate_stub_parentInv hr hnd hpc hx
    (show BT.getNode (rbToBt s) x = some (stripN n) from by rw [getNode_toBt, hgn]; rfl)
    (show (stripN n).right = some r from hnr)
    (show BT.getNode (rbToBt s) r = some (stripN rn) from by rw [getNode_toBt, hgr]; rfl)

end RBT

/-- C7: for both trees, every operation (`insert`, `remove`, `transplant`
and the two rotations) preserves the parent-link invariant over all
reachable nodes — whenever a reachable node's parent is present, that
node is the parent's left or right child, and the root's parent is
absent — on every well-shaped input state. -/
theorem c7_operations_preserve_parent_invariant :
    (∀ (s : BT.Tree) (l : List Nat) (v : Int) (g : Nat) (s' : BT.Tree),
      BT.reachIds s = some l → l.Nodup → BT.parentChk s = true →
      BT.freshChk s = true →
      BT.insert s v g = .ok s' → BT.parentInv s') ∧
    (∀ (s : BT.Tree) (l : List Nat) (K : List Int) (v : Int) (fuel : Nat) (s' : BT.Tree),
      BT.reachIds s = some l → l.Nodup → BT.parentChk s = true →
      BT.bstKeys s s.root (BT.opFuel s) = some K →
      BT.remove s v fuel = .ok s' → BT.parentInv s') ∧
    (∀ (s : BT.Tree) (l : List Nat) (t : Nat) (tn : BT.Node) (c : Option Nat)
      (s' : BT.Tree),
      BT.reachIds s = some l → l.Nodup → BT.parentChk s = true → t ∈ l →
      BT.getNode s t = some tn → (c = none ∨ c = tn.left ∨ c = tn.right) →
      BT.transplant s t c = .ok s' → BT.parentInv s') ∧
    (∀ (s : RBT.RBTree) (l : List Nat) (v : Int) (fuel : Nat) (s' : RBT.RBTree),
      BT.reachIds (RBT.rbToBt s) = some l → l.Nodup →
      BT.parentChk (RBT.rbToBt s) = true → BT.freshChk (RBT.rbToBt s) = true →
      RBT.rbInsert s v fuel = .ok s' → RBT.parentInvR s') ∧
    (∀ (s : RBT.RBTree) (v : Int) (s' : RBT.RBTree),
      RBT.parentInvR s → RBT.rbRemove s v = .ok s' → RBT.parentInvR s') ∧
    (∀ (s : RBT.RBTree) (l : List Nat) (x : Nat) (s' : RBT.RBTree),
      BT.reachIds (RBT.rbToBt s) = some l → l.Nodup →
      BT.parentChk (RBT.rbToBt s) = true → x ∈ l →
      RBT.leftRotate s x = .ok s' → RBT.parentInvR s') ∧
    (∀ (s : RBT.RBTree) (x : Nat) (s' : RBT.RBTree),
      RBT.parentInvR s → RBT.rightRotate s x = .ok s' → RBT.parentInvR s') := by
  refine ⟨?_, ?_, ?_, ?_, ?_, ?_, ?_⟩
  · intro s l v g s' hr hnd hpc hfresh hins
    exact BT.insert_preserves_parentInv hr hnd hpc hfresh hins
  · intro s l K v fuel s' hr hnd hpc hbst hrem
    exact BT.remove_preserves_parentInv hr hnd hpc hbst hrem
  · intro s l t tn c s' hr hnd hpc ht hgt hcc h
    exact BT.transplant_preserves_parentInv hr hnd hpc ht hgt hcc h
  · intro s l v fuel s' hr hnd hpc hfresh h
    exact RBT.rbInsert_parentInv hr hnd hpc hfresh h
  · intro s v s' hinv h
    have h2 : s' = s := by
      injection h with h3
      exact h3.symm
    rw [h2]
    exact hinv
  · intro s l x s' hr hnd hpc hx h
    exact RBT.leftRotate_parentInv hr hnd hpc hx h
  · intro s x s' hinv h
    rw [RBT.rightRotate_eq h]
    exact hinv

theorem c7_operations_preserve_parent_invariant_witness :
    (∃ s', BT.insert BT.triS 5 4 = .ok s' ∧ BT.parentInv s') ∧
    (∃ s', BT.remove BT.triS 1 4 = .ok s' ∧ BT.parentInv s') ∧
    (∃ s', BT.transplant BT.triS 1 none = .ok s' ∧ BT.parentInv s') ∧
    (∃ s', RBT.rbInsert RBT.rotS 0 3 = .ok s' ∧ RBT.parentInvR s') ∧
    (∃ s', RBT.rbRemove RBT.rotS 1 = .ok s' ∧ RBT.parentInvR s') ∧
    (∃ s', RBT.leftRotate RBT.rotS 0 = .ok s' ∧ RBT.parentInvR s') ∧
    (∃ s', RBT.rightRotate RBT.rotS 0 = .ok s' ∧ RBT.parentInvR s') := by
  obtain ⟨h1, h2, h3, h4, h5, h6, h7⟩ := c7_operations_preserve_parent_invariant
  have hinvR : RBT.parentInvR RBT.rotS :=
    (RBT.parentInvR_iff RBT.rotS).mpr
      (BT.parentInv_of_wf
        (show BT.reachIds (RBT.rbToBt RBT.rotS) = some [0, 1] from rfl) rfl)
  refine ⟨⟨_, rfl, h1 BT.triS [1, 0, 2] 5 4 _ rfl (by decide) rfl rfl rfl⟩,
    ⟨_, rfl, h2 BT.triS [1, 0, 2] [1, 2, 3] 1 4 _ rfl (by decide) rfl rfl rfl⟩,
    ⟨_, rfl, h3 BT.triS [1, 0, 2] 1 _ none _ rfl (by decide) rfl (by decide) rfl
      (Or.inl rfl) rfl⟩,
    ⟨_, rfl, h4 RBT.rotS [0, 1] 0 3 _ rfl (by decide) rfl rfl rfl⟩,
    ⟨_, rfl, h5 RBT.rotS 1 _ hinvR rfl⟩,
    ⟨_, rfl, h6 RBT.rotS [0, 1] 0 _ rfl (by decide) rfl (by decide) rfl⟩,
    ⟨_, rfl, h7 RBT.rotS 0 _ hinvR rfl⟩⟩
